import Mathlib

/-!
# Grafana operator converter: v1alpha1 to v1beta1 conversion and reconciliation

A shallow embedding of the converter controllers
(`controllers/*_converter.go`) and of the API types they use.

Conventions of the embedding.

* Go `string` values are Lean `String`s (objects reach the handlers through the
  JSON decoder of the API machinery, which only produces valid UTF-8).
* `[]byte` / `json.RawMessage` values are `List UInt8`.
* Go pointers `*T` are `Option T`; `nil` is `none`.
* Go `map[string]string` is `Option (List (String × String))`: `none` is the nil
  map, and an association list stands for the map in which the first binding
  of a key is the live one.
* Library code that is not part of the repository (JSON marshalling of the
  legacy structured configuration, the Unicode case table, the semantic deep
  equality of the API machinery, the typed store client) is taken as a
  parameter of the definition that calls it.
* The library code that decides a property is modelled: `regexp` matching by
  derivatives, SHA-256 and SHA-1, CRC-32, the readers of `compress/gzip` and
  `compress/flate` with `io.ReadAll`, the framing of the `gzip.Writer`,
  `time.ParseDuration` with the `float64` arithmetic of its fractions, and
  `bytes.ReplaceAll`. The compressor of `compress/flate`, the JSON decoder and
  encoder, the file system and the environment stay parameters.
* A method that calls itself takes a bound on the depth of its calls and
  returns `none` when a call chain goes deeper; a `range` loop over a map takes
  the entries as the list in which the loop visits them.
-/

set_option autoImplicit false

/-- Byte slices. -/
abbrev Bytes := List UInt8

deriving instance DecidableEq for Except

/-! ## Go library functions used by the converters -/

namespace strings

/-- Go `strings.ToLower`: ASCII letters are lowered directly, every other rune
goes through the Unicode table `unicodeToLower` (`unicode.ToLower`). -/
def ToLower (unicodeToLower : Char → Char) (s : String) : String :=
  String.mk (s.data.map (fun c => if c.val < 128 then c.toLower else unicodeToLower c))

/-- Substring search on rune lists. -/
def containsChars : List Char → List Char → Bool
  | [], sub => sub.isEmpty
  | c :: cs, sub => sub.isPrefixOf (c :: cs) || containsChars cs sub

/-- Go `strings.Contains`. -/
def Contains (s substr : String) : Bool :=
  containsChars s.data substr.data

end strings

namespace strconv

/-- The digit loop of `strconv.ParseUint` in base 10 on unbounded naturals:
`none` at the first byte that is not a decimal digit. -/
def parseDigits : List Char → Nat → Option Nat
  | [], acc => some acc
  | c :: cs, acc =>
    if '0' ≤ c && c ≤ '9' then parseDigits cs (acc * 10 + (c.toNat - '0'.toNat)) else none

/-- Go `strconv.ParseInt(s, 10, 64)`: the parsed value, or `none` when the call
returns an error (syntax error or value out of the `int64` range). -/
def ParseInt (s : String) : Option Int :=
  match s.data with
  | [] => none
  | c :: cs =>
    let neg := c == '-'
    let digits := if c == '+' || c == '-' then cs else c :: cs
    match digits with
    | [] => none
    | d :: ds =>
      match parseDigits (d :: ds) 0 with
      | none => none
      | some un =>
        if !neg && un ≥ 2 ^ 63 then none
        else if neg && un > 2 ^ 63 then none
        else some (if neg then -(un : Int) else (un : Int))

/-- The table `lowerhex`, at the low four bits of `n`. -/
def lowerhex (n : Nat) : Char :=
  "0123456789abcdef".data.getD (n % 16) '0'

/-- Go `strconv.IsPrint`: the Latin-1 fast path of the library, and the
library's tables `isPrintWide` for the runes above `U+00FF`. -/
def IsPrint (isPrintWide : Char → Bool) (r : Char) : Bool :=
  if r.toNat ≤ 0xFF then
    if 0x20 ≤ r.toNat && r.toNat ≤ 0x7E then true
    else if 0xA1 ≤ r.toNat && r.toNat ≤ 0xFF then r.toNat != 0xAD
    else false
  else isPrintWide r

/-- Go `appendEscapedRune` for the double quote, without the ASCII-only and
graphic-only modes: the text that `Quote` emits for the rune `r`. -/
def appendEscapedRune (isPrintWide : Char → Bool) (r : Char) : List Char :=
  let n := r.toNat
  if n == 34 || n == 92 then [Char.ofNat 92, r]
  else if IsPrint isPrintWide r then [r]
  else if n == 7 then [Char.ofNat 92, 'a']
  else if n == 8 then [Char.ofNat 92, 'b']
  else if n == 12 then [Char.ofNat 92, 'f']
  else if n == 10 then [Char.ofNat 92, 'n']
  else if n == 13 then [Char.ofNat 92, 'r']
  else if n == 9 then [Char.ofNat 92, 't']
  else if n == 11 then [Char.ofNat 92, 'v']
  else if n < 32 || n == 127 then [Char.ofNat 92, 'x', lowerhex (n / 16), lowerhex n]
  else if n < 65536 then
    [Char.ofNat 92, 'u', lowerhex (n / 4096), lowerhex (n / 256), lowerhex (n / 16), lowerhex n]
  else
    [Char.ofNat 92, 'U', lowerhex (n / 268435456), lowerhex (n / 16777216),
      lowerhex (n / 1048576), lowerhex (n / 65536), lowerhex (n / 4096), lowerhex (n / 256),
      lowerhex (n / 16), lowerhex n]

/-- Go `strconv.Quote`, which is what the verb `%q` of `fmt` prints for a
string: a double-quoted Go string literal. -/
def Quote (isPrintWide : Char → Bool) (s : String) : String :=
  String.mk ([Char.ofNat 34] ++ s.data.flatMap (appendEscapedRune isPrintWide) ++ [Char.ofNat 34])

end strconv

namespace fmt

/-- The verb `%d` of `fmt` for an integer: its decimal text. -/
def formatInt (v : Int) : String := toString v

end fmt

/-! ## metav1 -/

namespace metav1

structure LabelSelectorRequirement where
  Key : String := ""
  Operator : String := ""
  Values : List String := []
  deriving DecidableEq, Repr

structure LabelSelector where
  MatchLabels : List (String × String) := []
  MatchExpressions : List LabelSelectorRequirement := []
  deriving DecidableEq, Repr

structure OwnerReference where
  APIVersion : String := ""
  Kind : String := ""
  Name : String := ""
  UID : String := ""
  Controller : Option Bool := none
  BlockOwnerDeletion : Option Bool := none
  deriving DecidableEq, Repr

/-- Go `map[string]string`; `none` is the nil map. -/
abbrev StringMap := Option (List (String × String))

/-- Map lookup `m[k]` (with the `ok` flag as the option). -/
def StringMap.lookup (m : StringMap) (k : String) : Option String :=
  match m with
  | none => none
  | some l => (l.find? (fun p => p.1 == k)).map (fun p => p.2)

structure ObjectMeta where
  Name : String := ""
  Namespace : String := ""
  UID : String := ""
  ResourceVersion : String := ""
  Labels : StringMap := none
  Annotations : StringMap := none
  OwnerReferences : List OwnerReference := []
  deriving DecidableEq, Repr

end metav1

namespace maps

/-- Go `maps.Copy(dst, src)`: the map `dst` after every binding of `src` has
been assigned into it, or `none` when the call panics (an assignment to an
entry of a nil map). A range over a nil or empty `src` assigns nothing. -/
def Copy (dst src : metav1.StringMap) : Option metav1.StringMap :=
  match src with
  | none => some dst
  | some [] => some dst
  | some (e :: es) =>
    match dst with
    | none => none
    | some d => some (some ((e :: es) ++ d))

end maps

namespace corev1

structure ConfigMapKeySelector where
  Name : String := ""
  Key : String := ""
  Optional : Option Bool := none
  deriving DecidableEq, Repr

structure SecretKeySelector where
  Name : String := ""
  Key : String := ""
  Optional : Option Bool := none
  deriving DecidableEq, Repr

end corev1

/-! ## Target API version (`api/operator/v1beta1`) -/

namespace v1beta1

/-- Constant `DefaultResyncPeriod`. -/
def DefaultResyncPeriod : String := "2m"

/-- Constant `DefaultResyncPeriodDuration` (nanoseconds). -/
def DefaultResyncPeriodDuration : Int := 120000000000

structure GrafanaPlugin where
  Name : String := ""
  Version : String := ""
  deriving DecidableEq, Repr

structure GrafanaDatasourceInternal where
  UID : String := ""
  Name : String := ""
  Type_ : String := ""
  URL : String := ""
  Access : String := ""
  Database : String := ""
  User : String := ""
  IsDefault : Option Bool := none
  BasicAuth : Option Bool := none
  BasicAuthUser : String := ""
  OrgID : Option Int := none
  Editable : Option Bool := none
  JSONData : Bytes := []
  SecureJSONData : Bytes := []
  deriving DecidableEq, Repr

structure GrafanaDatasourceValueFromSource where
  ConfigMapKeyRef : Option corev1.ConfigMapKeySelector := none
  SecretKeyRef : Option corev1.SecretKeySelector := none
  deriving DecidableEq, Repr

structure GrafanaDatasourceValueFrom where
  TargetPath : String := ""
  ValueFrom : GrafanaDatasourceValueFromSource := {}
  deriving DecidableEq, Repr

structure GrafanaDatasourceSpec where
  Datasource : Option GrafanaDatasourceInternal := none
  InstanceSelector : Option metav1.LabelSelector := none
  Plugins : List GrafanaPlugin := []
  ValuesFrom : List GrafanaDatasourceValueFrom := []
  ResyncPeriod : String := ""
  AllowCrossNamespaceImport : Option Bool := none
  deriving DecidableEq, Repr

structure GrafanaDatasource where
  ObjectMeta : metav1.ObjectMeta := {}
  Spec : GrafanaDatasourceSpec := {}
  deriving DecidableEq, Repr

structure GrafanaDashboardDatasource where
  InputName : String := ""
  DatasourceName : String := ""
  deriving DecidableEq, Repr

structure GrafanaDashboardEnvFromSource where
  ConfigMapKeyRef : Option corev1.ConfigMapKeySelector := none
  SecretKeyRef : Option corev1.SecretKeySelector := none
  deriving DecidableEq, Repr

structure GrafanaDashboardEnv where
  Name : String := ""
  Value : String := ""
  ValueFrom : GrafanaDashboardEnvFromSource := {}
  deriving DecidableEq, Repr

structure JsonnetProjectBuild where
  JPath : List String := []
  FileName : String := ""
  GzipJsonnetProject : Option Bytes := none
  deriving DecidableEq, Repr

structure GrafanaComDashboardReference where
  Id : Int := 0
  Revision : Option Int := none
  deriving DecidableEq, Repr

/-- Struct `GrafanaDashboardSpec`; `ContentCacheDuration` is the
`metav1.Duration` in nanoseconds, a nil `GzipJson` slice is `none`. -/
structure GrafanaDashboardSpec where
  Json : String := ""
  GzipJson : Option Bytes := none
  Url : String := ""
  Jsonnet : String := ""
  JsonnetProjectBuild : Option JsonnetProjectBuild := none
  GrafanaCom : Option GrafanaComDashboardReference := none
  ConfigMapRef : Option corev1.ConfigMapKeySelector := none
  InstanceSelector : Option metav1.LabelSelector := none
  FolderTitle : String := ""
  Plugins : List GrafanaPlugin := []
  ContentCacheDuration : Int := 0
  ResyncPeriod : String := ""
  Datasources : List GrafanaDashboardDatasource := []
  AllowCrossNamespaceImport : Option Bool := none
  Envs : List GrafanaDashboardEnv := []
  EnvsFrom : List GrafanaDashboardEnvFromSource := []
  deriving DecidableEq, Repr

structure GrafanaDashboard where
  ObjectMeta : metav1.ObjectMeta := {}
  Spec : GrafanaDashboardSpec := {}
  deriving DecidableEq, Repr

structure GrafanaFolderSpec where
  Title : String := ""
  Permissions : String := ""
  InstanceSelector : Option metav1.LabelSelector := none
  AllowCrossNamespaceImport : Option Bool := none
  ResyncPeriod : String := ""
  deriving DecidableEq, Repr

structure GrafanaFolder where
  ObjectMeta : metav1.ObjectMeta := {}
  Spec : GrafanaFolderSpec := {}
  deriving DecidableEq, Repr

/-- Struct `GrafanaContactPointSpec`; `ResyncPeriod` is the `metav1.Duration`
in nanoseconds and `Settings` the raw bytes of the `*apiextensions.JSON`. -/
structure GrafanaContactPointSpec where
  ResyncPeriod : Int := 0
  InstanceSelector : Option metav1.LabelSelector := none
  DisableResolveMessage : Bool := false
  Name : String := ""
  Settings : Option Bytes := none
  Type_ : String := ""
  AllowCrossNamespaceImport : Option Bool := none
  deriving DecidableEq, Repr

structure GrafanaContactPoint where
  ObjectMeta : metav1.ObjectMeta := {}
  Spec : GrafanaContactPointSpec := {}
  deriving DecidableEq, Repr

end v1beta1

/-! ## Legacy API version (`api/operator/v1alpha1`) -/

namespace v1alpha1

/-- Constant `GrafanaDashboardKind`. -/
def GrafanaDashboardKind : String := "GrafanaDashboard"

structure GrafanaPlugin where
  Name : String := ""
  Version : String := ""
  deriving DecidableEq, Repr

structure GrafanaDashboardDatasource where
  InputName : String := ""
  DatasourceName : String := ""
  deriving DecidableEq, Repr

structure GrafanaDashboardGrafanaComSource where
  Id : Int := 0
  Revision : Option Int := none
  deriving DecidableEq, Repr

/-- Struct `GrafanaDashboardSpec`; a nil `GzipJson` slice is `none` and
`ContentCacheDuration` is the pointed `metav1.Duration` in nanoseconds. -/
structure GrafanaDashboardSpec where
  Json : String := ""
  GzipJson : Option Bytes := none
  Jsonnet : String := ""
  Plugins : List GrafanaPlugin := []
  Url : String := ""
  ConfigMapRef : Option corev1.ConfigMapKeySelector := none
  GzipConfigMapRef : Option corev1.ConfigMapKeySelector := none
  Datasources : List GrafanaDashboardDatasource := []
  CustomFolderName : String := ""
  GrafanaCom : Option GrafanaDashboardGrafanaComSource := none
  ContentCacheDuration : Option Int := none
  deriving DecidableEq, Repr

structure GrafanaDashboardError where
  Code : Int := 0
  Message : String := ""
  Retries : Int := 0
  deriving DecidableEq, Repr

/-- Struct `GrafanaDashboardStatus`; `ContentTimestamp` is the instant in
nanoseconds. -/
structure GrafanaDashboardStatus where
  ContentCache : Option Bytes := none
  ContentTimestamp : Int := 0
  ContentUrl : String := ""
  Error : Option GrafanaDashboardError := none
  deriving DecidableEq, Repr

structure GrafanaDashboard where
  ObjectMeta : metav1.ObjectMeta := {}
  Spec : GrafanaDashboardSpec := {}
  Status : GrafanaDashboardStatus := {}
  deriving DecidableEq, Repr

/-- Modelled from the spec: the legacy datasource types are declared outside
the files at hand. One inline datasource entry ("name, type, URL, access mode,
auth flags, arbitrary JSON config + secure JSON config"), with the fields that
`convertGrafanaDatasource` reads. `J` and `S` are the types of the structured
JSON configuration and of the structured secure JSON configuration. -/
structure GrafanaDataSourceFields (J S : Type) where
  Name : String := ""
  Type_ : String := ""
  Uid : String := ""
  Url : String := ""
  Access : String := ""
  Database : String := ""
  User : String := ""
  OrgId : Int := 0
  IsDefault : Bool := false
  BasicAuth : Bool := false
  BasicAuthUser : String := ""
  Editable : Bool := false
  JsonData : J
  SecureJsonData : S
  CustomJsonData : Bytes := []
  CustomSecureJsonData : Bytes := []
  deriving DecidableEq, Repr

/-- Modelled from the spec: the legacy datasource spec, "one-or-many datasource
connection definitions". -/
structure GrafanaDataSourceSpec (J S : Type) where
  Datasources : List (GrafanaDataSourceFields J S) := []
  Name : String := ""
  deriving DecidableEq, Repr

/-- Modelled from the spec: the legacy datasource object. -/
structure GrafanaDataSource (J S : Type) where
  ObjectMeta : metav1.ObjectMeta := {}
  Spec : GrafanaDataSourceSpec J S := {}
  deriving DecidableEq, Repr

/-- Modelled from the spec: the legacy permission item ("target id/name +
level"), with the three fields that `buildFolderPermission` reads. -/
structure GrafanaPermissionItem where
  PermissionTargetType : String := ""
  PermissionTarget : String := ""
  PermissionLevel : Int := 0
  deriving DecidableEq, Repr

/-- Modelled from the spec: the legacy folder spec, "title, permission-item
list". -/
structure GrafanaFolderSpec where
  FolderName : String := ""
  FolderPermissions : List GrafanaPermissionItem := []
  deriving DecidableEq, Repr

/-- Modelled from the spec: the legacy folder object. -/
structure GrafanaFolder where
  ObjectMeta : metav1.ObjectMeta := {}
  Spec : GrafanaFolderSpec := {}
  deriving DecidableEq, Repr

/-- Modelled from the spec: method `GetPermissions` of the legacy folder, the
permission-item list of its spec. -/
def GrafanaFolder.GetPermissions (f : GrafanaFolder) : List GrafanaPermissionItem :=
  f.Spec.FolderPermissions

/-- Modelled from the spec: the legacy notification channel spec, the "embedded
contact-point JSON". -/
structure GrafanaNotificationChannelSpec where
  Json : String := ""
  Name : String := ""
  deriving DecidableEq, Repr

/-- Modelled from the spec: the legacy notification channel object. -/
structure GrafanaNotificationChannel where
  ObjectMeta : metav1.ObjectMeta := {}
  Spec : GrafanaNotificationChannelSpec := {}
  deriving DecidableEq, Repr

end v1alpha1


/-! ## JSON texts -/

namespace json

/-- A hexadecimal digit. -/
def isHexDigit (c : Char) : Bool :=
  ('0' ≤ c && c ≤ '9') || ('a' ≤ c && c ≤ 'f') || ('A' ≤ c && c ≤ 'F')

/-- Whether the runes are the rest of a JSON string literal after its opening
quotation mark, by the grammar of RFC 8259 (section 7): unescaped runes from
`U+0020` on other than the quotation mark and the backslash, the two-rune
escapes of the quotation mark, backslash, slash and `b f n r t`, the escape `u`
with four hexadecimal digits, and the closing quotation mark at the end. -/
def isStringBody : List Char → Bool
  | [] => false
  | c :: rest =>
    if c.toNat == 34 then rest.isEmpty
    else if c.toNat == 92 then
      match rest with
      | [] => false
      | e :: rest2 =>
        if e == 'u' then
          match rest2 with
          | h1 :: h2 :: h3 :: h4 :: rest3 =>
            isHexDigit h1 && isHexDigit h2 && isHexDigit h3 && isHexDigit h4 &&
              isStringBody rest3
          | _ => false
        else
          (e.toNat == 34 || e.toNat == 92 || e == '/' || e == 'b' || e == 'f' || e == 'n' ||
            e == 'r' || e == 't') && isStringBody rest2
    else decide (32 ≤ c.toNat) && isStringBody rest

/-- Whether the text is a JSON string literal (RFC 8259, section 7). -/
def isStringLiteral (s : String) : Bool :=
  match s.data with
  | [] => false
  | q :: rest => q.toNat == 34 && isStringBody rest

/-- An insignificant whitespace rune: space, tab, line feed, carriage return. -/
def isWhitespace (c : Char) : Bool :=
  c.toNat == 32 || c.toNat == 9 || c.toNat == 10 || c.toNat == 13

/-- A decimal digit. -/
def isDigit (c : Char) : Bool := '0' ≤ c && c ≤ '9'

/-- The runes left after a JSON string literal whose opening quotation mark
has been read, `none` when the runes do not continue a string literal (the
grammar of `isStringBody`). -/
def scanString : List Char → Option (List Char)
  | [] => none
  | c :: rest =>
    if c.toNat == 34 then some rest
    else if c.toNat == 92 then
      match rest with
      | [] => none
      | e :: rest2 =>
        if e == 'u' then
          match rest2 with
          | h1 :: h2 :: h3 :: h4 :: rest3 =>
            if isHexDigit h1 && isHexDigit h2 && isHexDigit h3 && isHexDigit h4 then
              scanString rest3
            else none
          | _ => none
        else if e.toNat == 34 || e.toNat == 92 || e == '/' || e == 'b' || e == 'f' || e == 'n' ||
            e == 'r' || e == 't' then scanString rest2
        else none
    else if 32 ≤ c.toNat then scanString rest
    else none

/-- The runes left after the integer part of a JSON number: a zero, or a
digit from one to nine followed by digits. -/
def scanInt : List Char → Option (List Char)
  | [] => none
  | c :: rest =>
    if c == '0' then some rest
    else if '1' ≤ c && c ≤ '9' then some (rest.dropWhile isDigit)
    else none

/-- The runes left after the optional fraction part of a JSON number. -/
def scanFrac : List Char → Option (List Char)
  | [] => some []
  | c :: rest =>
    if c == '.' then
      match rest with
      | [] => none
      | d :: rest2 => if isDigit d then some (rest2.dropWhile isDigit) else none
    else some (c :: rest)

/-- The digits of an exponent, at least one. -/
def scanExpDigits : List Char → Option (List Char)
  | [] => none
  | d :: rest => if isDigit d then some (rest.dropWhile isDigit) else none

/-- The runes left after the optional exponent part of a JSON number. -/
def scanExp : List Char → Option (List Char)
  | [] => some []
  | c :: rest =>
    if c == 'e' || c == 'E' then
      match rest with
      | [] => none
      | s :: rest2 => if s == '+' || s == '-' then scanExpDigits rest2 else scanExpDigits (s :: rest2)
    else some (c :: rest)

/-- The runes left after a JSON number (RFC 8259, section 6). -/
def scanNumber (cs : List Char) : Option (List Char) :=
  let unsigned := match cs with
    | [] => []
    | c :: rest => if c == '-' then rest else c :: rest
  match scanInt unsigned with
  | none => none
  | some afterInt =>
    match scanFrac afterInt with
    | none => none
    | some afterFrac => scanExp afterFrac

/-- The tokens of a JSON text. -/
inductive Token where
  | beginObject
  | endObject
  | beginArray
  | endArray
  | nameSeparator
  | valueSeparator
  | string
  | number
  | literal
  deriving DecidableEq, Repr

/-- The tokens of the runes, `none` when some rune starts no token; `fuel`
bounds the number of steps. -/
def tokens : Nat → List Char → Option (List Token)
  | 0, _ => none
  | _ + 1, [] => some []
  | fuel + 1, c :: rest =>
    if isWhitespace c then tokens fuel rest
    else if c.toNat == 123 then (tokens fuel rest).map (fun ts => .beginObject :: ts)
    else if c.toNat == 125 then (tokens fuel rest).map (fun ts => .endObject :: ts)
    else if c.toNat == 91 then (tokens fuel rest).map (fun ts => .beginArray :: ts)
    else if c.toNat == 93 then (tokens fuel rest).map (fun ts => .endArray :: ts)
    else if c.toNat == 58 then (tokens fuel rest).map (fun ts => .nameSeparator :: ts)
    else if c.toNat == 44 then (tokens fuel rest).map (fun ts => .valueSeparator :: ts)
    else if c.toNat == 34 then
      match scanString rest with
      | none => none
      | some after => (tokens fuel after).map (fun ts => .string :: ts)
    else if c == '-' || isDigit c then
      match scanNumber (c :: rest) with
      | none => none
      | some after => (tokens fuel after).map (fun ts => .number :: ts)
    else if "true".data.isPrefixOf (c :: rest) then
      (tokens fuel (rest.drop 3)).map (fun ts => .literal :: ts)
    else if "false".data.isPrefixOf (c :: rest) then
      (tokens fuel (rest.drop 4)).map (fun ts => .literal :: ts)
    else if "null".data.isPrefixOf (c :: rest) then
      (tokens fuel (rest.drop 3)).map (fun ts => .literal :: ts)
    else none

/-- The kind of the enclosing structure of a position in a JSON text. -/
inductive Context where
  | array
  | object
  deriving DecidableEq, Repr

/-- What the grammar allows next at a position in a JSON text. -/
inductive Expect where
  /-- A value. -/
  | value
  /-- A value or the end of the array just begun. -/
  | valueOrEnd
  /-- A member name or the end of the object just begun. -/
  | nameOrEnd
  /-- A member name. -/
  | name
  /-- The separator between a member name and its value. -/
  | separator
  /-- A value separator or the end of the enclosing structure. -/
  | next
  deriving DecidableEq, Repr

/-- One step of the grammar of RFC 8259 (sections 2 to 5) on the token `t`,
with the stack of the enclosing structures. -/
def step : Expect → List Context → Token → Option (Expect × List Context)
  | .value, stack, .string => some (.next, stack)
  | .value, stack, .number => some (.next, stack)
  | .value, stack, .literal => some (.next, stack)
  | .value, stack, .beginArray => some (.valueOrEnd, .array :: stack)
  | .value, stack, .beginObject => some (.nameOrEnd, .object :: stack)
  | .valueOrEnd, stack, .string => some (.next, stack)
  | .valueOrEnd, stack, .number => some (.next, stack)
  | .valueOrEnd, stack, .literal => some (.next, stack)
  | .valueOrEnd, stack, .beginArray => some (.valueOrEnd, .array :: stack)
  | .valueOrEnd, stack, .beginObject => some (.nameOrEnd, .object :: stack)
  | .valueOrEnd, .array :: stack, .endArray => some (.next, stack)
  | .nameOrEnd, .object :: stack, .endObject => some (.next, stack)
  | .nameOrEnd, stack, .string => some (.separator, stack)
  | .name, stack, .string => some (.separator, stack)
  | .separator, stack, .nameSeparator => some (.value, stack)
  | .next, .array :: stack, .valueSeparator => some (.value, .array :: stack)
  | .next, .object :: stack, .valueSeparator => some (.name, .object :: stack)
  | .next, .array :: stack, .endArray => some (.next, stack)
  | .next, .object :: stack, .endObject => some (.next, stack)
  | _, _, _ => none

/-- Whether the tokens complete one JSON value from the given position. -/
def accepts : Expect → List Context → List Token → Bool
  | e, stack, [] => e == .next && stack.isEmpty
  | e, stack, t :: ts =>
    match step e stack t with
    | none => false
    | some (e2, stack2) => accepts e2 stack2 ts

/-- Whether the text is a well-formed JSON text (RFC 8259): one value, with
insignificant whitespace allowed around the structural tokens. -/
def isWellFormed (s : String) : Bool :=
  match tokens (s.data.length + 1) s.data with
  | none => false
  | some ts => accepts .value [] ts

end json

/-! ## Library models: `regexp`, `strings.Split`, `os` -/

namespace regexp

/-- Regular expressions over runes with the operators that the patterns of the
program use: character classes, concatenation, alternation and repetition. -/
inductive Regexp where
  /-- The expression that matches no text. -/
  | none
  /-- The expression that matches the empty text only. -/
  | empty
  /-- A character class, given by its membership test. -/
  | charClass (p : Char → Bool)
  /-- Concatenation `ab`. -/
  | cat (a b : Regexp)
  /-- Alternation `a|b`. -/
  | alt (a b : Regexp)
  /-- Repetition `a*`. -/
  | star (a : Regexp)

/-- The expression `a?`. -/
def Regexp.quest (a : Regexp) : Regexp := .alt a .empty

/-- Whether the expression matches the empty text. -/
def nullable : Regexp → Bool
  | .none => false
  | .empty => true
  | .charClass _ => false
  | .cat a b => nullable a && nullable b
  | .alt a b => nullable a || nullable b
  | .star _ => true

/-- The derivative of the expression by the rune `c`: the expression of the
texts `t` such that `c` followed by `t` matches. -/
def deriv (c : Char) : Regexp → Regexp
  | .none => .none
  | .empty => .none
  | .charClass p => if p c then .empty else .none
  | .cat a b => if nullable a then .alt (.cat (deriv c a) b) (deriv c b) else .cat (deriv c a) b
  | .alt a b => .alt (deriv c a) (deriv c b)
  | .star a => .cat (deriv c a) (.star a)

/-- Whether the whole text matches the expression, as the anchored pattern
`^re$` requires. -/
def matchesWhole (re : Regexp) : List Char → Bool
  | [] => nullable re
  | c :: cs => matchesWhole (deriv c re) cs

/-- Whether some initial part of the text matches the expression. -/
def matchesAtStart (re : Regexp) : List Char → Bool
  | [] => nullable re
  | c :: cs => nullable re || matchesAtStart (deriv c re) cs

/-- Whether the text contains a match of the expression at any position. -/
def matchesAnywhere (re : Regexp) : List Char → Bool
  | [] => nullable re
  | c :: cs => matchesAtStart re (c :: cs) || matchesAnywhere re cs

/-- Method `(*Regexp).MatchString`: whether the string contains any match of
the expression. -/
def MatchString (re : Regexp) (s : String) : Bool :=
  matchesAnywhere re s.data

end regexp

namespace strings

/-- The pieces of the text between the occurrences of the rune `sep`. -/
def splitRunes (sep : Char) : List Char → List (List Char)
  | [] => [[]]
  | c :: cs =>
    if c = sep then [] :: splitRunes sep cs
    else
      match splitRunes sep cs with
      | [] => [[c]]
      | piece :: pieces => (c :: piece) :: pieces

/-- The call `strings.Split(s, sep)` for a separator `sep` of one rune (the
program passes `","`): the substrings of `s` between the separators, in
order. -/
def Split (s : String) (sep : Char) : List String :=
  (splitRunes sep s.data).map String.mk

end strings

namespace os

/-- The errors of `os.Open` by their cause. -/
inductive PathError where
  /-- The file does not exist (`ENOENT`). -/
  | ENOENT
  /-- Permission denied (`EACCES`). -/
  | EACCES
  /-- Any other cause. -/
  | other (cause : String)
  deriving DecidableEq, Repr

/-- Function `os.IsNotExist` on the errors of `os.Open`. -/
def IsNotExist (err : PathError) : Bool :=
  match err with
  | .ENOENT => true
  | _ => false

end os

/-! ## Library models: `crypto/sha256`, `crypto/sha1`, the verb `%x` -/

namespace crypto

/-- The 32-bit word of the four bytes `b0 b1 b2 b3`, most significant first. -/
def beWord (b0 b1 b2 b3 : UInt8) : Nat :=
  b0.toNat * 16777216 + b1.toNat * 65536 + b2.toNat * 256 + b3.toNat

/-- The 32-bit words of a byte sequence whose length is a multiple of four. -/
def beWords : Bytes → List Nat
  | b0 :: b1 :: b2 :: b3 :: rest => beWord b0 b1 b2 b3 :: beWords rest
  | _ => []

/-- The four bytes of the 32-bit word `w`, most significant first. -/
def wordBytes (w : Nat) : Bytes :=
  [UInt8.ofNat (w / 16777216 % 256), UInt8.ofNat (w / 65536 % 256), UInt8.ofNat (w / 256 % 256),
    UInt8.ofNat (w % 256)]

/-- The eight bytes of the 64-bit number `n`, most significant first. -/
def be64 (n : Nat) : Bytes :=
  wordBytes (n / 4294967296 % 4294967296) ++ wordBytes (n % 4294967296)

/-- The padding of a message of `len` bytes for the hash functions with
blocks of 64 bytes: the byte `0x80`, zero bytes up to 56 modulo 64, and the
length of the message in bits on eight bytes. -/
def padding (len : Nat) : Bytes :=
  [0x80] ++ List.replicate ((119 - len % 64) % 64) 0 ++ be64 (len * 8 % 18446744073709551616)

/-- The blocks of sixteen words of a word sequence; `n` bounds the number of
blocks. -/
def blocks : Nat → List Nat → List (List Nat)
  | 0, _ => []
  | n + 1, ws => if ws.length < 16 then [] else ws.take 16 :: blocks n (ws.drop 16)

/-- Rotation of the 32-bit word `x` to the right by `n` bits. -/
def rotr (n x : Nat) : Nat :=
  (x >>> n ||| x <<< (32 - n)) % 4294967296

/-- Rotation of the 32-bit word `x` to the left by `n` bits. -/
def rotl (n x : Nat) : Nat :=
  (x <<< n ||| x >>> (32 - n)) % 4294967296

/-- The complement of the 32-bit word `x`. -/
def not32 (x : Nat) : Nat := 4294967295 - x % 4294967296

/-- The message schedule extended by `n` words with the recurrence `next` on
the words so far. -/
def schedule (next : List Nat → Nat) : Nat → List Nat → List Nat
  | 0, w => w
  | n + 1, w => schedule next n (w ++ [next w])

end crypto

namespace sha256

open crypto

/-- Whether `n` is a prime number, by trial division. -/
def isPrime (n : Nat) : Bool :=
  decide (2 ≤ n) && (List.range n).all (fun d => decide (d < 2) || n % d != 0)

/-- The first 64 prime numbers. -/
def primes : List Nat := (List.range 312).filter isPrime

/-- The integer part of the root of degree `k` of `n`, by bisection: the root
is at least `lo` and less than `hi`. -/
def root (k n : Nat) : Nat → Nat → Nat → Nat
  | 0, lo, _ => lo
  | fuel + 1, lo, hi =>
    if hi ≤ lo + 1 then lo
    else if ((lo + hi) / 2) ^ k ≤ n then root k n fuel ((lo + hi) / 2) hi
    else root k n fuel lo ((lo + hi) / 2)

/-- The round constants of SHA-256: the first 32 bits of the fractional parts
of the cube roots of the first 64 prime numbers. -/
def K : List Nat :=
  primes.map (fun p => root 3 (p * 2 ^ 96) 40 0 (2 ^ 35) % 4294967296)

/-- The initial hash value of SHA-256: the first 32 bits of the fractional
parts of the square roots of the first 8 prime numbers. -/
def init : List Nat :=
  (primes.take 8).map (fun p => root 2 (p * 2 ^ 64) 40 0 (2 ^ 35) % 4294967296)

/-- The next word of the message schedule of SHA-256. -/
def nextWord (w : List Nat) : Nat :=
  let t := w.length
  let w2 := w.getD (t - 2) 0
  let w15 := w.getD (t - 15) 0
  let s0 := rotr 7 w15 ^^^ rotr 18 w15 ^^^ w15 >>> 3
  let s1 := rotr 17 w2 ^^^ rotr 19 w2 ^^^ w2 >>> 10
  (s1 + w.getD (t - 7) 0 + s0 + w.getD (t - 16) 0) % 4294967296

/-- One round of the compression function of SHA-256 on the working variables
`a` to `h`, for the pair of a round constant and a schedule word. -/
def round (v : List Nat) (kw : Nat × Nat) : List Nat :=
  match v with
  | [a, b, c, d, e, f, g, h] =>
    let s1 := rotr 6 e ^^^ rotr 11 e ^^^ rotr 25 e
    let ch := (e &&& f) ^^^ (not32 e &&& g)
    let t1 := (h + s1 + ch + kw.1 + kw.2) % 4294967296
    let s0 := rotr 2 a ^^^ rotr 13 a ^^^ rotr 22 a
    let maj := (a &&& b) ^^^ (a &&& c) ^^^ (b &&& c)
    let t2 := (s0 + maj) % 4294967296
    [(t1 + t2) % 4294967296, a, b, c, (d + t1) % 4294967296, e, f, g]
  | _ => v

/-- The compression of one block of sixteen words into the hash value `hv`. -/
def block (hv : List Nat) (m : List Nat) : List Nat :=
  List.zipWith (fun x y => (x + y) % 4294967296) hv
    ((K.zip (schedule nextWord 48 m)).foldl round hv)

/-- Function `sha256.Sum256`: the digest of 32 bytes of the message. -/
def Sum256 (data : Bytes) : Bytes :=
  ((blocks (data.length / 64 + 2) (beWords (data ++ padding data.length))).foldl block
    init).flatMap wordBytes

end sha256

namespace sha1

open crypto

/-- The initial hash value of SHA-1. -/
def init : List Nat := [0x67452301, 0xefcdab89, 0x98badcfe, 0x10325476, 0xc3d2e1f0]

/-- The next word of the message schedule of SHA-1. -/
def nextWord (w : List Nat) : Nat :=
  let t := w.length
  rotl 1 (w.getD (t - 3) 0 ^^^ w.getD (t - 8) 0 ^^^ w.getD (t - 14) 0 ^^^ w.getD (t - 16) 0)

/-- One round of the compression function of SHA-1 on the working variables
`a` to `e`, for the pair of the round number and a schedule word. -/
def round (v : List Nat) (tw : Nat × Nat) : List Nat :=
  match v with
  | [a, b, c, d, e] =>
    let f :=
      if tw.1 < 20 then (b &&& c) ||| (not32 b &&& d)
      else if tw.1 < 40 then b ^^^ c ^^^ d
      else if tw.1 < 60 then (b &&& c) ||| (b &&& d) ||| (c &&& d)
      else b ^^^ c ^^^ d
    let k :=
      if tw.1 < 20 then 0x5a827999
      else if tw.1 < 40 then 0x6ed9eba1
      else if tw.1 < 60 then 0x8f1bbcdc
      else 0xca62c1d6
    [(rotl 5 a + f + e + k + tw.2) % 4294967296, a, rotl 30 b, c, d]
  | _ => v

/-- The compression of one block of sixteen words into the hash value `hv`. -/
def block (hv : List Nat) (m : List Nat) : List Nat :=
  List.zipWith (fun x y => (x + y) % 4294967296) hv
    (((List.range 80).zip (schedule nextWord 64 m)).foldl round hv)

/-- Function `sha1.Sum`: the digest of 20 bytes of the message. -/
def Sum (data : Bytes) : Bytes :=
  ((blocks (data.length / 64 + 2) (beWords (data ++ padding data.length))).foldl block
    init).flatMap wordBytes

end sha1

namespace fmt

/-- The verb `%x` of `fmt` for a byte slice: two lowercase hexadecimal digits
per byte. -/
def hex (b : Bytes) : String :=
  String.mk (b.flatMap (fun x => [strconv.lowerhex (x.toNat / 16), strconv.lowerhex x.toNat]))

end fmt

/-- The bytes of a string, `[]byte(s)`: its UTF-8 encoding. -/
def Bytes.ofString (s : String) : Bytes :=
  s.data.flatMap String.utf8EncodeChar

/-! ## Library models: `hash/crc32`, `compress/flate`, `compress/gzip`, `io.ReadAll` -/

namespace crc32

/-- One step of the bitwise CRC-32 with the reversed IEEE polynomial. -/
def shift (crc : Nat) : Nat :=
  if crc % 2 = 1 then crc >>> 1 ^^^ 0xedb88320 else crc >>> 1

/-- The register of the CRC-32 after the byte `b`. -/
def updateByte (crc : Nat) (b : UInt8) : Nat :=
  shift (shift (shift (shift (shift (shift (shift (shift (crc ^^^ b.toNat))))))))

/-- Function `crc32.ChecksumIEEE`. -/
def ChecksumIEEE (data : Bytes) : Nat :=
  (data.foldl updateByte 0xffffffff ^^^ 0xffffffff) % 4294967296

end crc32

namespace flate

/-- The errors of the readers of `compress/gzip` and `compress/flate`, and
the two end-of-input errors of `io`. -/
inductive Error where
  /-- Value `io.EOF`. -/
  | EOF
  /-- Value `io.ErrUnexpectedEOF`. -/
  | ErrUnexpectedEOF
  /-- Value `gzip.ErrHeader`. -/
  | ErrHeader
  /-- Value `gzip.ErrChecksum`. -/
  | ErrChecksum
  /-- An error of type `flate.CorruptInputError`. -/
  | CorruptInputError
  deriving DecidableEq, Repr

/-- The input of the decompressor: the bits of the byte read last that are not
consumed yet (`f.b`, `f.nb`), least significant first, and the bytes not read
yet (`f.r`). -/
structure Input where
  bits : List Bool := []
  r : Bytes
  deriving DecidableEq, Repr

/-- The eight bits of a byte, least significant first. -/
def byteBits (x : UInt8) : List Bool :=
  [x.toNat % 2 = 1, x.toNat / 2 % 2 = 1, x.toNat / 4 % 2 = 1, x.toNat / 8 % 2 = 1,
    x.toNat / 16 % 2 = 1, x.toNat / 32 % 2 = 1, x.toNat / 64 % 2 = 1, x.toNat / 128 % 2 = 1]

/-- The next bit of the input, reading one more byte when the buffer is empty;
`none` at the end of the input. -/
def Input.readBit (f : Input) : Option (Bool × Input) :=
  match f.bits with
  | b :: bits => some (b, { f with bits := bits })
  | [] =>
    match f.r with
    | [] => none
    | x :: r =>
      match byteBits x with
      | b :: bits => some (b, { bits := bits, r := r })
      | [] => none

/-- The number made of the next `n` bits of the input, the first bit being the
least significant; `none` at the end of the input. -/
def Input.readBits : Nat → Input → Option (Nat × Input)
  | 0, f => some (0, f)
  | n + 1, f =>
    match f.readBit with
    | none => none
    | some (b, f) =>
      match Input.readBits n f with
      | none => none
      | some (v, f) => some ((if b then 1 else 0) + 2 * v, f)

/-- The number of bits that the input still holds. -/
def Input.available (f : Input) : Nat :=
  f.bits.length + 8 * f.r.length

/-- The input `f` with the bytes `x` after the bytes that `f` has not read yet:
the state of the decompressor on a longer stream, at the same position. -/
def Input.append (f : Input) (x : Bytes) : Input :=
  { f with r := f.r ++ x }

/-- A Huffman decoder: the least number of bits that `huffSym` reads before it
looks a symbol up, and the symbols with their codes, most significant bit
first. -/
structure huffmanDecoder where
  min : Nat := 0
  codes : List (List Bool × Nat) := []
  deriving DecidableEq, Repr

/-- The `len` low bits of `code`, most significant first. -/
def codeBits (code len : Nat) : List Bool :=
  (List.range len).map (fun i => code / 2 ^ (len - 1 - i) % 2 = 1)

/-- The canonical code of the symbol `sym` of length `n` for the code lengths
`lengths`: the first code of the length `n` plus the number of the symbols of
that length before `sym`. -/
def canonicalCode (lengths : List Nat) (sym n : Nat) : Nat :=
  (lengths.filter (fun l => decide (0 < l) && decide (l < n))).foldl
      (fun code l => code + 2 ^ (n - l)) 0 +
    ((lengths.take sym).filter (fun l => l == n)).length

/-- Method `(*huffmanDecoder).init`: the decoder of the canonical code with
the code lengths `lengths` (zero for an unused symbol), or `none` when the
lengths are those of no complete code, the code with one symbol of length one
excepted. -/
def huffmanDecoder.init (lengths : List Nat) : Option huffmanDecoder :=
  let used := lengths.filter (fun l => decide (0 < l))
  let max := used.foldl Nat.max 0
  let min := used.foldl Nat.min max
  if max = 0 then some {}
  else
    let code := used.foldl (fun code l => code + 2 ^ (max - l)) 0
    if code ≠ 2 ^ max ∧ ¬(code = 1 ∧ max = 1) then none
    else
      some
        { min := min
          codes := (lengths.enum.filter (fun p => decide (0 < p.2))).map
            (fun p => (codeBits (canonicalCode lengths p.1 p.2) p.2, p.1)) }

/-- The lookup of `huffSym`, bit by bit: `codes` are the codes that agree with
the bits consumed so far, stripped of those bits. -/
def huffSymLoop : Nat → List (List Bool × Nat) → Input → Except Error (Nat × Input)
  | 0, codes, f =>
    match codes.find? (fun c => c.1.isEmpty) with
    | some c => .ok (c.2, f)
    | none => .error .CorruptInputError
  | fuel + 1, codes, f =>
    match codes.find? (fun c => c.1.isEmpty) with
    | some c => .ok (c.2, f)
    | none =>
      if codes.isEmpty then .error .CorruptInputError
      else
        match f.readBit with
        | none => .error .ErrUnexpectedEOF
        | some (b, f) =>
          huffSymLoop fuel
            (codes.filterMap (fun c =>
              match c.1 with
              | x :: xs => if x = b then some (xs, c.2) else none
              | [] => none)) f

/-- Method `(*decompressor).huffSym`: the next symbol of the input under the
decoder `h`. -/
def huffSym (h : huffmanDecoder) (f : Input) : Except Error (Nat × Input) :=
  if f.available < h.min then .error .ErrUnexpectedEOF
  else huffSymLoop 16 h.codes f

/-- The decoder `fixedHuffmanDecoder` of the literal and length symbols of a
block with the fixed codes. -/
def fixedHuffmanDecoder : Option huffmanDecoder :=
  huffmanDecoder.init
    (List.replicate 144 8 ++ List.replicate 112 9 ++ List.replicate 24 7 ++ List.replicate 8 8)

/-- The copy of `length` bytes from `dist` bytes back in the output. -/
def copyHistory : Nat → Nat → Bytes → Bytes
  | 0, _, out => out
  | length + 1, dist, out => copyHistory length dist (out ++ [out.getD (out.length - dist) 0])

/-- The length of the match for the length symbol `v` (from 257 on) and
the number of its extra bits. -/
def matchLength (v : Nat) : Option (Nat × Nat) :=
  if v < 265 then some (v - (257 - 3), 0)
  else if v < 269 then some (v * 2 - (265 * 2 - 11), 1)
  else if v < 273 then some (v * 4 - (269 * 4 - 19), 2)
  else if v < 277 then some (v * 8 - (273 * 8 - 35), 3)
  else if v < 281 then some (v * 16 - (277 * 16 - 67), 4)
  else if v < 285 then some (v * 32 - (281 * 32 - 131), 5)
  else if v < 286 then some (258, 0)
  else none

/-- The distance of a match: the distance symbol, read with the decoder `hd`
or as five bits when there is none, and its extra bits. -/
def readDistance (hd : Option huffmanDecoder) (f : Input) : Except Error (Nat × Input) :=
  let sym : Except Error (Nat × Input) :=
    match hd with
    | none =>
      match f.readBits 5 with
      | none => .error .ErrUnexpectedEOF
      | some (v, f) =>
        .ok (v % 2 * 16 + v / 2 % 2 * 8 + v / 4 % 2 * 4 + v / 8 % 2 * 2 + v / 16 % 2, f)
    | some hd => huffSym hd f
  match sym with
  | .error err => .error err
  | .ok (dist, f) =>
    if dist < 4 then .ok (dist + 1, f)
    else if dist < 30 then
      let nb := (dist - 2) / 2
      match f.readBits nb with
      | none => .error .ErrUnexpectedEOF
      | some (extra, f) => .ok (2 ^ (nb + 1) + 1 + (dist % 2 * 2 ^ nb + extra), f)
    else .error .CorruptInputError

/-- Method `(*decompressor).huffmanBlock`: the symbols of a compressed block
up to its end-of-block symbol, appended to the output `out`; the output
decoded before an error is kept. -/
def huffmanBlock (hl : huffmanDecoder) (hd : Option huffmanDecoder) :
    Nat → Input → Bytes → Bytes × Except Error Input
  | 0, _, out => (out, .error .CorruptInputError)
  | fuel + 1, f, out =>
    match huffSym hl f with
    | .error err => (out, .error err)
    | .ok (v, f) =>
      if v < 256 then huffmanBlock hl hd fuel f (out ++ [UInt8.ofNat v])
      else if v = 256 then (out, .ok f)
      else
        match matchLength v with
        | none => (out, .error .CorruptInputError)
        | some (length, n) =>
          match f.readBits n with
          | none => (out, .error .ErrUnexpectedEOF)
          | some (extra, f) =>
            match readDistance hd f with
            | .error err => (out, .error err)
            | .ok (dist, f) =>
              if dist > Nat.min out.length 32768 then (out, .error .CorruptInputError)
              else huffmanBlock hl hd fuel f (copyHistory (length + extra) dist out)

/-- Method `(*decompressor).dataBlock` with `copyData`: a stored block. The
bits left in the buffer are dropped; the bytes copied before the input ends
are kept. -/
def dataBlock (f : Input) (out : Bytes) : Bytes × Except Error Input :=
  match f.r with
  | l0 :: l1 :: n0 :: n1 :: r =>
    let n := l0.toNat + 256 * l1.toNat
    let nn := n0.toNat + 256 * n1.toNat
    if nn ≠ 65535 - n then (out, .error .CorruptInputError)
    else if r.length < n then (out ++ r, .error .ErrUnexpectedEOF)
    else (out ++ r.take n, .ok { r := r.drop n })
  | _ => (out, .error .ErrUnexpectedEOF)

/-- The table `codeOrder`. -/
def codeOrder : List Nat :=
  [16, 17, 18, 0, 8, 7, 9, 6, 10, 5, 11, 4, 12, 3, 13, 2, 14, 1, 15]

/-- The loop of `readHuffman` over the `nclen` lengths of the code length
code: the pairs of a symbol and its length. -/
def readCodebits : List Nat → Input → Option (List (Nat × Nat) × Input)
  | [], f => some ([], f)
  | sym :: order, f =>
    match f.readBits 3 with
    | none => none
    | some (v, f) =>
      match readCodebits order f with
      | none => none
      | some (rest, f) => some ((sym, v) :: rest, f)

/-- The loop of `readHuffman` that reads the `n` code lengths of the literal
and distance codes with the code length decoder `h1`; `bits` are the lengths
read so far. -/
def readLengths (h1 : huffmanDecoder) (n : Nat) : Nat → List Nat → Input →
    Except Error (List Nat × Input)
  | 0, bits, f => if bits.length < n then .error .CorruptInputError else .ok (bits, f)
  | fuel + 1, bits, f =>
    if bits.length < n then
      match huffSym h1 f with
      | .error err => .error err
      | .ok (x, f) =>
        if x < 16 then readLengths h1 n fuel (bits ++ [x]) f
        else if x = 16 ∧ bits.length = 0 then .error .CorruptInputError
        else
          let rep := if x = 18 then 11 else 3
          let nb := if x = 16 then 2 else if x = 17 then 3 else 7
          let b := if x = 16 then bits.getLastD 0 else 0
          match f.readBits nb with
          | none => .error .ErrUnexpectedEOF
          | some (extra, f) =>
            if bits.length + (rep + extra) > n then .error .CorruptInputError
            else readLengths h1 n fuel (bits ++ List.replicate (rep + extra) b) f
    else .ok (bits, f)

/-- Method `(*decompressor).readHuffman`: the header of a block with dynamic
codes, giving the decoder of the literal and length symbols and the decoder of
the distance symbols. -/
def readHuffman (f : Input) : Except Error (huffmanDecoder × huffmanDecoder × Input) :=
  match f.readBits 14 with
  | none => .error .ErrUnexpectedEOF
  | some (v, f) =>
    let nlit := v % 32 + 257
    let ndist := v / 32 % 32 + 1
    let nclen := v / 1024 % 16 + 4
    if nlit > 286 then .error .CorruptInputError
    else if ndist > 30 then .error .CorruptInputError
    else
      match readCodebits (codeOrder.take nclen) f with
      | none => .error .ErrUnexpectedEOF
      | some (codebits, f) =>
        match huffmanDecoder.init
            ((List.range 19).map (fun sym => ((codebits.lookup sym).getD 0))) with
        | none => .error .CorruptInputError
        | some h1 =>
          match readLengths h1 (nlit + ndist) (nlit + ndist) [] f with
          | .error err => .error err
          | .ok (bits, f) =>
            match huffmanDecoder.init (bits.take nlit),
              huffmanDecoder.init ((bits.drop nlit).take ndist) with
            | some h1, some h2 =>
              .ok ({ h1 with min := Nat.max h1.min (bits.getD 256 0) }, h2, f)
            | _, _ => .error .CorruptInputError

/-- Method `(*decompressor).nextBlock` with the block it starts, repeated up
to the final block: the output and either the error met or the input left
after the final block. -/
def blocks : Nat → Input → Bytes → Bytes × Except Error Input
  | 0, _, out => (out, .error .CorruptInputError)
  | fuel + 1, f, out =>
    match f.readBits 3 with
    | none => (out, .error .ErrUnexpectedEOF)
    | some (v, f) =>
      let block : Bytes × Except Error Input :=
        match v / 2 with
        | 0 => dataBlock f out
        | 1 =>
          match fixedHuffmanDecoder with
          | some hl => huffmanBlock hl none (f.available + 1) f out
          | none => (out, .error .CorruptInputError)
        | 2 =>
          match readHuffman f with
          | .error err => (out, .error err)
          | .ok (hl, hd, f) => huffmanBlock hl (some hd) (f.available + 1) f out
        | _ => (out, .error .CorruptInputError)
      match block.2 with
      | .error err => (block.1, .error err)
      | .ok f => if v % 2 = 1 then (block.1, .ok f) else blocks fuel f block.1

/-- The reader made by `flate.NewReader(r)`, read to its end: the bytes it
delivers and either the error that ends them or, at the end of the stream
(`io.EOF`), the bytes of `r` that it has not read. -/
def inflate (r : Bytes) : Bytes × Except Error Bytes :=
  match blocks (r.length + 1) { r := r } [] with
  | (out, .error err) => (out, .error err)
  | (out, .ok f) => (out, .ok f.r)

/-! ### The DEFLATE format (RFC 1951): what a compressor emits

The compressor of `compress/flate` is not modelled. Its contract is that the
stream it emits is a sequence of blocks in the format below that expands to the
data written. The definitions of this section state the format from the side
of the writer; none of them is used by the decompressor above. -/

/-- The bits of a stream in the order of the format: byte after byte, the
least significant bit of a byte first. -/
def streamBits (s : Bytes) : List Bool :=
  s.flatMap byteBits

/-- The `n` low bits of the number `v`, least significant first: how the
format packs a number that is no Huffman code. -/
def numberBits : Nat → Nat → List Bool
  | 0, _ => []
  | n + 1, v => decide (v % 2 = 1) :: numberBits n (v / 2)

/-- The two bytes of a number below `2 ^ 16`, least significant first. -/
def le16 (n : Nat) : Bytes :=
  [UInt8.ofNat (n % 256), UInt8.ofNat (n / 256 % 256)]

/-- The code of the symbol `sym` in the canonical Huffman code with the code
lengths `lengths` (RFC 1951, 3.2.2), most significant bit first. -/
def symbolCode (lengths : List Nat) (sym : Nat) : List Bool :=
  codeBits (canonicalCode lengths sym (lengths.getD sym 0)) (lengths.getD sym 0)

/-- The code lengths of the fixed code of the literal and length symbols
(RFC 1951, 3.2.6). -/
def fixedLengths : List Nat :=
  List.replicate 144 8 ++ List.replicate 112 9 ++ List.replicate 24 7 ++ List.replicate 8 8

/-- The length symbols 257 to 285 (RFC 1951, 3.2.5): the least length of the
symbol and the number of its extra bits. -/
def lengthTable : List (Nat × Nat) :=
  [(3, 0), (4, 0), (5, 0), (6, 0), (7, 0), (8, 0), (9, 0), (10, 0), (11, 1), (13, 1), (15, 1),
    (17, 1), (19, 2), (23, 2), (27, 2), (31, 2), (35, 3), (43, 3), (51, 3), (59, 3), (67, 4),
    (83, 4), (99, 4), (115, 4), (131, 5), (163, 5), (195, 5), (227, 5), (258, 0)]

/-- The distance symbols 0 to 29 (RFC 1951, 3.2.5): the least distance of the
symbol and the number of its extra bits. -/
def distanceTable : List (Nat × Nat) :=
  [(1, 0), (2, 0), (3, 0), (4, 0), (5, 1), (7, 1), (9, 2), (13, 2), (17, 3), (25, 3), (33, 4),
    (49, 4), (65, 5), (97, 5), (129, 6), (193, 6), (257, 7), (385, 7), (513, 8), (769, 8),
    (1025, 9), (1537, 9), (2049, 10), (3073, 10), (4097, 11), (6145, 11), (8193, 12),
    (12289, 12), (16385, 13), (24577, 13)]

/-- An element of a compressed block: a literal byte, or a copy of earlier
output given by its length symbol, its distance symbol and the values of their
extra bits. -/
inductive Token where
  | literal (b : UInt8)
  | copy (lengthSym lengthExtra distSym distExtra : Nat)
  deriving DecidableEq, Repr

/-- The number of bytes that a copy adds. -/
def copyLength (lengthSym lengthExtra : Nat) : Nat :=
  (lengthTable.getD (lengthSym - 257) (0, 0)).1 + lengthExtra

/-- The distance of a copy: how far back in the output it starts. -/
def copyDistance (distSym distExtra : Nat) : Nat :=
  (distanceTable.getD distSym (0, 0)).1 + distExtra

/-- The output `out` with the bytes that the token stands for. The byte `i` of
a copy of the distance `dist` is the byte of `out` at `dist` from its end,
plus `i` modulo `dist`: a copy longer than its distance repeats. -/
def Token.expand (out : Bytes) : Token → Bytes
  | .literal b => out ++ [b]
  | .copy lengthSym lengthExtra distSym distExtra =>
    out ++ (List.range (copyLength lengthSym lengthExtra)).map (fun i =>
      out.getD (out.length - copyDistance distSym distExtra +
        i % copyDistance distSym distExtra) 0)

/-- The output `out` with the bytes of the tokens. -/
def expandTokens (out : Bytes) (tokens : List Token) : Bytes :=
  tokens.foldl Token.expand out

/-- The code of a distance symbol: its code in the code with the lengths
`dist`, or the symbol in five bits when the block has the fixed codes. -/
def distanceCode (dist : Option (List Nat)) (distSym : Nat) : List Bool :=
  match dist with
  | none => codeBits distSym 5
  | some dist => symbolCode dist distSym

/-- The bits of a token under the code lengths `lit` of the literal and length
symbols and `dist` of the distance symbols. -/
def Token.bits (lit : List Nat) (dist : Option (List Nat)) : Token → List Bool
  | .literal b => symbolCode lit b.toNat
  | .copy lengthSym lengthExtra distSym distExtra =>
    symbolCode lit lengthSym ++
      numberBits (lengthTable.getD (lengthSym - 257) (0, 0)).2 lengthExtra ++
      distanceCode dist distSym ++
      numberBits (distanceTable.getD distSym (0, 0)).2 distExtra

/-- Whether the token can stand after the output `out` in a block with the
code lengths `lit` and `dist`: its symbols have codes, its extra values fit
their bits, and a copy does not start before the output. -/
def Token.valid (lit : List Nat) (dist : Option (List Nat)) (out : Bytes) : Token → Bool
  | .literal b => decide (0 < lit.getD b.toNat 0)
  | .copy lengthSym lengthExtra distSym distExtra =>
    decide (257 ≤ lengthSym) && decide (lengthSym ≤ 285) && decide (0 < lit.getD lengthSym 0) &&
      decide (lengthExtra < 2 ^ (lengthTable.getD (lengthSym - 257) (0, 0)).2) &&
      decide (distSym < 30) &&
      decide (distExtra < 2 ^ (distanceTable.getD distSym (0, 0)).2) &&
      (match dist with
        | none => true
        | some dist => decide (0 < dist.getD distSym 0)) &&
      decide (copyDistance distSym distExtra ≤ out.length)

/-- Whether the tokens can stand, one after the other, after the output
`out`. -/
def validTokens (lit : List Nat) (dist : Option (List Nat)) : Bytes → List Token → Bool
  | _, [] => true
  | out, t :: tokens => t.valid lit dist out && validTokens lit dist (t.expand out) tokens

/-- The bits of the tokens of a block. -/
def tokensBits (lit : List Nat) (dist : Option (List Nat)) (tokens : List Token) : List Bool :=
  tokens.flatMap (Token.bits lit dist)

/-- Whether the code lengths are those of a code that a block may declare: a
complete code (the sum of `2 ^ (max - l)` over the lengths `l` in use is
`2 ^ max`), the code with one symbol of length one, or no code at all. -/
def completeCode (lengths : List Nat) : Bool :=
  let used := lengths.filter (fun l => decide (0 < l))
  let max := used.foldl Nat.max 0
  decide ((used.map (fun l => 2 ^ (max - l))).sum = 2 ^ max) || decide (used = [1]) ||
    used.isEmpty

/-- The code lengths of the code length code, by symbol, for the lengths
`clens` that the block declares in the order of `codeOrder`. -/
def codeLengthLengths (clens : List Nat) : List Nat :=
  (List.range 19).map (fun sym => ((codeOrder.zip clens).lookup sym).getD 0)

/-- The code lengths `acc` with those that the symbols `runs` of the code
length code add: a symbol below 16 is a length, 16 repeats the last length 3
to 6 times, 17 and 18 stand for 3 to 10 and for 11 to 138 zeros. A run is the
symbol and the value of its extra bits. -/
def expandRuns : List Nat → List (Nat × Nat) → List Nat
  | acc, [] => acc
  | acc, (sym, extra) :: runs =>
    if sym < 16 then expandRuns (acc ++ [sym]) runs
    else if sym = 16 then expandRuns (acc ++ List.replicate (3 + extra) (acc.getLastD 0)) runs
    else if sym = 17 then expandRuns (acc ++ List.replicate (3 + extra) 0) runs
    else expandRuns (acc ++ List.replicate (11 + extra) 0) runs

/-- The number of extra bits of a symbol of the code length code. -/
def runExtraBits (sym : Nat) : Nat :=
  if sym = 16 then 2 else if sym = 17 then 3 else if sym = 18 then 7 else 0

/-- Whether the runs can stand after the code lengths `acc` in a block that
declares `n` code lengths under the code length code with the lengths `cl`:
each symbol has a code, its extra value fits, a repetition has a length to
repeat, and the lengths reach `n` with the last run and do not pass `n`. -/
def validRuns (cl : List Nat) (n : Nat) : List Nat → List (Nat × Nat) → Bool
  | acc, [] => decide (acc.length = n)
  | acc, (sym, extra) :: runs =>
    decide (acc.length < n) && decide (sym ≤ 18) && decide (0 < cl.getD sym 0) &&
      decide (extra < 2 ^ runExtraBits sym) && decide (sym = 16 → acc ≠ []) &&
      decide ((expandRuns acc [(sym, extra)]).length ≤ n) &&
      validRuns cl n (expandRuns acc [(sym, extra)]) runs

/-- The bits of the runs under the code length code with the lengths `cl`. -/
def runsBits (cl : List Nat) (runs : List (Nat × Nat)) : List Bool :=
  runs.flatMap (fun run => symbolCode cl run.1 ++ numberBits (runExtraBits run.1) run.2)

/-- A block of the format: a stored block with the bits `pad` that fill the
byte after its header, a block with the fixed codes, or a block with dynamic
codes that declares `nlit` and `ndist` code lengths by the lengths `clens` of
the code length code and the runs `runs`. -/
inductive Block where
  | stored (pad : List Bool) (data : Bytes)
  | fixed (tokens : List Token)
  | dynamic (nlit ndist : Nat) (clens : List Nat) (runs : List (Nat × Nat))
      (tokens : List Token)
  deriving DecidableEq, Repr

/-- The code lengths of the literal and length symbols of a block with dynamic
codes. -/
def literalLengths (nlit : Nat) (runs : List (Nat × Nat)) : List Nat :=
  (expandRuns [] runs).take nlit

/-- The code lengths of the distance symbols of a block with dynamic codes. -/
def distanceLengths (nlit ndist : Nat) (runs : List (Nat × Nat)) : List Nat :=
  ((expandRuns [] runs).drop nlit).take ndist

/-- The bits of a block; `final` marks the last block of the stream. The
header is the final bit and the two bits of the block type; the symbol 256
ends a compressed block. -/
def Block.bits (final : Bool) : Block → List Bool
  | .stored pad data =>
    [final, false, false] ++ pad ++
      streamBits (le16 data.length ++ le16 (65535 - data.length) ++ data)
  | .fixed tokens =>
    [final, true, false] ++ tokensBits fixedLengths none tokens ++ symbolCode fixedLengths 256
  | .dynamic nlit ndist clens runs tokens =>
    [final, false, true] ++ numberBits 5 (nlit - 257) ++ numberBits 5 (ndist - 1) ++
      numberBits 4 (clens.length - 4) ++ clens.flatMap (numberBits 3) ++
      runsBits (codeLengthLengths clens) runs ++
      tokensBits (literalLengths nlit runs) (some (distanceLengths nlit ndist runs)) tokens ++
      symbolCode (literalLengths nlit runs) 256

/-- The output `out` with the bytes that the block stands for. -/
def Block.expand (out : Bytes) : Block → Bytes
  | .stored _ data => out ++ data
  | .fixed tokens => expandTokens out tokens
  | .dynamic _ _ _ _ tokens => expandTokens out tokens

/-- Whether the block can stand at the bit `pos` of a stream after the output
`out`. The padding of a stored block ends at a byte boundary and its data are
shorter than `2 ^ 16` bytes; a block with dynamic codes declares 257 to 286
and 1 to 30 code lengths by 4 to 19 lengths below 8, its three codes are
complete, and the symbol 256 has a code. -/
def Block.valid (pos : Nat) (out : Bytes) : Block → Bool
  | .stored pad data =>
    decide (pad.length = (8 - (pos + 3) % 8) % 8) && decide (data.length < 65536)
  | .fixed tokens => validTokens fixedLengths none out tokens
  | .dynamic nlit ndist clens runs tokens =>
    decide (257 ≤ nlit) && decide (nlit ≤ 286) && decide (1 ≤ ndist) && decide (ndist ≤ 30) &&
      decide (4 ≤ clens.length) && decide (clens.length ≤ 19) &&
      clens.all (fun l => decide (l < 8)) &&
      completeCode (codeLengthLengths clens) &&
      validRuns (codeLengthLengths clens) (nlit + ndist) [] runs &&
      completeCode (literalLengths nlit runs) &&
      completeCode (distanceLengths nlit ndist runs) &&
      decide (0 < (literalLengths nlit runs).getD 256 0) &&
      validTokens (literalLengths nlit runs) (some (distanceLengths nlit ndist runs)) out tokens

/-- The bits of a stream of blocks: the last block is marked final. -/
def encode : List Block → List Bool
  | [] => []
  | [b] => b.bits true
  | b :: bs => b.bits false ++ encode bs

/-- The output `out` with the bytes that the blocks stand for. -/
def expandBlocks (out : Bytes) (blocks : List Block) : Bytes :=
  blocks.foldl Block.expand out

/-- Whether the blocks can stand, one after the other, from the bit `pos` of a
stream on and after the output `out`. -/
def validBlocks : Nat → Bytes → List Block → Bool
  | _, _, [] => true
  | pos, out, b :: bs =>
    b.valid pos out &&
      validBlocks (pos + (b.bits bs.isEmpty).length) (b.expand out) bs

/-- The state of the decompressor on the stream `s` after it has read `p`
bits: the bits of the current byte that are left, and the bytes after it. -/
def Input.atBit (s : Bytes) (p : Nat) : Input :=
  { bits := ((streamBits s).drop p).take ((8 - p % 8) % 8), r := s.drop ((p + 7) / 8) }

/-- The byte of eight bits, the first bit being the least significant. -/
def bitsByte (b0 b1 b2 b3 b4 b5 b6 b7 : Bool) : UInt8 :=
  UInt8.ofNat ((if b0 then 1 else 0) + (if b1 then 2 else 0) + (if b2 then 4 else 0) +
    (if b3 then 8 else 0) + (if b4 then 16 else 0) + (if b5 then 32 else 0) +
    (if b6 then 64 else 0) + (if b7 then 128 else 0))

/-- The bytes of a sequence of bits, as a writer packs them: eight bits per
byte, the first bit being the least significant, and zeros after the last bit
when it does not end a byte. -/
def packBits : List Bool → Bytes
  | b0 :: b1 :: b2 :: b3 :: b4 :: b5 :: b6 :: b7 :: rest =>
    bitsByte b0 b1 b2 b3 b4 b5 b6 b7 :: packBits rest
  | [] => []
  | [b0] => [bitsByte b0 false false false false false false false]
  | [b0, b1] => [bitsByte b0 b1 false false false false false false]
  | [b0, b1, b2] => [bitsByte b0 b1 b2 false false false false false]
  | [b0, b1, b2, b3] => [bitsByte b0 b1 b2 b3 false false false false]
  | [b0, b1, b2, b3, b4] => [bitsByte b0 b1 b2 b3 b4 false false false]
  | [b0, b1, b2, b3, b4, b5] => [bitsByte b0 b1 b2 b3 b4 b5 false false]
  | [b0, b1, b2, b3, b4, b5, b6] => [bitsByte b0 b1 b2 b3 b4 b5 b6 false]

/-- The contract of the compressor: `stream` is a DEFLATE stream of `content`.
Its bits are those of a sequence of valid blocks, with less than a byte of
padding after the last block, and the blocks expand to `content`. -/
def Encodes (stream content : Bytes) : Prop :=
  ∃ (blocks : List Block) (pad : List Bool), blocks ≠ [] ∧ validBlocks 0 [] blocks = true ∧
    streamBits stream = encode blocks ++ pad ∧ pad.length < 8 ∧
    expandBlocks [] blocks = content

end flate

namespace gzip

open flate (Error)

/-- The four bytes of the 32-bit number `n`, least significant first. -/
def le32 (n : Nat) : Bytes :=
  [UInt8.ofNat (n % 256), UInt8.ofNat (n / 256 % 256), UInt8.ofNat (n / 65536 % 256),
    UInt8.ofNat (n / 16777216 % 256)]

/-- The number of four bytes, least significant first. -/
def leUint32 (b0 b1 b2 b3 : UInt8) : Nat :=
  b0.toNat + 256 * b1.toNat + 65536 * b2.toNat + 16777216 * b3.toNat

/-- Method `(*Reader).readString`: a zero-terminated string of the header, at
most `n` bytes long with its terminator; the bytes read and the bytes left. -/
def readString : Nat → Bytes → Except Error (Bytes × Bytes)
  | 0, _ => .error .ErrHeader
  | _ + 1, [] => .error .EOF
  | n + 1, b :: r =>
    if b = 0 then .ok ([b], r)
    else
      match readString n r with
      | .error err => .error err
      | .ok (s, r) => .ok (b :: s, r)

/-- Function `noEOF`. -/
def noEOF (err : Error) : Error :=
  if err = .EOF then .ErrUnexpectedEOF else err

/-- The extra field of a member header: two bytes of length and the field.
`hdr` are the header bytes read so far, which the header checksum covers; the
result is `hdr` with the bytes read, and the input left. -/
def readExtra (hdr r : Bytes) : Except Error (Bytes × Bytes) :=
  match r with
  | x0 :: x1 :: r =>
    if r.length < x0.toNat + 256 * x1.toNat then .error .ErrUnexpectedEOF
    else
      .ok (hdr ++ [x0, x1] ++ r.take (x0.toNat + 256 * x1.toNat),
        r.drop (x0.toNat + 256 * x1.toNat))
  | _ => .error .ErrUnexpectedEOF

/-- The name or the comment of a member header. -/
def readHeaderString (hdr r : Bytes) : Except Error (Bytes × Bytes) :=
  match readString 512 r with
  | .error err => .error (noEOF err)
  | .ok (s, r) => .ok (hdr ++ s, r)

/-- The checksum of a member header: two bytes that must be the low half of
the CRC-32 of the header bytes `hdr`. -/
def readHeaderCrc (hdr r : Bytes) : Except Error Bytes :=
  match r with
  | c0 :: c1 :: r =>
    if c0.toNat + 256 * c1.toNat ≠ crc32.ChecksumIEEE hdr % 65536 then .error .ErrHeader
    else .ok r
  | _ => .error .ErrUnexpectedEOF

/-- The optional fields of a member header for the flags `flg`: the extra
field (flag 4), the name (flag 8), the comment (flag 16) and the checksum
(flag 2). The result is the input left after the header. -/
def readHeaderFields (flg : Nat) (hdr r : Bytes) : Except Error Bytes :=
  match (if flg / 4 % 2 = 1 then readExtra hdr r else .ok (hdr, r)) with
  | .error err => .error err
  | .ok (hdr, r) =>
    match (if flg / 8 % 2 = 1 then readHeaderString hdr r else .ok (hdr, r)) with
    | .error err => .error err
    | .ok (hdr, r) =>
      match (if flg / 16 % 2 = 1 then readHeaderString hdr r else .ok (hdr, r)) with
      | .error err => .error err
      | .ok (hdr, r) => if flg / 2 % 2 = 1 then readHeaderCrc hdr r else .ok r

/-- Method `(*Reader).readHeader`: the input left after the header of a
member, or the error of the header; the error is `io.EOF` when there is no
byte to read. -/
def readHeader (r : Bytes) : Except Error Bytes :=
  match r with
  | [] => .error .EOF
  | id1 :: id2 :: cm :: flg :: m0 :: m1 :: m2 :: m3 :: xfl :: os :: r =>
    if id1 ≠ 0x1f ∨ id2 ≠ 0x8b ∨ cm ≠ 8 then .error .ErrHeader
    else readHeaderFields flg.toNat [id1, id2, cm, flg, m0, m1, m2, m3, xfl, os] r
  | _ => .error .ErrUnexpectedEOF

/-- A `gzip.Reader` after its header: the input that follows the header. -/
structure Reader where
  r : Bytes
  deriving DecidableEq, Repr

/-- Function `gzip.NewReader` on a `bytes.Reader` of the bytes `r`. -/
def NewReader (r : Bytes) : Except Error Reader :=
  match readHeader r with
  | .error err => .error err
  | .ok r => .ok { r := r }

/-- Method `(*Reader).Read`, called until it returns an error: the bytes
delivered by all the calls and that error, which is `io.EOF` at the end of the
last member. `out` are the bytes delivered for the members before this one. -/
def Reader.readMembers : Nat → Bytes → Bytes → Bytes × Error
  | 0, _, out => (out, .CorruptInputError)
  | fuel + 1, r, out =>
    match flate.inflate r with
    | (data, .error err) => (out ++ data, err)
    | (data, .ok r) =>
      match r with
      | c0 :: c1 :: c2 :: c3 :: s0 :: s1 :: s2 :: s3 :: r =>
        if leUint32 c0 c1 c2 c3 ≠ crc32.ChecksumIEEE data ∨
            leUint32 s0 s1 s2 s3 ≠ data.length % 4294967296 then
          (out ++ data, .ErrChecksum)
        else
          match readHeader r with
          | .error err => (out ++ data, err)
          | .ok r => Reader.readMembers fuel r (out ++ data)
      | _ => (out ++ data, .ErrUnexpectedEOF)

/-- The header that a `gzip.Writer` with the default settings writes: no
optional field, no modification time, operating system 255. -/
def header : Bytes := [0x1f, 0x8b, 8, 0, 0, 0, 0, 0, 0, 255]

/-- The trailer that a `gzip.Writer` writes on `Close` after the data `data`:
their CRC-32 and their length modulo 2^32. -/
def trailer (data : Bytes) : Bytes :=
  le32 (crc32.ChecksumIEEE data) ++ le32 (data.length % 4294967296)

/-- A `gzip.Writer` on a `bytes.Buffer`: the contents `buf` of the buffer,
whether the header is written, the data written so far that the compressor
still holds, and whether the writer is closed. -/
structure Writer where
  buf : Bytes := []
  wroteHeader : Bool := false
  data : Bytes := []
  closed : Bool := false
  deriving DecidableEq, Repr

/-- Function `gzip.NewWriter` on a `bytes.Buffer` with the contents `buf`. -/
def NewWriter (buf : Bytes) : Writer := { buf := buf }

/-- Method `(*Writer).Write` on a writer that is not closed: the writer after
the call and the error. The header is written to the buffer by the first call;
writes to a `bytes.Buffer` do not fail. -/
def Writer.Write (z : Writer) (p : Bytes) : Writer × Option Error :=
  let z := if z.wroteHeader then z else { z with buf := z.buf ++ header, wroteHeader := true }
  ({ z with data := z.data ++ p }, none)

/-- Method `(*Writer).Close`: the compressor is closed, which leaves in the
buffer the DEFLATE stream `deflate data` of the data written, and the trailer
follows. `deflate` is the compressor of `compress/flate` at the default
level. -/
def Writer.Close (deflate : Bytes → Bytes) (z : Writer) : Writer × Option Error :=
  if z.closed then (z, none)
  else
    let z := if z.wroteHeader then z else { z with buf := z.buf ++ header, wroteHeader := true }
    ({ z with buf := z.buf ++ deflate z.data ++ trailer z.data, closed := true }, none)

end gzip

namespace io

/-- Function `io.ReadAll` on a `gzip.Reader`: the bytes read up to the first
error and that error, nil (`none`) when it is `io.EOF`. -/
def ReadAll (z : gzip.Reader) : Bytes × Option flate.Error :=
  match gzip.Reader.readMembers (z.r.length + 1) z.r [] with
  | (b, err) => (b, if err = .EOF then none else some err)

end io

/-! ## Library models: `float64` arithmetic, `time.ParseDuration`, `bytes.ReplaceAll` -/

namespace float64

/-- A finite non-negative `float64`: the value `m * 2 ^ e`, with `m` below
`2 ^ 53`. The exponent is not bounded: the model has neither infinities nor
subnormal numbers, which `time.ParseDuration` reaches only for products that
truncate to zero either way. -/
structure Value where
  m : Nat
  e : Int
  deriving DecidableEq, Repr

/-- The quotient `num / (den * 2 ^ k)` rounded down and its remainder, as the
numerator and denominator of the remaining fraction. -/
def scaled (num den : Nat) (k : Int) : Nat × Nat × Nat :=
  let n := if k < 0 then num * 2 ^ (-k).toNat else num
  let d := if k < 0 then den else den * 2 ^ k.toNat
  (n / d, n % d, d)

/-- The position of the leading bit of `n` (zero for `n` below two), by
halving at most `fuel` times. -/
def log2 : Nat → Nat → Nat
  | 0, _ => 0
  | fuel + 1, n => if n < 2 then 0 else log2 fuel (n / 2) + 1

/-- The `float64` nearest to `num / den * 2 ^ e`, ties to even: the quotient is
scaled to 53 significant bits and rounded. -/
def round (num den : Nat) (e : Int) : Value :=
  if num = 0 ∨ den = 0 then { m := 0, e := 0 }
  else
    let k : Int := (log2 num num : Int) - (log2 den den : Int) - 52
    let k := if (scaled num den k).1 < 2 ^ 52 then k - 1 else k
    let q := (scaled num den k).1
    let r := (scaled num den k).2.1
    let d := (scaled num den k).2.2
    let m := if 2 * r > d ∨ (2 * r = d ∧ q % 2 = 1) then q + 1 else q
    { m := m, e := e + k }

/-- Conversion `float64(n)` of an unsigned integer. -/
def ofNat (n : Nat) : Value := round n 1 0

/-- Product `a * b`. -/
def mul (a b : Value) : Value := round (a.m * b.m) 1 (a.e + b.e)

/-- Quotient `a / b` for a non-zero `b`. -/
def div (a b : Value) : Value := round a.m b.m (a.e - b.e)

/-- Conversion `uint64(x)`: the integer part. -/
def toUint64 (x : Value) : Nat :=
  if x.e < 0 then x.m / 2 ^ (-x.e).toNat else x.m * 2 ^ x.e.toNat

end float64

namespace time

/-- The three errors of `ParseDuration`: "time: invalid duration", "time:
missing unit in duration" and "time: unknown unit". -/
inductive ParseError where
  | invalidDuration
  | missingUnit
  | unknownUnit (u : String)
  deriving DecidableEq, Repr

/-- The table `unitMap`: nanoseconds per unit. The two spellings of the
microsecond have the micro sign `U+00B5` and the Greek letter mu `U+03BC`. -/
def unitMap (u : String) : Option Nat :=
  if u = "ns" then some 1
  else if u = "us" then some 1000
  else if u = String.mk [Char.ofNat 0xB5, 's'] then some 1000
  else if u = String.mk [Char.ofNat 0x3BC, 's'] then some 1000
  else if u = "ms" then some 1000000
  else if u = "s" then some 1000000000
  else if u = "m" then some 60000000000
  else if u = "h" then some 3600000000000
  else none

/-- The test `'0' <= c && c <= '9'`. -/
def isDigit (c : Char) : Bool := '0' ≤ c && c ≤ '9'

/-- Function `leadingInt`, from the value `x` read so far: the leading digits
of `s` as a number and the rest of `s`, or `none` for `errLeadingInt` (the
number is above `1 << 63`). -/
def leadingInt : List Char → Nat → Option (Nat × List Char)
  | [], x => some (x, [])
  | c :: s, x =>
    if !isDigit c then some (x, c :: s)
    else if x > 2 ^ 63 / 10 then none
    else if x * 10 + (c.toNat - 48) > 2 ^ 63 then none
    else leadingInt s (x * 10 + (c.toNat - 48))

/-- Function `leadingFraction`, from the state `x`, `scale`, `overflow` of its
loop: the leading digits of `s` as a number, the power of ten `scale` to
divide it by, and the rest of `s`; digits that would carry the number past
`1 << 63` are read and dropped. -/
def leadingFraction : List Char → Nat → float64.Value → Bool → Nat × float64.Value × List Char
  | [], x, scale, _ => (x, scale, [])
  | c :: s, x, scale, overflow =>
    if !isDigit c then (x, scale, c :: s)
    else if overflow then leadingFraction s x scale true
    else if x > (2 ^ 63 - 1) / 10 then leadingFraction s x scale true
    else if x * 10 + (c.toNat - 48) > 2 ^ 63 then leadingFraction s x scale true
    else leadingFraction s (x * 10 + (c.toNat - 48)) (float64.mul scale (float64.ofNat 10)) false

/-- The step "consume `(\.[0-9]*)?`" of `ParseDuration`: the fraction `f`, its
`scale`, the rest of `s`, and the flag `post` (a digit was read after the
period). Without a period the fraction is zero with the scale one. -/
def fractionPart (s : List Char) : Nat × float64.Value × List Char × Bool :=
  match s with
  | [] => (0, float64.ofNat 1, [], false)
  | c :: rest =>
    if c == '.' then
      ((leadingFraction rest 0 (float64.ofNat 1) false).1,
        (leadingFraction rest 0 (float64.ofNat 1) false).2.1,
        (leadingFraction rest 0 (float64.ofNat 1) false).2.2,
        rest.length != (leadingFraction rest 0 (float64.ofNat 1) false).2.2.length)
    else (0, float64.ofNat 1, c :: rest, false)

/-- One turn of the loop `for s != ""` of `ParseDuration` on the text
`c :: rest`, up to the sum: the nanoseconds of the group
`[0-9]*(\.[0-9]*)?[a-z]+` at the head of the text, in `uint64` arithmetic, and
the text after the group. -/
def parseGroup (c : Char) (rest : List Char) : Except ParseError (Nat × List Char) :=
  if !(c == '.' || isDigit c) then .error .invalidDuration
  else
    match leadingInt (c :: rest) 0 with
    | none => .error .invalidDuration
    | some (v, s) =>
      let pre := (c :: rest).length != s.length
      let fraction := fractionPart s
      if !pre && !fraction.2.2.2 then .error .invalidDuration
      else
        let u := fraction.2.2.1.takeWhile (fun c => !(c == '.' || isDigit c))
        let s := fraction.2.2.1.dropWhile (fun c => !(c == '.' || isDigit c))
        if u.length = 0 then .error .missingUnit
        else
          match unitMap (String.mk u) with
          | none => .error (.unknownUnit (String.mk u))
          | some unit =>
            if v > 2 ^ 63 / unit then .error .invalidDuration
            else
              let v := v * unit
              let v :=
                if fraction.1 > 0 then
                  v + float64.toUint64 (float64.mul (float64.ofNat fraction.1)
                    (float64.div (float64.ofNat unit) fraction.2.1))
                else v
              if fraction.1 > 0 ∧ v > 2 ^ 63 then .error .invalidDuration
              else .ok (v, s)

/-- The loop `for s != ""` of `ParseDuration`, from the sum `d` of the groups
read so far: every turn reads one group and adds its nanoseconds, in `uint64`
arithmetic. Every turn consumes a character of the unit, so that a `fuel`
above the length of `s` is never used up. -/
def parseGroups : Nat → List Char → Nat → Except ParseError Nat
  | 0, _, _ => .error .invalidDuration
  | _ + 1, [], d => .ok d
  | fuel + 1, c :: rest, d =>
    match parseGroup c rest with
    | .error err => .error err
    | .ok (v, s) =>
      if (d + v) % 2 ^ 64 > 2 ^ 63 then .error .invalidDuration
      else parseGroups fuel s ((d + v) % 2 ^ 64)

/-- Go `time.ParseDuration`: the duration in nanoseconds that `s` denotes, a
sequence of decimal numbers with a unit each, after an optional sign. The
string is read rune by rune, which for text in UTF-8 splits it where the bytes
do (every test is on an ASCII byte). -/
def ParseDuration (s : String) : Except ParseError Int :=
  let orig := s.data
  let neg := match orig with
    | c :: _ => c == '-'
    | [] => false
  let s := match orig with
    | c :: rest => if c == '-' || c == '+' then rest else orig
    | [] => orig
  if s = ['0'] then .ok 0
  else if s = [] then .error .invalidDuration
  else
    match parseGroups (s.length + 1) s 0 with
    | .error err => .error err
    | .ok d =>
      if neg then .ok (-(d : Int))
      else if d > 2 ^ 63 - 1 then .error .invalidDuration
      else .ok (d : Int)

end time

namespace bytes

/-- The scan of `bytes.ReplaceAll` over `s`: `skip` is the number of bytes of
the instance of `old` just replaced that are still to pass over. -/
def replaceFrom (old new : Bytes) : Nat → Bytes → Bytes
  | _, [] => []
  | skip + 1, _ :: s => replaceFrom old new skip s
  | 0, b :: s =>
    if old.isPrefixOf (b :: s) then new ++ replaceFrom old new (old.length - 1) s
    else b :: replaceFrom old new 0 s

/-- Go `bytes.ReplaceAll` for a non-empty `old`: a copy of `s` with the
non-overlapping instances of `old`, found from left to right, replaced by
`new`. (For an empty `old`, which no caller here passes, Go inserts `new`
around every rune; the model returns `s`.) -/
def ReplaceAll (s old new : Bytes) : Bytes :=
  if old = [] then s else replaceFrom old new 0 s

end bytes

/-! ## Methods of the API types: compression, content hash, identifier -/

namespace json

/-- A JSON value as `json.Unmarshal` stores it in an `interface{}`: nil, a
`bool`, a `float64` (kept as its literal), a `string`, a slice or a map. -/
inductive Value where
  | null
  | bool (b : Bool)
  | number (literal : String)
  | string (s : String)
  | array (elems : List Value)
  | object (fields : List (String × Value))

/-- The test `v != nil` on an interface value. -/
def Value.isNil : Value → Bool
  | .null => true
  | _ => false

/-- The test `v == s` of an interface value against a string. -/
def Value.eqString (v : Value) (s : String) : Bool :=
  match v with
  | .string t => t == s
  | _ => false

end json

namespace v1beta1

/-- Function `Gunzip`: the returned slice (`none` is nil) and the returned
error. -/
def Gunzip (compressed : Bytes) : Option Bytes × Option flate.Error :=
  match gzip.NewReader compressed with
  | .error err => (none, some err)
  | .ok gz =>
    match io.ReadAll gz with
    | (b, err) => (some b, err)

/-- Function `Gzip`; `deflate` is the compressor of `compress/flate` that the
`gzip.Writer` drives. -/
def Gzip (deflate : Bytes → Bytes) (content : Bytes) : Option Bytes × Option flate.Error :=
  let buf : Bytes := []
  let gz := gzip.NewWriter buf
  match gz.Write content with
  | (_, some err) => (none, some err)
  | (gz, none) =>
    match gz.Close deflate with
    | (_, some err) => (none, some err)
    | (gz, none) => (some gz.buf, none)

end v1beta1

namespace v1alpha1

/-- Function `Gunzip` of the legacy package. -/
def Gunzip (compressed : Bytes) : Option Bytes × Option flate.Error :=
  match gzip.NewReader compressed with
  | .error err => (none, some err)
  | .ok decoder =>
    match io.ReadAll decoder with
    | (b, err) => (some b, err)

/-- Function `Gzip` of the legacy package; the string `content` is given by
its bytes, and the error of `Close` is dropped. -/
def Gzip (deflate : Bytes → Bytes) (content : Bytes) : Option Bytes × Option flate.Error :=
  let buf : Bytes := []
  let writer := gzip.NewWriter buf
  match writer.Write content with
  | (_, some err) => (none, some err)
  | (writer, none) => (some (writer.Close deflate).1.buf, none)

/-- Method `Hash`: the bytes written to the running hash, in the order of the
writes, then the digest in lowercase hexadecimal. -/
def GrafanaDashboard.Hash (d : GrafanaDashboard) : String :=
  let hash : Bytes := []
  let hash := d.Spec.Datasources.foldl
    (fun hash input =>
      hash ++ Bytes.ofString input.DatasourceName ++ Bytes.ofString input.InputName) hash
  let hash := hash ++ Bytes.ofString d.Spec.Json
  let hash := hash ++ d.Spec.GzipJson.getD []
  let hash := hash ++ Bytes.ofString d.Spec.Url
  let hash := hash ++ Bytes.ofString d.Spec.Jsonnet
  let hash := hash ++ Bytes.ofString d.ObjectMeta.Namespace
  let hash := hash ++ Bytes.ofString d.Spec.CustomFolderName
  let hash :=
    match d.Spec.ConfigMapRef with
    | some ref => hash ++ Bytes.ofString ref.Name ++ Bytes.ofString ref.Key
    | none => hash
  let hash :=
    match d.Spec.GzipConfigMapRef with
    | some ref => hash ++ Bytes.ofString ref.Name ++ Bytes.ofString ref.Key
    | none => hash
  let hash :=
    match d.Spec.GrafanaCom with
    | some grafanaCom =>
      let hash := hash ++ Bytes.ofString (fmt.formatInt grafanaCom.Id)
      match grafanaCom.Revision with
      | some revision => hash ++ Bytes.ofString (fmt.formatInt revision)
      | none => hash
    | none => hash
  let hash :=
    match d.Status.ContentCache with
    | some contentCache => hash ++ contentCache
    | none => hash
  fmt.hex (sha256.Sum256 hash)

/-- The fields that the content hash covers, concatenated in the order of the
writes of `Hash`: for every datasource binding its datasource name and its
input name, then the JSON, the compressed JSON, the URL, the Jsonnet, the
namespace, the folder name, the name and key of the config map reference, the
name and key of the compressed config map reference, the grafana.com id and
revision in decimal, and the cached content. An absent field contributes no
byte. -/
def GrafanaDashboard.hashedFields (d : GrafanaDashboard) : Bytes :=
  d.Spec.Datasources.flatMap
      (fun input => Bytes.ofString input.DatasourceName ++ Bytes.ofString input.InputName) ++
    Bytes.ofString d.Spec.Json ++ d.Spec.GzipJson.getD [] ++ Bytes.ofString d.Spec.Url ++
    Bytes.ofString d.Spec.Jsonnet ++ Bytes.ofString d.ObjectMeta.Namespace ++
    Bytes.ofString d.Spec.CustomFolderName ++
    (match d.Spec.ConfigMapRef with
      | some ref => Bytes.ofString ref.Name ++ Bytes.ofString ref.Key
      | none => []) ++
    (match d.Spec.GzipConfigMapRef with
      | some ref => Bytes.ofString ref.Name ++ Bytes.ofString ref.Key
      | none => []) ++
    (match d.Spec.GrafanaCom with
      | some grafanaCom =>
        Bytes.ofString (fmt.formatInt grafanaCom.Id) ++
          (match grafanaCom.Revision with
            | some revision => Bytes.ofString (fmt.formatInt revision)
            | none => [])
      | none => []) ++
    d.Status.ContentCache.getD []

/-- The errors that `Parse` returns: the error of `Gunzip` or the error of
`json.Unmarshal`. -/
inductive ParseError where
  | Gunzip (err : flate.Error)
  | Unmarshal (err : String)
  deriving DecidableEq, Repr

/-- Method `Parse`: the returned map (`none` is nil) and the returned error.
`unmarshal` is `json.Unmarshal` into an empty map: the map it leaves (the nil
map for the JSON literal `null`) and its error. -/
def GrafanaDashboard.Parse
    (unmarshal : Bytes → Option (List (String × json.Value)) × Option String)
    (d : GrafanaDashboard) (optional : String) :
    Option (List (String × json.Value)) × Option ParseError :=
  let dashboardBytes : Except flate.Error Bytes :=
    match d.Spec.GzipJson with
    | some gzipJson =>
      match Gunzip gzipJson with
      | (_, some err) => .error err
      | (decoded, none) => .ok (decoded.getD [])
    | none => .ok (Bytes.ofString d.Spec.Json)
  match dashboardBytes with
  | .error err => (none, some (.Gunzip err))
  | .ok dashboardBytes =>
    let dashboardBytes :=
      if optional ≠ "" then Bytes.ofString optional else dashboardBytes
    match unmarshal dashboardBytes with
    | (parsed, err) => (parsed, err.map .Unmarshal)

/-- Method `UID`; the element `content["uid"]` of a map without the key, and
of the nil map, is nil. -/
def GrafanaDashboard.UID
    (unmarshal : Bytes → Option (List (String × json.Value)) × Option String)
    (d : GrafanaDashboard) : String :=
  let fromName : String :=
    fmt.hex (sha1.Sum (Bytes.ofString (d.ObjectMeta.Namespace ++ d.ObjectMeta.Name)))
  match d.Parse unmarshal "" with
  | (content, none) =>
    let uid : json.Value := ((content.getD []).lookup "uid").getD .null
    if !uid.isNil && !uid.eqString "" then
      match uid with
      | .string uid => uid
      | _ => ""
    else fromName
  | (_, some _) => fromName

end v1alpha1

/-! ## Methods of the target API types: resync period, variable expansion -/

namespace v1beta1

/-- Method `GetResyncPeriod` of the target dashboard. The receiver is a
pointer: the result is the returned duration next to the receiver as the call
leaves it. `fuel` bounds the depth of the nested calls of the method (one for
the outer call); `none` is a call chain that goes deeper. -/
def GrafanaDashboard.GetResyncPeriod : Nat → GrafanaDashboard → Option (Int × GrafanaDashboard)
  | 0, _ => none
  | fuel + 1, d =>
    if d.Spec.ResyncPeriod = "" then
      GrafanaDashboard.GetResyncPeriod fuel
        { d with Spec := { d.Spec with ResyncPeriod := DefaultResyncPeriod } }
    else
      match time.ParseDuration d.Spec.ResyncPeriod with
      | .error _ =>
        GrafanaDashboard.GetResyncPeriod fuel
          { d with Spec := { d.Spec with ResyncPeriod := DefaultResyncPeriod } }
      | .ok duration => some (duration, d)

/-- Method `GetResyncPeriod` of the target datasource. -/
def GrafanaDatasource.GetResyncPeriod : Nat → GrafanaDatasource → Option (Int × GrafanaDatasource)
  | 0, _ => none
  | fuel + 1, d =>
    if d.Spec.ResyncPeriod = "" then
      GrafanaDatasource.GetResyncPeriod fuel
        { d with Spec := { d.Spec with ResyncPeriod := DefaultResyncPeriod } }
    else
      match time.ParseDuration d.Spec.ResyncPeriod with
      | .error _ =>
        GrafanaDatasource.GetResyncPeriod fuel
          { d with Spec := { d.Spec with ResyncPeriod := DefaultResyncPeriod } }
      | .ok duration => some (duration, d)

/-- Method `GetResyncPeriod` of the target folder. -/
def GrafanaFolder.GetResyncPeriod : Nat → GrafanaFolder → Option (Int × GrafanaFolder)
  | 0, _ => none
  | fuel + 1, d =>
    if d.Spec.ResyncPeriod = "" then
      GrafanaFolder.GetResyncPeriod fuel
        { d with Spec := { d.Spec with ResyncPeriod := DefaultResyncPeriod } }
    else
      match time.ParseDuration d.Spec.ResyncPeriod with
      | .error _ =>
        GrafanaFolder.GetResyncPeriod fuel
          { d with Spec := { d.Spec with ResyncPeriod := DefaultResyncPeriod } }
      | .ok duration => some (duration, d)

/-- The two patterns that `ExpandVariables` replaces for the variable `key`, in
this order: the key after a dollar sign, and the key in braces after a dollar
sign. -/
def variablePatterns (key : String) : List String :=
  ["$" ++ key, "$\x7b" ++ key ++ "\x7d"]

/-- Method `ExpandVariables` of the target datasource. `marshal` is
`json.Marshal` on the datasource body, and `vars` lists the entries of the map
`variables` in the order in which the `range` loop of the call visits them (Go
leaves that order open). -/
def GrafanaDatasource.ExpandVariables
    (marshal : GrafanaDatasourceInternal → Except String Bytes)
    (d : GrafanaDatasource) (vars : List (String × Bytes)) : Option Bytes × Option String :=
  match d.Spec.Datasource with
  | none => (none, some "data source is empty, can't expand variables")
  | some datasource =>
    match marshal datasource with
    | .error err => (none, some err)
    | .ok raw =>
      (some (vars.foldl (fun raw entry =>
        (variablePatterns entry.1).foldl (fun raw pattern =>
          bytes.ReplaceAll raw (Bytes.ofString pattern) entry.2) raw) raw), none)

end v1beta1

/-! ## Controllers (`controllers`) -/

namespace controllers

/-- Struct `EnabledGrafanaConverter`. -/
structure EnabledGrafanaConverter where
  Dashboard : Bool := false
  Datasource : Bool := false
  Folder : Bool := false
  NotificationChannel : Bool := false
  deriving DecidableEq, Repr

/-- Struct `ConverterConfig`. -/
structure ConverterConfig where
  Enable : Bool := false
  Strategy : String := ""
  InstanceSelector : Option metav1.LabelSelector := none
  EnabledGrafanaConverter : EnabledGrafanaConverter := {}
  deriving DecidableEq, Repr

/-- Constant `oldDatasourceUID`. -/
def oldDatasourceUID : String := "PC3E95692D54ABCC0"

/-- Whether the pattern of `reg`, the character class `[^A-Za-z0-9.-]`, matches
the rune `c`. -/
def regMatches (c : Char) : Bool :=
  !(('A' ≤ c && c ≤ 'Z') || ('a' ≤ c && c ≤ 'z') || ('0' ≤ c && c ≤ '9') || c == '.' || c == '-')

/-- The call `reg.ReplaceAllString(src, repl)` for a replacement text `repl`
without `$` (the only one the converter passes is `"-"`): the pattern matches
single runes, so every matching rune is replaced by `repl`. -/
def reg_ReplaceAllString (src repl : String) : String :=
  String.mk (src.data.flatMap (fun c => if regMatches c then repl.data else [c]))

/-- The name-sanitising function of the datasource identity:
`reg.ReplaceAllString(s, "-")`. -/
def sanitize (s : String) : String :=
  reg_ReplaceAllString s "-"

section datasource

variable {J S : Type}

/-- Body of the loop of `convertGrafanaDatasource` for one entry `ds`: either
the error of the failed marshalling (the `continue` branches) or the target
object assigned to `dst[i]`. -/
def convertDatasourceEntry
    (marshalJsonData : J → Except String Bytes)
    (marshalSecureJsonData : S → Except String Bytes)
    (unicodeToLower : Char → Char)
    (conf : ConverterConfig)
    (src : v1alpha1.GrafanaDataSource J S)
    (ds : v1alpha1.GrafanaDataSourceFields J S) : Except String v1beta1.GrafanaDatasource :=
  let jsonData : Except String Bytes :=
    if ds.CustomJsonData.length ≠ 0 then .ok ds.CustomJsonData else marshalJsonData ds.JsonData
  match jsonData with
  | .error err => .error err
  | .ok jsonData =>
    let secureJsonData : Except String Bytes :=
      if ds.CustomSecureJsonData.length ≠ 0 then .ok ds.CustomSecureJsonData
      else marshalSecureJsonData ds.SecureJsonData
    match secureJsonData with
    | .error err => .error err
    | .ok secureJsonData =>
      let uid := if strings.Contains ds.Name "Prometheus" then oldDatasourceUID else ds.Uid
      .ok {
        ObjectMeta := {
          Namespace := src.ObjectMeta.Namespace
          Name := src.ObjectMeta.Namespace ++ "-" ++
            reg_ReplaceAllString (strings.ToLower unicodeToLower ds.Name) "-"
          Labels := src.ObjectMeta.Labels
          Annotations := src.ObjectMeta.Annotations
          OwnerReferences := src.ObjectMeta.OwnerReferences }
        Spec := {
          InstanceSelector := conf.InstanceSelector
          AllowCrossNamespaceImport := some true
          Datasource := some {
            UID := uid
            Name := ds.Name
            Type_ := ds.Type_
            URL := ds.Url
            Access := ds.Access
            Database := ds.Database
            User := ds.User
            OrgID := some ds.OrgId
            IsDefault := some ds.IsDefault
            BasicAuth := some ds.BasicAuth
            BasicAuthUser := ds.BasicAuthUser
            Editable := some ds.Editable
            JSONData := jsonData
            SecureJSONData := secureJsonData }
          ResyncPeriod := v1beta1.DefaultResyncPeriod } }

/-- The error of a loop body, if any. -/
def bodyError {T : Type} (r : Except String T) : Option String :=
  match r with
  | .error err => some err
  | .ok _ => none

/-- The `for i, ds := range src.Spec.Datasources` loop of
`convertGrafanaDatasource`, from index `i` on: `dst` is the result slice
(a nil pointer is `none`) and `errs` the errors joined so far. -/
def convertDatasourceLoop
    (body : v1alpha1.GrafanaDataSourceFields J S → Except String v1beta1.GrafanaDatasource) :
    List (v1alpha1.GrafanaDataSourceFields J S) → Nat →
    List (Option v1beta1.GrafanaDatasource) → List String →
    List (Option v1beta1.GrafanaDatasource) × List String
  | [], _, dst, errs => (dst, errs)
  | ds :: rest, i, dst, errs =>
    match body ds with
    | .error err => convertDatasourceLoop body rest (i + 1) dst (errs ++ [err])
    | .ok betaDatasource =>
      convertDatasourceLoop body rest (i + 1) (dst.set i (some betaDatasource)) errs

/-- Function `convertGrafanaDatasource`: the result slice `dst` (allocated with
one nil slot per entry) and the joined error `errs` (nil iff the list is
empty). -/
def convertGrafanaDatasource
    (marshalJsonData : J → Except String Bytes)
    (marshalSecureJsonData : S → Except String Bytes)
    (unicodeToLower : Char → Char)
    (conf : ConverterConfig)
    (src : v1alpha1.GrafanaDataSource J S) :
    List (Option v1beta1.GrafanaDatasource) × List String :=
  convertDatasourceLoop
    (convertDatasourceEntry marshalJsonData marshalSecureJsonData unicodeToLower conf src)
    src.Spec.Datasources 0 (List.replicate src.Spec.Datasources.length none) []

end datasource

/-- Function `convertGrafanaDashboard`; the two `for ... range` loops append
one element per legacy element to the nil slices of the target. -/
def convertGrafanaDashboard (conf : ConverterConfig) (src : v1alpha1.GrafanaDashboard) :
    v1beta1.GrafanaDashboard :=
  { ObjectMeta := {
      Namespace := src.ObjectMeta.Namespace
      Name := src.ObjectMeta.Name
      Labels := src.ObjectMeta.Labels
      Annotations := src.ObjectMeta.Annotations
      OwnerReferences := src.ObjectMeta.OwnerReferences }
    Spec := {
      Json := src.Spec.Json
      GzipJson := src.Spec.GzipJson
      Url := src.Spec.Url
      Jsonnet := src.Spec.Jsonnet
      ConfigMapRef := src.Spec.ConfigMapRef
      InstanceSelector := conf.InstanceSelector
      AllowCrossNamespaceImport := some true
      FolderTitle := src.Spec.CustomFolderName
      ResyncPeriod := v1beta1.DefaultResyncPeriod
      Plugins := src.Spec.Plugins.foldl (fun plugins plugin =>
        plugins ++ [{ Name := plugin.Name, Version := plugin.Version }]) []
      Datasources := src.Spec.Datasources.foldl (fun datasources datasource =>
        datasources ++
          [{ InputName := datasource.InputName, DatasourceName := datasource.DatasourceName }]) []
      GrafanaCom := src.Spec.GrafanaCom.map (fun g => { Id := g.Id, Revision := g.Revision })
      ContentCacheDuration :=
        match src.Spec.ContentCacheDuration with
        | some d => d
        | none => 0 } }

/-- One iteration of the loop of `buildFolderPermission`: the text written for
`item`, the two `Fprintf` branches. -/
def folderPermissionItem (isPrintWide : Char → Bool) (item : v1alpha1.GrafanaPermissionItem) :
    String :=
  match strconv.ParseInt item.PermissionTarget with
  | some val =>
    "\x7b" ++ strconv.Quote isPrintWide item.PermissionTargetType ++ ": " ++ fmt.formatInt val ++
      ", \"permission\": " ++ fmt.formatInt item.PermissionLevel ++ "\x7d"
  | none =>
    "\x7b" ++ strconv.Quote isPrintWide item.PermissionTargetType ++ ": " ++
      strconv.Quote isPrintWide item.PermissionTarget ++
      ", \"permission\": " ++ fmt.formatInt item.PermissionLevel ++ "\x7d"

/-- The loop of `buildFolderPermission`: the text appended to the builder for
the remaining items, a comma after every item but the last. -/
def folderPermissionItems (isPrintWide : Char → Bool) :
    List v1alpha1.GrafanaPermissionItem → String
  | [] => ""
  | [item] => folderPermissionItem isPrintWide item
  | item :: next :: rest =>
    folderPermissionItem isPrintWide item ++ "," ++ folderPermissionItems isPrintWide (next :: rest)

/-- Function `buildFolderPermission`. -/
def buildFolderPermission (isPrintWide : Char → Bool)
    (folderPermissions : List v1alpha1.GrafanaPermissionItem) : String :=
  "\x7b \"items\": [ " ++ folderPermissionItems isPrintWide folderPermissions ++ " ]\x7d"

/-- Function `convertGrafanaFolder`. -/
def convertGrafanaFolder (isPrintWide : Char → Bool) (conf : ConverterConfig)
    (src : v1alpha1.GrafanaFolder) : v1beta1.GrafanaFolder :=
  { ObjectMeta := {
      Namespace := src.ObjectMeta.Namespace
      Name := src.ObjectMeta.Name
      Labels := src.ObjectMeta.Labels
      Annotations := src.ObjectMeta.Annotations
      OwnerReferences := src.ObjectMeta.OwnerReferences }
    Spec := {
      Title := src.Spec.FolderName
      Permissions := buildFolderPermission isPrintWide src.GetPermissions
      InstanceSelector := conf.InstanceSelector
      AllowCrossNamespaceImport := some true
      ResyncPeriod := v1beta1.DefaultResyncPeriod } }

/-- The library struct `models.EmbeddedContactPoint`, with the fields the
converter reads; `A` is the type of a decoded JSON value, and a nil `Settings`
interface is `none`. -/
structure EmbeddedContactPoint (A : Type) where
  Name : String := ""
  Type_ : Option String := none
  DisableResolveMessage : Bool := false
  Settings : Option A := none

/-- Outcome of a conversion that can return an error or panic. -/
inductive ConvertResult (T : Type) where
  | ok (dst : T)
  | error (err : String)
  | panic
  deriving DecidableEq, Repr

/-- The result of a conversion with `f` applied to the target, if there is
one. -/
def ConvertResult.map {T U : Type} (f : T → U) : ConvertResult T → ConvertResult U
  | .ok dst => .ok (f dst)
  | .error err => .error err
  | .panic => .panic

/-- Function `jsonPtr`: the raw bytes of the marshalled value, `none` when it
panics. -/
def jsonPtr {A : Type} (marshal : Option A → Except String Bytes) (x : Option A) :
    Option Bytes :=
  match marshal x with
  | .error _ => none
  | .ok bs => some bs

/-- Function `convertGrafanaNotificationChannel`; `unmarshal` is
`json.Unmarshal` into a zero `models.EmbeddedContactPoint` and `marshal` is
`json.Marshal` of the settings value. -/
def convertGrafanaNotificationChannel {A : Type}
    (unmarshal : String → Except String (EmbeddedContactPoint A))
    (marshal : Option A → Except String Bytes)
    (conf : ConverterConfig) (src : v1alpha1.GrafanaNotificationChannel) :
    ConvertResult v1beta1.GrafanaContactPoint :=
  let parsed : Except String (EmbeddedContactPoint A) :=
    if src.Spec.Json.utf8ByteSize > 0 then unmarshal src.Spec.Json else .ok {}
  match parsed with
  | .error err => .error err
  | .ok embeddedContactPoint =>
    match embeddedContactPoint.Type_ with
    | none => .panic
    | some type =>
      match jsonPtr marshal embeddedContactPoint.Settings with
      | none => .panic
      | some settings =>
        .ok {
          ObjectMeta := {
            Namespace := src.ObjectMeta.Namespace
            Name := src.ObjectMeta.Name
            Labels := src.ObjectMeta.Labels
            Annotations := src.ObjectMeta.Annotations
            OwnerReferences := src.ObjectMeta.OwnerReferences }
          Spec := {
            Name := embeddedContactPoint.Name
            Type_ := type
            DisableResolveMessage := embeddedContactPoint.DisableResolveMessage
            Settings := some settings
            AllowCrossNamespaceImport := some true
            ResyncPeriod := v1beta1.DefaultResyncPeriodDuration
            InstanceSelector := conf.InstanceSelector } }

/-! ### The typed store client and the traces of the handlers -/

/-- The classes of store errors the handlers distinguish (`IsNotFound`,
`IsAlreadyExists`) and the others. -/
inductive StoreError where
  | NotFound
  | AlreadyExists
  | Conflict
  | Other
  deriving DecidableEq, Repr

/-- The pair `(result, err)` a call of the typed client returns. -/
structure Response (Obj : Type) where
  result : Option Obj := none
  err : Option StoreError := none
  deriving DecidableEq, Repr

/-- The typed client of one target kind, as a transition system on the store
state `σ`: `Get` takes the namespace and the name, `Create` and `Update` the
namespace the client is scoped to and the object. -/
structure Client (Obj σ : Type) where
  Get : σ → String → String → Response Obj × σ
  Create : σ → String → Obj → Response Obj × σ
  Update : σ → String → Obj → Response Obj × σ

/-- The decision log lines of the handlers. -/
inductive Log where
  /-- Log line "type assertion failed". -/
  | castFailed
  /-- Log line "no diffs in ...". -/
  | noDiffs
  /-- Log line "cannot convert some ...". -/
  | cannotConvert
  /-- Log line "... has been created". -/
  | created
  /-- Log line "cannot create ...". -/
  | cannotCreate
  /-- Log line "cannot get existing ...". -/
  | cannotGet
  /-- Log line "no updates in ...". -/
  | noUpdates
  /-- Log line "... has been updated". -/
  | updated
  /-- Log line "cannot update ...". -/
  | cannotUpdate
  deriving DecidableEq, Repr

/-- What a handler does, in order: calls of its converter, calls of the store
client and decision log lines. -/
inductive Event (Obj : Type) where
  | convert
  | get (ns name : String)
  | create (ns : String) (obj : Obj)
  | update (ns : String) (obj : Obj)
  | log (l : Log)
  deriving DecidableEq, Repr

/-- Whether the event is a `Create` call. -/
def Event.isCreate {Obj : Type} : Event Obj → Bool
  | .create _ _ => true
  | _ => false

/-- Whether the event is an `Update` call. -/
def Event.isUpdate {Obj : Type} : Event Obj → Bool
  | .update _ _ => true
  | _ => false

/-- Whether the event is a call of the store client. -/
def Event.isCall {Obj : Type} : Event Obj → Bool
  | .get _ _ => true
  | .create _ _ => true
  | .update _ _ => true
  | _ => false

/-- One run of a handler: its trace, whether it ended in a panic (a nil
dereference or an assignment into a nil map), and the store state it leaves. -/
structure Run (Obj σ : Type) where
  trace : List (Event Obj) := []
  panicked : Bool := false
  state : σ

/-- The run `r` continued from a prefix `evs` of events. -/
def Run.after {Obj σ : Type} (evs : List (Event Obj)) (r : Run Obj σ) : Run Obj σ :=
  { r with trace := evs ++ r.trace }

/-- The event payload `interface{}` of a watch callback: nil, a pointer to an
object of one of the legacy or target kinds, or anything else. -/
inductive Payload (J S : Type) where
  | nil
  | alphaDashboard (o : v1alpha1.GrafanaDashboard)
  | betaDashboard (o : v1beta1.GrafanaDashboard)
  | alphaDatasource (o : v1alpha1.GrafanaDataSource J S)
  | betaDatasource (o : v1beta1.GrafanaDatasource)
  | alphaFolder (o : v1alpha1.GrafanaFolder)
  | betaFolder (o : v1beta1.GrafanaFolder)
  | alphaNotificationChannel (o : v1alpha1.GrafanaNotificationChannel)
  | betaContactPoint (o : v1beta1.GrafanaContactPoint)
  | other

/-- The test `old != nil` on a payload. -/
def Payload.isNil {J S : Type} : Payload J S → Bool
  | .nil => true
  | _ => false

/-! ### Dashboards -/

section dashboard

variable {J S σ : Type}

/-- Lines 79 to 120 of `updateGrafanaDashboard`: the read of the existing
target and the create, skip or update that follows, for the desired object
`v1beta1Dashboard`. `deepEqual` is `apiequality.Semantic.DeepEqual` on target
specs. -/
def updateGrafanaDashboardTarget (client : Client v1beta1.GrafanaDashboard σ)
    (deepEqual : v1beta1.GrafanaDashboardSpec → v1beta1.GrafanaDashboardSpec → Bool)
    (st : σ) (v1beta1Dashboard : v1beta1.GrafanaDashboard) :
    Run v1beta1.GrafanaDashboard σ :=
  let ns := v1beta1Dashboard.ObjectMeta.Namespace
  let got := client.Get st ns v1beta1Dashboard.ObjectMeta.Name
  let evGet : Event v1beta1.GrafanaDashboard := .get ns v1beta1Dashboard.ObjectMeta.Name
  match got.1.err with
  | some err =>
    if err = .NotFound then
      let made := client.Create got.2 ns v1beta1Dashboard
      let evCreate : Event v1beta1.GrafanaDashboard := .create ns v1beta1Dashboard
      match made.1.err with
      | none =>
        match made.1.result with
        | none => { trace := [evGet, evCreate], panicked := true, state := made.2 }
        | some _ => { trace := [evGet, evCreate, .log .created], state := made.2 }
      | some _ => { trace := [evGet, evCreate, .log .cannotGet], state := made.2 }
    else { trace := [evGet, .log .cannotGet], state := got.2 }
  | none =>
    match got.1.result with
    | none => { trace := [evGet], panicked := true, state := got.2 }
    | some existingDashboard =>
      if deepEqual existingDashboard.Spec v1beta1Dashboard.Spec then
        { trace := [evGet, .log .noUpdates], state := got.2 }
      else
        let annotations0 : metav1.StringMap :=
          if existingDashboard.ObjectMeta.Annotations = none then some []
          else existingDashboard.ObjectMeta.Annotations
        match maps.Copy annotations0 v1beta1Dashboard.ObjectMeta.Annotations with
        | none => { trace := [evGet], panicked := true, state := got.2 }
        | some annotations =>
          let labels0 : metav1.StringMap :=
            if existingDashboard.ObjectMeta.Labels = none then some []
            else existingDashboard.ObjectMeta.Labels
          match maps.Copy labels0 v1beta1Dashboard.ObjectMeta.Labels with
          | none => { trace := [evGet], panicked := true, state := got.2 }
          | some labels =>
            let existingDashboard : v1beta1.GrafanaDashboard :=
              { ObjectMeta := { existingDashboard.ObjectMeta with
                  Annotations := annotations
                  Labels := labels
                  OwnerReferences := v1beta1Dashboard.ObjectMeta.OwnerReferences }
                Spec := v1beta1Dashboard.Spec }
            let put := client.Update got.2 existingDashboard.ObjectMeta.Namespace existingDashboard
            let evUpdate : Event v1beta1.GrafanaDashboard :=
              .update existingDashboard.ObjectMeta.Namespace existingDashboard
            match put.1.result with
            | none => { trace := [evGet, evUpdate], panicked := true, state := put.2 }
            | some _ =>
              match put.1.err with
              | some _ =>
                { trace := [evGet, evUpdate, .log .updated, .log .cannotUpdate], state := put.2 }
              | none => { trace := [evGet, evUpdate, .log .updated], state := put.2 }

/-- Function `updateGrafanaDashboard`; `deepEqualOld` and `deepEqual` are
`apiequality.Semantic.DeepEqual` on legacy and on target dashboard specs. In
the last branch (line 73) the failed type assertion is reported with `l.Error`
on the logger variable `l` before it is assigned: the zero `logr.Logger` writes
nothing, so the run has no log line. -/
def updateGrafanaDashboard (client : Client v1beta1.GrafanaDashboard σ)
    (deepEqualOld : v1alpha1.GrafanaDashboardSpec → v1alpha1.GrafanaDashboardSpec → Bool)
    (deepEqual : v1beta1.GrafanaDashboardSpec → v1beta1.GrafanaDashboardSpec → Bool)
    (conf : ConverterConfig) (st : σ) (old new : Payload J S) :
    Run v1beta1.GrafanaDashboard σ :=
  match new, old.isNil with
  | .alphaDashboard dashboard, false =>
    match old with
    | .alphaDashboard alphaDashboardOld =>
      if deepEqualOld alphaDashboardOld.Spec dashboard.Spec then
        { trace := [.log .noDiffs], state := st }
      else
        (updateGrafanaDashboardTarget client deepEqual st
          (convertGrafanaDashboard conf dashboard)).after [.convert]
    | _ => { trace := [.log .castFailed], state := st }
  | .betaDashboard v1beta1Dashboard, _ =>
    updateGrafanaDashboardTarget client deepEqual st v1beta1Dashboard
  | _, _ => { trace := [], state := st }

/-- Function `createGrafanaDashboard`. -/
def createGrafanaDashboard (client : Client v1beta1.GrafanaDashboard σ)
    (deepEqualOld : v1alpha1.GrafanaDashboardSpec → v1alpha1.GrafanaDashboardSpec → Bool)
    (deepEqual : v1beta1.GrafanaDashboardSpec → v1beta1.GrafanaDashboardSpec → Bool)
    (conf : ConverterConfig) (st : σ) (dashboard : Payload J S) :
    Run v1beta1.GrafanaDashboard σ :=
  match dashboard with
  | .alphaDashboard alphaDashboard =>
    let cr := convertGrafanaDashboard conf alphaDashboard
    let made := client.Create st cr.ObjectMeta.Namespace cr
    let evCreate : Event v1beta1.GrafanaDashboard := .create cr.ObjectMeta.Namespace cr
    match made.1.err with
    | some err =>
      if err = .AlreadyExists then
        (updateGrafanaDashboard client deepEqualOld deepEqual conf made.2
          (.nil : Payload J S) (.betaDashboard cr)).after [.convert, evCreate]
      else { trace := [.convert, evCreate, .log .cannotCreate], state := made.2 }
    | none =>
      match made.1.result with
      | none => { trace := [.convert, evCreate], panicked := true, state := made.2 }
      | some _ => { trace := [.convert, evCreate, .log .created], state := made.2 }
  | _ => { trace := [.log .castFailed], state := st }

/-- The call `updateGrafanaDashboard(old, new)` reaches its update path (line
79) with the desired object `d`: either `new` is the target object `d` itself
(the fallback of the create handler), or `old` and `new` are legacy dashboards
whose specs differ and `d` is the conversion of `new`. -/
def reachesDashboardUpdatePath {J S : Type}
    (deepEqualOld : v1alpha1.GrafanaDashboardSpec → v1alpha1.GrafanaDashboardSpec → Bool)
    (conf : ConverterConfig) (old new : Payload J S) (d : v1beta1.GrafanaDashboard) : Prop :=
  new = .betaDashboard d ∨
    ∃ alphaDashboardOld dashboard, old = .alphaDashboard alphaDashboardOld ∧
      new = .alphaDashboard dashboard ∧
      deepEqualOld alphaDashboardOld.Spec dashboard.Spec = false ∧
      d = convertGrafanaDashboard conf dashboard

end dashboard

/-! ### Folders -/

section folder

variable {J S σ : Type}

/-- Lines 76 to 111 of `updateGrafanaFolder`, for the desired object
`v1beta1Folder`. -/
def updateGrafanaFolderTarget (client : Client v1beta1.GrafanaFolder σ)
    (deepEqual : v1beta1.GrafanaFolderSpec → v1beta1.GrafanaFolderSpec → Bool)
    (st : σ) (v1beta1Folder : v1beta1.GrafanaFolder) : Run v1beta1.GrafanaFolder σ :=
  let ns := v1beta1Folder.ObjectMeta.Namespace
  let got := client.Get st ns v1beta1Folder.ObjectMeta.Name
  let evGet : Event v1beta1.GrafanaFolder := .get ns v1beta1Folder.ObjectMeta.Name
  match got.1.err with
  | some err =>
    if err = .NotFound then
      let made := client.Create got.2 ns v1beta1Folder
      let evCreate : Event v1beta1.GrafanaFolder := .create ns v1beta1Folder
      match made.1.err with
      | none =>
        match made.1.result with
        | none => { trace := [evGet, evCreate], panicked := true, state := made.2 }
        | some _ => { trace := [evGet, evCreate, .log .created], state := made.2 }
      | some _ => { trace := [evGet, evCreate, .log .cannotGet], state := made.2 }
    else { trace := [evGet, .log .cannotGet], state := got.2 }
  | none =>
    match got.1.result with
    | none => { trace := [evGet], panicked := true, state := got.2 }
    | some existingFolder =>
      if deepEqual existingFolder.Spec v1beta1Folder.Spec then
        { trace := [evGet, .log .noUpdates], state := got.2 }
      else
        match maps.Copy existingFolder.ObjectMeta.Annotations
            v1beta1Folder.ObjectMeta.Annotations with
        | none => { trace := [evGet], panicked := true, state := got.2 }
        | some annotations =>
          match maps.Copy existingFolder.ObjectMeta.Labels v1beta1Folder.ObjectMeta.Labels with
          | none => { trace := [evGet], panicked := true, state := got.2 }
          | some labels =>
            let existingFolder : v1beta1.GrafanaFolder :=
              { ObjectMeta := { existingFolder.ObjectMeta with
                  Annotations := annotations
                  Labels := labels
                  OwnerReferences := v1beta1Folder.ObjectMeta.OwnerReferences }
                Spec := v1beta1Folder.Spec }
            let put := client.Update got.2 existingFolder.ObjectMeta.Namespace existingFolder
            let evUpdate : Event v1beta1.GrafanaFolder :=
              .update existingFolder.ObjectMeta.Namespace existingFolder
            match put.1.result with
            | none => { trace := [evGet, evUpdate], panicked := true, state := put.2 }
            | some _ =>
              match put.1.err with
              | some _ =>
                { trace := [evGet, evUpdate, .log .updated, .log .cannotUpdate], state := put.2 }
              | none => { trace := [evGet, evUpdate, .log .updated], state := put.2 }

/-- Function `updateGrafanaFolder`. In the last branch (line 70) the failed
type assertion is reported with `l.Error` on the logger variable `l` before it
is assigned: the zero `logr.Logger` writes nothing, so the run has no log
line. -/
def updateGrafanaFolder (client : Client v1beta1.GrafanaFolder σ)
    (deepEqualOld : v1alpha1.GrafanaFolderSpec → v1alpha1.GrafanaFolderSpec → Bool)
    (deepEqual : v1beta1.GrafanaFolderSpec → v1beta1.GrafanaFolderSpec → Bool)
    (isPrintWide : Char → Bool) (conf : ConverterConfig) (st : σ) (old new : Payload J S) :
    Run v1beta1.GrafanaFolder σ :=
  match new, old.isNil with
  | .alphaFolder folder, false =>
    match old with
    | .alphaFolder alphaFolderOld =>
      if deepEqualOld alphaFolderOld.Spec folder.Spec then
        { trace := [.log .noDiffs], state := st }
      else
        (updateGrafanaFolderTarget client deepEqual st
          (convertGrafanaFolder isPrintWide conf folder)).after [.convert]
    | _ => { trace := [.log .castFailed], state := st }
  | .betaFolder v1beta1Folder, _ => updateGrafanaFolderTarget client deepEqual st v1beta1Folder
  | _, _ => { trace := [], state := st }

/-- Function `createGrafanaFolder`. -/
def createGrafanaFolder (client : Client v1beta1.GrafanaFolder σ)
    (deepEqualOld : v1alpha1.GrafanaFolderSpec → v1alpha1.GrafanaFolderSpec → Bool)
    (deepEqual : v1beta1.GrafanaFolderSpec → v1beta1.GrafanaFolderSpec → Bool)
    (isPrintWide : Char → Bool) (conf : ConverterConfig) (st : σ) (folder : Payload J S) :
    Run v1beta1.GrafanaFolder σ :=
  match folder with
  | .alphaFolder alphaFolder =>
    let cr := convertGrafanaFolder isPrintWide conf alphaFolder
    let made := client.Create st cr.ObjectMeta.Namespace cr
    let evCreate : Event v1beta1.GrafanaFolder := .create cr.ObjectMeta.Namespace cr
    match made.1.err with
    | some err =>
      if err = .AlreadyExists then
        (updateGrafanaFolder client deepEqualOld deepEqual isPrintWide conf made.2
          (.nil : Payload J S) (.betaFolder cr)).after [.convert, evCreate]
      else { trace := [.convert, evCreate, .log .cannotCreate], state := made.2 }
    | none =>
      match made.1.result with
      | none => { trace := [.convert, evCreate], panicked := true, state := made.2 }
      | some _ => { trace := [.convert, evCreate, .log .created], state := made.2 }
  | _ => { trace := [.log .castFailed], state := st }

end folder

/-! ### Notification channels -/

section notificationchannel

variable {J S A σ : Type}

/-- Lines 89 to 124 of `updateGrafanaNotificationChannel`, for the desired
object `contactPoint`; `notificationChannel` is the variable of that name, nil
(`none`) when the payload was not a legacy notification channel. -/
def updateGrafanaNotificationChannelTarget (client : Client v1beta1.GrafanaContactPoint σ)
    (deepEqual : v1beta1.GrafanaContactPointSpec → v1beta1.GrafanaContactPointSpec → Bool)
    (st : σ) (notificationChannel : Option v1alpha1.GrafanaNotificationChannel)
    (contactPoint : v1beta1.GrafanaContactPoint) : Run v1beta1.GrafanaContactPoint σ :=
  let got := client.Get st contactPoint.ObjectMeta.Namespace contactPoint.ObjectMeta.Name
  let evGet : Event v1beta1.GrafanaContactPoint :=
    .get contactPoint.ObjectMeta.Namespace contactPoint.ObjectMeta.Name
  match got.1.err with
  | some err =>
    if err = .NotFound then
      match notificationChannel with
      | none => { trace := [evGet], panicked := true, state := got.2 }
      | some notificationChannel =>
        let made := client.Create got.2 notificationChannel.ObjectMeta.Namespace contactPoint
        let evCreate : Event v1beta1.GrafanaContactPoint :=
          .create notificationChannel.ObjectMeta.Namespace contactPoint
        match made.1.err with
        | none =>
          match made.1.result with
          | none => { trace := [evGet, evCreate], panicked := true, state := made.2 }
          | some _ => { trace := [evGet, evCreate, .log .created], state := made.2 }
        | some _ => { trace := [evGet, evCreate, .log .cannotGet], state := made.2 }
    else { trace := [evGet, .log .cannotGet], state := got.2 }
  | none =>
    match got.1.result with
    | none => { trace := [evGet], panicked := true, state := got.2 }
    | some existingContactPoint =>
      if deepEqual existingContactPoint.Spec contactPoint.Spec then
        { trace := [evGet, .log .noUpdates], state := got.2 }
      else
        match maps.Copy existingContactPoint.ObjectMeta.Annotations
            contactPoint.ObjectMeta.Annotations with
        | none => { trace := [evGet], panicked := true, state := got.2 }
        | some annotations =>
          match maps.Copy existingContactPoint.ObjectMeta.Labels
              contactPoint.ObjectMeta.Labels with
          | none => { trace := [evGet], panicked := true, state := got.2 }
          | some labels =>
            let existingContactPoint : v1beta1.GrafanaContactPoint :=
              { ObjectMeta := { existingContactPoint.ObjectMeta with
                  Annotations := annotations
                  Labels := labels
                  OwnerReferences := contactPoint.ObjectMeta.OwnerReferences }
                Spec := contactPoint.Spec }
            let put := client.Update got.2 existingContactPoint.ObjectMeta.Namespace
              existingContactPoint
            let evUpdate : Event v1beta1.GrafanaContactPoint :=
              .update existingContactPoint.ObjectMeta.Namespace existingContactPoint
            match put.1.result with
            | none => { trace := [evGet, evUpdate], panicked := true, state := put.2 }
            | some _ =>
              match put.1.err with
              | some _ =>
                { trace := [evGet, evUpdate, .log .updated, .log .cannotUpdate], state := put.2 }
              | none => { trace := [evGet, evUpdate, .log .updated], state := put.2 }

/-- Function `updateGrafanaNotificationChannel`. In the last branch (line 83)
the failed type assertion is reported with `l.Error` on the logger variable `l`
before it is assigned: the zero `logr.Logger` writes nothing, so the run has no
log line. -/
def updateGrafanaNotificationChannel (client : Client v1beta1.GrafanaContactPoint σ)
    (deepEqualOld :
      v1alpha1.GrafanaNotificationChannelSpec → v1alpha1.GrafanaNotificationChannelSpec → Bool)
    (deepEqual : v1beta1.GrafanaContactPointSpec → v1beta1.GrafanaContactPointSpec → Bool)
    (unmarshal : String → Except String (EmbeddedContactPoint A))
    (marshal : Option A → Except String Bytes)
    (conf : ConverterConfig) (st : σ) (old new : Payload J S) :
    Run v1beta1.GrafanaContactPoint σ :=
  match new, old.isNil with
  | .alphaNotificationChannel notificationChannel, false =>
    match old with
    | .alphaNotificationChannel notificationChannelOld =>
      if deepEqualOld notificationChannelOld.Spec notificationChannel.Spec then
        { trace := [.log .noDiffs], state := st }
      else
        match convertGrafanaNotificationChannel unmarshal marshal conf notificationChannel with
        | .panic => { trace := [.convert], panicked := true, state := st }
        | .error _ => { trace := [.convert, .log .cannotConvert], state := st }
        | .ok contactPoint =>
          (updateGrafanaNotificationChannelTarget client deepEqual st (some notificationChannel)
            contactPoint).after [.convert]
    | _ => { trace := [.log .castFailed], state := st }
  | .betaContactPoint contactPoint, _ =>
    updateGrafanaNotificationChannelTarget client deepEqual st none contactPoint
  | _, _ => { trace := [], state := st }

/-- Function `createGrafanaNotificationChannel`. -/
def createGrafanaNotificationChannel (client : Client v1beta1.GrafanaContactPoint σ)
    (deepEqualOld :
      v1alpha1.GrafanaNotificationChannelSpec → v1alpha1.GrafanaNotificationChannelSpec → Bool)
    (deepEqual : v1beta1.GrafanaContactPointSpec → v1beta1.GrafanaContactPointSpec → Bool)
    (unmarshal : String → Except String (EmbeddedContactPoint A))
    (marshal : Option A → Except String Bytes)
    (conf : ConverterConfig) (st : σ) (nc : Payload J S) :
    Run v1beta1.GrafanaContactPoint σ :=
  match nc with
  | .alphaNotificationChannel notificationChannel =>
    match convertGrafanaNotificationChannel unmarshal marshal conf notificationChannel with
    | .panic => { trace := [.convert], panicked := true, state := st }
    | .error _ => { trace := [.convert, .log .cannotConvert], state := st }
    | .ok cp =>
      let made := client.Create st cp.ObjectMeta.Namespace cp
      let evCreate : Event v1beta1.GrafanaContactPoint := .create cp.ObjectMeta.Namespace cp
      match made.1.err with
      | some err =>
        if err = .AlreadyExists then
          (updateGrafanaNotificationChannel client deepEqualOld deepEqual unmarshal marshal conf
            made.2 (.nil : Payload J S) (.betaContactPoint cp)).after [.convert, evCreate]
        else { trace := [.convert, evCreate, .log .cannotCreate], state := made.2 }
      | none =>
        match made.1.result with
        | none => { trace := [.convert, evCreate], panicked := true, state := made.2 }
        | some _ => { trace := [.convert, evCreate, .log .created], state := made.2 }
  | _ => { trace := [.log .castFailed], state := st }

end notificationchannel

/-! ### Datasources -/

section datasourceHandlers

variable {J S σ : Type}

/-- A `for _, t := range targets` loop whose body is `step`: a panic of the
body ends the run, otherwise the loop goes on from the state the body left. -/
def forEachTarget {T Obj : Type} (step : σ → T → Run Obj σ) : σ → List T → Run Obj σ
  | st, [] => { state := st }
  | st, t :: rest =>
    let r := step st t
    if r.panicked then r else (forEachTarget step r.state rest).after r.trace

/-- Body of the loop of `updateGrafanaDatasource` (lines 95 to 129) for one
element `ds` of `v1beta1Datasources`; a nil element is `none`. -/
def updateGrafanaDatasourceTarget (client : Client v1beta1.GrafanaDatasource σ)
    (deepEqual : v1beta1.GrafanaDatasourceSpec → v1beta1.GrafanaDatasourceSpec → Bool)
    (st : σ) (ds : Option v1beta1.GrafanaDatasource) : Run v1beta1.GrafanaDatasource σ :=
  match ds with
  | none => { panicked := true, state := st }
  | some ds =>
    let ns := ds.ObjectMeta.Namespace
    let got := client.Get st ns ds.ObjectMeta.Name
    let evGet : Event v1beta1.GrafanaDatasource := .get ns ds.ObjectMeta.Name
    match got.1.err with
    | some err =>
      if err = .NotFound then
        let made := client.Create got.2 ns ds
        let evCreate : Event v1beta1.GrafanaDatasource := .create ns ds
        match made.1.err with
        | none =>
          match made.1.result with
          | none => { trace := [evGet, evCreate], panicked := true, state := made.2 }
          | some _ => { trace := [evGet, evCreate, .log .created], state := made.2 }
        | some _ => { trace := [evGet, evCreate, .log .cannotGet], state := made.2 }
      else { trace := [evGet, .log .cannotGet], state := got.2 }
    | none =>
      match got.1.result with
      | none => { trace := [evGet], panicked := true, state := got.2 }
      | some existingDatasource =>
        if deepEqual existingDatasource.Spec ds.Spec then
          { trace := [evGet, .log .noUpdates], state := got.2 }
        else
          match maps.Copy existingDatasource.ObjectMeta.Annotations ds.ObjectMeta.Annotations with
          | none => { trace := [evGet], panicked := true, state := got.2 }
          | some annotations =>
            match maps.Copy existingDatasource.ObjectMeta.Labels ds.ObjectMeta.Labels with
            | none => { trace := [evGet], panicked := true, state := got.2 }
            | some labels =>
              let existingDatasource : v1beta1.GrafanaDatasource :=
                { ObjectMeta := { existingDatasource.ObjectMeta with
                    Annotations := annotations
                    Labels := labels
                    OwnerReferences := ds.ObjectMeta.OwnerReferences }
                  Spec := ds.Spec }
              let put := client.Update got.2 existingDatasource.ObjectMeta.Namespace
                existingDatasource
              let evUpdate : Event v1beta1.GrafanaDatasource :=
                .update existingDatasource.ObjectMeta.Namespace existingDatasource
              match put.1.result with
              | none => { trace := [evGet, evUpdate], panicked := true, state := put.2 }
              | some _ =>
                match put.1.err with
                | some _ =>
                  { trace := [evGet, evUpdate, .log .updated, .log .cannotUpdate],
                    state := put.2 }
                | none => { trace := [evGet, evUpdate, .log .updated], state := put.2 }

/-- Function `updateGrafanaDatasource`. Both failed type assertions are
reported with `c.log.Error`, the logger of the controller. -/
def updateGrafanaDatasource (client : Client v1beta1.GrafanaDatasource σ)
    (deepEqualOld : v1alpha1.GrafanaDataSourceSpec J S → v1alpha1.GrafanaDataSourceSpec J S → Bool)
    (deepEqual : v1beta1.GrafanaDatasourceSpec → v1beta1.GrafanaDatasourceSpec → Bool)
    (marshalJsonData : J → Except String Bytes)
    (marshalSecureJsonData : S → Except String Bytes)
    (unicodeToLower : Char → Char)
    (conf : ConverterConfig) (st : σ) (old new : Payload J S) :
    Run v1beta1.GrafanaDatasource σ :=
  match new, old.isNil with
  | .alphaDatasource v1alpha1Datasource, false =>
    match old with
    | .alphaDatasource v1alpha1DatasourceOld =>
      if deepEqualOld v1alpha1DatasourceOld.Spec v1alpha1Datasource.Spec then
        { trace := [.log .noDiffs], state := st }
      else
        let converted := convertGrafanaDatasource marshalJsonData marshalSecureJsonData
          unicodeToLower conf v1alpha1Datasource
        let evs : List (Event v1beta1.GrafanaDatasource) :=
          if converted.2 = [] then [.convert] else [.convert, .log .cannotConvert]
        (forEachTarget (updateGrafanaDatasourceTarget client deepEqual) st converted.1).after evs
    | _ => { trace := [.log .castFailed], state := st }
  | .betaDatasource v1beta1Datasource, _ =>
    forEachTarget (updateGrafanaDatasourceTarget client deepEqual) st [some v1beta1Datasource]
  | _, _ => { trace := [.log .castFailed], state := st }

/-- Body of the loop of `createGrafanaDatasource` for one element `cr` of
`crs`; a nil element is `none`. -/
def createGrafanaDatasourceTarget (client : Client v1beta1.GrafanaDatasource σ)
    (deepEqualOld : v1alpha1.GrafanaDataSourceSpec J S → v1alpha1.GrafanaDataSourceSpec J S → Bool)
    (deepEqual : v1beta1.GrafanaDatasourceSpec → v1beta1.GrafanaDatasourceSpec → Bool)
    (marshalJsonData : J → Except String Bytes)
    (marshalSecureJsonData : S → Except String Bytes)
    (unicodeToLower : Char → Char)
    (conf : ConverterConfig) (st : σ) (cr : Option v1beta1.GrafanaDatasource) :
    Run v1beta1.GrafanaDatasource σ :=
  match cr with
  | none => { panicked := true, state := st }
  | some cr =>
    let made := client.Create st cr.ObjectMeta.Namespace cr
    let evCreate : Event v1beta1.GrafanaDatasource := .create cr.ObjectMeta.Namespace cr
    match made.1.err with
    | some err =>
      if err = .AlreadyExists then
        (updateGrafanaDatasource client deepEqualOld deepEqual marshalJsonData
          marshalSecureJsonData unicodeToLower conf made.2
          (.nil : Payload J S) (.betaDatasource cr)).after [evCreate]
      else { trace := [evCreate, .log .cannotCreate], state := made.2 }
    | none =>
      match made.1.result with
      | none => { trace := [evCreate], panicked := true, state := made.2 }
      | some _ => { trace := [evCreate, .log .created], state := made.2 }

/-- Function `createGrafanaDatasource`. -/
def createGrafanaDatasource (client : Client v1beta1.GrafanaDatasource σ)
    (deepEqualOld : v1alpha1.GrafanaDataSourceSpec J S → v1alpha1.GrafanaDataSourceSpec J S → Bool)
    (deepEqual : v1beta1.GrafanaDatasourceSpec → v1beta1.GrafanaDatasourceSpec → Bool)
    (marshalJsonData : J → Except String Bytes)
    (marshalSecureJsonData : S → Except String Bytes)
    (unicodeToLower : Char → Char)
    (conf : ConverterConfig) (st : σ) (datasource : Payload J S) :
    Run v1beta1.GrafanaDatasource σ :=
  match datasource with
  | .alphaDatasource alphaDatasource =>
    let converted := convertGrafanaDatasource marshalJsonData marshalSecureJsonData
      unicodeToLower conf alphaDatasource
    let evs : List (Event v1beta1.GrafanaDatasource) :=
      if converted.2 = [] then [.convert] else [.convert, .log .cannotConvert]
    (forEachTarget
      (createGrafanaDatasourceTarget client deepEqualOld deepEqual marshalJsonData
        marshalSecureJsonData unicodeToLower conf) st converted.1).after evs
  | _ => { trace := [.log .castFailed], state := st }

end datasourceHandlers

/-! ### An in-memory store -/

section memstore

variable {Obj : Type}

/-- Whether the stored object `o` has the key `ns`/`name`. -/
def hasKey (objectMeta : Obj → metav1.ObjectMeta) (ns name : String) (o : Obj) : Bool :=
  (objectMeta o).Namespace == ns && (objectMeta o).Name == name

/-- A store of the objects of one kind held in a list and keyed by namespace
and name, behind the typed client: `Get` answers NotFound for a missing key,
`Create` answers AlreadyExists for a present one, `Update` answers NotFound
for a missing key and Conflict for a stale resource version. A failed call
returns the empty object `zero` next to its error. -/
def memClient (objectMeta : Obj → metav1.ObjectMeta) (zero : Obj) : Client Obj (List Obj) where
  Get st ns name :=
    match st.find? (hasKey objectMeta ns name) with
    | some o => ({ result := some o }, st)
    | none => ({ result := some zero, err := some .NotFound }, st)
  Create st ns obj :=
    match st.find? (hasKey objectMeta ns (objectMeta obj).Name) with
    | some _ => ({ result := some zero, err := some .AlreadyExists }, st)
    | none => ({ result := some obj }, st ++ [obj])
  Update st ns obj :=
    match st.find? (hasKey objectMeta ns (objectMeta obj).Name) with
    | none => ({ result := some zero, err := some .NotFound }, st)
    | some o =>
      if (objectMeta o).ResourceVersion = (objectMeta obj).ResourceVersion then
        ({ result := some obj },
          st.map (fun x => if hasKey objectMeta ns (objectMeta obj).Name x then obj else x))
      else ({ result := some zero, err := some .Conflict }, st)

end memstore

/-! ### Configuration and watched namespaces -/

/-- The error that `ReadConfig` returns: the error of `os.Open` or the error of
the decoder. -/
inductive ReadConfigError where
  | open_ (err : os.PathError)
  | decode (err : String)
  deriving DecidableEq, Repr

/-- Function `ReadConfig`: the returned pointer and the returned error. `Open`
is `os.Open` followed by the read of the whole file, and `decode` is
`yaml.NewYAMLOrJSONDecoder(...).Decode` into the pointer to an empty
configuration (it can leave a nil pointer, `none`). -/
def ReadConfig (Open : String → Except os.PathError Bytes)
    (decode : Bytes → Except String (Option ConverterConfig)) (path : String) :
    Option ConverterConfig × Option ReadConfigError :=
  match Open path with
  | .error err =>
    if os.IsNotExist err then (some {}, none)
    else (some {}, some (.open_ err))
  | .ok f =>
    match decode f with
    | .error err => (some {}, some (.decode err))
    | .ok converterConfig => (converterConfig, none)

/-- Variable `WatchNamespaceEnvVar`. -/
def WatchNamespaceEnvVar : String := "WATCH_NAMESPACE"

/-- The class `[a-z0-9]`. -/
def lowerAlnum (c : Char) : Bool :=
  ('a' ≤ c && c ≤ 'z') || ('0' ≤ c && c ≤ '9')

/-- The class `[-a-z0-9]`. -/
def lowerAlnumDash (c : Char) : Bool :=
  c == '-' || ('a' ≤ c && c ≤ 'z') || ('0' ≤ c && c ≤ '9')

/-- Variable `validNamespaceRegex`: the compiled pattern
`[a-z0-9]([-a-z0-9]*[a-z0-9])?`, which has no anchors. -/
def validNamespaceRegex : regexp.Regexp :=
  .cat (.charClass lowerAlnum)
    (regexp.Regexp.quest (.cat (.star (.charClass lowerAlnumDash)) (.charClass lowerAlnum)))

/-- The error of `getWatchNamespaces`: the arguments of its `fmt.Errorf` call
that vary, the rejected name `ns` and the value `wns` of the variable. -/
structure IncorrectNamespaceName where
  ns : String
  wns : String
  deriving DecidableEq, Repr

/-- The loop of `getWatchNamespaces` over the names `nss`: the first name that
the pattern does not match, if any. -/
def firstIncorrectNamespace : List String → Option String
  | [] => none
  | ns :: rest =>
    if !regexp.MatchString validNamespaceRegex ns then some ns
    else firstIncorrectNamespace rest

/-- Function `getWatchNamespaces`; `LookupEnv` is `os.LookupEnv`, and the nil
slice is the empty list. -/
def getWatchNamespaces (LookupEnv : String → Option String) :
    Except IncorrectNamespaceName (List String) :=
  let wns := (LookupEnv WatchNamespaceEnvVar).getD ""
  if wns.utf8ByteSize > 0 then
    let nss := strings.Split wns ','
    match firstIncorrectNamespace nss with
    | some ns => .error { ns := ns, wns := wns }
    | none => .ok nss
  else .ok []

/-- The package variables `opNamespace` and `initNamespace` (whether the
`sync.Once` has run). -/
structure WatchNamespaces where
  opNamespace : List String := []
  initNamespace : Bool := false
  deriving DecidableEq, Repr

/-- Function `mustGetWatchNamespaces`: the returned list and the package
variables after the call, or `none` when it panics. -/
def mustGetWatchNamespaces (LookupEnv : String → Option String) (vars : WatchNamespaces) :
    Option (List String × WatchNamespaces) :=
  if vars.initNamespace then some (vars.opNamespace, vars)
  else
    match getWatchNamespaces LookupEnv with
    | .error _ => none
    | .ok nss => some (nss, { opNamespace := nss, initNamespace := true })

/-! ### Sample objects -/

namespace sample

/-- A marshaller of a structured configuration that is a flag: the
configuration marshals iff the flag is set. -/
def marshalFlag (ok : Bool) : Except String Bytes :=
  if ok then .ok [123, 125] else .error "json: unsupported value"

/-- A marshaller that always succeeds. -/
def marshalUnit (_ : Unit) : Except String Bytes := .ok [123, 125]

/-- A legacy datasource object with three entries, the second of which has a
structured configuration that does not marshal. -/
def threeEntries : v1alpha1.GrafanaDataSource Bool Unit where
  ObjectMeta := { Namespace := "monitoring", Name := "sources", Labels := some [("app", "grafana")] }
  Spec := { Datasources := [
    { Name := "Loki Logs", Uid := "loki-1", JsonData := true, SecureJsonData := () },
    { Name := "Broken", Uid := "broken-2", JsonData := false, SecureJsonData := () },
    { Name := "Platform Prometheus", Uid := "own-uid", JsonData := true, SecureJsonData := () }] }

/-- A legacy datasource object in a namespace whose name has a character
outside `[A-Za-z0-9.-]`. -/
def underscoreNamespace : v1alpha1.GrafanaDataSource Bool Unit where
  ObjectMeta := { Namespace := "a_b", Name := "sources" }
  Spec := { Datasources := [{ Name := "X", JsonData := true, SecureJsonData := () }] }

/-- Deep equality of two values without nil-versus-empty ambiguity: plain
structural equality. -/
def structEq {α : Type} [DecidableEq α] (a b : α) : Bool := decide (a = b)

/-- A configuration with an instance selector. -/
def conf : ConverterConfig where
  Enable := true
  InstanceSelector := some { MatchLabels := [("dashboards", "grafana")] }
  EnabledGrafanaConverter :=
    { Dashboard := true, Datasource := true, Folder := true, NotificationChannel := true }

/-- The legacy dashboard `ns1/d1`. -/
def dashboard : v1alpha1.GrafanaDashboard where
  ObjectMeta := { Namespace := "ns1", Name := "d1", Labels := some [("team", "a")] }
  Spec := { Json := "\x7b\"uid\":\"\"\x7d" }

/-- The legacy dashboard `ns1/d1` after a change of its JSON. -/
def dashboardChanged : v1alpha1.GrafanaDashboard where
  ObjectMeta := { Namespace := "ns1", Name := "d1", Labels := some [("team", "a")] }
  Spec := { Json := "\x7b\"uid\":\"x\"\x7d" }

/-- The legacy dashboard `ns1/d1` with another label and the same spec. -/
def dashboardRelabelled : v1alpha1.GrafanaDashboard where
  ObjectMeta := { Namespace := "ns1", Name := "d1", Labels := some [("team", "b")] }
  Spec := { Json := "\x7b\"uid\":\"\"\x7d" }

/-- The store client of target dashboards. -/
def dashboards : Client v1beta1.GrafanaDashboard (List v1beta1.GrafanaDashboard) :=
  memClient (fun o => o.ObjectMeta) {}

/-- A target dashboard `ns1/d1` as the store holds it: an older spec, a
hand-added label and an annotation of its own. -/
def storedDashboard : v1beta1.GrafanaDashboard where
  ObjectMeta :=
    { Namespace := "ns1", Name := "d1", UID := "u-1", ResourceVersion := "7",
      Labels := some [("team", "old"), ("hand", "added")],
      Annotations := some [("note", "kept")] }
  Spec := { Json := "\x7b\x7d" }

/-- A legacy folder and the same folder with another label. -/
def folder : v1alpha1.GrafanaFolder where
  ObjectMeta := { Namespace := "ns1", Name := "f1" }
  Spec := { FolderName := "Team A", FolderPermissions := [
    { PermissionTargetType := "user", PermissionTarget := "123", PermissionLevel := 1 }] }

/-- The legacy folder `ns1/f1` with a label and the same spec. -/
def folderRelabelled : v1alpha1.GrafanaFolder where
  ObjectMeta := { Namespace := "ns1", Name := "f1", Labels := some [("team", "b")] }
  Spec := folder.Spec

/-- The store client of target folders. -/
def folders : Client v1beta1.GrafanaFolder (List v1beta1.GrafanaFolder) :=
  memClient (fun o => o.ObjectMeta) {}

/-- A legacy notification channel. -/
def channel : v1alpha1.GrafanaNotificationChannel where
  ObjectMeta := { Namespace := "ns1", Name := "n1" }
  Spec := { Json := "\x7b\"name\":\"mail\",\"type\":\"email\"\x7d" }

/-- The store client of target contact points. -/
def contactPoints : Client v1beta1.GrafanaContactPoint (List v1beta1.GrafanaContactPoint) :=
  memClient (fun o => o.ObjectMeta) {}

/-- A decoder of contact-point blobs that knows one blob. -/
def unmarshal (blob : String) : Except String (EmbeddedContactPoint Unit) :=
  if blob = "\x7b\"name\":\"mail\",\"type\":\"email\"\x7d" then
    .ok { Name := "mail", Type_ := some "email" }
  else .error "invalid character"

/-- A marshaller of settings values. -/
def marshalSettings (_ : Option Unit) : Except String Bytes := .ok [110, 117, 108, 108]

/-- The store client of target datasources. -/
def datasources : Client v1beta1.GrafanaDatasource (List v1beta1.GrafanaDatasource) :=
  memClient (fun o => o.ObjectMeta) {}

/-- A permission item whose target is the one-rune string `U+0007` (bell). -/
def bellItem : v1alpha1.GrafanaPermissionItem where
  PermissionTargetType := "user"
  PermissionTarget := String.mk [Char.ofNat 7]
  PermissionLevel := 1

/-- The contact point that the sample notification channel converts to. -/
def contactPoint : v1beta1.GrafanaContactPoint where
  ObjectMeta := { Namespace := "ns1", Name := "n1" }
  Spec :=
    { Name := "mail", Type_ := "email", Settings := some [110, 117, 108, 108],
      AllowCrossNamespaceImport := some true, ResyncPeriod := 120000000000,
      InstanceSelector := some { MatchLabels := [("dashboards", "grafana")] } }

/-- The target datasource of the first entry of the three-entry sample. -/
def lokiTarget : v1beta1.GrafanaDatasource where
  ObjectMeta :=
    { Namespace := "monitoring", Name := "monitoring-loki-logs",
      Labels := some [("app", "grafana")] }
  Spec :=
    { AllowCrossNamespaceImport := some true, ResyncPeriod := "2m",
      InstanceSelector := some { MatchLabels := [("dashboards", "grafana")] },
      Datasource := some
        { UID := "loki-1", Name := "Loki Logs", OrgID := some 0, IsDefault := some false,
          BasicAuth := some false, Editable := some false, JSONData := [123, 125],
          SecureJSONData := [123, 125] } }

/-- A permission item for the user `123` and one for the team `team-a`. -/
def permissionItems : List v1alpha1.GrafanaPermissionItem :=
  [{ PermissionTargetType := "user", PermissionTarget := "123", PermissionLevel := 1 },
    { PermissionTargetType := "team", PermissionTarget := "team-a", PermissionLevel := 2 }]

/-- A permission item whose target type has the rune `U+0007` (bell). -/
def bellTypeItem : v1alpha1.GrafanaPermissionItem where
  PermissionTargetType := String.mk ['t', Char.ofNat 7]
  PermissionTarget := "5"
  PermissionLevel := 4

/-- A legacy notification channel whose blob is not JSON. -/
def malformedChannel : v1alpha1.GrafanaNotificationChannel where
  ObjectMeta := { Namespace := "ns1", Name := "n2" }
  Spec := { Json := "\x7b" }

/-- A legacy notification channel with an empty blob. -/
def emptyChannel : v1alpha1.GrafanaNotificationChannel where
  ObjectMeta := { Namespace := "ns1", Name := "n3" }
  Spec := { Json := "" }

/-- A legacy notification channel whose blob is a JSON object without a type. -/
def typelessChannel : v1alpha1.GrafanaNotificationChannel where
  ObjectMeta := { Namespace := "ns1", Name := "n4" }
  Spec := { Json := "\x7b\"name\":\"mail\"\x7d" }

/-- A decoder of contact-point blobs that knows the blob of the typeless
channel. -/
def unmarshalTypeless (blob : String) : Except String (EmbeddedContactPoint Unit) :=
  if blob = "\x7b\"name\":\"mail\"\x7d" then .ok { Name := "mail" }
  else .error "invalid character"

/-- A legacy dashboard `ns1/d1` with a UID of its own, owned by a parent
object. -/
def ownedDashboard : v1alpha1.GrafanaDashboard where
  ObjectMeta :=
    { Namespace := "ns1", Name := "d1", UID := "uid-d1",
      OwnerReferences :=
        [{ APIVersion := "apps/v1", Kind := "Deployment", Name := "parent", UID := "uid-parent" }] }
  Spec := { Json := "\x7b\"uid\":\"\"\x7d" }

/-- A legacy dashboard with plugins, datasource bindings, a folder and a cache
duration. -/
def richDashboard : v1alpha1.GrafanaDashboard where
  ObjectMeta := { Namespace := "ns1", Name := "d2", Labels := some [("team", "a")] }
  Spec :=
    { Url := "https://example.org/d.json", CustomFolderName := "Team A",
      Plugins := [{ Name := "piechart", Version := "1.6.2" }, { Name := "clock", Version := "2.0" }],
      Datasources := [{ InputName := "DS_PROM", DatasourceName := "Prometheus" }],
      ContentCacheDuration := some 60000000000 }

/-- The legacy dashboard `ns1/d2` with the same spec, other labels and a
cached content in its status. -/
def richDashboardOtherMetadata : v1alpha1.GrafanaDashboard where
  ObjectMeta := { Namespace := "ns2", Name := "other", Labels := some [("team", "b")] }
  Spec := richDashboard.Spec
  Status := { ContentCache := some [1, 2, 3], ContentUrl := "https://example.org/d.json" }

/-- The three-entry legacy datasource object under another name, in another
namespace, with other labels. -/
def threeEntriesOtherMetadata : v1alpha1.GrafanaDataSource Bool Unit where
  ObjectMeta := { Namespace := "other", Name := "renamed", Labels := some [("team", "b")] }
  Spec := threeEntries.Spec

/-- The sample notification channel under another name, in another
namespace. -/
def channelOtherMetadata : v1alpha1.GrafanaNotificationChannel where
  ObjectMeta := { Namespace := "ns2", Name := "renamed", Annotations := some [("a", "b")] }
  Spec := channel.Spec

/-- A legacy datasource object with one entry that has a raw custom-JSON
override, a structured configuration that does not marshal, and no secure
override. -/
def overrideEntry : v1alpha1.GrafanaDataSource Bool Unit where
  ObjectMeta := { Namespace := "monitoring", Name := "traces" }
  Spec := { Datasources := [
    { Name := "Tempo", Uid := "tempo-1", JsonData := false, SecureJsonData := (),
      CustomJsonData := [123, 34, 97, 34, 58, 49, 125] }] }

/-- The target datasource of the entry with the override. -/
def overrideTarget : v1beta1.GrafanaDatasource where
  ObjectMeta := { Namespace := "monitoring", Name := "monitoring-tempo" }
  Spec :=
    { AllowCrossNamespaceImport := some true, ResyncPeriod := "2m",
      InstanceSelector := some { MatchLabels := [("dashboards", "grafana")] },
      Datasource := some
        { UID := "tempo-1", Name := "Tempo", OrgID := some 0, IsDefault := some false,
          BasicAuth := some false, Editable := some false,
          JSONData := [123, 34, 97, 34, 58, 49, 125], SecureJSONData := [123, 125] } }

/-- A legacy datasource object with the single entry "Loki Logs". -/
def lokiOnly : v1alpha1.GrafanaDataSource Bool Unit where
  ObjectMeta := { Namespace := "monitoring", Name := "sources", Labels := some [("app", "grafana")] }
  Spec := { Datasources := [
    { Name := "Loki Logs", Uid := "loki-1", JsonData := true, SecureJsonData := () }] }

/-- The legacy datasource object `monitoring/sources` as it was first written:
no labels, and an older identifier for its entry. -/
def lokiOnlyBefore : v1alpha1.GrafanaDataSource Bool Unit where
  ObjectMeta := { Namespace := "monitoring", Name := "sources" }
  Spec := { Datasources := [
    { Name := "Loki Logs", Uid := "loki-0", JsonData := true, SecureJsonData := () }] }

/-- The target datasource that the store holds for `lokiOnlyBefore`: it was
created without labels and without annotations. -/
def storedLoki : v1beta1.GrafanaDatasource where
  ObjectMeta :=
    { Namespace := "monitoring", Name := "monitoring-loki-logs", UID := "u-2",
      ResourceVersion := "3" }
  Spec :=
    { AllowCrossNamespaceImport := some true, ResyncPeriod := "2m",
      InstanceSelector := some { MatchLabels := [("dashboards", "grafana")] },
      Datasource := some
        { UID := "loki-0", Name := "Loki Logs", OrgID := some 0, IsDefault := some false,
          BasicAuth := some false, Editable := some false, JSONData := [123, 125],
          SecureJSONData := [123, 125] } }

/-- The legacy folder `ns1/f1` after a change of its title, with a label. -/
def folderChanged : v1alpha1.GrafanaFolder where
  ObjectMeta := { Namespace := "ns1", Name := "f1", Labels := some [("team", "b")] }
  Spec := { FolderName := "Team B", FolderPermissions := folder.Spec.FolderPermissions }

/-- The target folder that the store holds for the legacy folder `ns1/f1`: it
was created from the folder without labels. -/
def storedFolder : v1beta1.GrafanaFolder where
  ObjectMeta := { Namespace := "ns1", Name := "f1", UID := "u-3", ResourceVersion := "4" }
  Spec := (convertGrafanaFolder (fun _ => true) conf folder).Spec

/-- The legacy notification channel `ns1/n1` with an annotation. -/
def channelAnnotated : v1alpha1.GrafanaNotificationChannel where
  ObjectMeta := { Namespace := "ns1", Name := "n1", Annotations := some [("owner", "ops")] }
  Spec := channel.Spec

/-- The legacy notification channel `ns1/n1` as it was first written. -/
def channelBefore : v1alpha1.GrafanaNotificationChannel where
  ObjectMeta := { Namespace := "ns1", Name := "n1" }
  Spec := { Json := "\x7b\"name\":\"old-mail\",\"type\":\"email\"\x7d" }

/-- The target contact point that the store holds for `channelBefore`: it was
created without labels and without annotations. -/
def storedContactPoint : v1beta1.GrafanaContactPoint where
  ObjectMeta := { Namespace := "ns1", Name := "n1", UID := "u-4", ResourceVersion := "5" }
  Spec :=
    { Name := "old-mail", Type_ := "email", Settings := some [110, 117, 108, 108],
      AllowCrossNamespaceImport := some true, ResyncPeriod := 120000000000,
      InstanceSelector := some { MatchLabels := [("dashboards", "grafana")] } }

/-- A store client of target dashboards on which every update is rejected with
Conflict, as when another writer changes the object between the read and the
write of the handler. -/
def staleDashboards : Client v1beta1.GrafanaDashboard (List v1beta1.GrafanaDashboard) where
  Get := dashboards.Get
  Create := dashboards.Create
  Update st _ _ := ({ result := some {}, err := some .Conflict }, st)

/-- An environment that sets `WATCH_NAMESPACE` to `value` and nothing else. -/
def watching (value : String) (name : String) : Option String :=
  if name = "WATCH_NAMESPACE" then some value else none

/-- An environment without variables. -/
def emptyEnv (_ : String) : Option String := none

/-- A file system without files. -/
def noFiles (_ : String) : Except os.PathError Bytes := .error .ENOENT

/-- A decoder that rejects every document. -/
def rejectAll (_ : Bytes) : Except String (Option ConverterConfig) := .error "EOF"

/-- A DEFLATE compressor that stores: one final stored block with the data,
for data shorter than 65536 bytes. -/
def storedDeflate (data : Bytes) : Bytes :=
  [1, UInt8.ofNat (data.length % 256), UInt8.ofNat (data.length / 256 % 256),
    UInt8.ofNat (255 - data.length % 256), UInt8.ofNat (255 - data.length / 256 % 256)] ++ data

/-- The bytes of the text `hi`. -/
def hi : Bytes := [104, 105]

/-- The gzip stream of the text `hi` with a stored block: the header, the
block, the CRC-32 `d8932aac` and the length 2. -/
def hiStream : Bytes :=
  [31, 139, 8, 0, 0, 0, 0, 0, 0, 255, 1, 2, 0, 253, 255, 104, 105, 172, 42, 147, 216, 2, 0, 0, 0]

/-- The gzip stream of `hi` with the second byte of its data changed to `j`
and the checksum left as it was. -/
def hiStreamCorrupted : Bytes :=
  [31, 139, 8, 0, 0, 0, 0, 0, 0, 255, 1, 2, 0, 253, 255, 104, 106, 172, 42, 147, 216, 2, 0, 0, 0]

/-- The bytes of the JSON object with the one member `uid` of value `x`. -/
def uidJson : Bytes := [123, 34, 117, 105, 100, 34, 58, 34, 120, 34, 125]

/-- A DEFLATE stream of `uidJson`: one final block with the fixed codes. -/
def uidDeflate : Bytes := [171, 86, 42, 205, 76, 81, 178, 82, 170, 80, 170, 5, 0]

/-- The bytes of a JSON object with a title that repeats. -/
def titleJson : Bytes :=
  [123, 34, 117, 105, 100, 34, 58, 34, 97, 98, 34, 44, 34, 116, 105, 116, 108, 101, 34, 58, 34,
    97, 98, 32, 97, 98, 32, 97, 98, 34, 125]

/-- A DEFLATE stream of `titleJson`: one final block with the fixed codes, in
which two copies stand for the repetitions. -/
def titleDeflate : Bytes :=
  [171, 86, 42, 205, 76, 81, 178, 82, 74, 76, 82, 210, 81, 42, 201, 44, 201, 73, 5, 115, 20,
    192, 72, 169, 22, 0]

/-- The block of `titleDeflate`. -/
def titleBlocks : List flate.Block :=
  [.fixed [.literal 123, .literal 34, .literal 117, .literal 105, .literal 100, .literal 34,
    .literal 58, .literal 34, .literal 97, .literal 98, .literal 34, .literal 44, .literal 34,
    .literal 116, .literal 105, .literal 116, .literal 108, .literal 101, .copy 259 0 7 0,
    .literal 32, .copy 259 0 2 0, .literal 34, .literal 125]]

/-- The tokens of a run of literal bytes. -/
def literals (bs : Bytes) : List flate.Token := bs.map flate.Token.literal

/-- A compressor that writes every byte as a literal: one final block with the
fixed codes, for a content of any length. -/
def literalCompressor (content : Bytes) : Bytes :=
  flate.packBits (flate.encode [.fixed (literals content)])

/-- The bytes of the JSON of a dashboard with 1 panel. -/
def nodesJson : Bytes :=
  [123, 34, 117, 105, 100, 34, 58, 34, 107, 56, 115, 45, 110, 111, 100, 101, 115, 34, 44, 34, 116,
    105, 116, 108, 101, 34, 58, 34, 75, 117, 98, 101, 114, 110, 101, 116, 101, 115, 32, 110, 111,
    100, 101, 115, 34, 44, 34, 112, 97, 110, 101, 108, 115, 34, 58, 91, 123, 34, 105, 100, 34, 58,
    49, 44, 34, 116, 121, 112, 101, 34, 58, 34, 103, 114, 97, 112, 104, 34, 44, 34, 116, 105, 116,
    108, 101, 34, 58, 34, 67, 80, 85, 32, 117, 115, 97, 103, 101, 34, 44, 34, 116, 97, 114, 103,
    101, 116, 115, 34, 58, 91, 123, 34, 101, 120, 112, 114, 34, 58, 34, 115, 117, 109, 40, 114,
    97, 116, 101, 40, 110, 111, 100, 101, 95, 99, 112, 117, 95, 115, 101, 99, 111, 110, 100, 115,
    95, 116, 111, 116, 97, 108, 91, 53, 109, 93, 41, 41, 34, 125, 93, 125, 93, 44, 34, 116, 97,
    103, 115, 34, 58, 91, 34, 107, 117, 98, 101, 114, 110, 101, 116, 101, 115, 34, 44, 34, 110,
    111, 100, 101, 115, 34, 93, 44, 34, 114, 101, 102, 114, 101, 115, 104, 34, 58, 34, 51, 48,
    115, 34, 125]

/-- A DEFLATE stream of `nodesJson`, as zlib emits it at its default level: one
final block with dynamic codes. -/
def nodesDeflate : Bytes :=
  [77, 142, 193, 10, 194, 48, 16, 68, 127, 165, 236, 169, 5, 5, 69, 4, 233, 213, 163, 23, 47, 61,
    149, 18, 98, 179, 166, 165, 109, 26, 118, 55, 160, 148, 254, 187, 9, 69, 241, 58, 111, 222,
    48, 11, 132, 222, 64, 9, 195, 133, 247, 110, 54, 200, 176, 3, 233, 101, 196, 152, 221, 194, 3,
    201, 161, 32, 103, 95, 228, 181, 195, 145, 161, 172, 23, 72, 218, 49, 150, 223, 62, 117, 45,
    105, 223, 253, 185, 215, 123, 149, 5, 214, 22, 83, 166, 201, 162, 108, 22, 190, 60, 69, 204,
    97, 202, 73, 11, 230, 105, 88, 181, 62, 40, 198, 118, 118, 134, 149, 204, 162, 199, 250, 60,
    53, 69, 1, 107, 179, 54, 73, 183, 201, 133, 225, 119, 39, 110, 110, 135, 34, 37, 124, 18, 114,
    23, 55, 79, 7, 134, 245, 3]

/-- The tokens of the block of `nodesDeflate`. -/
def nodesTokens : List flate.Token :=
  literals [123, 34, 117, 105, 100, 34, 58, 34, 107, 56, 115, 45, 110, 111, 100, 101, 115, 34, 44,
      34, 116, 105, 116, 108, 101] ++
    [flate.Token.copy 257 0 8 3] ++
    literals [75, 117, 98, 101, 114, 110, 101, 116, 101, 115, 32] ++
    [flate.Token.copy 262 0 9 2] ++
    literals [112, 97, 110, 101, 108, 115, 34, 58, 91, 123, 34] ++
    [flate.Token.copy 258 0 11 6] ++
    literals [49] ++
    [flate.Token.copy 257 0 10 12] ++
    literals [121, 112] ++
    [flate.Token.copy 258 0 10 11] ++
    literals [103, 114, 97, 112, 104] ++
    [flate.Token.copy 265 0 11 11] ++
    literals [67, 80, 85, 32, 117, 115, 97, 103, 101] ++
    [flate.Token.copy 258 0 8 3] ++
    literals [97, 114, 103, 101, 116] ++
    [flate.Token.copy 260 0 11 5] ++
    literals [101, 120, 112, 114] ++
    [flate.Token.copy 257 0 9 6] ++
    literals [115, 117, 109, 40, 114, 97, 116, 101, 40] ++
    [flate.Token.copy 258 0 12 24] ++
    literals [95, 99, 112, 117, 95, 115, 101, 99, 111, 110, 100, 115, 95, 116, 111, 116, 97, 108,
      91, 53, 109, 93, 41, 41, 34, 125, 93, 125, 93] ++
    [flate.Token.copy 258 0 11 14] ++
    literals [103] ++
    [flate.Token.copy 258 0 11 11] ++
    literals [34, 107] ++
    [flate.Token.copy 263 0 14 14] ++
    [flate.Token.copy 257 0 12 19] ++
    [flate.Token.copy 260 0 14 16] ++
    [flate.Token.copy 257 0 9 5] ++
    literals [114, 101, 102, 114, 101, 115, 104] ++
    [flate.Token.copy 257 0 12 19] ++
    literals [51, 48, 115, 34, 125]

/-- The block of `nodesDeflate`: it declares 266 and 15 code lengths. -/
def nodesBlocks : List flate.Block :=
  [.dynamic 266 15 [0, 4, 5, 2, 0, 2, 0, 3, 0, 3, 0, 4, 0, 4, 0, 5]
    [(18, 21), (6, 0), (0, 0), (4, 0), (17, 2), (6, 0), (6, 0), (0, 0), (0, 0), (7, 0), (7, 0),
      (0, 0), (0, 0), (7, 0), (7, 0), (0, 0), (7, 0), (0, 0), (7, 0), (0, 0), (0, 0), (7, 0),
      (0, 0), (6, 0), (17, 5), (7, 0), (17, 4), (7, 0), (17, 1), (7, 0), (17, 1), (6, 0), (17, 2),
      (6, 0), (0, 0), (6, 0), (0, 0), (5, 0), (0, 0), (5, 0), (7, 0), (6, 0), (5, 0), (4, 0),
      (7, 0), (5, 0), (6, 0), (6, 0), (0, 0), (6, 0), (6, 0), (6, 0), (5, 0), (6, 0), (5, 0),
      (0, 0), (4, 0), (4, 0), (4, 0), (5, 0), (0, 0), (0, 0), (7, 0), (7, 0), (0, 0), (6, 0),
      (0, 0), (6, 0), (18, 119), (7, 0), (5, 0), (5, 0), (0, 0), (6, 0), (0, 0), (7, 0), (7, 0),
      (0, 0), (7, 0), (17, 5), (3, 0), (2, 0), (3, 0), (2, 0), (3, 0), (0, 0), (3, 0)]
    nodesTokens]

/-- The bits that fill the last byte of `nodesDeflate`. -/
def nodesPad : List Bool := [false, false, false, false]

/-- A DEFLATE stream of `uidJson` in two blocks: a block with the fixed codes
that is not final, and an empty stored block that ends the stream. -/
def uidTwoBlocks : Bytes :=
  [170, 86, 42, 205, 76, 81, 178, 82, 170, 80, 170, 5, 4, 0, 0, 255, 255]

/-- The blocks of `uidTwoBlocks`; three bits fill the byte after the header of
the stored block. -/
def uidBlocks : List flate.Block :=
  [.fixed (literals uidJson), .stored [false, false, false] []]

/-- A compressor that emits the streams above for `nodesJson`, `titleJson` and
`uidJson`, and stores every other content. -/
def recordedCompressor (content : Bytes) : Bytes :=
  if content = nodesJson then nodesDeflate
  else if content = titleJson then titleDeflate
  else if content = uidJson then uidTwoBlocks
  else storedDeflate content

/-- A decoder of JSON objects that knows five documents; the literal `null`
leaves the nil map, and a text that is no JSON leaves the empty map with an
error. -/
def unmarshalObject (data : Bytes) : Option (List (String × json.Value)) × Option String :=
  if data = Bytes.ofString "\x7b\"uid\":\"x\"\x7d" then (some [("uid", .string "x")], none)
  else if data = Bytes.ofString "\x7b\"uid\":\"\"\x7d" then (some [("uid", .string "")], none)
  else if data = Bytes.ofString "\x7b\"uid\":5\x7d" then (some [("uid", .number "5")], none)
  else if data = Bytes.ofString "\x7b\x7d" then (some [], none)
  else if data = Bytes.ofString "null" then (none, none)
  else (some [], some "invalid character")

/-- A legacy dashboard whose JSON declares a numeric `uid`. -/
def numericUidDashboard : v1alpha1.GrafanaDashboard where
  ObjectMeta := { Namespace := "ns1", Name := "d3" }
  Spec := { Json := "\x7b\"uid\":5\x7d" }

/-- A legacy dashboard whose content is a truncated gzip stream. -/
def truncatedDashboard : v1alpha1.GrafanaDashboard where
  ObjectMeta := { Namespace := "ns1", Name := "d4" }
  Spec := { GzipJson := some (hiStream.take 21) }

/-- The legacy dashboard `ns1/d2` with a reference to a compressed config
map entry. -/
def richDashboardGzipRef : v1alpha1.GrafanaDashboard where
  ObjectMeta := richDashboard.ObjectMeta
  Spec := { richDashboard.Spec with GzipConfigMapRef := some { Name := "boards", Key := "d2.gz" } }

/-- The legacy dashboard `ns1/d2` under another name, with other labels,
plugins, cache duration and status fields, and the same hashed fields. -/
def richDashboardRenamed : v1alpha1.GrafanaDashboard where
  ObjectMeta :=
    { Namespace := "ns1", Name := "renamed", UID := "u-9", Labels := some [("team", "b")],
      Annotations := some [("note", "x")] }
  Spec :=
    { richDashboard.Spec with
      Plugins := [], ContentCacheDuration := none }
  Status := { ContentUrl := "https://example.org/d.json", Error := some { Code := 404 } }

/-- A legacy datasource object with two entries whose names differ and agree
after lowering and the replacement of the characters outside `[a-z0-9.-]`. -/
def collidingEntries : v1alpha1.GrafanaDataSource Bool Unit where
  ObjectMeta := { Namespace := "monitoring", Name := "sources" }
  Spec := { Datasources := [
    { Name := "Loki Logs", Uid := "loki-1", JsonData := true, SecureJsonData := () },
    { Name := "loki_logs", Uid := "loki-2", JsonData := true, SecureJsonData := () }] }

/-- The legacy datasource object `monitoring/sources` with the two entries of
the three-entry sample that marshal. -/
def twoEntries : v1alpha1.GrafanaDataSource Bool Unit where
  ObjectMeta := threeEntries.ObjectMeta
  Spec := { Datasources := [
    { Name := "Loki Logs", Uid := "loki-1", JsonData := true, SecureJsonData := () },
    { Name := "Platform Prometheus", Uid := "own-uid", JsonData := true, SecureJsonData := () }] }

/-- The target datasource of the entry "Platform Prometheus". -/
def prometheusTarget : v1beta1.GrafanaDatasource where
  ObjectMeta :=
    { Namespace := "monitoring", Name := "monitoring-platform-prometheus",
      Labels := some [("app", "grafana")] }
  Spec :=
    { AllowCrossNamespaceImport := some true, ResyncPeriod := "2m",
      InstanceSelector := some { MatchLabels := [("dashboards", "grafana")] },
      Datasource := some
        { UID := "PC3E95692D54ABCC0", Name := "Platform Prometheus", OrgID := some 0,
          IsDefault := some false, BasicAuth := some false, Editable := some false,
          JSONData := [123, 125], SecureJSONData := [123, 125] } }

/-- A store of target datasources that is out of reach: every call fails with
an error that is neither NotFound nor AlreadyExists, and returns the empty
object next to it. -/
def unreachableDatasources :
    Client v1beta1.GrafanaDatasource (List v1beta1.GrafanaDatasource) where
  Get st _ _ := ({ result := some {}, err := some .Other }, st)
  Create st _ _ := ({ result := some {}, err := some .Other }, st)
  Update st _ _ := ({ result := some {}, err := some .Other }, st)

/-- The legacy datasource object `monitoring/sources` with the single entry
"Loki Logs", other labels and an owner. -/
def lokiOnlyRelabelled : v1alpha1.GrafanaDataSource Bool Unit where
  ObjectMeta :=
    { Namespace := "monitoring", Name := "sources", Labels := some [("app", "other")],
      Annotations := some [("note", "new")],
      OwnerReferences :=
        [{ APIVersion := "apps/v1", Kind := "Deployment", Name := "parent", UID := "uid-parent" }] }
  Spec := lokiOnly.Spec

/-- The target dashboard `ns1/d1` as the store holds it when its spec is up to
date: the spec of the conversion, with labels and an annotation of its own. -/
def storedDashboardCurrent : v1beta1.GrafanaDashboard where
  ObjectMeta := storedDashboard.ObjectMeta
  Spec := (convertGrafanaDashboard conf dashboard).Spec

/-- The target datasource `monitoring/monitoring-loki-logs` as the store holds
it when its spec is up to date, without labels. -/
def storedLokiCurrent : v1beta1.GrafanaDatasource where
  ObjectMeta := storedLoki.ObjectMeta
  Spec := lokiTarget.Spec

/-- The target contact point `ns1/n1` as the store holds it when its spec is up
to date, without annotations. -/
def storedContactPointCurrent : v1beta1.GrafanaContactPoint where
  ObjectMeta := storedContactPoint.ObjectMeta
  Spec := contactPoint.Spec

/-- A legacy dashboard with the JSON `ab` and no URL. -/
def jsonOnlyDashboard : v1alpha1.GrafanaDashboard where
  ObjectMeta := { Namespace := "ns1", Name := "d5" }
  Spec := { Json := "ab" }

/-- A legacy dashboard with the JSON `a` and the URL `b`. -/
def jsonAndUrlDashboard : v1alpha1.GrafanaDashboard where
  ObjectMeta := { Namespace := "ns1", Name := "d5" }
  Spec := { Json := "a", Url := "b" }

/-- A marshaller of datasource bodies that writes the URL alone, as a JSON
object with the member `url`. -/
def marshalUrl (datasource : v1beta1.GrafanaDatasourceInternal) : Except String Bytes :=
  .ok (Bytes.ofString ("\x7b\"url\":\"" ++ datasource.URL ++ "\"\x7d"))

/-- A marshaller of datasource bodies that rejects the raw JSON data of the
body when it is the one byte `x` (`json.Marshal` validates a `RawMessage`). -/
def marshalChecked (datasource : v1beta1.GrafanaDatasourceInternal) : Except String Bytes :=
  if datasource.JSONData = [120] then .error "json: error calling MarshalJSON for type json.RawMessage"
  else marshalUrl datasource

/-- A target datasource whose URL uses the variable `ab`. -/
def variableDatasource : v1beta1.GrafanaDatasource where
  ObjectMeta := { Namespace := "monitoring", Name := "monitoring-loki-logs" }
  Spec := { Datasource := some { Name := "Loki Logs", URL := "$ab" } }

/-- A target dashboard without a resync period. -/
def unsetDashboard : v1beta1.GrafanaDashboard where
  ObjectMeta := { Namespace := "ns1", Name := "d1" }
  Spec := { Json := "\x7b\x7d" }

/-- A target datasource without a resync period. -/
def unsetDatasource : v1beta1.GrafanaDatasource where
  ObjectMeta := { Namespace := "ns1", Name := "s1" }

/-- A target folder without a resync period. -/
def unsetFolder : v1beta1.GrafanaFolder where
  ObjectMeta := { Namespace := "ns1", Name := "f1" }
  Spec := { Title := "Team A" }

/-- A store of target contact points in which an object is on its way out:
every create is answered AlreadyExists and every read and update NotFound. -/
def vanishingContactPoints :
    Client v1beta1.GrafanaContactPoint (List v1beta1.GrafanaContactPoint) where
  Get st _ _ := ({ result := some {}, err := some .NotFound }, st)
  Create st _ _ := ({ result := some {}, err := some .AlreadyExists }, st)
  Update st _ _ := ({ result := some {}, err := some .NotFound }, st)

/-- The target dashboard that the legacy dashboard `ns1/d1` converts to. -/
def dashboardTarget : v1beta1.GrafanaDashboard :=
  convertGrafanaDashboard conf dashboard

end sample

end controllers

/-! ## Properties of the datasource conversion -/

namespace controllers

section datasourceConversion

variable {J S : Type}

/-- Writing slot `done.length` of a slice that starts with `done`. -/
theorem set_after_prefix {α : Type} (done : List α) (x y : α) (xs : List α) :
    (done ++ x :: xs).set done.length y = done ++ y :: xs := by
  induction done with
  | nil => rfl
  | cons d ds ih => simp [List.set, ih]

/-- The loop of `convertGrafanaDatasource` fills the slots of the entries whose
body succeeds, leaves the other slots nil and collects the errors in order. -/
theorem convertDatasourceLoop_eq
    (body : v1alpha1.GrafanaDataSourceFields J S → Except String v1beta1.GrafanaDatasource)
    (rest : List (v1alpha1.GrafanaDataSourceFields J S)) :
    ∀ (done : List (Option v1beta1.GrafanaDatasource)) (errs : List String),
      convertDatasourceLoop body rest done.length
          (done ++ List.replicate rest.length none) errs =
        (done ++ rest.map (fun ds => (body ds).toOption),
          errs ++ rest.filterMap (fun ds => bodyError (body ds))) := by
  induction rest with
  | nil => intro done errs; simp [convertDatasourceLoop]
  | cons ds rest ih =>
    intro done errs
    cases h : body ds with
    | error err =>
      have := ih (done ++ [none]) (errs ++ [err])
      simp only [List.length_append, List.length_singleton, List.append_assoc,
        List.singleton_append] at this
      simp [convertDatasourceLoop, h, List.replicate_succ, this, Except.toOption, bodyError]
    | ok t =>
      have := ih (done ++ [some t]) errs
      simp only [List.length_append, List.length_singleton, List.append_assoc,
        List.singleton_append] at this
      simp [convertDatasourceLoop, h, List.replicate_succ, set_after_prefix, this,
        Except.toOption, bodyError]

/-- The result of `convertGrafanaDatasource`, entry by entry. -/
theorem convertGrafanaDatasource_eq
    (marshalJsonData : J → Except String Bytes)
    (marshalSecureJsonData : S → Except String Bytes)
    (unicodeToLower : Char → Char) (conf : ConverterConfig)
    (src : v1alpha1.GrafanaDataSource J S) :
    convertGrafanaDatasource marshalJsonData marshalSecureJsonData unicodeToLower conf src =
      (src.Spec.Datasources.map (fun ds =>
          (convertDatasourceEntry marshalJsonData marshalSecureJsonData unicodeToLower conf src
            ds).toOption),
        src.Spec.Datasources.filterMap (fun ds =>
          bodyError (convertDatasourceEntry marshalJsonData marshalSecureJsonData unicodeToLower
            conf src ds))) := by
  have := convertDatasourceLoop_eq
    (convertDatasourceEntry marshalJsonData marshalSecureJsonData unicodeToLower conf src)
    src.Spec.Datasources [] []
  simpa [convertGrafanaDatasource] using this

/-- A non-nil slot of the result of `convertGrafanaDatasource` is the target
that the loop body built for the entry at the same index. -/
theorem convertGrafanaDatasource_slot
    (marshalJsonData : J → Except String Bytes)
    (marshalSecureJsonData : S → Except String Bytes)
    (unicodeToLower : Char → Char) (conf : ConverterConfig)
    (src : v1alpha1.GrafanaDataSource J S) (i : Nat) (t : v1beta1.GrafanaDatasource)
    (h : (convertGrafanaDatasource marshalJsonData marshalSecureJsonData unicodeToLower conf
      src).1[i]? = some (some t)) :
    ∃ ds, src.Spec.Datasources[i]? = some ds ∧
      convertDatasourceEntry marshalJsonData marshalSecureJsonData unicodeToLower conf src ds =
        .ok t := by
  rw [convertGrafanaDatasource_eq] at h
  simp only [List.getElem?_map] at h
  cases hds : src.Spec.Datasources[i]? with
  | none => simp [hds] at h
  | some ds =>
    refine ⟨ds, rfl, ?_⟩
    simp only [hds, Option.map_some', Option.some.injEq] at h
    cases hb : convertDatasourceEntry marshalJsonData marshalSecureJsonData unicodeToLower conf
        src ds with
    | error err => simp [hb, Except.toOption] at h
    | ok t2 =>
      simp only [hb, Except.toOption, Option.some.injEq] at h
      rw [h]

/-- The target built by the loop body: its name and its UID. -/
theorem convertDatasourceEntry_ok
    (marshalJsonData : J → Except String Bytes)
    (marshalSecureJsonData : S → Except String Bytes)
    (unicodeToLower : Char → Char) (conf : ConverterConfig)
    (src : v1alpha1.GrafanaDataSource J S) (ds : v1alpha1.GrafanaDataSourceFields J S)
    (t : v1beta1.GrafanaDatasource)
    (h : convertDatasourceEntry marshalJsonData marshalSecureJsonData unicodeToLower conf src ds =
      .ok t) :
    t.ObjectMeta.Name = src.ObjectMeta.Namespace ++ "-" ++
        sanitize (strings.ToLower unicodeToLower ds.Name) ∧
      t.Spec.Datasource.map (fun d => d.UID) =
        some (if strings.Contains ds.Name "Prometheus" then oldDatasourceUID else ds.Uid) := by
  unfold convertDatasourceEntry at h
  generalize (if ds.CustomJsonData.length ≠ 0 then
    (Except.ok ds.CustomJsonData : Except String Bytes)
    else marshalJsonData ds.JsonData) = jsonData at h
  cases jsonData with
  | error err => cases h
  | ok jsonData =>
    dsimp only at h
    generalize (if ds.CustomSecureJsonData.length ≠ 0 then
      (Except.ok ds.CustomSecureJsonData : Except String Bytes)
      else marshalSecureJsonData ds.SecureJsonData) = secureJsonData at h
    cases secureJsonData with
    | error err => cases h
    | ok secureJsonData =>
      cases h
      exact ⟨rfl, rfl⟩

end datasourceConversion

/-- The substring search finds exactly the contiguous sublists. -/
theorem containsChars_iff (l sub : List Char) :
    strings.containsChars l sub = true ↔ sub <:+: l := by
  induction l with
  | nil =>
    cases sub <;> simp [strings.containsChars]
  | cons c cs ih =>
    simp only [strings.containsChars, Bool.or_eq_true, List.isPrefixOf_iff_prefix, ih,
      List.infix_cons_iff]

/-- The text of a sanitised string: every rune outside `[A-Za-z0-9.-]` becomes
a dash, every other rune stays. -/
theorem sanitize_data (s : String) :
    (sanitize s).data = s.data.map (fun c => if regMatches c then '-' else c) := by
  show s.data.flatMap (fun c => if regMatches c then "-".data else [c]) = _
  induction s.data with
  | nil => rfl
  | cons c cs ih =>
    simp only [List.flatMap_cons, List.map_cons, ih]
    by_cases h : regMatches c = true
    · simp [h]
    · simp [h]

/-- The first slot of the conversion of the three-entry sample under the
sample configuration. -/
theorem lokiTarget_converted :
    (convertGrafanaDatasource sample.marshalFlag sample.marshalUnit id sample.conf
        sample.threeEntries).1[0]? = some (some sample.lokiTarget) := by
  decide

/-- With three entries of which only the second fails to marshal, the slice
that `convertGrafanaDatasource` returns has three slots, the second of which is
nil, next to the joined error. -/
theorem convertGrafanaDatasource_leaves_nil_slot :
    (convertGrafanaDatasource sample.marshalFlag sample.marshalUnit id {}
        sample.threeEntries).1.map (Option.map (fun t => t.ObjectMeta.Name)) =
      [some "monitoring-loki-logs", none, some "monitoring-platform-prometheus"] ∧
    (convertGrafanaDatasource sample.marshalFlag sample.marshalUnit id {}
        sample.threeEntries).1.length = 3 ∧
    (convertGrafanaDatasource sample.marshalFlag sample.marshalUnit id {}
        sample.threeEntries).2 = ["json: unsupported value"] := by
  decide

/-- The loop body of `convertGrafanaDatasource` builds a target for an entry
iff the two marshallings of the entry succeed: for each of the JSON data and
the secure JSON data, the raw override is not empty or the structured
configuration marshals. -/
theorem convertDatasourceEntry_isOk_iff {J S : Type}
    (marshalJsonData : J → Except String Bytes)
    (marshalSecureJsonData : S → Except String Bytes)
    (unicodeToLower : Char → Char) (conf : ConverterConfig)
    (src : v1alpha1.GrafanaDataSource J S) (ds : v1alpha1.GrafanaDataSourceFields J S) :
    (∃ t, convertDatasourceEntry marshalJsonData marshalSecureJsonData unicodeToLower conf src
        ds = .ok t) ↔
      (ds.CustomJsonData.length ≠ 0 ∨ ∃ b, marshalJsonData ds.JsonData = .ok b) ∧
      (ds.CustomSecureJsonData.length ≠ 0 ∨
        ∃ b, marshalSecureJsonData ds.SecureJsonData = .ok b) := by
  unfold convertDatasourceEntry
  by_cases h1 : ds.CustomJsonData.length ≠ 0 <;>
    by_cases h2 : ds.CustomSecureJsonData.length ≠ 0 <;>
    cases h3 : marshalJsonData ds.JsonData <;>
    cases h4 : marshalSecureJsonData ds.SecureJsonData <;>
    simp [h1, h2, h3, h4]

/-- C1. For every legacy datasource object, the valid (non-nil) targets that
`convertGrafanaDatasource` returns are the targets of the entries whose
marshalling succeeds, one per such entry and in entry order (an entry that
fails leaves a nil slot at its index, which is no valid target), and the
aggregated error is non-nil iff some entry fails. An entry succeeds iff both
its JSON data and its secure JSON data marshal (or are overridden). For the
sample object with three entries of which only the second fails to marshal,
the valid targets are the two targets of the entries 1 and 3 and the error is
non-nil. -/
theorem convertGrafanaDatasource_valid_targets {J S : Type}
    (marshalJsonData : J → Except String Bytes)
    (marshalSecureJsonData : S → Except String Bytes)
    (unicodeToLower : Char → Char) (conf : ConverterConfig)
    (src : v1alpha1.GrafanaDataSource J S) :
    (convertGrafanaDatasource marshalJsonData marshalSecureJsonData unicodeToLower conf
        src).1.filterMap id =
      src.Spec.Datasources.filterMap (fun ds =>
        (convertDatasourceEntry marshalJsonData marshalSecureJsonData unicodeToLower conf src
          ds).toOption) ∧
    ((convertGrafanaDatasource marshalJsonData marshalSecureJsonData unicodeToLower conf
        src).1.filterMap id).length =
      (src.Spec.Datasources.filter (fun ds =>
        (convertDatasourceEntry marshalJsonData marshalSecureJsonData unicodeToLower conf src
          ds).toOption.isSome)).length ∧
    (∀ ds, (∃ t, convertDatasourceEntry marshalJsonData marshalSecureJsonData unicodeToLower
          conf src ds = .ok t) ↔
      (ds.CustomJsonData.length ≠ 0 ∨ ∃ b, marshalJsonData ds.JsonData = .ok b) ∧
      (ds.CustomSecureJsonData.length ≠ 0 ∨
        ∃ b, marshalSecureJsonData ds.SecureJsonData = .ok b)) ∧
    ((convertGrafanaDatasource marshalJsonData marshalSecureJsonData unicodeToLower conf
        src).2 ≠ [] ↔
      ∃ ds ∈ src.Spec.Datasources, ∃ err,
        convertDatasourceEntry marshalJsonData marshalSecureJsonData unicodeToLower conf src
          ds = .error err) ∧
    (convertGrafanaDatasource sample.marshalFlag sample.marshalUnit id sample.conf
        sample.threeEntries).1.filterMap id = [sample.lokiTarget, sample.prometheusTarget] ∧
    (convertGrafanaDatasource sample.marshalFlag sample.marshalUnit id sample.conf
        sample.threeEntries).2 ≠ [] := by
  refine ⟨?_, ?_, ?_, ?_, by decide, by decide⟩
  · rw [convertGrafanaDatasource_eq]
    simp only [List.filterMap_map]
    rfl
  · rw [convertGrafanaDatasource_eq]
    simp only [List.filterMap_map]
    induction src.Spec.Datasources with
    | nil => rfl
    | cons ds rest ih =>
      cases h : convertDatasourceEntry marshalJsonData marshalSecureJsonData unicodeToLower
          conf src ds with
      | error err =>
        simpa [List.filterMap_cons, List.filter_cons, h, Except.toOption] using ih
      | ok t =>
        simpa [List.filterMap_cons, List.filter_cons, h, Except.toOption] using ih
  · intro ds
    exact convertDatasourceEntry_isOk_iff marshalJsonData marshalSecureJsonData unicodeToLower
      conf src ds
  · rw [convertGrafanaDatasource_eq]
    simp only [ne_eq, List.filterMap_eq_nil_iff, not_forall]
    constructor
    · rintro ⟨ds, hmem, hne⟩
      cases h : convertDatasourceEntry marshalJsonData marshalSecureJsonData unicodeToLower
          conf src ds with
      | error err => exact ⟨ds, hmem, err, h⟩
      | ok t => simp [h, bodyError] at hne
    · rintro ⟨ds, hmem, err, h⟩
      exact ⟨ds, hmem, by simp [h, bodyError]⟩

/-- C2. The name-sanitising function is a total function on strings and is
idempotent: sanitising a sanitised string changes nothing. Its result has one
rune per rune of its argument and no rune outside `[A-Za-z0-9.-]`. -/
theorem sanitize_idempotent (s : String) :
    sanitize (sanitize s) = sanitize s ∧
      (sanitize s).data.length = s.data.length ∧
      ∀ c ∈ (sanitize s).data, regMatches c = false := by
  have hfix : ∀ c : Char, regMatches (if regMatches c then '-' else c) = false := by
    intro c
    by_cases h : regMatches c = true
    · simp only [h, if_true]
      rfl
    · simp [h]
  have h : (sanitize (sanitize s)).data = (sanitize s).data := by
    rw [sanitize_data (sanitize s), sanitize_data s, List.map_map]
    apply List.map_congr_left
    intro c _
    simp [Function.comp, hfix c]
  refine ⟨?_, ?_, ?_⟩
  · calc sanitize (sanitize s) = String.mk (sanitize (sanitize s)).data := rfl
      _ = String.mk (sanitize s).data := by rw [h]
      _ = sanitize s := rfl
  · rw [sanitize_data, List.length_map]
  · intro c hc
    rw [sanitize_data, List.mem_map] at hc
    obtain ⟨a, _, rfl⟩ := hc
    exact hfix a

/-- For every legacy datasource object and every converted entry, the name of
the target is the namespace as it stands, a dash, and the sanitised
lower-cased name of the entry. -/
theorem convertGrafanaDatasource_name {J S : Type}
    (marshalJsonData : J → Except String Bytes)
    (marshalSecureJsonData : S → Except String Bytes)
    (unicodeToLower : Char → Char) (conf : ConverterConfig)
    (src : v1alpha1.GrafanaDataSource J S) (i : Nat) (t : v1beta1.GrafanaDatasource)
    (h : (convertGrafanaDatasource marshalJsonData marshalSecureJsonData unicodeToLower conf
      src).1[i]? = some (some t)) :
    ∃ ds, src.Spec.Datasources[i]? = some ds ∧
      t.ObjectMeta.Name = src.ObjectMeta.Namespace ++ "-" ++
        sanitize (strings.ToLower unicodeToLower ds.Name) := by
  obtain ⟨ds, hds, hok⟩ := convertGrafanaDatasource_slot marshalJsonData marshalSecureJsonData
    unicodeToLower conf src i t h
  exact ⟨ds, hds, (convertDatasourceEntry_ok marshalJsonData marshalSecureJsonData
    unicodeToLower conf src ds t hok).1⟩

/-- The name of the target of the third entry of the sample object. -/
theorem convertGrafanaDatasource_name_witness :
    ∃ ds, sample.threeEntries.Spec.Datasources[2]? = some ds ∧
      "monitoring-platform-prometheus" = sample.threeEntries.ObjectMeta.Namespace ++ "-" ++
        sanitize (strings.ToLower id ds.Name) :=
  convertGrafanaDatasource_name sample.marshalFlag sample.marshalUnit id {} sample.threeEntries 2
    { ObjectMeta := {
        Namespace := "monitoring"
        Name := "monitoring-platform-prometheus"
        Labels := some [("app", "grafana")] }
      Spec := {
        AllowCrossNamespaceImport := some true
        ResyncPeriod := "2m"
        Datasource := some {
          UID := "PC3E95692D54ABCC0"
          Name := "Platform Prometheus"
          OrgID := some 0
          IsDefault := some false
          BasicAuth := some false
          Editable := some false
          JSONData := [123, 125]
          SecureJSONData := [123, 125] } } }
    (by decide)

/-- The namespace itself does not go through the pattern: for an object in a
namespace `a_b` (a name that the API server does not admit) the entry named
`X` would become the target `a_b-x`. -/
theorem convertGrafanaDatasource_name_not_sanitized_namespace :
    (convertGrafanaDatasource sample.marshalFlag sample.marshalUnit id {}
        sample.underscoreNamespace).1.map (Option.map (fun t => t.ObjectMeta.Name)) =
      [some "a_b-x"] ∧
    sanitize sample.underscoreNamespace.ObjectMeta.Namespace ++ "-" ++
        sanitize (strings.ToLower id "X") = "a-b-x" := by
  decide

/-- A string without a rune outside `[A-Za-z0-9.-]` is its own sanitised
form. -/
theorem sanitize_eq_self (s : String) (h : ∀ c ∈ s.data, regMatches c = false) :
    sanitize s = s := by
  apply String.ext
  rw [sanitize_data]
  conv_rhs => rw [← List.map_id s.data]
  apply List.map_congr_left
  intro c hc
  simp [h c hc]

/-- The runes of a Kubernetes namespace name, the class `[-a-z0-9]` of a DNS
label, are in the class `[A-Za-z0-9.-]`. -/
theorem regMatches_of_lowerAlnumDash (c : Char) (h : lowerAlnumDash c = true) :
    regMatches c = false := by
  simp only [lowerAlnumDash, Bool.or_eq_true, Bool.and_eq_true, beq_iff_eq,
    decide_eq_true_eq] at h
  simp only [regMatches, Bool.not_eq_false', Bool.or_eq_true, Bool.and_eq_true, beq_iff_eq,
    decide_eq_true_eq]
  rcases h with (h | h) | h
  · exact Or.inr h
  · exact Or.inl (Or.inl (Or.inl (Or.inr h)))
  · exact Or.inl (Or.inl (Or.inr h))

/-- C3. For every legacy datasource object in a namespace `ns` that has no
rune outside `[A-Za-z0-9.-]` (as every namespace name that Kubernetes admits:
a DNS label, made of the runes `[-a-z0-9]`) and every converted entry with the
declared name `n`, the name of the target is `sanitize ns`, a dash, and
`sanitize` of the lower-cased `n`, where `sanitize` replaces every rune outside
`[A-Za-z0-9.-]` by a dash and keeps the others. -/
theorem convertGrafanaDatasource_name_sanitized {J S : Type}
    (marshalJsonData : J → Except String Bytes)
    (marshalSecureJsonData : S → Except String Bytes)
    (unicodeToLower : Char → Char) (conf : ConverterConfig)
    (src : v1alpha1.GrafanaDataSource J S) (i : Nat) (t : v1beta1.GrafanaDatasource)
    (h : (convertGrafanaDatasource marshalJsonData marshalSecureJsonData unicodeToLower conf
      src).1[i]? = some (some t))
    (hns : ∀ c ∈ src.ObjectMeta.Namespace.data, regMatches c = false) :
    (∃ ds, src.Spec.Datasources[i]? = some ds ∧
      t.ObjectMeta.Name = sanitize src.ObjectMeta.Namespace ++ "-" ++
        sanitize (strings.ToLower unicodeToLower ds.Name)) ∧
    (∀ s : String, (sanitize s).data =
      s.data.map (fun c =>
        if ('A' ≤ c ∧ c ≤ 'Z') ∨ ('a' ≤ c ∧ c ≤ 'z') ∨ ('0' ≤ c ∧ c ≤ '9') ∨ c = '.' ∨ c = '-'
        then c else '-')) ∧
    (∀ c, lowerAlnumDash c = true → regMatches c = false) := by
  refine ⟨?_, ?_, regMatches_of_lowerAlnumDash⟩
  · obtain ⟨ds, hds, hname⟩ := convertGrafanaDatasource_name marshalJsonData
      marshalSecureJsonData unicodeToLower conf src i t h
    exact ⟨ds, hds, by rw [sanitize_eq_self _ hns]; exact hname⟩
  · intro s
    rw [sanitize_data]
    apply List.map_congr_left
    intro c _
    by_cases hc : regMatches c = true
    · have hc2 := hc
      simp only [regMatches, Bool.not_eq_true', Bool.or_eq_false_iff, Bool.and_eq_false_imp,
        decide_eq_true_eq, decide_eq_false_iff_not, beq_eq_false_iff_ne] at hc2
      rw [if_pos hc, if_neg]
      rintro (h1 | h1 | h1 | h1 | h1)
      · exact hc2.1.1.1.1 h1.1 h1.2
      · exact hc2.1.1.1.2 h1.1 h1.2
      · exact hc2.1.1.2 h1.1 h1.2
      · exact hc2.1.2 h1
      · exact hc2.2 h1
    · have hc2 : regMatches c = false := by simpa using hc
      rw [if_neg hc, if_pos]
      simp only [regMatches, Bool.not_eq_false', Bool.or_eq_true, Bool.and_eq_true,
        decide_eq_true_eq, beq_iff_eq] at hc2
      rcases hc2 with (((h1 | h1) | h1) | h1) | h1
      · exact Or.inl h1
      · exact Or.inr (Or.inl h1)
      · exact Or.inr (Or.inr (Or.inl h1))
      · exact Or.inr (Or.inr (Or.inr (Or.inl h1)))
      · exact Or.inr (Or.inr (Or.inr (Or.inr h1)))

/-- Witness of C3: the first entry of the sample object in the namespace
`monitoring`, whose declared name `Loki Logs` has an upper-case letter and a
blank. -/
theorem convertGrafanaDatasource_name_sanitized_witness :
    ∃ ds, sample.threeEntries.Spec.Datasources[0]? = some ds ∧
      sample.lokiTarget.ObjectMeta.Name =
        sanitize sample.threeEntries.ObjectMeta.Namespace ++ "-" ++
          sanitize (strings.ToLower id ds.Name) :=
  (convertGrafanaDatasource_name_sanitized sample.marshalFlag sample.marshalUnit id sample.conf
    sample.threeEntries 0 sample.lokiTarget (by decide) (by decide)).1

/-- C4. For every converted datasource entry, the UID of the target is the
fixed legacy constant `PC3E95692D54ABCC0` when the declared name of the entry
contains the substring `Prometheus`, whatever UID the entry declares, and the
UID declared on the entry otherwise. -/
theorem convertGrafanaDatasource_uid {J S : Type}
    (marshalJsonData : J → Except String Bytes)
    (marshalSecureJsonData : S → Except String Bytes)
    (unicodeToLower : Char → Char) (conf : ConverterConfig)
    (src : v1alpha1.GrafanaDataSource J S) (i : Nat) (t : v1beta1.GrafanaDatasource)
    (h : (convertGrafanaDatasource marshalJsonData marshalSecureJsonData unicodeToLower conf
      src).1[i]? = some (some t)) :
    ∃ ds, src.Spec.Datasources[i]? = some ds ∧
      t.Spec.Datasource.map (fun d => d.UID) =
        some (if "Prometheus".data <:+: ds.Name.data then "PC3E95692D54ABCC0" else ds.Uid) := by
  obtain ⟨ds, hds, hok⟩ := convertGrafanaDatasource_slot marshalJsonData marshalSecureJsonData
    unicodeToLower conf src i t h
  refine ⟨ds, hds, ?_⟩
  rw [(convertDatasourceEntry_ok marshalJsonData marshalSecureJsonData unicodeToLower conf src
    ds t hok).2]
  by_cases hc : "Prometheus".data <:+: ds.Name.data
  · have : strings.Contains ds.Name "Prometheus" = true := (containsChars_iff _ _).2 hc
    simp [this, hc, oldDatasourceUID]
  · have : ¬ strings.Contains ds.Name "Prometheus" = true :=
      fun hh => hc ((containsChars_iff _ _).1 hh)
    simp [this, hc]

/-- Witness of C4: the third entry of the sample object declares the UID
`own-uid` and a name containing `Prometheus`. -/
theorem convertGrafanaDatasource_uid_witness :
    ∃ ds, sample.threeEntries.Spec.Datasources[2]? = some ds ∧
      some "PC3E95692D54ABCC0" =
        some (if "Prometheus".data <:+: ds.Name.data then "PC3E95692D54ABCC0" else ds.Uid) :=
  convertGrafanaDatasource_uid sample.marshalFlag sample.marshalUnit id {} sample.threeEntries 2
    { ObjectMeta := {
        Namespace := "monitoring"
        Name := "monitoring-platform-prometheus"
        Labels := some [("app", "grafana")] }
      Spec := {
        AllowCrossNamespaceImport := some true
        ResyncPeriod := "2m"
        Datasource := some {
          UID := "PC3E95692D54ABCC0"
          Name := "Platform Prometheus"
          OrgID := some 0
          IsDefault := some false
          BasicAuth := some false
          Editable := some false
          JSONData := [123, 125]
          SecureJSONData := [123, 125] } } }
    (by decide)

end controllers

/-! ## Properties of the reconcile handlers -/

namespace controllers

/-- Lookup in the map made of the bindings `l` in front of the bindings `d`. -/
theorem lookup_append (l d : List (String × String)) (k : String) :
    metav1.StringMap.lookup (some (l ++ d)) k =
      (metav1.StringMap.lookup (some l) k).orElse (fun _ => metav1.StringMap.lookup (some d) k) := by
  simp only [metav1.StringMap.lookup, List.find?_append]
  cases List.find? (fun p => p.1 == k) l <;> simp

/-- A copy into a non-nil map does not panic, and the copy holds the bindings
of the source over those of the destination. -/
theorem maps_Copy_guarded (m src : metav1.StringMap) :
    ∃ r, maps.Copy (if m = none then some [] else m) src = some r ∧
      ∀ k, r.lookup k = (src.lookup k).orElse (fun _ => m.lookup k) := by
  cases src with
  | none =>
    refine ⟨_, rfl, ?_⟩
    intro k
    cases m <;> simp [metav1.StringMap.lookup]
  | some l =>
    cases l with
    | nil =>
      refine ⟨_, rfl, ?_⟩
      intro k
      cases m <;> simp [metav1.StringMap.lookup]
    | cons e es =>
      cases m with
      | none =>
        refine ⟨some ((e :: es) ++ []), rfl, ?_⟩
        intro k
        rw [lookup_append]
        rfl
      | some d =>
        refine ⟨some ((e :: es) ++ d), rfl, ?_⟩
        intro k
        rw [lookup_append]

section handlers

variable {J S A σ σD σS σF σN : Type}

/-- The store calls of a run continued from a conversion are the store calls of
the run. -/
theorem calls_after_convert {Obj : Type} (r : Run Obj σ) :
    (r.after [.convert]).trace.filter Event.isCall = r.trace.filter Event.isCall := by
  simp [Run.after, List.filter, Event.isCall]

/-- The update path for a desired object whose existing target has an equal
spec: the read and the line "no updates", nothing else. -/
theorem updateGrafanaDashboardTarget_equal (client : Client v1beta1.GrafanaDashboard σ)
    (deepEqual : v1beta1.GrafanaDashboardSpec → v1beta1.GrafanaDashboardSpec → Bool)
    (st st1 : σ) (d existing : v1beta1.GrafanaDashboard)
    (hget : client.Get st d.ObjectMeta.Namespace d.ObjectMeta.Name =
      ({ result := some existing, err := none }, st1))
    (heq : deepEqual existing.Spec d.Spec = true) :
    updateGrafanaDashboardTarget client deepEqual st d =
      { trace := [.get d.ObjectMeta.Namespace d.ObjectMeta.Name, .log .noUpdates]
        state := st1 } := by
  simp only [updateGrafanaDashboardTarget, hget, heq, if_true]

/-- The update path of the folder handler for a desired object whose existing
target has an equal spec. -/
theorem updateGrafanaFolderTarget_equal (client : Client v1beta1.GrafanaFolder σF)
    (deepEqual : v1beta1.GrafanaFolderSpec → v1beta1.GrafanaFolderSpec → Bool)
    (st st1 : σF) (d existing : v1beta1.GrafanaFolder)
    (hget : client.Get st d.ObjectMeta.Namespace d.ObjectMeta.Name =
      ({ result := some existing, err := none }, st1))
    (heq : deepEqual existing.Spec d.Spec = true) :
    updateGrafanaFolderTarget client deepEqual st d =
      { trace := [.get d.ObjectMeta.Namespace d.ObjectMeta.Name, .log .noUpdates]
        state := st1 } := by
  simp only [updateGrafanaFolderTarget, hget, heq, if_true]

/-- The update path of the notification channel handler for a desired object
whose existing target has an equal spec. -/
theorem updateGrafanaNotificationChannelTarget_equal
    (client : Client v1beta1.GrafanaContactPoint σN)
    (deepEqual : v1beta1.GrafanaContactPointSpec → v1beta1.GrafanaContactPointSpec → Bool)
    (st st1 : σN) (notificationChannel : Option v1alpha1.GrafanaNotificationChannel)
    (d existing : v1beta1.GrafanaContactPoint)
    (hget : client.Get st d.ObjectMeta.Namespace d.ObjectMeta.Name =
      ({ result := some existing, err := none }, st1))
    (heq : deepEqual existing.Spec d.Spec = true) :
    updateGrafanaNotificationChannelTarget client deepEqual st notificationChannel d =
      { trace := [.get d.ObjectMeta.Namespace d.ObjectMeta.Name, .log .noUpdates]
        state := st1 } := by
  simp only [updateGrafanaNotificationChannelTarget, hget, heq, if_true]

/-- The loop body of the datasource update handler for a target whose existing
object has an equal spec. -/
theorem updateGrafanaDatasourceTarget_equal (client : Client v1beta1.GrafanaDatasource σS)
    (deepEqual : v1beta1.GrafanaDatasourceSpec → v1beta1.GrafanaDatasourceSpec → Bool)
    (st st1 : σS) (d existing : v1beta1.GrafanaDatasource)
    (hget : client.Get st d.ObjectMeta.Namespace d.ObjectMeta.Name =
      ({ result := some existing, err := none }, st1))
    (heq : deepEqual existing.Spec d.Spec = true) :
    updateGrafanaDatasourceTarget client deepEqual st (some d) =
      { trace := [.get d.ObjectMeta.Namespace d.ObjectMeta.Name, .log .noUpdates]
        state := st1 } := by
  simp only [updateGrafanaDatasourceTarget, hget, heq, if_true]

/-- The object that the update path of the dashboard handler sends to the
store for an existing target and a desired object, given the merged maps. -/
theorem updateGrafanaDashboardTarget_differs (client : Client v1beta1.GrafanaDashboard σ)
    (deepEqual : v1beta1.GrafanaDashboardSpec → v1beta1.GrafanaDashboardSpec → Bool)
    (st st1 : σ) (d existing : v1beta1.GrafanaDashboard)
    (hget : client.Get st d.ObjectMeta.Namespace d.ObjectMeta.Name =
      ({ result := some existing, err := none }, st1))
    (hdiff : deepEqual existing.Spec d.Spec = false) :
    ∃ obj : v1beta1.GrafanaDashboard,
      (updateGrafanaDashboardTarget client deepEqual st d).trace.filter Event.isCall =
        [.get d.ObjectMeta.Namespace d.ObjectMeta.Name,
          .update existing.ObjectMeta.Namespace obj] ∧
      obj.Spec = d.Spec ∧
      obj.ObjectMeta.OwnerReferences = d.ObjectMeta.OwnerReferences ∧
      obj.ObjectMeta.Name = existing.ObjectMeta.Name ∧
      obj.ObjectMeta.Namespace = existing.ObjectMeta.Namespace ∧
      obj.ObjectMeta.UID = existing.ObjectMeta.UID ∧
      obj.ObjectMeta.ResourceVersion = existing.ObjectMeta.ResourceVersion ∧
      (∀ k, obj.ObjectMeta.Labels.lookup k =
        (d.ObjectMeta.Labels.lookup k).orElse (fun _ => existing.ObjectMeta.Labels.lookup k)) ∧
      (∀ k, obj.ObjectMeta.Annotations.lookup k =
        (d.ObjectMeta.Annotations.lookup k).orElse
          (fun _ => existing.ObjectMeta.Annotations.lookup k)) := by
  obtain ⟨ra, hra, hla⟩ :=
    maps_Copy_guarded existing.ObjectMeta.Annotations d.ObjectMeta.Annotations
  obtain ⟨rl, hrl, hll⟩ := maps_Copy_guarded existing.ObjectMeta.Labels d.ObjectMeta.Labels
  refine ⟨{ ObjectMeta := { existing.ObjectMeta with
              Annotations := ra, Labels := rl,
              OwnerReferences := d.ObjectMeta.OwnerReferences }
            Spec := d.Spec }, ?_, rfl, rfl, rfl, rfl, rfl, rfl, hll, hla⟩
  simp only [updateGrafanaDashboardTarget, hget, hdiff, hra, hrl, Bool.false_eq_true, if_false]
  repeat' split
  all_goals simp [Event.isCall]

/-- On the update path the handler runs lines 79 to 120 for the desired
object, after the conversion if there was one: the store calls, the final
state and the panic flag are those of `updateGrafanaDashboardTarget`. -/
theorem updateGrafanaDashboard_of_reaches (client : Client v1beta1.GrafanaDashboard σ)
    (deepEqualOld : v1alpha1.GrafanaDashboardSpec → v1alpha1.GrafanaDashboardSpec → Bool)
    (deepEqual : v1beta1.GrafanaDashboardSpec → v1beta1.GrafanaDashboardSpec → Bool)
    (conf : ConverterConfig) (st : σ) (old new : Payload J S) (d : v1beta1.GrafanaDashboard)
    (hpath : reachesDashboardUpdatePath deepEqualOld conf old new d) :
    (updateGrafanaDashboard client deepEqualOld deepEqual conf st old new =
        updateGrafanaDashboardTarget client deepEqual st d ∨
      updateGrafanaDashboard client deepEqualOld deepEqual conf st old new =
        (updateGrafanaDashboardTarget client deepEqual st d).after [.convert]) := by
  rcases hpath with hnew | ⟨o, n, hold, hnew, hne, hd⟩
  · left
    subst hnew
    cases old <;> rfl
  · right
    subst hold hnew hd
    simp [updateGrafanaDashboard, Payload.isNil, hne]

/-- C6. In `updateGrafanaDashboard`, when the read returns an existing target
whose spec differs from the desired spec, the store calls are the read and
exactly one update; the updated object has the desired spec and the desired
owner references, and each of its labels and annotations has the desired value
when the desired object binds the key and the existing value otherwise, so a
key bound only on the existing target keeps its value. -/
theorem updateGrafanaDashboard_update_merges (client : Client v1beta1.GrafanaDashboard σ)
    (deepEqualOld : v1alpha1.GrafanaDashboardSpec → v1alpha1.GrafanaDashboardSpec → Bool)
    (deepEqual : v1beta1.GrafanaDashboardSpec → v1beta1.GrafanaDashboardSpec → Bool)
    (conf : ConverterConfig) (st st1 : σ) (old new : Payload J S)
    (desired existing : v1beta1.GrafanaDashboard)
    (hpath : reachesDashboardUpdatePath deepEqualOld conf old new desired)
    (hget : client.Get st desired.ObjectMeta.Namespace desired.ObjectMeta.Name =
      ({ result := some existing, err := none }, st1))
    (hdiff : deepEqual existing.Spec desired.Spec = false) :
    ∃ obj : v1beta1.GrafanaDashboard,
      (updateGrafanaDashboard client deepEqualOld deepEqual conf st old new).trace.filter
          Event.isCall =
        [.get desired.ObjectMeta.Namespace desired.ObjectMeta.Name,
          .update existing.ObjectMeta.Namespace obj] ∧
      obj.Spec = desired.Spec ∧
      obj.ObjectMeta.OwnerReferences = desired.ObjectMeta.OwnerReferences ∧
      (∀ k, obj.ObjectMeta.Labels.lookup k =
        (desired.ObjectMeta.Labels.lookup k).orElse
          (fun _ => existing.ObjectMeta.Labels.lookup k)) ∧
      (∀ k, obj.ObjectMeta.Annotations.lookup k =
        (desired.ObjectMeta.Annotations.lookup k).orElse
          (fun _ => existing.ObjectMeta.Annotations.lookup k)) ∧
      (∀ k, desired.ObjectMeta.Labels.lookup k = none →
        obj.ObjectMeta.Labels.lookup k = existing.ObjectMeta.Labels.lookup k) ∧
      (∀ k, desired.ObjectMeta.Annotations.lookup k = none →
        obj.ObjectMeta.Annotations.lookup k = existing.ObjectMeta.Annotations.lookup k) := by
  obtain ⟨obj, hcalls, hspec, howner, _, _, _, _, hlabels, hannotations⟩ :=
    updateGrafanaDashboardTarget_differs client deepEqual st st1 desired existing hget hdiff
  refine ⟨obj, ?_, hspec, howner, hlabels, hannotations, ?_, ?_⟩
  · rcases updateGrafanaDashboard_of_reaches client deepEqualOld deepEqual conf st old new
      desired hpath with h | h
    · rw [h, hcalls]
    · rw [h, calls_after_convert, hcalls]
  · intro k hk
    rw [hlabels k, hk]
    rfl
  · intro k hk
    rw [hannotations k, hk]
    rfl

/-- Witness of C6: the stored target `ns1/d1` has an older spec, the label
`hand` and the annotation `note` of its own; the update sent for the changed
legacy dashboard carries the new spec, the desired label `team` and keeps
`hand` and `note`. -/
theorem updateGrafanaDashboard_update_merges_witness :
    ∃ obj : v1beta1.GrafanaDashboard,
      (updateGrafanaDashboard sample.dashboards sample.structEq sample.structEq sample.conf
          [sample.storedDashboard]
          (.alphaDashboard sample.dashboard : Payload Unit Unit)
          (.alphaDashboard sample.dashboardChanged)).trace.filter Event.isCall =
        [.get "ns1" "d1", .update "ns1" obj] ∧
      obj.Spec = (convertGrafanaDashboard sample.conf sample.dashboardChanged).Spec ∧
      obj.ObjectMeta.OwnerReferences = [] ∧
      (∀ k, obj.ObjectMeta.Labels.lookup k =
        (metav1.StringMap.lookup (some [("team", "a")]) k).orElse
          (fun _ => sample.storedDashboard.ObjectMeta.Labels.lookup k)) ∧
      (∀ k, obj.ObjectMeta.Annotations.lookup k =
        (metav1.StringMap.lookup none k).orElse
          (fun _ => sample.storedDashboard.ObjectMeta.Annotations.lookup k)) ∧
      (∀ k, metav1.StringMap.lookup (some [("team", "a")]) k = none →
        obj.ObjectMeta.Labels.lookup k = sample.storedDashboard.ObjectMeta.Labels.lookup k) ∧
      (∀ k, metav1.StringMap.lookup none k = none →
        obj.ObjectMeta.Annotations.lookup k =
          sample.storedDashboard.ObjectMeta.Annotations.lookup k) :=
  updateGrafanaDashboard_update_merges sample.dashboards sample.structEq sample.structEq
    sample.conf [sample.storedDashboard] [sample.storedDashboard]
    (.alphaDashboard sample.dashboard : Payload Unit Unit)
    (.alphaDashboard sample.dashboardChanged)
    (convertGrafanaDashboard sample.conf sample.dashboardChanged) sample.storedDashboard
    (Or.inr ⟨sample.dashboard, sample.dashboardChanged, rfl, rfl, by decide, rfl⟩)
    (by decide) (by decide)

/-- C7. When the create call made on an Add event fails with AlreadyExists,
`createGrafanaDashboard` falls back to `updateGrafanaDashboard(nil, cr)` with
the object `cr` it has just converted: the next store call reads the existing
target by the namespace and name of `cr`; if the spec of that target equals
the spec of `cr` the run ends on "no updates" without an update, and otherwise
the only further store call is one update whose object carries the spec of
`cr`. -/
theorem createGrafanaDashboard_alreadyExists_falls_back
    (client : Client v1beta1.GrafanaDashboard σ)
    (deepEqualOld : v1alpha1.GrafanaDashboardSpec → v1alpha1.GrafanaDashboardSpec → Bool)
    (deepEqual : v1beta1.GrafanaDashboardSpec → v1beta1.GrafanaDashboardSpec → Bool)
    (conf : ConverterConfig) (st : σ) (alphaDashboard : v1alpha1.GrafanaDashboard)
    (hcreate : (client.Create st (convertGrafanaDashboard conf alphaDashboard).ObjectMeta.Namespace
      (convertGrafanaDashboard conf alphaDashboard)).1.err = some .AlreadyExists) :
    createGrafanaDashboard client deepEqualOld deepEqual conf st
        (.alphaDashboard alphaDashboard : Payload J S) =
      (updateGrafanaDashboard client deepEqualOld deepEqual conf
        (client.Create st (convertGrafanaDashboard conf alphaDashboard).ObjectMeta.Namespace
          (convertGrafanaDashboard conf alphaDashboard)).2
        (.nil : Payload J S) (.betaDashboard (convertGrafanaDashboard conf alphaDashboard))).after
        [.convert, .create (convertGrafanaDashboard conf alphaDashboard).ObjectMeta.Namespace
          (convertGrafanaDashboard conf alphaDashboard)] ∧
    ∀ (existing : v1beta1.GrafanaDashboard) (st2 : σ),
      client.Get
          (client.Create st (convertGrafanaDashboard conf alphaDashboard).ObjectMeta.Namespace
            (convertGrafanaDashboard conf alphaDashboard)).2
          (convertGrafanaDashboard conf alphaDashboard).ObjectMeta.Namespace
          (convertGrafanaDashboard conf alphaDashboard).ObjectMeta.Name =
        ({ result := some existing, err := none }, st2) →
      (deepEqual existing.Spec (convertGrafanaDashboard conf alphaDashboard).Spec = true →
        (createGrafanaDashboard client deepEqualOld deepEqual conf st
            (.alphaDashboard alphaDashboard : Payload J S)).trace =
          [.convert,
            .create (convertGrafanaDashboard conf alphaDashboard).ObjectMeta.Namespace
              (convertGrafanaDashboard conf alphaDashboard),
            .get (convertGrafanaDashboard conf alphaDashboard).ObjectMeta.Namespace
              (convertGrafanaDashboard conf alphaDashboard).ObjectMeta.Name,
            .log .noUpdates]) ∧
      (deepEqual existing.Spec (convertGrafanaDashboard conf alphaDashboard).Spec = false →
        ∃ obj : v1beta1.GrafanaDashboard,
          (createGrafanaDashboard client deepEqualOld deepEqual conf st
              (.alphaDashboard alphaDashboard : Payload J S)).trace.filter Event.isCall =
            [.create (convertGrafanaDashboard conf alphaDashboard).ObjectMeta.Namespace
                (convertGrafanaDashboard conf alphaDashboard),
              .get (convertGrafanaDashboard conf alphaDashboard).ObjectMeta.Namespace
                (convertGrafanaDashboard conf alphaDashboard).ObjectMeta.Name,
              .update existing.ObjectMeta.Namespace obj] ∧
          obj.Spec = (convertGrafanaDashboard conf alphaDashboard).Spec) := by
  have hrun : createGrafanaDashboard client deepEqualOld deepEqual conf st
        (.alphaDashboard alphaDashboard : Payload J S) =
      (updateGrafanaDashboard client deepEqualOld deepEqual conf
        (client.Create st (convertGrafanaDashboard conf alphaDashboard).ObjectMeta.Namespace
          (convertGrafanaDashboard conf alphaDashboard)).2
        (.nil : Payload J S) (.betaDashboard (convertGrafanaDashboard conf alphaDashboard))).after
        [.convert, .create (convertGrafanaDashboard conf alphaDashboard).ObjectMeta.Namespace
          (convertGrafanaDashboard conf alphaDashboard)] := by
    simp only [createGrafanaDashboard, hcreate, if_true]
  refine ⟨hrun, ?_⟩
  intro existing st2 hget
  have hupd : updateGrafanaDashboard client deepEqualOld deepEqual conf
        (client.Create st (convertGrafanaDashboard conf alphaDashboard).ObjectMeta.Namespace
          (convertGrafanaDashboard conf alphaDashboard)).2
        (.nil : Payload J S) (.betaDashboard (convertGrafanaDashboard conf alphaDashboard)) =
      updateGrafanaDashboardTarget client deepEqual
        (client.Create st (convertGrafanaDashboard conf alphaDashboard).ObjectMeta.Namespace
          (convertGrafanaDashboard conf alphaDashboard)).2
        (convertGrafanaDashboard conf alphaDashboard) := rfl
  constructor
  · intro heq
    rw [hrun, hupd, updateGrafanaDashboardTarget_equal client deepEqual _ st2 _ existing hget heq]
    rfl
  · intro hdiff
    obtain ⟨obj, hcalls, hspec, _⟩ :=
      updateGrafanaDashboardTarget_differs client deepEqual _ st2 _ existing hget hdiff
    refine ⟨obj, ?_, hspec⟩
    rw [hrun, hupd]
    simp only [Run.after, List.filter_append, hcalls]
    simp [Event.isCall]

/-- Witness of C7: an Add event for the legacy dashboard `ns1/d1` while the
store already holds a target `ns1/d1`. -/
theorem createGrafanaDashboard_alreadyExists_falls_back_witness :
    createGrafanaDashboard sample.dashboards sample.structEq sample.structEq sample.conf
        [sample.storedDashboard] (.alphaDashboard sample.dashboard : Payload Unit Unit) =
      (updateGrafanaDashboard sample.dashboards sample.structEq sample.structEq sample.conf
        (sample.dashboards.Create [sample.storedDashboard]
          (convertGrafanaDashboard sample.conf sample.dashboard).ObjectMeta.Namespace
          (convertGrafanaDashboard sample.conf sample.dashboard)).2
        (.nil : Payload Unit Unit)
        (.betaDashboard (convertGrafanaDashboard sample.conf sample.dashboard))).after
        [.convert,
          .create (convertGrafanaDashboard sample.conf sample.dashboard).ObjectMeta.Namespace
            (convertGrafanaDashboard sample.conf sample.dashboard)] :=
  (createGrafanaDashboard_alreadyExists_falls_back sample.dashboards sample.structEq
    sample.structEq sample.conf [sample.storedDashboard] sample.dashboard (by decide)).1

/-- C8. On the update path of `updateGrafanaDashboard`, when the read of the
target by its namespace and name returns NotFound, the store calls are the
read and exactly one create of the desired object, with no update; and when
that create succeeds the run ends there, on the line "has been created". -/
theorem updateGrafanaDashboard_notFound_creates (client : Client v1beta1.GrafanaDashboard σ)
    (deepEqualOld : v1alpha1.GrafanaDashboardSpec → v1alpha1.GrafanaDashboardSpec → Bool)
    (deepEqual : v1beta1.GrafanaDashboardSpec → v1beta1.GrafanaDashboardSpec → Bool)
    (conf : ConverterConfig) (st : σ) (old new : Payload J S)
    (desired : v1beta1.GrafanaDashboard)
    (hpath : reachesDashboardUpdatePath deepEqualOld conf old new desired)
    (hget : (client.Get st desired.ObjectMeta.Namespace desired.ObjectMeta.Name).1.err =
      some .NotFound) :
    (updateGrafanaDashboard client deepEqualOld deepEqual conf st old new).trace.filter
        Event.isCall =
      [.get desired.ObjectMeta.Namespace desired.ObjectMeta.Name,
        .create desired.ObjectMeta.Namespace desired] ∧
    (∀ created,
      (client.Create (client.Get st desired.ObjectMeta.Namespace desired.ObjectMeta.Name).2
          desired.ObjectMeta.Namespace desired).1 = { result := some created, err := none } →
      (updateGrafanaDashboard client deepEqualOld deepEqual conf st old new).trace.getLast? =
          some (.log .created) ∧
        (updateGrafanaDashboard client deepEqualOld deepEqual conf st old new).panicked = false ∧
        (updateGrafanaDashboard client deepEqualOld deepEqual conf st old new).state =
          (client.Create (client.Get st desired.ObjectMeta.Namespace desired.ObjectMeta.Name).2
            desired.ObjectMeta.Namespace desired).2) := by
  have htarget :
      (updateGrafanaDashboardTarget client deepEqual st desired).trace.filter Event.isCall =
        [.get desired.ObjectMeta.Namespace desired.ObjectMeta.Name,
          .create desired.ObjectMeta.Namespace desired] := by
    simp only [updateGrafanaDashboardTarget, hget, if_true]
    repeat' split
    all_goals simp [Event.isCall]
  have hcreated : ∀ created,
      (client.Create (client.Get st desired.ObjectMeta.Namespace desired.ObjectMeta.Name).2
          desired.ObjectMeta.Namespace desired).1 = { result := some created, err := none } →
      updateGrafanaDashboardTarget client deepEqual st desired =
        { trace := [.get desired.ObjectMeta.Namespace desired.ObjectMeta.Name,
            .create desired.ObjectMeta.Namespace desired, .log .created]
          state := (client.Create
            (client.Get st desired.ObjectMeta.Namespace desired.ObjectMeta.Name).2
            desired.ObjectMeta.Namespace desired).2 } := by
    intro created hc
    simp only [updateGrafanaDashboardTarget, hget, if_true, hc]
  rcases updateGrafanaDashboard_of_reaches client deepEqualOld deepEqual conf st old new
    desired hpath with h | h
  · rw [h]
    refine ⟨htarget, ?_⟩
    intro created hc
    rw [hcreated created hc]
    simp
  · rw [h, calls_after_convert]
    refine ⟨htarget, ?_⟩
    intro created hc
    rw [hcreated created hc]
    simp [Run.after]

/-- Witness of C8: an Update event for the changed legacy dashboard against an
empty store. -/
theorem updateGrafanaDashboard_notFound_creates_witness :
    (updateGrafanaDashboard sample.dashboards sample.structEq sample.structEq sample.conf []
        (.alphaDashboard sample.dashboard : Payload Unit Unit)
        (.alphaDashboard sample.dashboardChanged)).trace.filter Event.isCall =
      [.get "ns1" "d1",
        .create "ns1" (convertGrafanaDashboard sample.conf sample.dashboardChanged)] ∧
    (∀ created,
      (sample.dashboards.Create (sample.dashboards.Get [] "ns1" "d1").2 "ns1"
          (convertGrafanaDashboard sample.conf sample.dashboardChanged)).1 =
        { result := some created, err := none } →
      (updateGrafanaDashboard sample.dashboards sample.structEq sample.structEq sample.conf []
          (.alphaDashboard sample.dashboard : Payload Unit Unit)
          (.alphaDashboard sample.dashboardChanged)).trace.getLast? = some (.log .created) ∧
        (updateGrafanaDashboard sample.dashboards sample.structEq sample.structEq sample.conf []
          (.alphaDashboard sample.dashboard : Payload Unit Unit)
          (.alphaDashboard sample.dashboardChanged)).panicked = false ∧
        (updateGrafanaDashboard sample.dashboards sample.structEq sample.structEq sample.conf []
          (.alphaDashboard sample.dashboard : Payload Unit Unit)
          (.alphaDashboard sample.dashboardChanged)).state =
          (sample.dashboards.Create (sample.dashboards.Get [] "ns1" "d1").2 "ns1"
            (convertGrafanaDashboard sample.conf sample.dashboardChanged)).2) :=
  updateGrafanaDashboard_notFound_creates sample.dashboards sample.structEq sample.structEq
    sample.conf [] (.alphaDashboard sample.dashboard : Payload Unit Unit)
    (.alphaDashboard sample.dashboardChanged)
    (convertGrafanaDashboard sample.conf sample.dashboardChanged)
    (Or.inr ⟨sample.dashboard, sample.dashboardChanged, rfl, rfl, by decide, rfl⟩)
    (by decide)

/-- C9. For each of the four kinds, an Update event that carries an old and a
new legacy object of the kind of the handler with deeply equal specs ends on
the line "no diffs": the handler does not convert and issues no store call
(no read, no create, no update), and leaves the store state as it was. -/
theorem update_handlers_skip_unchanged_spec
    (dashboardClient : Client v1beta1.GrafanaDashboard σD)
    (datasourceClient : Client v1beta1.GrafanaDatasource σS)
    (folderClient : Client v1beta1.GrafanaFolder σF)
    (contactPointClient : Client v1beta1.GrafanaContactPoint σN)
    (deepEqualOldD : v1alpha1.GrafanaDashboardSpec → v1alpha1.GrafanaDashboardSpec → Bool)
    (deepEqualD : v1beta1.GrafanaDashboardSpec → v1beta1.GrafanaDashboardSpec → Bool)
    (deepEqualOldS :
      v1alpha1.GrafanaDataSourceSpec J S → v1alpha1.GrafanaDataSourceSpec J S → Bool)
    (deepEqualS : v1beta1.GrafanaDatasourceSpec → v1beta1.GrafanaDatasourceSpec → Bool)
    (deepEqualOldF : v1alpha1.GrafanaFolderSpec → v1alpha1.GrafanaFolderSpec → Bool)
    (deepEqualF : v1beta1.GrafanaFolderSpec → v1beta1.GrafanaFolderSpec → Bool)
    (deepEqualOldN :
      v1alpha1.GrafanaNotificationChannelSpec → v1alpha1.GrafanaNotificationChannelSpec → Bool)
    (deepEqualN : v1beta1.GrafanaContactPointSpec → v1beta1.GrafanaContactPointSpec → Bool)
    (marshalJsonData : J → Except String Bytes)
    (marshalSecureJsonData : S → Except String Bytes)
    (unicodeToLower : Char → Char) (isPrintWide : Char → Bool)
    (unmarshal : String → Except String (EmbeddedContactPoint A))
    (marshal : Option A → Except String Bytes)
    (conf : ConverterConfig) (stD : σD) (stS : σS) (stF : σF) (stN : σN)
    (oldD newD : v1alpha1.GrafanaDashboard)
    (oldS newS : v1alpha1.GrafanaDataSource J S)
    (oldF newF : v1alpha1.GrafanaFolder)
    (oldN newN : v1alpha1.GrafanaNotificationChannel)
    (hD : deepEqualOldD oldD.Spec newD.Spec = true)
    (hS : deepEqualOldS oldS.Spec newS.Spec = true)
    (hF : deepEqualOldF oldF.Spec newF.Spec = true)
    (hN : deepEqualOldN oldN.Spec newN.Spec = true) :
    updateGrafanaDashboard dashboardClient deepEqualOldD deepEqualD conf stD
        (.alphaDashboard oldD : Payload J S) (.alphaDashboard newD) =
      { trace := [.log .noDiffs], panicked := false, state := stD } ∧
    updateGrafanaDatasource datasourceClient deepEqualOldS deepEqualS marshalJsonData
        marshalSecureJsonData unicodeToLower conf stS
        (.alphaDatasource oldS : Payload J S) (.alphaDatasource newS) =
      { trace := [.log .noDiffs], panicked := false, state := stS } ∧
    updateGrafanaFolder folderClient deepEqualOldF deepEqualF isPrintWide conf stF
        (.alphaFolder oldF : Payload J S) (.alphaFolder newF) =
      { trace := [.log .noDiffs], panicked := false, state := stF } ∧
    updateGrafanaNotificationChannel contactPointClient deepEqualOldN deepEqualN unmarshal
        marshal conf stN
        (.alphaNotificationChannel oldN : Payload J S) (.alphaNotificationChannel newN) =
      { trace := [.log .noDiffs], panicked := false, state := stN } := by
  refine ⟨?_, ?_, ?_, ?_⟩
  · simp [updateGrafanaDashboard, Payload.isNil, hD]
  · simp [updateGrafanaDatasource, Payload.isNil, hS]
  · simp [updateGrafanaFolder, Payload.isNil, hF]
  · simp [updateGrafanaNotificationChannel, Payload.isNil, hN]

/-- Witness of C9: for each kind, an Update event whose old and new objects
have the same spec (the new object differs at most in its labels), against an
empty store. -/
theorem update_handlers_skip_unchanged_spec_witness :
    updateGrafanaDashboard sample.dashboards sample.structEq sample.structEq sample.conf []
        (.alphaDashboard sample.dashboard : Payload Bool Unit)
        (.alphaDashboard sample.dashboardRelabelled) =
      { trace := [.log .noDiffs], panicked := false, state := [] } ∧
    updateGrafanaDatasource sample.datasources sample.structEq sample.structEq
        sample.marshalFlag sample.marshalUnit id sample.conf []
        (.alphaDatasource sample.threeEntries : Payload Bool Unit)
        (.alphaDatasource sample.threeEntries) =
      { trace := [.log .noDiffs], panicked := false, state := [] } ∧
    updateGrafanaFolder sample.folders sample.structEq sample.structEq (fun _ => true)
        sample.conf [] (.alphaFolder sample.folder : Payload Bool Unit)
        (.alphaFolder sample.folderRelabelled) =
      { trace := [.log .noDiffs], panicked := false, state := [] } ∧
    updateGrafanaNotificationChannel sample.contactPoints sample.structEq sample.structEq
        sample.unmarshal sample.marshalSettings sample.conf []
        (.alphaNotificationChannel sample.channel : Payload Bool Unit)
        (.alphaNotificationChannel sample.channel) =
      { trace := [.log .noDiffs], panicked := false, state := [] } :=
  update_handlers_skip_unchanged_spec sample.dashboards sample.datasources sample.folders
    sample.contactPoints sample.structEq sample.structEq sample.structEq sample.structEq
    sample.structEq sample.structEq sample.structEq sample.structEq
    sample.marshalFlag sample.marshalUnit id (fun _ => true) sample.unmarshal
    sample.marshalSettings sample.conf [] [] [] []
    sample.dashboard sample.dashboardRelabelled sample.threeEntries sample.threeEntries
    sample.folder sample.folderRelabelled sample.channel sample.channel
    (by decide) (by decide) (by decide) (by decide)

end handlers

end controllers

/-! ## Properties of the folder permissions -/

namespace controllers

/-- C10 (code defect). `buildFolderPermission` encodes the target `123` as the
number `123` and the target `team-a` as the JSON string `"team-a"`, but it
writes a target that does not parse as an integer with the Go verb `%q`: the
target made of the rune `U+0007` is written as a quotation mark, a backslash,
the letter `a` and a quotation mark, which is not a JSON string literal. -/
theorem buildFolderPermission_go_quoted_target (isPrintWide : Char → Bool) :
    buildFolderPermission isPrintWide
        [{ PermissionTargetType := "user", PermissionTarget := "123", PermissionLevel := 1 },
          { PermissionTargetType := "team", PermissionTarget := "team-a", PermissionLevel := 2 }] =
      "\x7b \"items\": [ \x7b\"user\": 123, \"permission\": 1\x7d," ++
        "\x7b\"team\": \"team-a\", \"permission\": 2\x7d ]\x7d" ∧
    json.isStringLiteral (strconv.Quote isPrintWide "team-a") = true ∧
    strconv.ParseInt sample.bellItem.PermissionTarget = none ∧
    buildFolderPermission isPrintWide [sample.bellItem] =
      "\x7b \"items\": [ \x7b\"user\": " ++ String.mk [Char.ofNat 34, Char.ofNat 92, 'a',
        Char.ofNat 34] ++ ", \"permission\": 1\x7d ]\x7d" ∧
    strconv.Quote isPrintWide sample.bellItem.PermissionTarget =
      String.mk [Char.ofNat 34, Char.ofNat 92, 'a', Char.ofNat 34] ∧
    json.isStringLiteral (strconv.Quote isPrintWide sample.bellItem.PermissionTarget) = false := by
  exact ⟨rfl, rfl, rfl, rfl, rfl, rfl⟩

end controllers

/-! ## Properties of the folder conversion -/

namespace controllers

/-- The text that `buildFolderPermission` writes between the brackets: the
texts of the items, one per item and in the order of the items, with a comma
between two consecutive ones. -/
theorem folderPermissionItems_data (isPrintWide : Char → Bool)
    (items : List v1alpha1.GrafanaPermissionItem) :
    (folderPermissionItems isPrintWide items).data =
      List.intercalate [','] (items.map (fun item => (folderPermissionItem isPrintWide item).data)) := by
  induction items with
  | nil => rfl
  | cons item rest ih =>
    cases rest with
    | nil => simp [folderPermissionItems, List.intercalate]
    | cons next rest =>
      rw [folderPermissionItems, String.data_append, String.data_append, ih]
      simp [List.intercalate]

/-- Runes up to `U+00FF` are quoted by the Latin-1 path of `IsPrint`, whatever
the tables for the other runes are. -/
theorem appendEscapedRune_latin1 (p q : Char → Bool) (r : Char) (h : r.toNat ≤ 255) :
    strconv.appendEscapedRune p r = strconv.appendEscapedRune q r := by
  simp [strconv.appendEscapedRune, strconv.IsPrint, h]

/-- The quoted text of a string of runes up to `U+00FF` does not depend on the
tables for the other runes. -/
theorem Quote_latin1 (p q : Char → Bool) (s : String) (h : ∀ c ∈ s.data, c.toNat ≤ 255) :
    strconv.Quote p s = strconv.Quote q s := by
  have hl : ∀ l : List Char, (∀ c ∈ l, c.toNat ≤ 255) →
      l.flatMap (strconv.appendEscapedRune p) = l.flatMap (strconv.appendEscapedRune q) := by
    intro l
    induction l with
    | nil => intro _; rfl
    | cons c cs ih =>
      intro hl
      simp only [List.flatMap_cons]
      rw [appendEscapedRune_latin1 p q c (hl c (List.mem_cons_self c cs)),
        ih (fun d hd => hl d (List.mem_cons_of_mem c hd))]
  have := hl s.data h
  simp [strconv.Quote, this]

/-- A permission item whose target type and target have runes up to `U+00FF`
only is written in the same way whatever the tables for the other runes. -/
theorem folderPermissionItem_latin1 (p q : Char → Bool) (item : v1alpha1.GrafanaPermissionItem)
    (h : (∀ c ∈ item.PermissionTargetType.data, c.toNat ≤ 255) ∧
      ∀ c ∈ item.PermissionTarget.data, c.toNat ≤ 255) :
    folderPermissionItem p item = folderPermissionItem q item := by
  unfold folderPermissionItem
  rw [Quote_latin1 p q _ h.1, Quote_latin1 p q item.PermissionTarget h.2]

/-- The text of a list of permission items with runes up to `U+00FF` only does
not depend on the tables for the other runes. -/
theorem buildFolderPermission_latin1 (p q : Char → Bool)
    (items : List v1alpha1.GrafanaPermissionItem)
    (h : ∀ item ∈ items, (∀ c ∈ item.PermissionTargetType.data, c.toNat ≤ 255) ∧
      ∀ c ∈ item.PermissionTarget.data, c.toNat ≤ 255) :
    buildFolderPermission p items = buildFolderPermission q items := by
  have hdata : (folderPermissionItems p items).data = (folderPermissionItems q items).data := by
    rw [folderPermissionItems_data, folderPermissionItems_data]
    congr 1
    apply List.map_congr_left
    intro item hitem
    rw [folderPermissionItem_latin1 p q item (h item hitem)]
  have hitems : folderPermissionItems p items = folderPermissionItems q items :=
    String.ext hdata
  simp [buildFolderPermission, hitems]

/-- C11 (code defect). `buildFolderPermission` returns a well-formed JSON
object for the empty list and for the items `user 123` and `team team-a`, with
spaces after its structural tokens, but it writes the target types and the
non-integer targets with the Go verb `%q`: for an item whose target, or whose
target type, has the rune `U+0007` the text it returns is not well-formed
JSON. -/
theorem buildFolderPermission_not_well_formed (isPrintWide : Char → Bool) :
    buildFolderPermission isPrintWide [] = "\x7b \"items\": [  ]\x7d" ∧
    json.isWellFormed (buildFolderPermission isPrintWide []) = true ∧
    json.isWellFormed (buildFolderPermission isPrintWide sample.permissionItems) = true ∧
    buildFolderPermission isPrintWide [sample.bellItem] =
      "\x7b \"items\": [ \x7b\"user\": " ++ String.mk [Char.ofNat 34, Char.ofNat 92, 'a',
        Char.ofNat 34] ++ ", \"permission\": 1\x7d ]\x7d" ∧
    json.isWellFormed (buildFolderPermission isPrintWide [sample.bellItem]) = false ∧
    buildFolderPermission isPrintWide [sample.bellTypeItem] =
      "\x7b \"items\": [ \x7b" ++ String.mk [Char.ofNat 34, 't', Char.ofNat 92, 'a',
        Char.ofNat 34] ++ ": 5, \"permission\": 4\x7d ]\x7d" ∧
    json.isWellFormed (buildFolderPermission isPrintWide [sample.bellTypeItem]) = false := by
  rw [buildFolderPermission_latin1 isPrintWide (fun _ => false) [] (by decide),
    buildFolderPermission_latin1 isPrintWide (fun _ => false) sample.permissionItems (by decide),
    buildFolderPermission_latin1 isPrintWide (fun _ => false) [sample.bellItem] (by decide),
    buildFolderPermission_latin1 isPrintWide (fun _ => false) [sample.bellTypeItem] (by decide)]
  decide

end controllers

/-! ## Properties of the notification channel conversion -/

namespace controllers

section notificationChannelConversion

variable {J S A σ : Type}

/-- What `convertGrafanaNotificationChannel` decodes: the blob when it is not
empty, the zero contact point otherwise. -/
theorem convertGrafanaNotificationChannel_ok_inv
    (unmarshal : String → Except String (EmbeddedContactPoint A))
    (marshal : Option A → Except String Bytes)
    (conf : ConverterConfig) (src : v1alpha1.GrafanaNotificationChannel)
    (t : v1beta1.GrafanaContactPoint)
    (h : convertGrafanaNotificationChannel unmarshal marshal conf src = .ok t) :
    ∃ (e : EmbeddedContactPoint A) (type : String) (settings : Bytes),
      (if src.Spec.Json.utf8ByteSize > 0 then unmarshal src.Spec.Json else .ok {}) = .ok e ∧
      e.Type_ = some type ∧ marshal e.Settings = .ok settings ∧
      t = { ObjectMeta := {
              Namespace := src.ObjectMeta.Namespace
              Name := src.ObjectMeta.Name
              Labels := src.ObjectMeta.Labels
              Annotations := src.ObjectMeta.Annotations
              OwnerReferences := src.ObjectMeta.OwnerReferences }
            Spec := {
              Name := e.Name
              Type_ := type
              DisableResolveMessage := e.DisableResolveMessage
              Settings := some settings
              AllowCrossNamespaceImport := some true
              ResyncPeriod := v1beta1.DefaultResyncPeriodDuration
              InstanceSelector := conf.InstanceSelector } } := by
  unfold convertGrafanaNotificationChannel at h
  generalize (if src.Spec.Json.utf8ByteSize > 0 then unmarshal src.Spec.Json
    else (Except.ok {} : Except String (EmbeddedContactPoint A))) = parsed at h ⊢
  cases parsed with
  | error err => cases h
  | ok e =>
    dsimp only at h
    cases htype : e.Type_ with
    | none => simp [htype] at h
    | some type =>
      cases hm : marshal e.Settings with
      | error err => simp [htype, jsonPtr, hm] at h
      | ok settings =>
        simp only [htype, jsonPtr, hm, ConvertResult.ok.injEq] at h
        exact ⟨e, type, settings, rfl, htype, hm, h.symm⟩

/-- C12. For every legacy notification channel whose blob is not empty and
fails to decode, `convertGrafanaNotificationChannel` returns the decoding
error and no target object; the create handler then logs the error and issues
no store call, and the update handler issues no store call either. -/
theorem convertGrafanaNotificationChannel_malformed
    (client : Client v1beta1.GrafanaContactPoint σ)
    (deepEqualOld :
      v1alpha1.GrafanaNotificationChannelSpec → v1alpha1.GrafanaNotificationChannelSpec → Bool)
    (deepEqual : v1beta1.GrafanaContactPointSpec → v1beta1.GrafanaContactPointSpec → Bool)
    (unmarshal : String → Except String (EmbeddedContactPoint A))
    (marshal : Option A → Except String Bytes)
    (conf : ConverterConfig) (st : σ)
    (old src : v1alpha1.GrafanaNotificationChannel) (err : String)
    (hnonempty : src.Spec.Json.utf8ByteSize > 0)
    (hmalformed : unmarshal src.Spec.Json = .error err) :
    convertGrafanaNotificationChannel unmarshal marshal conf src = .error err ∧
    createGrafanaNotificationChannel client deepEqualOld deepEqual unmarshal marshal conf st
        (.alphaNotificationChannel src : Payload J S) =
      { trace := [.convert, .log .cannotConvert], state := st } ∧
    (updateGrafanaNotificationChannel client deepEqualOld deepEqual unmarshal marshal conf st
        (.alphaNotificationChannel old : Payload J S)
        (.alphaNotificationChannel src)).trace.filter Event.isCall = [] := by
  have hconv : convertGrafanaNotificationChannel unmarshal marshal conf src = .error err := by
    simp [convertGrafanaNotificationChannel, hnonempty, hmalformed]
  refine ⟨hconv, ?_, ?_⟩
  · simp [createGrafanaNotificationChannel, hconv]
  · by_cases hold : deepEqualOld old.Spec src.Spec = true
    · simp [updateGrafanaNotificationChannel, Payload.isNil, hold, Event.isCall]
    · simp [updateGrafanaNotificationChannel, Payload.isNil, hold, hconv, Event.isCall]

/-- Witness of C12: the blob of the sample channel `ns1/n2` is an opening
brace. -/
theorem convertGrafanaNotificationChannel_malformed_witness :
    convertGrafanaNotificationChannel sample.unmarshal sample.marshalSettings sample.conf
        sample.malformedChannel = .error "invalid character" ∧
    createGrafanaNotificationChannel sample.contactPoints sample.structEq sample.structEq
        sample.unmarshal sample.marshalSettings sample.conf []
        (.alphaNotificationChannel sample.malformedChannel : Payload Unit Unit) =
      { trace := [.convert, .log .cannotConvert], state := [] } ∧
    (updateGrafanaNotificationChannel sample.contactPoints sample.structEq sample.structEq
        sample.unmarshal sample.marshalSettings sample.conf []
        (.alphaNotificationChannel sample.channel : Payload Unit Unit)
        (.alphaNotificationChannel sample.malformedChannel)).trace.filter Event.isCall = [] :=
  convertGrafanaNotificationChannel_malformed sample.contactPoints sample.structEq
    sample.structEq sample.unmarshal sample.marshalSettings sample.conf [] sample.channel
    sample.malformedChannel "invalid character" (by decide) rfl

/-- C13 (code defect). `convertGrafanaNotificationChannel` dereferences the
type of the decoded contact point without a nil check: for a legacy
notification channel whose blob is empty, whatever the decoder and the
configuration, and for the sample channel whose blob is a JSON object without
a type, the conversion panics and returns no target. -/
theorem convertGrafanaNotificationChannel_panics_without_type
    (unmarshal : String → Except String (EmbeddedContactPoint A))
    (marshal : Option A → Except String Bytes) (conf : ConverterConfig) :
    convertGrafanaNotificationChannel unmarshal marshal conf sample.emptyChannel = .panic ∧
    sample.unmarshalTypeless sample.typelessChannel.Spec.Json = .ok { Name := "mail" } ∧
    convertGrafanaNotificationChannel sample.unmarshalTypeless sample.marshalSettings conf
      sample.typelessChannel = .panic :=
  ⟨rfl, rfl, rfl⟩

end notificationChannelConversion

end controllers

/-! ## Properties of the dashboard conversion -/

namespace controllers

/-- A loop that appends one converted element per element of `l` to `init`
yields `init` followed by the converted elements, in the order of `l`. -/
theorem foldl_append_singleton {α β : Type} (f : α → β) (l : List α) :
    ∀ init : List β, l.foldl (fun acc x => acc ++ [f x]) init = init ++ l.map f := by
  induction l with
  | nil => intro init; simp
  | cons x xs ih => intro init; simp [ih]

/-- The plugin list and the datasource-binding list of a converted
dashboard. -/
theorem convertGrafanaDashboard_lists (conf : ConverterConfig) (src : v1alpha1.GrafanaDashboard) :
    (convertGrafanaDashboard conf src).Spec.Plugins =
        src.Spec.Plugins.map (fun plugin => { Name := plugin.Name, Version := plugin.Version }) ∧
      (convertGrafanaDashboard conf src).Spec.Datasources =
        src.Spec.Datasources.map (fun datasource =>
          { InputName := datasource.InputName, DatasourceName := datasource.DatasourceName }) := by
  constructor
  · show src.Spec.Plugins.foldl _ [] = _
    rw [foldl_append_singleton (fun plugin : v1alpha1.GrafanaPlugin =>
      ({ Name := plugin.Name, Version := plugin.Version } : v1beta1.GrafanaPlugin))]
    rfl
  · show src.Spec.Datasources.foldl _ [] = _
    rw [foldl_append_singleton (fun datasource : v1alpha1.GrafanaDashboardDatasource =>
      ({ InputName := datasource.InputName, DatasourceName := datasource.DatasourceName } :
        v1beta1.GrafanaDashboardDatasource))]
    rfl

/-- C14. For every legacy dashboard and configuration, the target of
`convertGrafanaDashboard` has the json, gzipJson, url, jsonnet and
configMapRef of the legacy dashboard, the legacy customFolderName as its
folder, the configured instance selector, allowCrossNamespaceImport true, the
resync period `2m`, and the legacy content cache duration if there is one and
zero otherwise; the legacy dashboard `ns1/d1` with the json `{"uid":""}`
becomes the target `ns1/d1` with an empty folder. -/
theorem convertGrafanaDashboard_fields (conf : ConverterConfig)
    (src : v1alpha1.GrafanaDashboard) :
    (convertGrafanaDashboard conf src).Spec.Json = src.Spec.Json ∧
    (convertGrafanaDashboard conf src).Spec.GzipJson = src.Spec.GzipJson ∧
    (convertGrafanaDashboard conf src).Spec.Url = src.Spec.Url ∧
    (convertGrafanaDashboard conf src).Spec.Jsonnet = src.Spec.Jsonnet ∧
    (convertGrafanaDashboard conf src).Spec.ConfigMapRef = src.Spec.ConfigMapRef ∧
    (convertGrafanaDashboard conf src).Spec.FolderTitle = src.Spec.CustomFolderName ∧
    (convertGrafanaDashboard conf src).Spec.InstanceSelector = conf.InstanceSelector ∧
    (convertGrafanaDashboard conf src).Spec.AllowCrossNamespaceImport = some true ∧
    (convertGrafanaDashboard conf src).Spec.ResyncPeriod = "2m" ∧
    (convertGrafanaDashboard conf src).Spec.ContentCacheDuration =
      src.Spec.ContentCacheDuration.getD 0 ∧
    (convertGrafanaDashboard conf sample.dashboard).ObjectMeta.Namespace = "ns1" ∧
    (convertGrafanaDashboard conf sample.dashboard).ObjectMeta.Name = "d1" ∧
    (convertGrafanaDashboard conf sample.dashboard).Spec.Json = "\x7b\"uid\":\"\"\x7d" ∧
    (convertGrafanaDashboard conf sample.dashboard).Spec.FolderTitle = "" := by
  refine ⟨rfl, rfl, rfl, rfl, rfl, rfl, rfl, rfl, rfl, ?_, rfl, rfl, rfl, rfl⟩
  show (match src.Spec.ContentCacheDuration with
    | some d => d
    | none => 0) = _
  cases src.Spec.ContentCacheDuration <;> rfl

/-- C15. For every legacy dashboard, the datasource-binding list and the
plugin list of the converted target have the length of the legacy lists, and
the element at each position has the field values of the legacy element at
that position (inputName and datasourceName, name and version). -/
theorem convertGrafanaDashboard_preserves_lists (conf : ConverterConfig)
    (src : v1alpha1.GrafanaDashboard) :
    (convertGrafanaDashboard conf src).Spec.Datasources.length = src.Spec.Datasources.length ∧
    (convertGrafanaDashboard conf src).Spec.Plugins.length = src.Spec.Plugins.length ∧
    (∀ i : Nat,
      ((convertGrafanaDashboard conf src).Spec.Datasources[i]?).map
          (fun d => (d.InputName, d.DatasourceName)) =
        (src.Spec.Datasources[i]?).map (fun d => (d.InputName, d.DatasourceName))) ∧
    (∀ i : Nat,
      ((convertGrafanaDashboard conf src).Spec.Plugins[i]?).map (fun p => (p.Name, p.Version)) =
        (src.Spec.Plugins[i]?).map (fun p => (p.Name, p.Version))) := by
  obtain ⟨hp, hd⟩ := convertGrafanaDashboard_lists conf src
  rw [hp, hd]
  refine ⟨by simp, by simp, ?_, ?_⟩
  · intro i
    simp only [List.getElem?_map, Option.map_map]
    rfl
  · intro i
    simp only [List.getElem?_map, Option.map_map]
    rfl

end controllers

/-! ## Properties shared by the four conversions -/

namespace controllers

section conversions

variable {J S A : Type}

/-- The target that the loop body of `convertGrafanaDatasource` builds for an
entry, when it builds one. -/
theorem convertDatasourceEntry_ok_inv
    (marshalJsonData : J → Except String Bytes)
    (marshalSecureJsonData : S → Except String Bytes)
    (unicodeToLower : Char → Char) (conf : ConverterConfig)
    (src : v1alpha1.GrafanaDataSource J S) (ds : v1alpha1.GrafanaDataSourceFields J S)
    (t : v1beta1.GrafanaDatasource)
    (h : convertDatasourceEntry marshalJsonData marshalSecureJsonData unicodeToLower conf src ds =
      .ok t) :
    ∃ (jsonData secureJsonData : Bytes) (d : v1beta1.GrafanaDatasourceInternal),
      (if ds.CustomJsonData.length ≠ 0 then .ok ds.CustomJsonData
        else marshalJsonData ds.JsonData) = .ok jsonData ∧
      (if ds.CustomSecureJsonData.length ≠ 0 then .ok ds.CustomSecureJsonData
        else marshalSecureJsonData ds.SecureJsonData) = .ok secureJsonData ∧
      d.JSONData = jsonData ∧ d.SecureJSONData = secureJsonData ∧
      t.Spec = { InstanceSelector := conf.InstanceSelector
                 AllowCrossNamespaceImport := some true
                 Datasource := some d
                 ResyncPeriod := v1beta1.DefaultResyncPeriod } ∧
      t.ObjectMeta.Namespace = src.ObjectMeta.Namespace ∧
      t.ObjectMeta.Labels = src.ObjectMeta.Labels ∧
      t.ObjectMeta.Annotations = src.ObjectMeta.Annotations ∧
      t.ObjectMeta.OwnerReferences = src.ObjectMeta.OwnerReferences := by
  unfold convertDatasourceEntry at h
  generalize (if ds.CustomJsonData.length ≠ 0 then
    (Except.ok ds.CustomJsonData : Except String Bytes)
    else marshalJsonData ds.JsonData) = jsonData at h ⊢
  cases jsonData with
  | error err => cases h
  | ok jsonData =>
    dsimp only at h
    generalize (if ds.CustomSecureJsonData.length ≠ 0 then
      (Except.ok ds.CustomSecureJsonData : Except String Bytes)
      else marshalSecureJsonData ds.SecureJsonData) = secureJsonData at h ⊢
    cases secureJsonData with
    | error err => cases h
    | ok secureJsonData =>
      cases h
      exact ⟨jsonData, secureJsonData, _, rfl, rfl, rfl, rfl, rfl, rfl, rfl, rfl, rfl⟩

/-- The spec of the target of an entry and the error of an entry do not depend
on the legacy object that holds the entry. -/
theorem convertDatasourceEntry_spec_indep
    (marshalJsonData : J → Except String Bytes)
    (marshalSecureJsonData : S → Except String Bytes)
    (unicodeToLower : Char → Char) (conf : ConverterConfig)
    (src1 src2 : v1alpha1.GrafanaDataSource J S) (ds : v1alpha1.GrafanaDataSourceFields J S) :
    (convertDatasourceEntry marshalJsonData marshalSecureJsonData unicodeToLower conf src1
        ds).toOption.map (fun t => t.Spec) =
      (convertDatasourceEntry marshalJsonData marshalSecureJsonData unicodeToLower conf src2
        ds).toOption.map (fun t => t.Spec) ∧
    bodyError (convertDatasourceEntry marshalJsonData marshalSecureJsonData unicodeToLower conf
        src1 ds) =
      bodyError (convertDatasourceEntry marshalJsonData marshalSecureJsonData unicodeToLower conf
        src2 ds) := by
  unfold convertDatasourceEntry
  generalize (if ds.CustomJsonData.length ≠ 0 then
    (Except.ok ds.CustomJsonData : Except String Bytes)
    else marshalJsonData ds.JsonData) = jsonData
  cases jsonData with
  | error err => exact ⟨rfl, rfl⟩
  | ok jsonData =>
    dsimp only
    generalize (if ds.CustomSecureJsonData.length ≠ 0 then
      (Except.ok ds.CustomSecureJsonData : Except String Bytes)
      else marshalSecureJsonData ds.SecureJsonData) = secureJsonData
    cases secureJsonData with
    | error err => exact ⟨rfl, rfl⟩
    | ok secureJsonData => exact ⟨rfl, rfl⟩

end conversions

end controllers

namespace controllers

section conversionClaims

variable {J S A : Type}

/-- C16. For every legacy object of each of the four kinds and every
configuration, every target that the converter produces (the target of a
dashboard or folder, every non-nil target of a datasource object, the target
of a notification channel whose conversion succeeds) has the instance selector
of the configuration and allowCrossNamespaceImport true. -/
theorem converters_force_selector_and_import
    (marshalJsonData : J → Except String Bytes)
    (marshalSecureJsonData : S → Except String Bytes)
    (unicodeToLower : Char → Char) (isPrintWide : Char → Bool)
    (unmarshal : String → Except String (EmbeddedContactPoint A))
    (marshal : Option A → Except String Bytes)
    (conf : ConverterConfig)
    (dashboard : v1alpha1.GrafanaDashboard) (folder : v1alpha1.GrafanaFolder)
    (datasource : v1alpha1.GrafanaDataSource J S)
    (channel : v1alpha1.GrafanaNotificationChannel) :
    ((convertGrafanaDashboard conf dashboard).Spec.InstanceSelector = conf.InstanceSelector ∧
      (convertGrafanaDashboard conf dashboard).Spec.AllowCrossNamespaceImport = some true) ∧
    ((convertGrafanaFolder isPrintWide conf folder).Spec.InstanceSelector =
        conf.InstanceSelector ∧
      (convertGrafanaFolder isPrintWide conf folder).Spec.AllowCrossNamespaceImport =
        some true) ∧
    (∀ (i : Nat) (t : v1beta1.GrafanaDatasource),
      (convertGrafanaDatasource marshalJsonData marshalSecureJsonData unicodeToLower conf
        datasource).1[i]? = some (some t) →
      t.Spec.InstanceSelector = conf.InstanceSelector ∧
        t.Spec.AllowCrossNamespaceImport = some true) ∧
    (∀ cp : v1beta1.GrafanaContactPoint,
      convertGrafanaNotificationChannel unmarshal marshal conf channel = .ok cp →
      cp.Spec.InstanceSelector = conf.InstanceSelector ∧
        cp.Spec.AllowCrossNamespaceImport = some true) := by
  refine ⟨⟨rfl, rfl⟩, ⟨rfl, rfl⟩, ?_, ?_⟩
  · intro i t hslot
    obtain ⟨ds, _, hok⟩ := convertGrafanaDatasource_slot marshalJsonData marshalSecureJsonData
      unicodeToLower conf datasource i t hslot
    obtain ⟨_, _, _, _, _, _, _, hspec, _⟩ := convertDatasourceEntry_ok_inv marshalJsonData
      marshalSecureJsonData unicodeToLower conf datasource ds t hok
    rw [hspec]
    exact ⟨rfl, rfl⟩
  · intro cp hcp
    obtain ⟨_, _, _, _, _, _, hcpEq⟩ :=
      convertGrafanaNotificationChannel_ok_inv unmarshal marshal conf channel cp hcp
    rw [hcpEq]
    exact ⟨rfl, rfl⟩

/-- Witness of C16: the sample objects of the four kinds under the sample
configuration; the datasource target is the first slot of the three-entry
sample and the contact point is the conversion of the sample channel. -/
theorem converters_force_selector_and_import_witness :
    ((convertGrafanaDashboard sample.conf sample.richDashboard).Spec.InstanceSelector =
        sample.conf.InstanceSelector ∧
      (convertGrafanaDashboard sample.conf sample.richDashboard).Spec.AllowCrossNamespaceImport =
        some true) ∧
    (sample.lokiTarget.Spec.InstanceSelector = sample.conf.InstanceSelector ∧
      sample.lokiTarget.Spec.AllowCrossNamespaceImport = some true) ∧
    (sample.contactPoint.Spec.InstanceSelector = sample.conf.InstanceSelector ∧
      sample.contactPoint.Spec.AllowCrossNamespaceImport = some true) :=
  ⟨(converters_force_selector_and_import sample.marshalFlag sample.marshalUnit id
      (fun _ => true) sample.unmarshal sample.marshalSettings sample.conf sample.richDashboard
      sample.folder sample.threeEntries sample.channel).1,
    (converters_force_selector_and_import sample.marshalFlag sample.marshalUnit id
      (fun _ => true) sample.unmarshal sample.marshalSettings sample.conf sample.richDashboard
      sample.folder sample.threeEntries sample.channel).2.2.1 0 sample.lokiTarget (by decide),
    (converters_force_selector_and_import sample.marshalFlag sample.marshalUnit id
      (fun _ => true) sample.unmarshal sample.marshalSettings sample.conf sample.richDashboard
      sample.folder sample.threeEntries sample.channel).2.2.2 sample.contactPoint (by decide)⟩

/-- C17. For every converted datasource entry, the jsonData of the target is
the raw custom-JSON override of the entry when that override is not empty, and
the marshalled structured configuration of the entry otherwise; the
secureJsonData is the secure override when it is not empty and the marshalled
secure configuration otherwise. Each of the two depends only on its own
override and configuration of that entry. -/
theorem convertGrafanaDatasource_json_data
    (marshalJsonData : J → Except String Bytes)
    (marshalSecureJsonData : S → Except String Bytes)
    (unicodeToLower : Char → Char) (conf : ConverterConfig)
    (src : v1alpha1.GrafanaDataSource J S) (i : Nat) (t : v1beta1.GrafanaDatasource)
    (h : (convertGrafanaDatasource marshalJsonData marshalSecureJsonData unicodeToLower conf
      src).1[i]? = some (some t)) :
    ∃ (ds : v1alpha1.GrafanaDataSourceFields J S) (d : v1beta1.GrafanaDatasourceInternal),
      src.Spec.Datasources[i]? = some ds ∧ t.Spec.Datasource = some d ∧
      (ds.CustomJsonData ≠ [] → d.JSONData = ds.CustomJsonData) ∧
      (ds.CustomJsonData = [] → marshalJsonData ds.JsonData = .ok d.JSONData) ∧
      (ds.CustomSecureJsonData ≠ [] → d.SecureJSONData = ds.CustomSecureJsonData) ∧
      (ds.CustomSecureJsonData = [] →
        marshalSecureJsonData ds.SecureJsonData = .ok d.SecureJSONData) := by
  obtain ⟨ds, hds, hok⟩ := convertGrafanaDatasource_slot marshalJsonData marshalSecureJsonData
    unicodeToLower conf src i t h
  obtain ⟨jsonData, secureJsonData, d, hj, hs, hdj, hds2, hspec, _⟩ :=
    convertDatasourceEntry_ok_inv marshalJsonData marshalSecureJsonData unicodeToLower conf src
      ds t hok
  refine ⟨ds, d, hds, by rw [hspec], ?_, ?_, ?_, ?_⟩
  · intro hne
    have : ds.CustomJsonData.length ≠ 0 := fun h0 => hne (List.length_eq_zero.1 h0)
    rw [if_pos this] at hj
    rw [hdj]
    exact (Except.ok.inj hj).symm
  · intro he
    have : ¬ ds.CustomJsonData.length ≠ 0 := by simp [he]
    rw [if_neg this] at hj
    rw [hdj]
    exact hj
  · intro hne
    have : ds.CustomSecureJsonData.length ≠ 0 := fun h0 => hne (List.length_eq_zero.1 h0)
    rw [if_pos this] at hs
    rw [hds2]
    exact (Except.ok.inj hs).symm
  · intro he
    have : ¬ ds.CustomSecureJsonData.length ≠ 0 := by simp [he]
    rw [if_neg this] at hs
    rw [hds2]
    exact hs

end conversionClaims

end controllers

namespace controllers

section conversionClaims2

variable {J S A : Type}

/-- Witness of C17: the sample entry `Tempo` has a custom-JSON override (and a
structured configuration that does not marshal) and no secure override. -/
theorem convertGrafanaDatasource_json_data_witness :
    ∃ (ds : v1alpha1.GrafanaDataSourceFields Bool Unit) (d : v1beta1.GrafanaDatasourceInternal),
      sample.overrideEntry.Spec.Datasources[0]? = some ds ∧
      sample.overrideTarget.Spec.Datasource = some d ∧
      (ds.CustomJsonData ≠ [] → d.JSONData = ds.CustomJsonData) ∧
      (ds.CustomJsonData = [] → sample.marshalFlag ds.JsonData = .ok d.JSONData) ∧
      (ds.CustomSecureJsonData ≠ [] → d.SecureJSONData = ds.CustomSecureJsonData) ∧
      (ds.CustomSecureJsonData = [] →
        sample.marshalUnit ds.SecureJsonData = .ok d.SecureJSONData) :=
  convertGrafanaDatasource_json_data sample.marshalFlag sample.marshalUnit id sample.conf
    sample.overrideEntry 0 sample.overrideTarget (by decide)

/-- C18. Each of the four converters is a function of the legacy spec and the
configuration as far as the target spec is concerned: two legacy objects of
the same kind with equal specs, converted under the same configuration, yield
equal target specs (for a datasource object, equal specs slot by slot and
equal errors; for a notification channel, the same outcome), whatever their
names, namespaces, labels, annotations, owner references and status. The
converters are functions, so converting one object twice gives one value. -/
theorem converters_depend_on_spec_only
    (marshalJsonData : J → Except String Bytes)
    (marshalSecureJsonData : S → Except String Bytes)
    (unicodeToLower : Char → Char) (isPrintWide : Char → Bool)
    (unmarshal : String → Except String (EmbeddedContactPoint A))
    (marshal : Option A → Except String Bytes)
    (conf : ConverterConfig)
    (dashboard1 dashboard2 : v1alpha1.GrafanaDashboard)
    (datasource1 datasource2 : v1alpha1.GrafanaDataSource J S)
    (folder1 folder2 : v1alpha1.GrafanaFolder)
    (channel1 channel2 : v1alpha1.GrafanaNotificationChannel)
    (hdashboard : dashboard1.Spec = dashboard2.Spec)
    (hdatasource : datasource1.Spec = datasource2.Spec)
    (hfolder : folder1.Spec = folder2.Spec)
    (hchannel : channel1.Spec = channel2.Spec) :
    (convertGrafanaDashboard conf dashboard1).Spec =
      (convertGrafanaDashboard conf dashboard2).Spec ∧
    ((convertGrafanaDatasource marshalJsonData marshalSecureJsonData unicodeToLower conf
        datasource1).1.map (Option.map (fun t => t.Spec)) =
      (convertGrafanaDatasource marshalJsonData marshalSecureJsonData unicodeToLower conf
        datasource2).1.map (Option.map (fun t => t.Spec)) ∧
      (convertGrafanaDatasource marshalJsonData marshalSecureJsonData unicodeToLower conf
        datasource1).2 =
      (convertGrafanaDatasource marshalJsonData marshalSecureJsonData unicodeToLower conf
        datasource2).2) ∧
    (convertGrafanaFolder isPrintWide conf folder1).Spec =
      (convertGrafanaFolder isPrintWide conf folder2).Spec ∧
    (convertGrafanaNotificationChannel unmarshal marshal conf channel1).map (fun t => t.Spec) =
      (convertGrafanaNotificationChannel unmarshal marshal conf channel2).map
        (fun t => t.Spec) := by
  refine ⟨?_, ⟨?_, ?_⟩, ?_, ?_⟩
  · simp only [convertGrafanaDashboard, hdashboard]
  · rw [convertGrafanaDatasource_eq, convertGrafanaDatasource_eq, hdatasource]
    simp only [List.map_map]
    apply List.map_congr_left
    intro ds _
    exact (convertDatasourceEntry_spec_indep marshalJsonData marshalSecureJsonData
      unicodeToLower conf datasource1 datasource2 ds).1
  · rw [convertGrafanaDatasource_eq, convertGrafanaDatasource_eq, hdatasource]
    dsimp only
    congr 1
    funext ds
    exact (convertDatasourceEntry_spec_indep marshalJsonData marshalSecureJsonData
      unicodeToLower conf datasource1 datasource2 ds).2
  · simp only [convertGrafanaFolder, v1alpha1.GrafanaFolder.GetPermissions, hfolder]
  · unfold convertGrafanaNotificationChannel
    rw [hchannel]
    generalize (if channel2.Spec.Json.utf8ByteSize > 0 then unmarshal channel2.Spec.Json
      else (Except.ok {} : Except String (EmbeddedContactPoint A))) = parsed
    cases parsed with
    | error err => rfl
    | ok e =>
      dsimp only
      cases e.Type_ with
      | none => rfl
      | some type =>
        dsimp only
        cases jsonPtr marshal e.Settings <;> rfl

/-- Witness of C18: for each kind, two sample objects with one spec and
different metadata. -/
theorem converters_depend_on_spec_only_witness :
    (convertGrafanaDashboard sample.conf sample.richDashboard).Spec =
      (convertGrafanaDashboard sample.conf sample.richDashboardOtherMetadata).Spec ∧
    ((convertGrafanaDatasource sample.marshalFlag sample.marshalUnit id sample.conf
        sample.threeEntries).1.map (Option.map (fun t => t.Spec)) =
      (convertGrafanaDatasource sample.marshalFlag sample.marshalUnit id sample.conf
        sample.threeEntriesOtherMetadata).1.map (Option.map (fun t => t.Spec)) ∧
      (convertGrafanaDatasource sample.marshalFlag sample.marshalUnit id sample.conf
        sample.threeEntries).2 =
      (convertGrafanaDatasource sample.marshalFlag sample.marshalUnit id sample.conf
        sample.threeEntriesOtherMetadata).2) ∧
    (convertGrafanaFolder (fun _ => true) sample.conf sample.folder).Spec =
      (convertGrafanaFolder (fun _ => true) sample.conf sample.folderRelabelled).Spec ∧
    (convertGrafanaNotificationChannel sample.unmarshal sample.marshalSettings sample.conf
        sample.channel).map (fun t => t.Spec) =
      (convertGrafanaNotificationChannel sample.unmarshal sample.marshalSettings sample.conf
        sample.channelOtherMetadata).map (fun t => t.Spec) :=
  converters_depend_on_spec_only sample.marshalFlag sample.marshalUnit id (fun _ => true)
    sample.unmarshal sample.marshalSettings sample.conf
    sample.richDashboard sample.richDashboardOtherMetadata
    sample.threeEntries sample.threeEntriesOtherMetadata
    sample.folder sample.folderRelabelled sample.channel sample.channelOtherMetadata
    rfl rfl rfl rfl

/-- C19 (counterexample). The legacy dashboard `ns1/d1` with the UID `uid-d1`
is owned by the deployment `parent`; its target carries the owner reference to
`parent` and no owner reference with the kind, name and UID of the legacy
dashboard. A legacy dashboard without owner references gives a target without
any. -/
theorem convertGrafanaDashboard_owner_is_not_legacy_object :
    (convertGrafanaDashboard sample.conf sample.ownedDashboard).ObjectMeta.OwnerReferences =
      [{ APIVersion := "apps/v1", Kind := "Deployment", Name := "parent",
         UID := "uid-parent" }] ∧
    (∀ ref ∈ (convertGrafanaDashboard sample.conf
        sample.ownedDashboard).ObjectMeta.OwnerReferences,
      ¬ (ref.Kind = v1alpha1.GrafanaDashboardKind ∧
        ref.Name = sample.ownedDashboard.ObjectMeta.Name ∧
        ref.UID = sample.ownedDashboard.ObjectMeta.UID)) ∧
    (convertGrafanaDashboard sample.conf sample.dashboard).ObjectMeta.OwnerReferences = [] := by
  decide

/-- C19 (as amended). For every legacy object, each target object produced by
conversion carries exactly the owner references that the legacy object itself
carries, in the same order. -/
theorem converters_copy_owner_references
    (marshalJsonData : J → Except String Bytes)
    (marshalSecureJsonData : S → Except String Bytes)
    (unicodeToLower : Char → Char) (isPrintWide : Char → Bool)
    (unmarshal : String → Except String (EmbeddedContactPoint A))
    (marshal : Option A → Except String Bytes)
    (conf : ConverterConfig)
    (dashboard : v1alpha1.GrafanaDashboard) (folder : v1alpha1.GrafanaFolder)
    (datasource : v1alpha1.GrafanaDataSource J S)
    (channel : v1alpha1.GrafanaNotificationChannel) :
    (convertGrafanaDashboard conf dashboard).ObjectMeta.OwnerReferences =
      dashboard.ObjectMeta.OwnerReferences ∧
    (convertGrafanaFolder isPrintWide conf folder).ObjectMeta.OwnerReferences =
      folder.ObjectMeta.OwnerReferences ∧
    (∀ (i : Nat) (t : v1beta1.GrafanaDatasource),
      (convertGrafanaDatasource marshalJsonData marshalSecureJsonData unicodeToLower conf
        datasource).1[i]? = some (some t) →
      t.ObjectMeta.OwnerReferences = datasource.ObjectMeta.OwnerReferences) ∧
    (∀ cp : v1beta1.GrafanaContactPoint,
      convertGrafanaNotificationChannel unmarshal marshal conf channel = .ok cp →
      cp.ObjectMeta.OwnerReferences = channel.ObjectMeta.OwnerReferences) := by
  refine ⟨rfl, rfl, ?_, ?_⟩
  · intro i t hslot
    obtain ⟨ds, _, hok⟩ := convertGrafanaDatasource_slot marshalJsonData marshalSecureJsonData
      unicodeToLower conf datasource i t hslot
    obtain ⟨_, _, _, _, _, _, _, _, _, _, _, howner⟩ := convertDatasourceEntry_ok_inv
      marshalJsonData marshalSecureJsonData unicodeToLower conf datasource ds t hok
    exact howner
  · intro cp hcp
    obtain ⟨_, _, _, _, _, _, hcpEq⟩ :=
      convertGrafanaNotificationChannel_ok_inv unmarshal marshal conf channel cp hcp
    rw [hcpEq]

/-- Witness of C19 (as amended): the owned sample dashboard, the first slot of
the three-entry sample and the conversion of the sample channel. -/
theorem converters_copy_owner_references_witness :
    (convertGrafanaDashboard sample.conf sample.ownedDashboard).ObjectMeta.OwnerReferences =
      sample.ownedDashboard.ObjectMeta.OwnerReferences ∧
    sample.lokiTarget.ObjectMeta.OwnerReferences =
      sample.threeEntries.ObjectMeta.OwnerReferences ∧
    sample.contactPoint.ObjectMeta.OwnerReferences = sample.channel.ObjectMeta.OwnerReferences :=
  ⟨(converters_copy_owner_references sample.marshalFlag sample.marshalUnit id (fun _ => true)
      sample.unmarshal sample.marshalSettings sample.conf sample.ownedDashboard sample.folder
      sample.threeEntries sample.channel).1,
    (converters_copy_owner_references sample.marshalFlag sample.marshalUnit id (fun _ => true)
      sample.unmarshal sample.marshalSettings sample.conf sample.ownedDashboard sample.folder
      sample.threeEntries sample.channel).2.2.1 0 sample.lokiTarget (by decide),
    (converters_copy_owner_references sample.marshalFlag sample.marshalUnit id (fun _ => true)
      sample.unmarshal sample.marshalSettings sample.conf sample.ownedDashboard sample.folder
      sample.threeEntries sample.channel).2.2.2 sample.contactPoint (by decide)⟩

/-- C20. For the three one-to-one kinds (dashboard, folder, notification
channel), the namespace and the name of the converted target are the namespace
and the name of the legacy object; the converters are functions, so the same
legacy object always gives the same target identity. -/
theorem converters_keep_identity
    (isPrintWide : Char → Bool)
    (unmarshal : String → Except String (EmbeddedContactPoint A))
    (marshal : Option A → Except String Bytes)
    (conf : ConverterConfig)
    (dashboard : v1alpha1.GrafanaDashboard) (folder : v1alpha1.GrafanaFolder)
    (channel : v1alpha1.GrafanaNotificationChannel) :
    ((convertGrafanaDashboard conf dashboard).ObjectMeta.Namespace =
        dashboard.ObjectMeta.Namespace ∧
      (convertGrafanaDashboard conf dashboard).ObjectMeta.Name = dashboard.ObjectMeta.Name) ∧
    ((convertGrafanaFolder isPrintWide conf folder).ObjectMeta.Namespace =
        folder.ObjectMeta.Namespace ∧
      (convertGrafanaFolder isPrintWide conf folder).ObjectMeta.Name = folder.ObjectMeta.Name) ∧
    (∀ cp : v1beta1.GrafanaContactPoint,
      convertGrafanaNotificationChannel unmarshal marshal conf channel = .ok cp →
      cp.ObjectMeta.Namespace = channel.ObjectMeta.Namespace ∧
        cp.ObjectMeta.Name = channel.ObjectMeta.Name) := by
  refine ⟨⟨rfl, rfl⟩, ⟨rfl, rfl⟩, ?_⟩
  intro cp hcp
  obtain ⟨_, _, _, _, _, _, hcpEq⟩ :=
    convertGrafanaNotificationChannel_ok_inv unmarshal marshal conf channel cp hcp
  rw [hcpEq]
  exact ⟨rfl, rfl⟩

/-- Witness of C20: the conversion of the sample notification channel
succeeds and gives the contact point `ns1/n1`. -/
theorem converters_keep_identity_witness :
    convertGrafanaNotificationChannel sample.unmarshal sample.marshalSettings sample.conf
        sample.channel = .ok sample.contactPoint ∧
    sample.contactPoint.ObjectMeta.Namespace = sample.channel.ObjectMeta.Namespace ∧
      sample.contactPoint.ObjectMeta.Name = sample.channel.ObjectMeta.Name :=
  ⟨by decide,
    (converters_keep_identity (fun _ => true) sample.unmarshal sample.marshalSettings
      sample.conf sample.dashboard sample.folder sample.channel).2.2 sample.contactPoint
      (by decide)⟩

end conversionClaims2

end controllers

/-! ## Properties of the handlers on failures -/

namespace controllers

section failures

variable {J S A σD σS σF σN : Type}

/-- C21 (code defect). For the legacy datasource object with three entries of
which only the second fails to marshal, the conversion returns the slots
`[target1, nil, target3]`; the create handler and the update handler log
"cannot convert some", reconcile the target of the first entry and then panic
on the nil slot (`cr.Namespace`, `ds.Namespace`): the run does not complete and
the target of the third entry, which converted, is never read, created or
updated. -/
theorem datasource_handlers_panic_on_partial_conversion :
    (convertGrafanaDatasource sample.marshalFlag sample.marshalUnit id sample.conf
        sample.threeEntries).1.map (Option.map (fun t => t.ObjectMeta.Name)) =
      [some "monitoring-loki-logs", none, some "monitoring-platform-prometheus"] ∧
    (createGrafanaDatasource sample.datasources sample.structEq sample.structEq
        sample.marshalFlag sample.marshalUnit id sample.conf []
        (.alphaDatasource sample.threeEntries : Payload Bool Unit)).trace =
      [.convert, .log .cannotConvert, .create "monitoring" sample.lokiTarget, .log .created] ∧
    (createGrafanaDatasource sample.datasources sample.structEq sample.structEq
        sample.marshalFlag sample.marshalUnit id sample.conf []
        (.alphaDatasource sample.threeEntries : Payload Bool Unit)).panicked = true ∧
    (createGrafanaDatasource sample.datasources sample.structEq sample.structEq
        sample.marshalFlag sample.marshalUnit id sample.conf []
        (.alphaDatasource sample.threeEntries : Payload Bool Unit)).state = [sample.lokiTarget] ∧
    (updateGrafanaDatasource sample.datasources sample.structEq sample.structEq
        sample.marshalFlag sample.marshalUnit id sample.conf []
        (.alphaDatasource sample.lokiOnly : Payload Bool Unit)
        (.alphaDatasource sample.threeEntries)).trace =
      [.convert, .log .cannotConvert, .get "monitoring" "monitoring-loki-logs",
        .create "monitoring" sample.lokiTarget, .log .created] ∧
    (updateGrafanaDatasource sample.datasources sample.structEq sample.structEq
        sample.marshalFlag sample.marshalUnit id sample.conf []
        (.alphaDatasource sample.lokiOnly : Payload Bool Unit)
        (.alphaDatasource sample.threeEntries)).panicked = true ∧
    (updateGrafanaDatasource sample.datasources sample.structEq sample.structEq
        sample.marshalFlag sample.marshalUnit id sample.conf []
        (.alphaDatasource sample.lokiOnly : Payload Bool Unit)
        (.alphaDatasource sample.threeEntries)).state = [sample.lokiTarget] := by
  decide

/-- C22 (code defect). An Update event for a legacy datasource, folder or
notification channel whose existing target has a different spec and no labels
and no annotations, while the desired object has a label (an annotation for the
notification channel): after the read the handler panics in `maps.Copy` on the
nil map of the existing target and issues no update. The dashboard handler,
which replaces a nil map by an empty one first, does not panic in the same
situation. -/
theorem update_paths_panic_on_nil_maps :
    (updateGrafanaDatasource sample.datasources sample.structEq sample.structEq
        sample.marshalFlag sample.marshalUnit id sample.conf [sample.storedLoki]
        (.alphaDatasource sample.lokiOnlyBefore : Payload Bool Unit)
        (.alphaDatasource sample.lokiOnly)).trace =
      [.convert, .get "monitoring" "monitoring-loki-logs"] ∧
    (updateGrafanaDatasource sample.datasources sample.structEq sample.structEq
        sample.marshalFlag sample.marshalUnit id sample.conf [sample.storedLoki]
        (.alphaDatasource sample.lokiOnlyBefore : Payload Bool Unit)
        (.alphaDatasource sample.lokiOnly)).panicked = true ∧
    (updateGrafanaFolder sample.folders sample.structEq sample.structEq (fun _ => true)
        sample.conf [sample.storedFolder] (.alphaFolder sample.folder : Payload Bool Unit)
        (.alphaFolder sample.folderChanged)).trace = [.convert, .get "ns1" "f1"] ∧
    (updateGrafanaFolder sample.folders sample.structEq sample.structEq (fun _ => true)
        sample.conf [sample.storedFolder] (.alphaFolder sample.folder : Payload Bool Unit)
        (.alphaFolder sample.folderChanged)).panicked = true ∧
    (updateGrafanaNotificationChannel sample.contactPoints sample.structEq sample.structEq
        sample.unmarshal sample.marshalSettings sample.conf [sample.storedContactPoint]
        (.alphaNotificationChannel sample.channelBefore : Payload Bool Unit)
        (.alphaNotificationChannel sample.channelAnnotated)).trace =
      [.convert, .get "ns1" "n1"] ∧
    (updateGrafanaNotificationChannel sample.contactPoints sample.structEq sample.structEq
        sample.unmarshal sample.marshalSettings sample.conf [sample.storedContactPoint]
        (.alphaNotificationChannel sample.channelBefore : Payload Bool Unit)
        (.alphaNotificationChannel sample.channelAnnotated)).panicked = true ∧
    (updateGrafanaDashboard sample.dashboards sample.structEq sample.structEq sample.conf
        [{ sample.storedDashboard with
            ObjectMeta := { sample.storedDashboard.ObjectMeta with Labels := none } }]
        (.alphaDashboard sample.dashboard : Payload Bool Unit)
        (.alphaDashboard sample.dashboardChanged)).panicked = false := by
  decide

/-- C23. A failed store call ends the work of a handler on its target. For each
of the four kinds: when the create call of the create handler fails with an
error other than AlreadyExists the run ends on the line "cannot create" with
that call as its only store call; when the read of the update path (which the
Update route and the AlreadyExists fallback both run) fails with an error other
than NotFound the run ends on the line "cannot get" with the read as its only
store call; and the store calls of the update path are always the read alone,
the read and one create, or the read and one update, so that a create or an
update that fails (with Conflict or any other error) is followed by no store
call. For datasources the statements are about the loop body run for one
target. -/
theorem store_errors_end_the_cycle
    (dashboardClient : Client v1beta1.GrafanaDashboard σD)
    (datasourceClient : Client v1beta1.GrafanaDatasource σS)
    (folderClient : Client v1beta1.GrafanaFolder σF)
    (contactPointClient : Client v1beta1.GrafanaContactPoint σN)
    (deepEqualOldD : v1alpha1.GrafanaDashboardSpec → v1alpha1.GrafanaDashboardSpec → Bool)
    (deepEqualD : v1beta1.GrafanaDashboardSpec → v1beta1.GrafanaDashboardSpec → Bool)
    (deepEqualOldS :
      v1alpha1.GrafanaDataSourceSpec J S → v1alpha1.GrafanaDataSourceSpec J S → Bool)
    (deepEqualS : v1beta1.GrafanaDatasourceSpec → v1beta1.GrafanaDatasourceSpec → Bool)
    (deepEqualOldF : v1alpha1.GrafanaFolderSpec → v1alpha1.GrafanaFolderSpec → Bool)
    (deepEqualF : v1beta1.GrafanaFolderSpec → v1beta1.GrafanaFolderSpec → Bool)
    (deepEqualOldN :
      v1alpha1.GrafanaNotificationChannelSpec → v1alpha1.GrafanaNotificationChannelSpec → Bool)
    (deepEqualN : v1beta1.GrafanaContactPointSpec → v1beta1.GrafanaContactPointSpec → Bool)
    (marshalJsonData : J → Except String Bytes)
    (marshalSecureJsonData : S → Except String Bytes)
    (unicodeToLower : Char → Char) (isPrintWide : Char → Bool)
    (unmarshal : String → Except String (EmbeddedContactPoint A))
    (marshal : Option A → Except String Bytes)
    (conf : ConverterConfig) (stD : σD) (stS : σS) (stF : σF) (stN : σN)
    (alphaDashboard : v1alpha1.GrafanaDashboard) (alphaFolder : v1alpha1.GrafanaFolder)
    (notificationChannel : v1alpha1.GrafanaNotificationChannel)
    (legacyChannel : Option v1alpha1.GrafanaNotificationChannel)
    (dashboard : v1beta1.GrafanaDashboard) (datasource : v1beta1.GrafanaDatasource)
    (folder : v1beta1.GrafanaFolder) (contactPoint : v1beta1.GrafanaContactPoint) :
    ((∀ e, (dashboardClient.Create stD
            (convertGrafanaDashboard conf alphaDashboard).ObjectMeta.Namespace
            (convertGrafanaDashboard conf alphaDashboard)).1.err = some e → e ≠ .AlreadyExists →
        (createGrafanaDashboard dashboardClient deepEqualOldD deepEqualD conf stD
            (.alphaDashboard alphaDashboard : Payload J S)).trace =
          [.convert,
            .create (convertGrafanaDashboard conf alphaDashboard).ObjectMeta.Namespace
              (convertGrafanaDashboard conf alphaDashboard),
            .log .cannotCreate]) ∧
      (∀ e, (dashboardClient.Get stD dashboard.ObjectMeta.Namespace
            dashboard.ObjectMeta.Name).1.err = some e → e ≠ .NotFound →
        (updateGrafanaDashboardTarget dashboardClient deepEqualD stD dashboard).trace =
          [.get dashboard.ObjectMeta.Namespace dashboard.ObjectMeta.Name, .log .cannotGet]) ∧
      ((updateGrafanaDashboardTarget dashboardClient deepEqualD stD dashboard).trace.filter
            Event.isCall =
          [.get dashboard.ObjectMeta.Namespace dashboard.ObjectMeta.Name] ∨
        (updateGrafanaDashboardTarget dashboardClient deepEqualD stD dashboard).trace.filter
            Event.isCall =
          [.get dashboard.ObjectMeta.Namespace dashboard.ObjectMeta.Name,
            .create dashboard.ObjectMeta.Namespace dashboard] ∨
        ∃ ns obj,
          (updateGrafanaDashboardTarget dashboardClient deepEqualD stD dashboard).trace.filter
              Event.isCall =
            [.get dashboard.ObjectMeta.Namespace dashboard.ObjectMeta.Name, .update ns obj])) ∧
    ((∀ e, (datasourceClient.Create stS datasource.ObjectMeta.Namespace datasource).1.err =
            some e → e ≠ .AlreadyExists →
        (createGrafanaDatasourceTarget datasourceClient deepEqualOldS deepEqualS marshalJsonData
            marshalSecureJsonData unicodeToLower conf stS (some datasource)).trace =
          [.create datasource.ObjectMeta.Namespace datasource, .log .cannotCreate]) ∧
      (∀ e, (datasourceClient.Get stS datasource.ObjectMeta.Namespace
            datasource.ObjectMeta.Name).1.err = some e → e ≠ .NotFound →
        (updateGrafanaDatasourceTarget datasourceClient deepEqualS stS (some datasource)).trace =
          [.get datasource.ObjectMeta.Namespace datasource.ObjectMeta.Name, .log .cannotGet]) ∧
      ((updateGrafanaDatasourceTarget datasourceClient deepEqualS stS
            (some datasource)).trace.filter Event.isCall =
          [.get datasource.ObjectMeta.Namespace datasource.ObjectMeta.Name] ∨
        (updateGrafanaDatasourceTarget datasourceClient deepEqualS stS
            (some datasource)).trace.filter Event.isCall =
          [.get datasource.ObjectMeta.Namespace datasource.ObjectMeta.Name,
            .create datasource.ObjectMeta.Namespace datasource] ∨
        ∃ ns obj,
          (updateGrafanaDatasourceTarget datasourceClient deepEqualS stS
              (some datasource)).trace.filter Event.isCall =
            [.get datasource.ObjectMeta.Namespace datasource.ObjectMeta.Name,
              .update ns obj])) ∧
    ((∀ e, (folderClient.Create stF
            (convertGrafanaFolder isPrintWide conf alphaFolder).ObjectMeta.Namespace
            (convertGrafanaFolder isPrintWide conf alphaFolder)).1.err = some e →
          e ≠ .AlreadyExists →
        (createGrafanaFolder folderClient deepEqualOldF deepEqualF isPrintWide conf stF
            (.alphaFolder alphaFolder : Payload J S)).trace =
          [.convert,
            .create (convertGrafanaFolder isPrintWide conf alphaFolder).ObjectMeta.Namespace
              (convertGrafanaFolder isPrintWide conf alphaFolder),
            .log .cannotCreate]) ∧
      (∀ e, (folderClient.Get stF folder.ObjectMeta.Namespace folder.ObjectMeta.Name).1.err =
            some e → e ≠ .NotFound →
        (updateGrafanaFolderTarget folderClient deepEqualF stF folder).trace =
          [.get folder.ObjectMeta.Namespace folder.ObjectMeta.Name, .log .cannotGet]) ∧
      ((updateGrafanaFolderTarget folderClient deepEqualF stF folder).trace.filter Event.isCall =
          [.get folder.ObjectMeta.Namespace folder.ObjectMeta.Name] ∨
        (updateGrafanaFolderTarget folderClient deepEqualF stF folder).trace.filter
            Event.isCall =
          [.get folder.ObjectMeta.Namespace folder.ObjectMeta.Name,
            .create folder.ObjectMeta.Namespace folder] ∨
        ∃ ns obj,
          (updateGrafanaFolderTarget folderClient deepEqualF stF folder).trace.filter
              Event.isCall =
            [.get folder.ObjectMeta.Namespace folder.ObjectMeta.Name, .update ns obj])) ∧
    ((∀ cp e,
        convertGrafanaNotificationChannel unmarshal marshal conf notificationChannel = .ok cp →
        (contactPointClient.Create stN cp.ObjectMeta.Namespace cp).1.err = some e →
        e ≠ .AlreadyExists →
        (createGrafanaNotificationChannel contactPointClient deepEqualOldN deepEqualN unmarshal
            marshal conf stN (.alphaNotificationChannel notificationChannel : Payload J S)).trace =
          [.convert, .create cp.ObjectMeta.Namespace cp, .log .cannotCreate]) ∧
      (∀ e, (contactPointClient.Get stN contactPoint.ObjectMeta.Namespace
            contactPoint.ObjectMeta.Name).1.err = some e → e ≠ .NotFound →
        (updateGrafanaNotificationChannelTarget contactPointClient deepEqualN stN legacyChannel
            contactPoint).trace =
          [.get contactPoint.ObjectMeta.Namespace contactPoint.ObjectMeta.Name,
            .log .cannotGet]) ∧
      ((updateGrafanaNotificationChannelTarget contactPointClient deepEqualN stN legacyChannel
            contactPoint).trace.filter Event.isCall =
          [.get contactPoint.ObjectMeta.Namespace contactPoint.ObjectMeta.Name] ∨
        (∃ ns,
          (updateGrafanaNotificationChannelTarget contactPointClient deepEqualN stN legacyChannel
              contactPoint).trace.filter Event.isCall =
            [.get contactPoint.ObjectMeta.Namespace contactPoint.ObjectMeta.Name,
              .create ns contactPoint]) ∨
        ∃ ns obj,
          (updateGrafanaNotificationChannelTarget contactPointClient deepEqualN stN legacyChannel
              contactPoint).trace.filter Event.isCall =
            [.get contactPoint.ObjectMeta.Namespace contactPoint.ObjectMeta.Name,
              .update ns obj])) := by
  refine ⟨⟨?_, ?_, ?_⟩, ⟨?_, ?_, ?_⟩, ⟨?_, ?_, ?_⟩, ⟨?_, ?_, ?_⟩⟩
  · intro e he hne
    simp [createGrafanaDashboard, he, hne]
  · intro e he hne
    simp [updateGrafanaDashboardTarget, he, hne]
  · simp only [updateGrafanaDashboardTarget]
    repeat' split
    all_goals simp [Event.isCall]
  · intro e he hne
    simp [createGrafanaDatasourceTarget, he, hne]
  · intro e he hne
    simp [updateGrafanaDatasourceTarget, he, hne]
  · simp only [updateGrafanaDatasourceTarget]
    repeat' split
    all_goals simp [Event.isCall]
  · intro e he hne
    simp [createGrafanaFolder, he, hne]
  · intro e he hne
    simp [updateGrafanaFolderTarget, he, hne]
  · simp only [updateGrafanaFolderTarget]
    repeat' split
    all_goals simp [Event.isCall]
  · intro cp e hcp he hne
    simp [createGrafanaNotificationChannel, hcp, he, hne]
  · intro e he hne
    simp [updateGrafanaNotificationChannelTarget, he, hne]
  · simp only [updateGrafanaNotificationChannelTarget]
    repeat' split
    all_goals simp [Event.isCall]

/-- Witness of C23: an Update event for the changed legacy dashboard against a
store that rejects the update with Conflict. The store calls are the read and
one update, the run ends on the line "cannot update" and the store is as it
was. -/
theorem store_errors_end_the_cycle_witness :
    ((updateGrafanaDashboardTarget sample.staleDashboards sample.structEq
          [sample.storedDashboard]
          (convertGrafanaDashboard sample.conf sample.dashboardChanged)).trace.filter
          Event.isCall = [.get "ns1" "d1"] ∨
      (updateGrafanaDashboardTarget sample.staleDashboards sample.structEq
          [sample.storedDashboard]
          (convertGrafanaDashboard sample.conf sample.dashboardChanged)).trace.filter
          Event.isCall =
        [.get "ns1" "d1",
          .create "ns1" (convertGrafanaDashboard sample.conf sample.dashboardChanged)] ∨
      ∃ ns obj,
        (updateGrafanaDashboardTarget sample.staleDashboards sample.structEq
            [sample.storedDashboard]
            (convertGrafanaDashboard sample.conf sample.dashboardChanged)).trace.filter
            Event.isCall = [.get "ns1" "d1", .update ns obj]) ∧
    (updateGrafanaDashboard sample.staleDashboards sample.structEq sample.structEq sample.conf
        [sample.storedDashboard] (.alphaDashboard sample.dashboard : Payload Bool Unit)
        (.alphaDashboard sample.dashboardChanged)).trace.map Event.isCall =
      [false, true, true, false, false] ∧
    (updateGrafanaDashboard sample.staleDashboards sample.structEq sample.structEq sample.conf
        [sample.storedDashboard] (.alphaDashboard sample.dashboard : Payload Bool Unit)
        (.alphaDashboard sample.dashboardChanged)).trace.getLast? = some (.log .cannotUpdate) ∧
    (updateGrafanaDashboard sample.staleDashboards sample.structEq sample.structEq sample.conf
        [sample.storedDashboard] (.alphaDashboard sample.dashboard : Payload Bool Unit)
        (.alphaDashboard sample.dashboardChanged)).state = [sample.storedDashboard] :=
  ⟨(store_errors_end_the_cycle (J := Bool) (S := Unit) sample.staleDashboards sample.datasources
      sample.folders sample.contactPoints sample.structEq sample.structEq sample.structEq
      sample.structEq sample.structEq sample.structEq sample.structEq sample.structEq
      sample.marshalFlag sample.marshalUnit id (fun _ => true) sample.unmarshal
      sample.marshalSettings sample.conf [sample.storedDashboard] [] [] []
      sample.dashboardChanged sample.folder sample.channel none
      (convertGrafanaDashboard sample.conf sample.dashboardChanged) sample.lokiTarget
      (convertGrafanaFolder (fun _ => true) sample.conf sample.folder) sample.contactPoint).1.2.2,
    by decide, by decide, by decide⟩

end failures

end controllers

/-! ## Properties of the watched namespaces and of the configuration file -/

namespace controllers

/-- An expression that starts with the expression of no text has no match at
the start of any text. -/
theorem matchesAtStart_cat_none (b : regexp.Regexp) (cs : List Char) :
    regexp.matchesAtStart (.cat .none b) cs = false := by
  induction cs with
  | nil => rfl
  | cons c cs ih => simpa [regexp.matchesAtStart, regexp.nullable, regexp.deriv] using ih

/-- An expression that matches the empty text has a match at the start of every text. -/
theorem matchesAtStart_of_nullable (re : regexp.Regexp) (h : regexp.nullable re = true)
    (cs : List Char) : regexp.matchesAtStart re cs = true := by
  cases cs <;> simp [regexp.matchesAtStart, h]

/-- The pattern of `validNamespaceRegex` has a match in a text iff the text
has a rune of `[a-z0-9]`. -/
theorem validNamespaceRegex_matchesAnywhere (cs : List Char) :
    regexp.matchesAnywhere validNamespaceRegex cs = cs.any lowerAlnum := by
  induction cs with
  | nil => rfl
  | cons c cs ih =>
    rw [regexp.matchesAnywhere, ih, List.any_cons]
    congr 1
    by_cases hc : lowerAlnum c = true
    · rw [hc]
      simp only [regexp.matchesAtStart, validNamespaceRegex, regexp.nullable, regexp.deriv, hc,
        Bool.false_or, Bool.false_eq_true, if_false, if_true]
      apply matchesAtStart_of_nullable
      simp [regexp.nullable, regexp.Regexp.quest]
    · simp only [Bool.not_eq_true] at hc
      rw [hc]
      simp only [regexp.matchesAtStart, validNamespaceRegex, regexp.nullable, regexp.deriv, hc,
        Bool.false_or, Bool.false_eq_true, if_false]
      apply matchesAtStart_cat_none

/-- The loop of `getWatchNamespaces` finds a name iff some name has no rune of
`[a-z0-9]`. -/
theorem firstIncorrectNamespace_eq_none (nss : List String) :
    firstIncorrectNamespace nss = none ↔ ∀ ns ∈ nss, ns.data.any lowerAlnum = true := by
  induction nss with
  | nil => simp [firstIncorrectNamespace]
  | cons ns rest ih =>
    simp only [firstIncorrectNamespace, regexp.MatchString, validNamespaceRegex_matchesAnywhere,
      List.mem_cons, forall_eq_or_imp]
    cases h : ns.data.any lowerAlnum
    · simp
    · simpa using ih

/-- What `getWatchNamespaces` returns: the empty list for an unset or empty
variable, and otherwise the comma-separated names in order unless one of them
has no rune of `[a-z0-9]`, which is the only case of an error. -/
theorem getWatchNamespaces_eq (LookupEnv : String → Option String) :
    (((LookupEnv WatchNamespaceEnvVar).getD "").utf8ByteSize = 0 →
      getWatchNamespaces LookupEnv = .ok []) ∧
    (0 < ((LookupEnv WatchNamespaceEnvVar).getD "").utf8ByteSize →
      (∀ ns ∈ strings.Split ((LookupEnv WatchNamespaceEnvVar).getD "") ',',
        ns.data.any lowerAlnum = true) →
      getWatchNamespaces LookupEnv =
        .ok (strings.Split ((LookupEnv WatchNamespaceEnvVar).getD "") ',')) ∧
    (0 < ((LookupEnv WatchNamespaceEnvVar).getD "").utf8ByteSize →
      (∃ ns ∈ strings.Split ((LookupEnv WatchNamespaceEnvVar).getD "") ',',
        ns.data.any lowerAlnum = false) →
      ∃ err, getWatchNamespaces LookupEnv = .error err) := by
  refine ⟨?_, ?_, ?_⟩
  · intro h
    simp [getWatchNamespaces, h]
  · intro h hall
    have hnone := (firstIncorrectNamespace_eq_none _).2 hall
    simp [getWatchNamespaces, h, hnone]
  · intro h hex
    cases hf : firstIncorrectNamespace
        (strings.Split ((LookupEnv WatchNamespaceEnvVar).getD "") ',') with
    | none =>
      obtain ⟨ns, hmem, hns⟩ := hex
      have := (firstIncorrectNamespace_eq_none _).1 hf ns hmem
      rw [hns] at this
      cases this
    | some ns =>
      exact ⟨{ ns := ns, wns := (LookupEnv WatchNamespaceEnvVar).getD "" },
        by simp [getWatchNamespaces, h, hf]⟩

/-- C25 (code defect). `getWatchNamespaces` accepts names that are not valid
namespace names: for the value `Monitoring,kube_system` it returns the two
names without an error and `mustGetWatchNamespaces` does not panic, although
neither name matches `[a-z0-9]([-a-z0-9]*[a-z0-9])?` as a whole. The pattern of
`validNamespaceRegex` has no anchors, so a name passes as soon as it holds one
rune of `[a-z0-9]`. The other cases are as expected: an empty name (`ns-1,,ns2`)
is an error and a panic, valid names are returned in order, and an empty or
unset variable gives the empty list. -/
theorem getWatchNamespaces_accepts_invalid_names :
    getWatchNamespaces (sample.watching "Monitoring,kube_system") =
      .ok ["Monitoring", "kube_system"] ∧
    mustGetWatchNamespaces (sample.watching "Monitoring,kube_system") {} =
      some (["Monitoring", "kube_system"],
        { opNamespace := ["Monitoring", "kube_system"], initNamespace := true }) ∧
    regexp.matchesWhole validNamespaceRegex "Monitoring".data = false ∧
    regexp.matchesWhole validNamespaceRegex "kube_system".data = false ∧
    getWatchNamespaces (sample.watching "ns-1,,ns2") =
      .error { ns := "", wns := "ns-1,,ns2" } ∧
    mustGetWatchNamespaces (sample.watching "ns-1,,ns2") {} = none ∧
    getWatchNamespaces (sample.watching "ns-1,ns2") = .ok ["ns-1", "ns2"] ∧
    regexp.matchesWhole validNamespaceRegex "ns-1".data = true ∧
    getWatchNamespaces (sample.watching "") = .ok [] ∧
    getWatchNamespaces sample.emptyEnv = .ok [] := by
  decide

/-- C30. When `os.Open` fails on the path with an error for which
`os.IsNotExist` holds, `ReadConfig` returns no error and a configuration in
which `Enable` and the four converter flags are false, the strategy is empty
and there is no instance selector, whatever the decoder is. -/
theorem ReadConfig_missing_file (Open : String → Except os.PathError Bytes)
    (decode : Bytes → Except String (Option ConverterConfig)) (path : String)
    (err : os.PathError) (hopen : Open path = .error err) (hmissing : os.IsNotExist err = true) :
    ∃ converterConfig : ConverterConfig,
      ReadConfig Open decode path = (some converterConfig, none) ∧
      converterConfig.Enable = false ∧
      converterConfig.EnabledGrafanaConverter.Dashboard = false ∧
      converterConfig.EnabledGrafanaConverter.Datasource = false ∧
      converterConfig.EnabledGrafanaConverter.Folder = false ∧
      converterConfig.EnabledGrafanaConverter.NotificationChannel = false ∧
      converterConfig.Strategy = "" ∧
      converterConfig.InstanceSelector = none := by
  refine ⟨{}, ?_, rfl, rfl, rfl, rfl, rfl, rfl, rfl⟩
  simp [ReadConfig, hopen, hmissing]

/-- Witness of C30: a file system without files. -/
theorem ReadConfig_missing_file_witness :
    ∃ converterConfig : ConverterConfig,
      ReadConfig sample.noFiles sample.rejectAll "/etc/converter/config.yaml" =
        (some converterConfig, none) ∧
      converterConfig.Enable = false ∧
      converterConfig.EnabledGrafanaConverter.Dashboard = false ∧
      converterConfig.EnabledGrafanaConverter.Datasource = false ∧
      converterConfig.EnabledGrafanaConverter.Folder = false ∧
      converterConfig.EnabledGrafanaConverter.NotificationChannel = false ∧
      converterConfig.Strategy = "" ∧
      converterConfig.InstanceSelector = none :=
  ReadConfig_missing_file sample.noFiles sample.rejectAll "/etc/converter/config.yaml" .ENOENT
    rfl rfl

end controllers

/-! ## Properties of the decompressor and of the gzip reader: longer inputs and errors -/

namespace flate

/-- A bit that is read from an input is read from every longer input. -/
theorem readBit_append (f f1 : Input) (b : Bool) (x : Bytes)
    (h : f.readBit = some (b, f1)) : (f.append x).readBit = some (b, f1.append x) := by
  unfold Input.readBit at h ⊢
  unfold Input.append
  cases hb : f.bits with
  | cons b0 bits =>
    simp only [hb] at h ⊢
    simp only [Option.some.injEq, Prod.mk.injEq] at h
    obtain ⟨h1, h2⟩ := h
    subst h1 h2
    rfl
  | nil =>
    simp only [hb] at h ⊢
    cases hr : f.r with
    | nil => simp [hr] at h
    | cons y r =>
      simp only [hr, List.cons_append] at h ⊢
      cases hy : byteBits y with
      | nil => simp [hy] at h
      | cons b1 bits =>
        simp only [hy, Option.some.injEq, Prod.mk.injEq] at h ⊢
        obtain ⟨h1, h2⟩ := h
        subst h1 h2
        exact ⟨rfl, rfl⟩

/-- Bits that are read from an input are read from every longer input. -/
theorem readBits_append (n : Nat) (f f1 : Input) (v : Nat) (x : Bytes)
    (h : Input.readBits n f = some (v, f1)) :
    Input.readBits n (f.append x) = some (v, f1.append x) := by
  induction n generalizing f f1 v with
  | zero =>
    simp only [Input.readBits, Option.some.injEq, Prod.mk.injEq] at h ⊢
    obtain ⟨h1, h2⟩ := h
    subst h1 h2
    exact ⟨rfl, rfl⟩
  | succ n ih =>
    simp only [Input.readBits] at h ⊢
    cases hb : f.readBit with
    | none => simp [hb] at h
    | some p =>
      obtain ⟨b, f2⟩ := p
      rw [readBit_append f f2 b x hb]
      simp only [hb] at h ⊢
      cases hv : Input.readBits n f2 with
      | none => simp [hv] at h
      | some q =>
        obtain ⟨w, f3⟩ := q
        rw [ih f2 f3 w hv]
        simp only [hv, Option.some.injEq, Prod.mk.injEq] at h ⊢
        obtain ⟨h1, h2⟩ := h
        subst h1 h2
        exact ⟨rfl, rfl⟩

/-- A longer input holds at least as many bits. -/
theorem available_append (f : Input) (x : Bytes) : f.available ≤ (f.append x).available := by
  simp only [Input.available, Input.append, List.length_append]
  omega

/-- A symbol that is looked up in an input is looked up in every longer
input. -/
theorem huffSymLoop_append (fuel : Nat) (codes : List (List Bool × Nat)) (f f1 : Input)
    (v : Nat) (x : Bytes) (h : huffSymLoop fuel codes f = .ok (v, f1)) :
    huffSymLoop fuel codes (f.append x) = .ok (v, f1.append x) := by
  induction fuel generalizing codes f with
  | zero =>
    simp only [huffSymLoop] at h ⊢
    cases hc : codes.find? (fun c => c.1.isEmpty) with
    | some c =>
      simp only [hc, Except.ok.injEq, Prod.mk.injEq] at h ⊢
      obtain ⟨h1, h2⟩ := h
      subst h1 h2
      exact ⟨rfl, rfl⟩
    | none => simp [hc] at h
  | succ fuel ih =>
    simp only [huffSymLoop] at h ⊢
    cases hc : codes.find? (fun c => c.1.isEmpty) with
    | some c =>
      simp only [hc, Except.ok.injEq, Prod.mk.injEq] at h ⊢
      obtain ⟨h1, h2⟩ := h
      subst h1 h2
      exact ⟨rfl, rfl⟩
    | none =>
      simp only [hc] at h ⊢
      split at h
      · cases h
      · rename_i hne
        rw [if_neg hne]
        cases hb : f.readBit with
        | none => simp [hb] at h
        | some p =>
          obtain ⟨b, f2⟩ := p
          rw [readBit_append f f2 b x hb]
          simp only [hb] at h ⊢
          exact ih _ f2 h

/-- A symbol that `huffSym` reads from an input is read from every longer
input. -/
theorem huffSym_append (hd : huffmanDecoder) (f f1 : Input) (v : Nat) (x : Bytes)
    (h : huffSym hd f = .ok (v, f1)) : huffSym hd (f.append x) = .ok (v, f1.append x) := by
  unfold huffSym at h ⊢
  have := available_append f x
  split at h
  · cases h
  · rw [if_neg (by omega)]
    exact huffSymLoop_append _ _ _ _ _ _ h

/-- The tail of `readDistance`, after the distance symbol is read. -/
theorem readDistance_tail_append (d : Nat) (f2 f1 : Input) (v : Nat) (x : Bytes)
    (h : (if d < 4 then (.ok (d + 1, f2) : Except Error (Nat × Input))
      else if d < 30 then
        match f2.readBits ((d - 2) / 2) with
        | none => .error .ErrUnexpectedEOF
        | some (extra, f) => .ok (2 ^ ((d - 2) / 2 + 1) + 1 + (d % 2 * 2 ^ ((d - 2) / 2) + extra), f)
      else .error .CorruptInputError) = .ok (v, f1)) :
    (if d < 4 then (.ok (d + 1, f2.append x) : Except Error (Nat × Input))
      else if d < 30 then
        match (f2.append x).readBits ((d - 2) / 2) with
        | none => .error .ErrUnexpectedEOF
        | some (extra, f) => .ok (2 ^ ((d - 2) / 2 + 1) + 1 + (d % 2 * 2 ^ ((d - 2) / 2) + extra), f)
      else .error .CorruptInputError) = .ok (v, f1.append x) := by
  by_cases h4 : d < 4
  · rw [if_pos h4] at h ⊢
    simp only [Except.ok.injEq, Prod.mk.injEq] at h
    obtain ⟨h1, h2⟩ := h
    subst h1 h2
    rfl
  · rw [if_neg h4] at h ⊢
    by_cases h30 : d < 30
    · rw [if_pos h30] at h ⊢
      cases hr : f2.readBits ((d - 2) / 2) with
      | none => simp [hr] at h
      | some q =>
        obtain ⟨e, f3⟩ := q
        rw [readBits_append _ f2 f3 e x hr]
        simp only [hr, Except.ok.injEq, Prod.mk.injEq] at h
        obtain ⟨h1, h2⟩ := h
        subst h1 h2
        rfl
    · rw [if_neg h30] at h
      cases h

/-- A distance that is read from an input is read from every longer input. -/
theorem readDistance_append (hd : Option huffmanDecoder) (f f1 : Input) (v : Nat) (x : Bytes)
    (h : readDistance hd f = .ok (v, f1)) :
    readDistance hd (f.append x) = .ok (v, f1.append x) := by
  unfold readDistance at h ⊢
  cases hd with
  | none =>
    simp only at h ⊢
    cases hr : f.readBits 5 with
    | none => simp [hr] at h
    | some p =>
      obtain ⟨w, f3⟩ := p
      rw [readBits_append 5 f f3 w x hr]
      simp only [hr] at h ⊢
      exact readDistance_tail_append _ f3 f1 v x h
  | some hd =>
    simp only at h ⊢
    cases hs : huffSym hd f with
    | error err => simp [hs] at h
    | ok p =>
      obtain ⟨d, f2⟩ := p
      rw [huffSym_append hd f f2 d x hs]
      simp only [hs] at h ⊢
      exact readDistance_tail_append _ f2 f1 v x h

/-- A compressed block that is decoded from an input is decoded from every
longer input, with any larger bound on the number of its symbols. -/
theorem huffmanBlock_append (hl : huffmanDecoder) (hd : Option huffmanDecoder)
    (fuel fuel1 : Nat) (f f1 : Input) (out out1 : Bytes) (x : Bytes) (hfuel : fuel ≤ fuel1)
    (h : huffmanBlock hl hd fuel f out = (out1, .ok f1)) :
    huffmanBlock hl hd fuel1 (f.append x) out = (out1, .ok (f1.append x)) := by
  induction fuel generalizing fuel1 f out with
  | zero => simp [huffmanBlock] at h
  | succ fuel ih =>
    cases fuel1 with
    | zero => omega
    | succ fuel1 =>
      have hle : fuel ≤ fuel1 := by omega
      simp only [huffmanBlock] at h ⊢
      cases hs : huffSym hl f with
      | error err => simp [hs] at h
      | ok p =>
        obtain ⟨v, f2⟩ := p
        rw [huffSym_append hl f f2 v x hs]
        simp only [hs] at h ⊢
        by_cases hv : v < 256
        · rw [if_pos hv] at h ⊢
          exact ih fuel1 f2 _ hle h
        · rw [if_neg hv] at h ⊢
          by_cases hv2 : v = 256
          · rw [if_pos hv2] at h ⊢
            simp only [Prod.mk.injEq, Except.ok.injEq] at h
            obtain ⟨h1, h2⟩ := h
            subst h1 h2
            rfl
          · rw [if_neg hv2] at h ⊢
            cases hm : matchLength v with
            | none => simp [hm] at h
            | some q =>
              obtain ⟨length, n⟩ := q
              simp only [hm] at h ⊢
              cases hr : f2.readBits n with
              | none => simp [hr] at h
              | some q2 =>
                obtain ⟨extra, f3⟩ := q2
                rw [readBits_append n f2 f3 extra x hr]
                simp only [hr] at h ⊢
                cases hdist : readDistance hd f3 with
                | error err => simp [hdist] at h
                | ok q3 =>
                  obtain ⟨dist, f4⟩ := q3
                  rw [readDistance_append hd f3 f4 dist x hdist]
                  simp only [hdist] at h ⊢
                  by_cases hdd : dist > (List.length out).min 32768
                  · rw [if_pos hdd] at h
                    simp at h
                  · rw [if_neg hdd] at h ⊢
                    exact ih fuel1 f4 _ hle h

/-- A stored block that is copied from an input is copied from every longer
input. -/
theorem dataBlock_append (f f1 : Input) (out out1 : Bytes) (x : Bytes)
    (h : dataBlock f out = (out1, .ok f1)) :
    dataBlock (f.append x) out = (out1, .ok (f1.append x)) := by
  unfold dataBlock at h ⊢
  unfold Input.append
  cases hr : f.r with
  | nil => simp [hr] at h
  | cons l0 r1 =>
    cases r1 with
    | nil => simp [hr] at h
    | cons l1 r2 =>
      cases r2 with
      | nil => simp [hr] at h
      | cons n0 r3 =>
        cases r3 with
        | nil => simp [hr] at h
        | cons n1 r =>
          simp only [hr, List.cons_append] at h ⊢
          split at h
          · simp at h
          · rename_i hnn
            rw [if_neg hnn]
            split at h
            · simp at h
            · rename_i hlen
              have hlen2 : ¬ (r ++ x).length < l0.toNat + 256 * l1.toNat := by
                rw [List.length_append]
                omega
              rw [if_neg hlen2]
              simp only [Prod.mk.injEq, Except.ok.injEq] at h ⊢
              obtain ⟨h1, h2⟩ := h
              subst h1 h2
              have hle : l0.toNat + 256 * l1.toNat ≤ r.length := by omega
              refine ⟨?_, ?_⟩
              · rw [List.take_append_of_le_length hle]
              · simp [List.drop_append_of_le_length hle]

/-- The lengths of the code length code that are read from an input are read
from every longer input. -/
theorem readCodebits_append (order : List Nat) (f f1 : Input) (v : List (Nat × Nat))
    (x : Bytes) (h : readCodebits order f = some (v, f1)) :
    readCodebits order (f.append x) = some (v, f1.append x) := by
  induction order generalizing f f1 v with
  | nil =>
    simp only [readCodebits, Option.some.injEq, Prod.mk.injEq] at h
    obtain ⟨h1, h2⟩ := h
    subst h1 h2
    rfl
  | cons sym order ih =>
    simp only [readCodebits] at h ⊢
    cases hr : f.readBits 3 with
    | none => simp [hr] at h
    | some p =>
      obtain ⟨w, f2⟩ := p
      rw [readBits_append 3 f f2 w x hr]
      simp only [hr] at h ⊢
      cases hc : readCodebits order f2 with
      | none => simp [hc] at h
      | some q =>
        obtain ⟨rest, f3⟩ := q
        rw [ih f2 f3 rest hc]
        simp only [hc, Option.some.injEq, Prod.mk.injEq] at h
        obtain ⟨h1, h2⟩ := h
        subst h1 h2
        rfl

/-- The code lengths that are read from an input are read from every longer
input. -/
theorem readLengths_append (h1 : huffmanDecoder) (n fuel : Nat) (bits : List Nat)
    (f f1 : Input) (v : List Nat) (x : Bytes)
    (h : readLengths h1 n fuel bits f = .ok (v, f1)) :
    readLengths h1 n fuel bits (f.append x) = .ok (v, f1.append x) := by
  induction fuel generalizing bits f with
  | zero =>
    simp only [readLengths] at h ⊢
    by_cases hb : bits.length < n
    · rw [if_pos hb] at h
      cases h
    · rw [if_neg hb] at h ⊢
      simp only [Except.ok.injEq, Prod.mk.injEq] at h
      obtain ⟨h2, h3⟩ := h
      subst h2 h3
      rfl
  | succ fuel ih =>
    simp only [readLengths] at h ⊢
    by_cases hb : bits.length < n
    · rw [if_pos hb] at h ⊢
      cases hs : huffSym h1 f with
      | error err => simp [hs] at h
      | ok p =>
        obtain ⟨s, f2⟩ := p
        rw [huffSym_append h1 f f2 s x hs]
        simp only [hs] at h ⊢
        by_cases h16 : s < 16
        · rw [if_pos h16] at h ⊢
          exact ih _ f2 h
        · rw [if_neg h16] at h ⊢
          by_cases hz : s = 16 ∧ bits.length = 0
          · rw [if_pos hz] at h
            cases h
          · rw [if_neg hz] at h ⊢
            cases hr : f2.readBits (if s = 16 then 2 else if s = 17 then 3 else 7) with
            | none => simp [hr] at h
            | some q =>
              obtain ⟨extra, f3⟩ := q
              rw [readBits_append _ f2 f3 extra x hr]
              simp only [hr] at h ⊢
              by_cases hn : bits.length + ((if s = 18 then 11 else 3) + extra) > n
              · rw [if_pos hn] at h
                cases h
              · rw [if_neg hn] at h ⊢
                exact ih _ f3 h
    · rw [if_neg hb] at h ⊢
      simp only [Except.ok.injEq, Prod.mk.injEq] at h
      obtain ⟨h2, h3⟩ := h
      subst h2 h3
      rfl

/-- The header of a block with dynamic codes that is read from an input is
read from every longer input. -/
theorem readHuffman_append (f f1 : Input) (hl hd : huffmanDecoder) (x : Bytes)
    (h : readHuffman f = .ok (hl, hd, f1)) :
    readHuffman (f.append x) = .ok (hl, hd, f1.append x) := by
  unfold readHuffman at h ⊢
  cases hr : f.readBits 14 with
  | none => simp [hr] at h
  | some p =>
    obtain ⟨v, f2⟩ := p
    rw [readBits_append 14 f f2 v x hr]
    simp only [hr] at h ⊢
    by_cases hnlit : v % 32 + 257 > 286
    · rw [if_pos hnlit] at h
      cases h
    · rw [if_neg hnlit] at h ⊢
      by_cases hndist : v / 32 % 32 + 1 > 30
      · rw [if_pos hndist] at h
        cases h
      · rw [if_neg hndist] at h ⊢
        cases hc : readCodebits (codeOrder.take (v / 1024 % 16 + 4)) f2 with
        | none => simp [hc] at h
        | some q =>
          obtain ⟨codebits, f3⟩ := q
          rw [readCodebits_append _ f2 f3 codebits x hc]
          simp only [hc] at h ⊢
          cases hi : huffmanDecoder.init
              ((List.range 19).map (fun sym => ((codebits.lookup sym).getD 0))) with
          | none => simp [hi] at h
          | some h1 =>
            simp only [hi] at h ⊢
            cases hlen : readLengths h1 (v % 32 + 257 + (v / 32 % 32 + 1))
                (v % 32 + 257 + (v / 32 % 32 + 1)) [] f3 with
            | error err => simp [hlen] at h
            | ok q2 =>
              obtain ⟨bits, f4⟩ := q2
              rw [readLengths_append h1 _ _ [] f3 f4 bits x hlen]
              simp only [hlen] at h ⊢
              cases ha : huffmanDecoder.init (bits.take (v % 32 + 257)) with
              | none => simp [ha] at h
              | some a =>
                cases hb : huffmanDecoder.init
                    ((bits.drop (v % 32 + 257)).take (v / 32 % 32 + 1)) with
                | none => simp [ha, hb] at h
                | some b =>
                  simp only [ha, hb, Except.ok.injEq, Prod.mk.injEq] at h ⊢
                  obtain ⟨h2, h3, h4⟩ := h
                  subst h2 h3 h4
                  exact ⟨rfl, rfl, rfl⟩

/-- The blocks that are decoded from an input are decoded from every longer
input, with any larger bound on their number. -/
theorem blocks_append (fuel fuel1 : Nat) (f f1 : Input) (out out1 : Bytes) (x : Bytes)
    (hfuel : fuel ≤ fuel1) (h : blocks fuel f out = (out1, .ok f1)) :
    blocks fuel1 (f.append x) out = (out1, .ok (f1.append x)) := by
  induction fuel generalizing fuel1 f out with
  | zero => simp [blocks] at h
  | succ fuel ih =>
    cases fuel1 with
    | zero => omega
    | succ fuel1 =>
      have hle : fuel ≤ fuel1 := by omega
      have hfinish : ∀ (v : Nat) (o : Bytes) (g : Input),
          (if v % 2 = 1 then (o, (.ok g : Except Error Input)) else blocks fuel g o) =
            (out1, .ok f1) →
          (if v % 2 = 1 then (o, (.ok (g.append x) : Except Error Input))
            else blocks fuel1 (g.append x) o) = (out1, .ok (f1.append x)) := by
        intro v o g hg
        by_cases hv : v % 2 = 1
        · rw [if_pos hv] at hg ⊢
          simp only [Prod.mk.injEq, Except.ok.injEq] at hg
          obtain ⟨h1, h2⟩ := hg
          subst h1 h2
          rfl
        · rw [if_neg hv] at hg ⊢
          exact ih fuel1 g o hle hg
      rw [blocks] at h ⊢
      generalize fixedHuffmanDecoder = fixed at h ⊢
      cases hr : f.readBits 3 with
      | none => simp [hr] at h
      | some p =>
        obtain ⟨v, f2⟩ := p
        rw [readBits_append 3 f f2 v x hr]
        simp only [hr] at h ⊢
        match hv : v / 2 with
        | 0 =>
          simp only [hv] at h ⊢
          cases hb : dataBlock f2 out with
          | mk o e =>
            cases e with
            | error err => simp [hb] at h
            | ok g =>
              rw [dataBlock_append f2 g out o x hb]
              simp only [hb] at h ⊢
              exact hfinish v o g h
        | 1 =>
          simp only [hv] at h ⊢
          cases fixed with
          | none => simp at h
          | some hl =>
            simp only at h ⊢
            cases hb : huffmanBlock hl none (f2.available + 1) f2 out with
            | mk o e =>
              cases e with
              | error err => simp [hb] at h
              | ok g =>
                rw [huffmanBlock_append hl none _ _ f2 g out o x
                  (Nat.succ_le_succ (available_append f2 x)) hb]
                simp only [hb] at h ⊢
                exact hfinish v o g h
        | 2 =>
          simp only [hv] at h ⊢
          cases hh : readHuffman f2 with
          | error err => simp [hh] at h
          | ok q =>
            obtain ⟨hl, hd, f3⟩ := q
            rw [readHuffman_append f2 f3 hl hd x hh]
            simp only [hh] at h ⊢
            cases hb : huffmanBlock hl (some hd) (f3.available + 1) f3 out with
            | mk o e =>
              cases e with
              | error err => simp [hb] at h
              | ok g =>
                rw [huffmanBlock_append hl (some hd) _ _ f3 g out o x
                  (Nat.succ_le_succ (available_append f3 x)) hb]
                simp only [hb] at h ⊢
                exact hfinish v o g h
        | n + 3 =>
          simp only [hv] at h
          simp at h

/-- A stream that `inflate` decodes to its end is decoded alike when more
bytes follow it: they are left unread. -/
theorem inflate_append (r rest data : Bytes) (x : Bytes)
    (h : inflate r = (data, .ok rest)) :
    inflate (r ++ x) = (data, .ok (rest ++ x)) := by
  unfold inflate at h ⊢
  cases hb : blocks (r.length + 1) { r := r } [] with
  | mk o e =>
    cases e with
    | error err => simp [hb] at h
    | ok g =>
      have := blocks_append (r.length + 1) ((r ++ x).length + 1) { r := r } g [] o x
        (by simp) hb
      simp only [Input.append] at this
      rw [this]
      simp only [hb, Prod.mk.injEq, Except.ok.injEq] at h ⊢
      obtain ⟨h1, h2⟩ := h
      subst h1 h2
      exact ⟨rfl, rfl⟩

end flate

namespace flate

/-- The lookup of a symbol does not fail with `io.EOF`. -/
theorem huffSymLoop_ne (fuel : Nat) (codes : List (List Bool × Nat)) (f : Input) :
    huffSymLoop fuel codes f ≠ .error .EOF := by
  induction fuel generalizing codes f with
  | zero =>
    simp only [huffSymLoop]
    split <;> simp
  | succ fuel ih =>
    simp only [huffSymLoop]
    split
    · simp
    · split
      · simp
      · split
        · simp
        · exact ih _ _

/-- Method `huffSym` does not fail with `io.EOF`. -/
theorem huffSym_ne (h : huffmanDecoder) (f : Input) : huffSym h f ≠ .error .EOF := by
  unfold huffSym
  split
  · simp
  · exact huffSymLoop_ne _ _ _

/-- The reading of a distance does not fail with `io.EOF`. -/
theorem readDistance_ne (hd : Option huffmanDecoder) (f : Input) :
    readDistance hd f ≠ .error .EOF := by
  have htail : ∀ (d : Nat) (f2 : Input),
      (if d < 4 then (.ok (d + 1, f2) : Except Error (Nat × Input))
        else if d < 30 then
          match f2.readBits ((d - 2) / 2) with
          | none => .error .ErrUnexpectedEOF
          | some (extra, f) =>
            .ok (2 ^ ((d - 2) / 2 + 1) + 1 + (d % 2 * 2 ^ ((d - 2) / 2) + extra), f)
        else .error .CorruptInputError) ≠ .error .EOF := by
    intro d f2
    split
    · simp
    · split
      · split <;> simp
      · simp
  unfold readDistance
  cases hd with
  | none =>
    simp only
    cases hr : f.readBits 5 with
    | none => simp
    | some p =>
      obtain ⟨w, f3⟩ := p
      simp only
      exact htail _ f3
  | some hd =>
    simp only
    cases hs : huffSym hd f with
    | error err =>
      simp only
      intro h
      injection h with h
      subst h
      exact huffSym_ne hd f hs
    | ok p =>
      obtain ⟨d, f2⟩ := p
      simp only
      exact htail _ f2

/-- Method `huffmanBlock` does not fail with `io.EOF`. -/
theorem huffmanBlock_ne (hl : huffmanDecoder) (hd : Option huffmanDecoder) (fuel : Nat)
    (f : Input) (out : Bytes) : (huffmanBlock hl hd fuel f out).2 ≠ .error .EOF := by
  induction fuel generalizing f out with
  | zero => simp [huffmanBlock]
  | succ fuel ih =>
    simp only [huffmanBlock]
    cases hs : huffSym hl f with
    | error err =>
      simp only
      intro h
      injection h with h
      subst h
      exact huffSym_ne hl f hs
    | ok p =>
      obtain ⟨v, f2⟩ := p
      simp only
      split
      · exact ih _ _
      · split
        · simp
        · split
          · simp
          · split
            · simp
            · rename_i f3 _
              cases hdist : readDistance hd f3 with
              | error err =>
                simp only
                intro h
                injection h with h
                subst h
                exact readDistance_ne hd f3 hdist
              | ok q =>
                obtain ⟨dist, f4⟩ := q
                simp only
                split
                · simp
                · exact ih _ _

/-- Method `dataBlock` does not fail with `io.EOF`. -/
theorem dataBlock_ne (f : Input) (out : Bytes) : (dataBlock f out).2 ≠ .error .EOF := by
  unfold dataBlock
  split
  · simp only
    split
    · simp
    · split <;> simp
  · simp

/-- The reading of the code lengths does not fail with `io.EOF`. -/
theorem readLengths_ne (h1 : huffmanDecoder) (n fuel : Nat) (bits : List Nat) (f : Input) :
    readLengths h1 n fuel bits f ≠ .error .EOF := by
  induction fuel generalizing bits f with
  | zero =>
    simp only [readLengths]
    split <;> simp
  | succ fuel ih =>
    simp only [readLengths]
    split
    · cases hs : huffSym h1 f with
      | error err =>
        simp only
        intro h
        injection h with h
        subst h
        exact huffSym_ne h1 f hs
      | ok p =>
        obtain ⟨s, f2⟩ := p
        simp only
        by_cases h16 : s < 16
        · rw [if_pos h16]
          exact ih _ _
        · rw [if_neg h16]
          by_cases hz : s = 16 ∧ bits.length = 0
          · rw [if_pos hz]
            simp
          · rw [if_neg hz]
            cases hr : f2.readBits (if s = 16 then 2 else if s = 17 then 3 else 7) with
            | none => simp
            | some q =>
              obtain ⟨extra, f3⟩ := q
              simp only
              by_cases hn : bits.length + ((if s = 18 then 11 else 3) + extra) > n
              · rw [if_pos hn]
                simp
              · rw [if_neg hn]
                exact ih _ _
    · simp

/-- Method `readHuffman` does not fail with `io.EOF`. -/
theorem readHuffman_ne (f : Input) : readHuffman f ≠ .error .EOF := by
  unfold readHuffman
  split
  · simp
  · simp only
    split
    · simp
    · split
      · simp
      · split
        · simp
        · split
          · simp
          · rename_i h1 _
            rename_i f3 _
            split
            · rename_i err hlen
              intro h
              injection h with h
              subst h
              exact readLengths_ne _ _ _ _ _ hlen
            · split <;> simp

/-- The decoding of the blocks does not fail with `io.EOF`. -/
theorem blocks_ne (fuel : Nat) (f : Input) (out : Bytes) :
    (blocks fuel f out).2 ≠ .error .EOF := by
  induction fuel generalizing f out with
  | zero => simp [blocks]
  | succ fuel ih =>
    rw [blocks]
    generalize fixedHuffmanDecoder = fixed
    cases hr : f.readBits 3 with
    | none => simp
    | some p =>
      obtain ⟨v, f2⟩ := p
      simp only
      have hfinish : ∀ (b : Bytes × Except Error Input), b.2 ≠ .error .EOF →
          (match b.2 with
            | .error err => (b.1, (.error err : Except Error Input))
            | .ok g => if v % 2 = 1 then (b.1, .ok g) else blocks fuel g b.1).2 ≠
              .error .EOF := by
        intro b hb
        obtain ⟨o, e⟩ := b
        cases e with
        | error err => simpa using hb
        | ok g =>
          simp only
          split
          · simp
          · exact ih _ _
      apply hfinish
      match hv : v / 2 with
      | 0 => exact dataBlock_ne _ _
      | 1 =>
        simp only
        cases fixed with
        | none => simp
        | some hl => exact huffmanBlock_ne _ _ _ _ _
      | 2 =>
        simp only
        cases hh : readHuffman f2 with
        | error err =>
          simp only
          intro h
          injection h with h
          subst h
          exact readHuffman_ne f2 hh
        | ok q =>
          obtain ⟨hl, hd, f3⟩ := q
          exact huffmanBlock_ne _ _ _ _ _
      | n + 3 => simp

/-- The reader of `compress/flate` does not fail with `io.EOF`: the end of the
input inside a stream is `io.ErrUnexpectedEOF`. -/
theorem inflate_ne (r : Bytes) : (inflate r).2 ≠ .error .EOF := by
  unfold inflate
  have := blocks_ne (r.length + 1) { r := r } []
  cases hb : blocks (r.length + 1) { r := r } [] with
  | mk o e =>
    rw [hb] at this
    cases e with
    | error err => simpa using this
    | ok g => simp

end flate

namespace gzip

open flate (Error)

/-- A string of the header that is read from an input is read from every
longer input. -/
theorem readString_append (n : Nat) (r s rest x : Bytes)
    (h : readString n r = .ok (s, rest)) : readString n (r ++ x) = .ok (s, rest ++ x) := by
  induction n generalizing r s rest with
  | zero => simp [readString] at h
  | succ n ih =>
    cases r with
    | nil => simp [readString] at h
    | cons b r =>
      rw [List.cons_append]
      simp only [readString] at h ⊢
      by_cases hb : b = 0
      · rw [if_pos hb] at h ⊢
        simp only [Except.ok.injEq, Prod.mk.injEq] at h
        obtain ⟨h1, h2⟩ := h
        subst h1 h2
        rfl
      · rw [if_neg hb] at h ⊢
        cases hs : readString n r with
        | error err => simp [hs] at h
        | ok p =>
          obtain ⟨s2, r2⟩ := p
          rw [ih r s2 r2 hs]
          simp only [hs, Except.ok.injEq, Prod.mk.injEq] at h
          obtain ⟨h1, h2⟩ := h
          subst h1 h2
          rfl

/-- An extra field that is read from an input is read from every longer
input. -/
theorem readExtra_append (hdr r hdr1 rest x : Bytes)
    (h : readExtra hdr r = .ok (hdr1, rest)) :
    readExtra hdr (r ++ x) = .ok (hdr1, rest ++ x) := by
  unfold readExtra at h ⊢
  cases r with
  | nil => simp at h
  | cons x0 r =>
    cases r with
    | nil => simp at h
    | cons x1 r =>
      simp only [List.cons_append] at h ⊢
      by_cases hl : r.length < x0.toNat + 256 * x1.toNat
      · rw [if_pos hl] at h
        cases h
      · rw [if_neg hl] at h
        have hl2 : ¬ (r ++ x).length < x0.toNat + 256 * x1.toNat := by
          rw [List.length_append]
          omega
        rw [if_neg hl2]
        have hle : x0.toNat + 256 * x1.toNat ≤ r.length := by omega
        simp only [Except.ok.injEq, Prod.mk.injEq] at h
        obtain ⟨h1, h2⟩ := h
        subst h1 h2
        rw [List.take_append_of_le_length hle, List.drop_append_of_le_length hle]

/-- A name or comment that is read from an input is read from every longer
input. -/
theorem readHeaderString_append (hdr r hdr1 rest x : Bytes)
    (h : readHeaderString hdr r = .ok (hdr1, rest)) :
    readHeaderString hdr (r ++ x) = .ok (hdr1, rest ++ x) := by
  unfold readHeaderString at h ⊢
  cases hs : readString 512 r with
  | error err => simp [hs] at h
  | ok p =>
    obtain ⟨s, r2⟩ := p
    rw [readString_append 512 r s r2 x hs]
    simp only [hs, Except.ok.injEq, Prod.mk.injEq] at h
    obtain ⟨h1, h2⟩ := h
    subst h1 h2
    rfl

/-- A header checksum that is read from an input is read from every longer
input. -/
theorem readHeaderCrc_append (hdr r rest x : Bytes)
    (h : readHeaderCrc hdr r = .ok rest) : readHeaderCrc hdr (r ++ x) = .ok (rest ++ x) := by
  unfold readHeaderCrc at h ⊢
  cases r with
  | nil => simp at h
  | cons c0 r =>
    cases r with
    | nil => simp at h
    | cons c1 r =>
      simp only [List.cons_append] at h ⊢
      by_cases hc : c0.toNat + 256 * c1.toNat ≠ crc32.ChecksumIEEE hdr % 65536
      · rw [if_pos hc] at h
        cases h
      · rw [if_neg hc] at h ⊢
        simp only [Except.ok.injEq] at h
        subst h
        rfl

/-- The optional fields that are read from an input are read from every longer
input. -/
theorem readHeaderFields_append (flg : Nat) (hdr r rest x : Bytes)
    (h : readHeaderFields flg hdr r = .ok rest) :
    readHeaderFields flg hdr (r ++ x) = .ok (rest ++ x) := by
  unfold readHeaderFields at h ⊢
  have hextra : ∀ (hdr1 r1 : Bytes),
      (if flg / 4 % 2 = 1 then readExtra hdr r else .ok (hdr, r)) = .ok (hdr1, r1) →
      (if flg / 4 % 2 = 1 then readExtra hdr (r ++ x) else .ok (hdr, r ++ x)) =
        .ok (hdr1, r1 ++ x) := by
    intro hdr1 r1 he
    by_cases hc : flg / 4 % 2 = 1
    · rw [if_pos hc] at he ⊢
      exact readExtra_append hdr r hdr1 r1 x he
    · rw [if_neg hc] at he ⊢
      simp only [Except.ok.injEq, Prod.mk.injEq] at he
      obtain ⟨h1, h2⟩ := he
      subst h1 h2
      rfl
  have hstring : ∀ (c : Prop) [Decidable c] (hdr r hdr1 r1 : Bytes),
      (if c then readHeaderString hdr r else .ok (hdr, r)) = .ok (hdr1, r1) →
      (if c then readHeaderString hdr (r ++ x) else .ok (hdr, r ++ x)) =
        .ok (hdr1, r1 ++ x) := by
    intro c _ hdr r hdr1 r1 he
    by_cases hc : c
    · rw [if_pos hc] at he ⊢
      exact readHeaderString_append hdr r hdr1 r1 x he
    · rw [if_neg hc] at he ⊢
      simp only [Except.ok.injEq, Prod.mk.injEq] at he
      obtain ⟨h1, h2⟩ := he
      subst h1 h2
      rfl
  cases h1 : (if flg / 4 % 2 = 1 then readExtra hdr r else .ok (hdr, r)) with
  | error err => simp [h1] at h
  | ok p1 =>
    obtain ⟨hdr1, r1⟩ := p1
    rw [hextra hdr1 r1 h1]
    simp only [h1] at h ⊢
    cases h2 : (if flg / 8 % 2 = 1 then readHeaderString hdr1 r1 else .ok (hdr1, r1)) with
    | error err => simp [h2] at h
    | ok p2 =>
      obtain ⟨hdr2, r2⟩ := p2
      rw [hstring _ hdr1 r1 hdr2 r2 h2]
      simp only [h2] at h ⊢
      cases h3 : (if flg / 16 % 2 = 1 then readHeaderString hdr2 r2 else .ok (hdr2, r2)) with
      | error err => simp [h3] at h
      | ok p3 =>
        obtain ⟨hdr3, r3⟩ := p3
        rw [hstring _ hdr2 r2 hdr3 r3 h3]
        simp only [h3] at h ⊢
        by_cases hc : flg / 2 % 2 = 1
        · rw [if_pos hc] at h ⊢
          exact readHeaderCrc_append hdr3 r3 rest x h
        · rw [if_neg hc] at h ⊢
          simp only [Except.ok.injEq] at h
          subst h
          rfl

/-- A header that is read from an input is read from every longer input, which
leaves the bytes added. -/
theorem readHeader_append (r rest x : Bytes) (h : readHeader r = .ok rest) :
    readHeader (r ++ x) = .ok (rest ++ x) := by
  unfold readHeader at h ⊢
  match r, h with
  | id1 :: id2 :: cm :: flg :: m0 :: m1 :: m2 :: m3 :: xfl :: os :: r, h =>
    simp only [List.cons_append] at h ⊢
    by_cases hc : id1 ≠ 0x1f ∨ id2 ≠ 0x8b ∨ cm ≠ 8
    · rw [if_pos hc] at h
      cases h
    · rw [if_neg hc] at h ⊢
      exact readHeaderFields_append _ _ r rest x h

/-- The four bytes of a number below `2 ^ 32` give the number back. -/
theorem le32_leUint32 (b0 b1 b2 b3 : UInt8) : le32 (leUint32 b0 b1 b2 b3) = [b0, b1, b2, b3] := by
  have h : ∀ k : Nat, (UInt8.ofNat k).toNat = k % 256 := fun _ => rfl
  have h0 := UInt8.toNat_lt b0
  have h1 := UInt8.toNat_lt b1
  have h2 := UInt8.toNat_lt b2
  have h3 := UInt8.toNat_lt b3
  simp only [le32, leUint32, List.cons.injEq, and_true]
  refine ⟨UInt8.ext ?_, UInt8.ext ?_, UInt8.ext ?_, UInt8.ext ?_⟩ <;> rw [h] <;> omega

end gzip

/-! ## Properties of the decompressor: a stream of valid blocks is decoded to its content -/

namespace flate

/-- A byte has eight bits. -/
theorem byteBits_length (x : UInt8) : (byteBits x).length = 8 := rfl

/-- A stream has eight bits per byte. -/
theorem streamBits_length (s : Bytes) : (streamBits s).length = 8 * s.length := by
  induction s with
  | nil => rfl
  | cons x s ih =>
    simp only [streamBits, List.flatMap_cons, List.length_append, byteBits_length,
      List.length_cons] at ih ⊢
    omega

/-- The bits of a stream are those of its first byte and those of the rest. -/
theorem streamBits_cons (x : UInt8) (s : Bytes) :
    streamBits (x :: s) = byteBits x ++ streamBits s := by
  simp [streamBits]

/-- The bits of two streams, one after the other. -/
theorem streamBits_append (s t : Bytes) : streamBits (s ++ t) = streamBits s ++ streamBits t := by
  simp [streamBits]

/-- The bits of a stream from a byte boundary on are the bits of the bytes from
there on. -/
theorem streamBits_drop (s : Bytes) (k : Nat) :
    (streamBits s).drop (8 * k) = streamBits (s.drop k) := by
  induction k generalizing s with
  | zero => rfl
  | succ k ih =>
    cases s with
    | nil => simp [streamBits]
    | cons x s =>
      rw [streamBits_cons, List.drop_succ_cons, ← ih s]
      have h8 : 8 * (k + 1) = (byteBits x).length + 8 * k := by
        rw [byteBits_length]
        omega
      rw [h8, List.drop_append]

/-- What is left of a list one element further. -/
theorem drop_succ_of_drop_eq_cons {α : Type} (l : List α) (p : Nat) (b : α) (rest : List α)
    (h : l.drop p = b :: rest) : l.drop (p + 1) = rest := by
  rw [← List.drop_drop, h]
  rfl

/-- What is left of a list after the first part of what is left. -/
theorem drop_add_of_drop_eq_append {α : Type} (l : List α) (p : Nat) (x rest : List α)
    (h : l.drop p = x ++ rest) : l.drop (p + x.length) = rest := by
  have : l.drop (p + x.length) = (l.drop p).drop x.length := by
    rw [List.drop_drop, Nat.add_comm]
  rw [this, h, List.drop_left]

/-- The position of a bit that is left is inside the stream. -/
theorem lt_of_drop_eq_cons {α : Type} (l : List α) (p : Nat) (b : α) (rest : List α)
    (h : l.drop p = b :: rest) : p < l.length := by
  by_contra hp
  rw [List.drop_of_length_le (by omega)] at h
  cases h

/-- The decompressor reads the bits of the stream in their order. -/
theorem readBit_atBit (s : Bytes) (p : Nat) (b : Bool) (rest : List Bool)
    (h : (streamBits s).drop p = b :: rest) :
    (Input.atBit s p).readBit = some (b, Input.atBit s (p + 1)) := by
  have hnext := drop_succ_of_drop_eq_cons _ _ _ _ h
  by_cases hp : p % 8 = 0
  · obtain ⟨q, hq⟩ : ∃ q, p = 8 * q := ⟨p / 8, by omega⟩
    subst hq
    rw [streamBits_drop] at h
    have hk : (8 - 8 * q % 8) % 8 = 0 := by omega
    have hk1 : (8 - (8 * q + 1) % 8) % 8 = 7 := by omega
    have hr : (8 * q + 7) / 8 = q := by omega
    have hr1 : (8 * q + 1 + 7) / 8 = q + 1 := by omega
    unfold Input.atBit
    rw [hk, hk1, hr, hr1, hnext]
    cases hs : s.drop q with
    | nil =>
      rw [hs] at h
      cases h
    | cons x r =>
      rw [hs, streamBits_cons] at h
      have hdrop : s.drop (q + 1) = r := drop_succ_of_drop_eq_cons _ _ _ _ hs
      rw [hdrop]
      simp only [byteBits, List.cons_append, List.nil_append, List.cons.injEq] at h
      obtain ⟨hb, hrest⟩ := h
      subst hrest
      simp only [Input.readBit, List.take_zero, hs, byteBits, hb, List.take_succ_cons,
        List.take_zero]
  · have hk : (8 - p % 8) % 8 = (8 - (p + 1) % 8) % 8 + 1 := by omega
    have hr : (p + 1 + 7) / 8 = (p + 7) / 8 := by omega
    unfold Input.atBit
    rw [hk, hr, hnext, h]
    simp only [Input.readBit, List.take_succ_cons]

/-- The number packed in the next `n` bits is what `readBits` returns. -/
theorem readBits_atBit (s : Bytes) (n : Nat) (p v : Nat) (rest : List Bool) (hv : v < 2 ^ n)
    (h : (streamBits s).drop p = numberBits n v ++ rest) :
    Input.readBits n (Input.atBit s p) = some (v, Input.atBit s (p + n)) := by
  induction n generalizing p v with
  | zero =>
    simp only [pow_zero, Nat.lt_one_iff] at hv
    subst hv
    rfl
  | succ n ih =>
    simp only [numberBits, List.cons_append] at h
    have hnext := drop_succ_of_drop_eq_cons _ _ _ _ h
    have hv2 : v / 2 < 2 ^ n := by
      rw [Nat.div_lt_iff_lt_mul (by decide)]
      rw [pow_succ] at hv
      exact hv
    simp only [Input.readBits, readBit_atBit s p _ _ h, ih (p + 1) (v / 2) hv2 hnext]
    have hp : p + 1 + n = p + (n + 1) := by omega
    rw [hp]
    by_cases hodd : v % 2 = 1
    · simp only [hodd, decide_True, if_true, Option.some.injEq, Prod.mk.injEq, and_true]
      omega
    · simp only [hodd, decide_False, Bool.false_eq_true, if_false, Option.some.injEq,
        Prod.mk.injEq, and_true]
      omega

/-- The bits of a number are as many as asked for. -/
theorem numberBits_length (n v : Nat) : (numberBits n v).length = n := by
  induction n generalizing v with
  | zero => rfl
  | succ n ih => simp [numberBits, ih]

/-- The number of the bits left at a position of the stream. -/
theorem available_atBit (s : Bytes) (p : Nat) (hp : p ≤ 8 * s.length) :
    (Input.atBit s p).available = 8 * s.length - p := by
  simp only [Input.available, Input.atBit, List.length_take, List.length_drop,
    streamBits_length]
  omega

/-- A position with bits left is inside the stream. -/
theorem le_of_drop_eq_append (s : Bytes) (p : Nat) (x rest : List Bool)
    (h : (streamBits s).drop p = x ++ rest) (hx : 0 < x.length) :
    p + x.length + rest.length = 8 * s.length := by
  have hl := congrArg List.length h
  simp only [List.length_drop, List.length_append, streamBits_length] at hl
  omega

/-- A number below 256 is given by its eight bits. -/
theorem eq_of_bits_eq (a b : Nat) (ha : a < 256) (hb : b < 256)
    (e0 : a % 2 = b % 2) (e1 : a / 2 % 2 = b / 2 % 2) (e2 : a / 4 % 2 = b / 4 % 2)
    (e3 : a / 8 % 2 = b / 8 % 2) (e4 : a / 16 % 2 = b / 16 % 2) (e5 : a / 32 % 2 = b / 32 % 2)
    (e6 : a / 64 % 2 = b / 64 % 2) (e7 : a / 128 % 2 = b / 128 % 2) : a = b := by
  omega

/-- Two remainders by two are equal when they are one together. -/
theorem mod_two_eq_of_iff (a b : Nat) (h : a % 2 = 1 ↔ b % 2 = 1) : a % 2 = b % 2 := by
  omega

/-- A byte is given by its bits. -/
theorem byteBits_injective (x y : UInt8) (h : byteBits x = byteBits y) : x = y := by
  have hx : x.toNat < 256 := UInt8.toNat_lt x
  have hy : y.toNat < 256 := UInt8.toNat_lt y
  simp only [byteBits, List.cons.injEq, decide_eq_decide, and_true] at h
  obtain ⟨h0, h1, h2, h3, h4, h5, h6, h7⟩ := h
  apply UInt8.ext
  exact eq_of_bits_eq _ _ hx hy (mod_two_eq_of_iff _ _ h0) (mod_two_eq_of_iff _ _ h1)
    (mod_two_eq_of_iff _ _ h2) (mod_two_eq_of_iff _ _ h3) (mod_two_eq_of_iff _ _ h4)
    (mod_two_eq_of_iff _ _ h5) (mod_two_eq_of_iff _ _ h6) (mod_two_eq_of_iff _ _ h7)

/-- A stream whose bits start with the bits of the bytes `x` starts with
`x`. -/
theorem streamBits_eq_append (l x : Bytes) (rest : List Bool)
    (h : streamBits l = streamBits x ++ rest) :
    ∃ l1, l = x ++ l1 ∧ streamBits l1 = rest := by
  induction x generalizing l with
  | nil => exact ⟨l, rfl, h⟩
  | cons a x ih =>
    cases l with
    | nil =>
      have hl := congrArg List.length h
      simp only [streamBits_cons, List.length_append, byteBits_length] at hl
      simp only [streamBits, List.flatMap_nil, List.length_nil] at hl
      omega
    | cons c l =>
      rw [streamBits_cons, streamBits_cons, List.append_assoc] at h
      have h1 := List.append_inj h (by rw [byteBits_length, byteBits_length])
      have hc := byteBits_injective c a h1.1
      subst hc
      obtain ⟨l1, hl1, hrest⟩ := ih l h1.2
      exact ⟨l1, by rw [hl1]; rfl, hrest⟩

/-- A stored block is copied to the output: the decompressor drops the bits
that fill the byte, checks the two lengths and copies the data. -/
theorem dataBlock_atBit (s : Bytes) (p : Nat) (pad : List Bool) (data : Bytes)
    (rest : List Bool) (out : Bytes) (hpad : pad.length = (8 - p % 8) % 8)
    (hlen : data.length < 65536)
    (h : (streamBits s).drop p =
      pad ++ streamBits (le16 data.length ++ le16 (65535 - data.length) ++ data) ++ rest) :
    dataBlock (Input.atBit s p) out =
      (out ++ data, .ok (Input.atBit s (p + pad.length + 8 * (4 + data.length)))) := by
  have hq : p + pad.length = 8 * ((p + 7) / 8) := by omega
  rw [List.append_assoc] at h
  have h2 := drop_add_of_drop_eq_append _ _ _ _ h
  rw [hq, streamBits_drop] at h2
  obtain ⟨l1, hl1, _⟩ := streamBits_eq_append _ _ _ h2
  have hof : ∀ k : Nat, (UInt8.ofNat k).toNat = k % 256 := fun _ => rfl
  have hfinal : Input.atBit s (p + pad.length + 8 * (4 + data.length)) = { r := l1 } := by
    have e1 : (8 - (p + pad.length + 8 * (4 + data.length)) % 8) % 8 = 0 := by omega
    have e2 : (p + pad.length + 8 * (4 + data.length) + 7) / 8 =
        (4 + data.length) + (p + 7) / 8 := by omega
    have e5 : s.drop (4 + data.length + (p + 7) / 8) =
        (s.drop ((p + 7) / 8)).drop (4 + data.length) := by
      rw [List.drop_drop, Nat.add_comm]
    unfold Input.atBit
    rw [e1, e2, e5, hl1, Nat.add_comm 4]
    simp only [le16, List.cons_append, List.nil_append, List.drop_succ_cons, List.take_zero,
      List.drop_left]
  rw [hfinal]
  unfold dataBlock
  have hr : (Input.atBit s p).r = s.drop ((p + 7) / 8) := rfl
  rw [hr, hl1]
  have hof1 : ∀ k : Nat, (UInt8.ofNat (k % 256)).toNat = k % 256 := by
    intro k
    rw [hof, Nat.mod_mod]
  simp only [le16, List.cons_append, List.nil_append, hof1]
  have e3 : data.length % 256 + 256 * (data.length / 256 % 256) = data.length := by omega
  have e4 : (65535 - data.length) % 256 + 256 * ((65535 - data.length) / 256 % 256) =
      65535 - data.length := by omega
  rw [e3, e4]
  simp

/-- The bits of a code, one bit longer. -/
theorem codeBits_succ (c n : Nat) :
    codeBits c (n + 1) = decide (c / 2 ^ n % 2 = 1) :: codeBits c n := by
  unfold codeBits
  rw [List.range_succ_eq_map, List.map_cons, List.map_map]
  simp only [Nat.add_sub_cancel, Nat.sub_zero, List.cons.injEq, true_and]
  apply List.map_congr_left
  intro i hi
  have hi2 : i < n := List.mem_range.1 hi
  simp only [Function.comp]
  have e : n - Nat.succ i = n - 1 - i := by omega
  rw [e]

/-- A code of `n` bits has `n` bits. -/
theorem codeBits_length (c n : Nat) : (codeBits c n).length = n := by
  simp [codeBits]

/-- The bits of a code are its high bits and its low bits. -/
theorem codeBits_add (c a b : Nat) :
    codeBits c (a + b) = codeBits (c / 2 ^ b) a ++ codeBits c b := by
  induction a with
  | zero =>
    rw [Nat.zero_add]
    rfl
  | succ a ih =>
    have e : a + 1 + b = (a + b) + 1 := by omega
    rw [e, codeBits_succ, codeBits_succ, ih, List.cons_append, Nat.div_div_eq_div_mul,
      ← pow_add, Nat.add_comm b a]

/-- A code below `2 ^ n` is given by its `n` bits. -/
theorem codeBits_injective (n c d : Nat) (hc : c < 2 ^ n) (hd : d < 2 ^ n)
    (h : codeBits c n = codeBits d n) : c = d := by
  induction n generalizing c d with
  | zero =>
    simp only [pow_zero, Nat.lt_one_iff] at hc hd
    rw [hc, hd]
  | succ n ih =>
    rw [codeBits_succ, codeBits_succ] at h
    simp only [List.cons.injEq, decide_eq_decide] at h
    obtain ⟨hbit, hrest⟩ := h
    have hlow : ∀ x : Nat, codeBits x n = codeBits (x % 2 ^ n) n := by
      intro x
      unfold codeBits
      apply List.map_congr_left
      intro i hi
      have hi2 : i < n := List.mem_range.1 hi
      have e : x % 2 ^ n / 2 ^ (n - 1 - i) % 2 = x / 2 ^ (n - 1 - i) % 2 := by
        have hsplit : 2 ^ n = 2 ^ (n - 1 - i) * 2 ^ (i + 1) := by
          rw [← pow_add]
          congr 1
          omega
        rw [hsplit, Nat.mod_mul_right_div_self, pow_succ, Nat.mod_mul_left_mod]
      rw [e]
    rw [hlow c, hlow d] at hrest
    have hmod := ih (c % 2 ^ n) (d % 2 ^ n) (Nat.mod_lt _ (by positivity))
      (Nat.mod_lt _ (by positivity)) hrest
    have hc1 : c / 2 ^ n < 2 := by
      rw [Nat.div_lt_iff_lt_mul (by positivity), Nat.mul_comm, ← pow_succ]
      exact hc
    have hd1 : d / 2 ^ n < 2 := by
      rw [Nat.div_lt_iff_lt_mul (by positivity), Nat.mul_comm, ← pow_succ]
      exact hd
    have hbit2 := mod_two_eq_of_iff _ _ hbit
    have hdiv : c / 2 ^ n = d / 2 ^ n := by
      generalize c / 2 ^ n = x at hc1 hbit2 ⊢
      generalize d / 2 ^ n = y at hd1 hbit2 ⊢
      omega
    rw [← Nat.div_add_mod c (2 ^ n), ← Nat.div_add_mod d (2 ^ n), hmod, hdiv]

/-- A code of `m` bits that starts a code of `n` bits is made of its `m` high
bits. -/
theorem codeBits_prefix (m n c d : Nat) (hmn : m ≤ n) (hc : c < 2 ^ m) (hd : d < 2 ^ n)
    (h : codeBits c m <+: codeBits d n) : d / 2 ^ (n - m) = c := by
  have e : n = m + (n - m) := by omega
  rw [e, codeBits_add] at h
  have hpre : codeBits (d / 2 ^ (n - m)) m <+: codeBits (d / 2 ^ (n - m)) m ++
      codeBits d (n - m) := List.prefix_append _ _
  have heq := List.IsPrefix.eq_of_length
    (List.prefix_of_prefix_length_le h hpre (by rw [codeBits_length, codeBits_length]))
    (by rw [codeBits_length, codeBits_length])
  have hq : d / 2 ^ (n - m) < 2 ^ m := by
    rw [Nat.div_lt_iff_lt_mul (by positivity), ← pow_add]
    have e2 : m + (n - m) = n := by omega
    rw [e2]
    exact hd
  exact (codeBits_injective m c _ hc hq heq).symm

/-- A sum written as a fold. -/
theorem foldl_add_eq_sum (f : Nat → Nat) (xs : List Nat) (a : Nat) :
    xs.foldl (fun c l => c + f l) a = a + (xs.map f).sum := by
  induction xs generalizing a with
  | nil => rfl
  | cons x xs ih =>
    simp only [List.foldl_cons, List.map_cons, List.sum_cons, ih]
    omega

/-- The canonical code of a symbol: the first code of its length plus the
number of the symbols of that length before it. -/
theorem canonicalCode_eq (lengths : List Nat) (sym n : Nat) :
    canonicalCode lengths sym n =
      ((lengths.filter (fun l => decide (0 < l) && decide (l < n))).map
        (fun l => 2 ^ (n - l))).sum +
      ((lengths.take sym).filter (fun l => l == n)).length := by
  unfold canonicalCode
  rw [foldl_add_eq_sum, Nat.zero_add]

/-- The first code of the length `n` is past the codes of a shorter length `m`,
extended to `n` bits. -/
theorem firstCode_ge (lengths : List Nat) (m n : Nat) (hm : 0 < m) (hmn : m < n) :
    2 ^ (n - m) * (((lengths.filter (fun l => decide (0 < l) && decide (l < m))).map
        (fun l => 2 ^ (m - l))).sum + (lengths.filter (fun l => l == m)).length) ≤
      ((lengths.filter (fun l => decide (0 < l) && decide (l < n))).map
        (fun l => 2 ^ (n - l))).sum := by
  induction lengths with
  | nil => simp
  | cons l ls ih =>
    simp only [List.filter_cons]
    by_cases h1 : 0 < l ∧ l < m
    · have h2 : 0 < l ∧ l < n := ⟨h1.1, by omega⟩
      have h3 : ¬ l = m := by omega
      have hpow : 2 ^ (n - l) = 2 ^ (n - m) * 2 ^ (m - l) := by
        rw [← pow_add]
        congr 1
        omega
      simp only [h1, h2, h3, decide_True, Bool.and_self, if_true, beq_iff_eq, if_false,
        List.map_cons, List.sum_cons, hpow]
      rw [Nat.add_assoc, Nat.mul_add]
      omega
    · by_cases h3 : l = m
      · subst h3
        have h2 : 0 < l ∧ l < n := ⟨hm, hmn⟩
        have h4 : ¬ l < l := by omega
        simp only [h2, h4, hm, decide_True, decide_False, Bool.and_false, Bool.and_self,
          if_true, beq_self_eq_true, Bool.false_eq_true, if_false, List.map_cons,
          List.sum_cons, List.length_cons]
        have e : 2 ^ (n - l) *
            (((ls.filter (fun l1 => decide (0 < l1) && decide (l1 < l))).map
              (fun l1 => 2 ^ (l - l1))).sum + ((ls.filter (fun l1 => l1 == l)).length + 1)) =
            2 ^ (n - l) +
            2 ^ (n - l) * (((ls.filter (fun l1 => decide (0 < l1) && decide (l1 < l))).map
              (fun l1 => 2 ^ (l - l1))).sum + (ls.filter (fun l1 => l1 == l)).length) := by
          rw [← Nat.add_assoc, Nat.mul_add _ _ 1, Nat.mul_one, Nat.add_comm]
        rw [e]
        omega
      · have h5 : (decide (0 < l) && decide (l < m)) = false := by
          simp only [Bool.and_eq_false_imp, decide_eq_true_eq, decide_eq_false_iff_not]
          intro h0 hlt
          exact h1 ⟨h0, hlt⟩
        have h6 : (l == m) = false := by simp [h3]
        simp only [h5, h6, Bool.false_eq_true, if_false]
        by_cases h2 : 0 < l ∧ l < n
        · simp only [h2, decide_True, Bool.and_self, if_true, List.map_cons, List.sum_cons]
          exact Nat.le_trans ih (Nat.le_add_left _ _)
        · have h7 : (decide (0 < l) && decide (l < n)) = false := by
            simp only [Bool.and_eq_false_imp, decide_eq_true_eq, decide_eq_false_iff_not]
            intro h0 hlt
            exact h2 ⟨h0, hlt⟩
          simp only [h7, Bool.false_eq_true, if_false]
          exact ih

/-- The codes up to the length `n`, extended to `max` bits, are among the codes
that the sum of the completeness check counts. -/
theorem codes_fit (lengths : List Nat) (max n : Nat) (hn : 0 < n) (hnmax : n ≤ max)
    (hmax : ∀ l ∈ lengths, l ≤ max) :
    2 ^ (max - n) * (((lengths.filter (fun l => decide (0 < l) && decide (l < n))).map
        (fun l => 2 ^ (n - l))).sum + (lengths.filter (fun l => l == n)).length) ≤
      ((lengths.filter (fun l => decide (0 < l))).map (fun l => 2 ^ (max - l))).sum := by
  induction lengths with
  | nil => simp
  | cons l ls ih =>
    have ih2 := ih (fun x hx => hmax x (List.mem_cons_of_mem _ hx))
    have hl : l ≤ max := hmax l (List.mem_cons_self _ _)
    simp only [List.filter_cons]
    by_cases h1 : 0 < l ∧ l < n
    · have h3 : ¬ l = n := by omega
      have hpow : 2 ^ (max - l) = 2 ^ (max - n) * 2 ^ (n - l) := by
        rw [← pow_add]
        congr 1
        omega
      simp only [h1, h3, decide_True, Bool.and_self, if_true, beq_iff_eq, if_false,
        List.map_cons, List.sum_cons, hpow]
      rw [Nat.add_assoc, Nat.mul_add]
      omega
    · by_cases h3 : l = n
      · subst h3
        have h4 : ¬ l < l := by omega
        simp only [h4, hn, decide_True, decide_False, Bool.and_false, if_true,
          beq_self_eq_true, Bool.false_eq_true, if_false, List.map_cons, List.sum_cons,
          List.length_cons]
        have e : 2 ^ (max - l) *
            (((ls.filter (fun l1 => decide (0 < l1) && decide (l1 < l))).map
              (fun l1 => 2 ^ (l - l1))).sum + ((ls.filter (fun l1 => l1 == l)).length + 1)) =
            2 ^ (max - l) +
            2 ^ (max - l) * (((ls.filter (fun l1 => decide (0 < l1) && decide (l1 < l))).map
              (fun l1 => 2 ^ (l - l1))).sum + (ls.filter (fun l1 => l1 == l)).length) := by
          rw [← Nat.add_assoc, Nat.mul_add _ _ 1, Nat.mul_one, Nat.add_comm]
        rw [e]
        omega
      · have h5 : (decide (0 < l) && decide (l < n)) = false := by
          simp only [Bool.and_eq_false_imp, decide_eq_true_eq, decide_eq_false_iff_not]
          intro h0 hlt
          exact h1 ⟨h0, hlt⟩
        have h6 : (l == n) = false := by simp [h3]
        simp only [h5, h6, Bool.false_eq_true, if_false]
        by_cases h0 : 0 < l
        · simp only [h0, decide_True, if_true, List.map_cons, List.sum_cons]
          exact Nat.le_trans ih2 (Nat.le_add_left _ _)
        · simp only [h0, decide_False, Bool.false_eq_true, if_false]
          exact ih2

/-- The number of the symbols of the length `n` before a symbol grows past a
symbol of that length. -/
theorem countBefore_lt (lengths : List Nat) (i j n : Nat) (hij : i < j)
    (hi : lengths[i]? = some n) :
    ((lengths.take i).filter (fun l => l == n)).length <
      ((lengths.take j).filter (fun l => l == n)).length := by
  induction lengths generalizing i j with
  | nil => simp at hi
  | cons l ls ih =>
    cases j with
    | zero => omega
    | succ j =>
      cases i with
      | zero =>
        simp only [List.getElem?_cons_zero, Option.some.injEq] at hi
        subst hi
        simp [List.filter_cons]
      | succ i =>
        simp only [List.getElem?_cons_succ] at hi
        have := ih i j (by omega) hi
        simp only [List.take_succ_cons, List.filter_cons]
        by_cases hl : (l == n) = true
        · simp only [hl, if_true, List.length_cons]
          omega
        · simp only [hl, Bool.false_eq_true, if_false]
          exact this

/-- The number of the symbols of the length `n` before a symbol of that length
is less than the number of all of them. -/
theorem countBefore_lt_count (lengths : List Nat) (i n : Nat) (hi : lengths[i]? = some n) :
    ((lengths.take i).filter (fun l => l == n)).length <
      (lengths.filter (fun l => l == n)).length := by
  have hlen : i < lengths.length := by
    by_contra hc
    rw [List.getElem?_eq_none (by omega)] at hi
    cases hi
  have := countBefore_lt lengths i lengths.length n hlen hi
  rwa [List.take_length] at this

/-- The fold of `Nat.max` is above its start and above every element. -/
theorem foldl_max_ge (xs : List Nat) (a : Nat) :
    a ≤ xs.foldl Nat.max a ∧ ∀ l ∈ xs, l ≤ xs.foldl Nat.max a := by
  induction xs generalizing a with
  | nil => simp
  | cons x xs ih =>
    simp only [List.foldl_cons, List.mem_cons, forall_eq_or_imp]
    have h1 := (ih (Nat.max a x)).1
    have h2 := (ih (Nat.max a x)).2
    have h3 : a ≤ Nat.max a x := Nat.le_max_left a x
    have h4 : x ≤ Nat.max a x := Nat.le_max_right a x
    exact ⟨by omega, by omega, h2⟩

/-- The fold of `Nat.min` is below every element. -/
theorem foldl_min_le (xs : List Nat) (a : Nat) :
    xs.foldl Nat.min a ≤ a ∧ ∀ l ∈ xs, xs.foldl Nat.min a ≤ l := by
  induction xs generalizing a with
  | nil => simp
  | cons x xs ih =>
    simp only [List.foldl_cons, List.mem_cons, forall_eq_or_imp]
    have h1 := (ih (Nat.min a x)).1
    have h2 := (ih (Nat.min a x)).2
    have h3 : Nat.min a x ≤ a := Nat.min_le_left a x
    have h4 : Nat.min a x ≤ x := Nat.min_le_right a x
    exact ⟨by omega, by omega, h2⟩

/-- An element that a list holds at an index is in the list. -/
theorem mem_of_getElem?_eq_some {α : Type} (l : List α) (i : Nat) (a : α)
    (h : l[i]? = some a) : a ∈ l := by
  obtain ⟨hi, ha⟩ := List.getElem?_eq_some.1 h
  rw [← ha]
  exact List.getElem_mem _

/-- The entries of a decoder that `init` builds: a symbol with a code length
above zero and its canonical code. -/
theorem init_mem_codes (lengths : List Nat) (hd : huffmanDecoder)
    (h : huffmanDecoder.init lengths = some hd) (c : List Bool) (s : Nat) :
    (c, s) ∈ hd.codes ↔
      ∃ n, lengths[s]? = some n ∧ 0 < n ∧ c = codeBits (canonicalCode lengths s n) n := by
  unfold huffmanDecoder.init at h
  simp only at h
  split at h
  · rename_i hmax
    simp only [Option.some.injEq] at h
    subst h
    constructor
    · intro hmem
      cases hmem
    · rintro ⟨n, hn, hpos, _⟩
      exfalso
      have hmem : n ∈ lengths.filter (fun l => decide (0 < l)) := by
        rw [List.mem_filter]
        exact ⟨mem_of_getElem?_eq_some _ _ _ hn, by simpa using hpos⟩
      have := (foldl_max_ge (lengths.filter (fun l => decide (0 < l))) 0).2 n hmem
      omega
  · split at h
    · cases h
    · simp only [Option.some.injEq] at h
      subst h
      simp only [List.mem_map, List.mem_filter, decide_eq_true_eq, Prod.mk.injEq, Prod.exists,
        List.mk_mem_enum_iff_getElem?]
      constructor
      · rintro ⟨i, n, ⟨hin, hpos⟩, hc, hs⟩
        subst hs
        exact ⟨n, hin, hpos, hc.symm⟩
      · rintro ⟨n, hn, hpos, hc⟩
        exact ⟨s, n, ⟨hn, hpos⟩, hc.symm, rfl⟩

/-- The facts of the completeness check of `init`: every length in use is at
most the greatest length, and the codes fit the bits of the greatest length. -/
theorem init_kraft (lengths : List Nat) (hd : huffmanDecoder)
    (h : huffmanDecoder.init lengths = some hd) (hne : hd.codes ≠ []) :
    ((lengths.filter (fun l => decide (0 < l))).map (fun l =>
      2 ^ ((lengths.filter (fun l => decide (0 < l))).foldl Nat.max 0 - l))).sum ≤
      2 ^ ((lengths.filter (fun l => decide (0 < l))).foldl Nat.max 0) := by
  unfold huffmanDecoder.init at h
  simp only at h
  split at h
  · simp only [Option.some.injEq] at h
    subst h
    exact absurd rfl hne
  · split at h
    · cases h
    · rename_i hcheck
      rw [foldl_add_eq_sum, Nat.zero_add] at hcheck
      by_cases hk : ((lengths.filter (fun l => decide (0 < l))).map (fun l =>
          2 ^ ((lengths.filter (fun l => decide (0 < l))).foldl Nat.max 0 - l))).sum =
          2 ^ ((lengths.filter (fun l => decide (0 < l))).foldl Nat.max 0)
      · exact Nat.le_of_eq hk
      · by_cases h1 : ((lengths.filter (fun l => decide (0 < l))).map (fun l =>
            2 ^ ((lengths.filter (fun l => decide (0 < l))).foldl Nat.max 0 - l))).sum = 1 ∧
            (lengths.filter (fun l => decide (0 < l))).foldl Nat.max 0 = 1
        · rw [h1.1, h1.2]
          decide
        · exact absurd ⟨hk, h1⟩ hcheck

/-- The least number of bits of a decoder that `init` builds is at most the
length of each of its codes. -/
theorem init_min_le (lengths : List Nat) (hd : huffmanDecoder)
    (h : huffmanDecoder.init lengths = some hd) (n : Nat) (hn : n ∈ lengths) (hpos : 0 < n) :
    hd.min ≤ n := by
  have hmem : n ∈ lengths.filter (fun l => decide (0 < l)) := by
    rw [List.mem_filter]
    exact ⟨hn, by simpa using hpos⟩
  unfold huffmanDecoder.init at h
  simp only at h
  split at h
  · simp only [Option.some.injEq] at h
    subst h
    exact Nat.zero_le _
  · split at h
    · cases h
    · simp only [Option.some.injEq] at h
      subst h
      exact (foldl_min_le _ _).2 n hmem

/-- The canonical code of a symbol fits the bits of its length. -/
theorem canonicalCode_lt (lengths : List Nat) (hd : huffmanDecoder)
    (h : huffmanDecoder.init lengths = some hd) (i n : Nat) (hi : lengths[i]? = some n)
    (hpos : 0 < n) : canonicalCode lengths i n < 2 ^ n := by
  have hmemc : (codeBits (canonicalCode lengths i n) n, i) ∈ hd.codes :=
    (init_mem_codes lengths hd h _ _).2 ⟨n, hi, hpos, rfl⟩
  have hne : hd.codes ≠ [] := List.ne_nil_of_mem hmemc
  have hk := init_kraft lengths hd h hne
  have hmemn : n ∈ lengths.filter (fun l => decide (0 < l)) := by
    rw [List.mem_filter]
    exact ⟨mem_of_getElem?_eq_some _ _ _ hi, by simpa using hpos⟩
  have hnmax := (foldl_max_ge (lengths.filter (fun l => decide (0 < l))) 0).2 n hmemn
  have hfit := codes_fit (lengths.filter (fun l => decide (0 < l)))
    ((lengths.filter (fun l => decide (0 < l))).foldl Nat.max 0) n hpos hnmax
    (foldl_max_ge (lengths.filter (fun l => decide (0 < l))) 0).2
  simp only [List.filter_filter] at hfit
  have e1 : lengths.filter (fun l => (decide (0 < l) && decide (l < n)) && decide (0 < l)) =
      lengths.filter (fun l => decide (0 < l) && decide (l < n)) := by
    apply List.filter_congr
    intro x _
    by_cases hx : 0 < x <;> simp [hx]
  have e2 : lengths.filter (fun l => (l == n) && decide (0 < l)) =
      lengths.filter (fun l => l == n) := by
    apply List.filter_congr
    intro x _
    by_cases hx : x = n
    · subst hx
      simp [hpos]
    · simp [hx]
  have e3 : lengths.filter (fun l => decide (0 < l) && decide (0 < l)) =
      lengths.filter (fun l => decide (0 < l)) := by
    apply List.filter_congr
    intro x _
    simp
  rw [e1, e2, e3] at hfit
  have hcnt := countBefore_lt_count lengths i n hi
  rw [canonicalCode_eq]
  generalize (lengths.filter (fun l => decide (0 < l))).foldl Nat.max 0 = max at hk hnmax hfit
  generalize ((lengths.filter (fun l => decide (0 < l) && decide (l < n))).map
    (fun l => 2 ^ (n - l))).sum = first at hfit ⊢
  generalize (lengths.filter (fun l => l == n)).length = count at hfit hcnt
  generalize ((lengths.take i).filter (fun l => l == n)).length = before at hcnt ⊢
  have hle : 2 ^ (max - n) * (first + count) ≤ 2 ^ (max - n) * 2 ^ n := by
    rw [← pow_add]
    have e : max - n + n = max := by omega
    rw [e]
    exact Nat.le_trans hfit hk
  have hle2 := Nat.le_of_mul_le_mul_left hle (by positivity)
  omega

/-- The canonical codes are a prefix code: a code that starts another code is
the code of the same symbol. -/
theorem init_prefix_free (lengths : List Nat) (hd : huffmanDecoder)
    (h : huffmanDecoder.init lengths = some hd) (c c1 : List Bool) (s s1 : Nat)
    (hc : (c, s) ∈ hd.codes) (hc1 : (c1, s1) ∈ hd.codes) (hpre : c1 <+: c) : s1 = s := by
  obtain ⟨n, hn, hnpos, hcn⟩ := (init_mem_codes lengths hd h c s).1 hc
  obtain ⟨m, hm, hmpos, hcm⟩ := (init_mem_codes lengths hd h c1 s1).1 hc1
  subst hcn hcm
  have hlt := canonicalCode_lt lengths hd h s n hn hnpos
  have hlt1 := canonicalCode_lt lengths hd h s1 m hm hmpos
  have hmn : m ≤ n := by
    have := hpre.length_le
    rwa [codeBits_length, codeBits_length] at this
  have hq := codeBits_prefix m n _ _ hmn hlt1 hlt hpre
  by_cases hmeq : m = n
  · subst hmeq
    rw [Nat.sub_self, pow_zero, Nat.div_one, canonicalCode_eq, canonicalCode_eq] at hq
    by_contra hne
    rcases Nat.lt_or_gt_of_ne hne with hlt2 | hlt2
    · have := countBefore_lt lengths s1 s m hlt2 hm
      omega
    · have := countBefore_lt lengths s s1 m hlt2 hn
      omega
  · exfalso
    have hmn2 : m < n := by omega
    have hge := firstCode_ge lengths m n hmpos hmn2
    have hcnt := countBefore_lt_count lengths s1 m hm
    rw [canonicalCode_eq lengths s n, canonicalCode_eq lengths s1 m] at hq
    generalize ((lengths.filter (fun l => decide (0 < l) && decide (l < n))).map
      (fun l => 2 ^ (n - l))).sum = firstn at hge hq
    generalize ((lengths.filter (fun l => decide (0 < l) && decide (l < m))).map
      (fun l => 2 ^ (m - l))).sum = firstm at hge hq
    generalize (lengths.filter (fun l => l == m)).length = count at hge hcnt
    generalize ((lengths.take s1).filter (fun l => l == m)).length = before at hcnt hq
    generalize ((lengths.take s).filter (fun l => l == n)).length = beforen at hq
    have h1 : 2 ^ (n - m) * (firstm + count) ≤ firstn + beforen :=
      Nat.le_trans hge (Nat.le_add_right _ _)
    have h2 : firstm + count ≤ (firstn + beforen) / 2 ^ (n - m) := by
      rw [Nat.le_div_iff_mul_le (by positivity), Nat.mul_comm]
      exact h1
    omega

/-- The lookup of a symbol returns the symbol whose code stands at the
position, when no other candidate starts that code. -/
theorem huffSymLoop_atBit (s : Bytes) (c : List Bool) (sym : Nat) (rest : List Bool)
    (fuel : Nat) (cands : List (List Bool × Nat)) (p : Nat)
    (hmem : (c, sym) ∈ cands)
    (hpf : ∀ c1 s1, (c1, s1) ∈ cands → c1 <+: c → c1 = c ∧ s1 = sym)
    (hfuel : c.length ≤ fuel)
    (h : (streamBits s).drop p = c ++ rest) :
    huffSymLoop fuel cands (Input.atBit s p) = .ok (sym, Input.atBit s (p + c.length)) := by
  induction c generalizing fuel cands p with
  | nil =>
    have hfind : ∃ x, cands.find? (fun c => c.1.isEmpty) = some x := by
      cases hf : cands.find? (fun c => c.1.isEmpty) with
      | some x => exact ⟨x, rfl⟩
      | none =>
        have := List.find?_eq_none.1 hf ([], sym) hmem
        simp at this
    obtain ⟨x, hx⟩ := hfind
    have hxmem := List.mem_of_find?_eq_some hx
    have hxe := List.find?_some hx
    have hx1 : x.1 = [] := by simpa using hxe
    have hx2 : x.2 = sym := by
      have := hpf x.1 x.2 hxmem (by rw [hx1])
      exact this.2
    cases fuel with
    | zero => simp only [huffSymLoop, hx, hx2, List.length_nil, Nat.add_zero]
    | succ fuel => simp only [huffSymLoop, hx, hx2, List.length_nil, Nat.add_zero]
  | cons b c ih =>
    cases fuel with
    | zero => simp at hfuel
    | succ fuel =>
      have hnone : cands.find? (fun c => c.1.isEmpty) = none := by
        rw [List.find?_eq_none]
        intro x hx hxe
        have hx1 : x.1 = [] := by simpa using hxe
        have := (hpf x.1 x.2 hx (by rw [hx1]; exact List.nil_prefix)).1
        rw [hx1] at this
        cases this
      have hne : cands.isEmpty = false := by
        cases cands with
        | nil => cases hmem
        | cons _ _ => rfl
      rw [List.cons_append] at h
      have hnext := drop_succ_of_drop_eq_cons _ _ _ _ h
      simp only [huffSymLoop, hnone, hne, Bool.false_eq_true, if_false, readBit_atBit s p b _ h]
      have hp : p + (b :: c).length = p + 1 + c.length := by
        simp only [List.length_cons]
        omega
      rw [hp]
      apply ih
      · rw [List.mem_filterMap]
        exact ⟨(b :: c, sym), hmem, by simp⟩
      · intro c1 s1 hc1 hpre
        rw [List.mem_filterMap] at hc1
        obtain ⟨x, hx, hxs⟩ := hc1
        obtain ⟨x1, x2⟩ := x
        cases x1 with
        | nil => simp at hxs
        | cons y ys =>
          simp only at hxs
          by_cases hy : y = b
          · subst hy
            simp only [if_true, Option.some.injEq, Prod.mk.injEq] at hxs
            obtain ⟨h1, h2⟩ := hxs
            subst h1 h2
            have := hpf (y :: ys) x2 hx ((List.prefix_cons_inj y).2 hpre)
            simp only [List.cons.injEq, true_and] at this
            exact this
          · simp [hy] at hxs
      · simp only [List.length_cons] at hfuel
        omega
      · exact hnext

/-- Method `huffSym` returns the symbol whose code stands at the position. -/
theorem huffSym_atBit (s : Bytes) (hd : huffmanDecoder) (c : List Bool) (sym : Nat)
    (rest : List Bool) (p : Nat) (hmem : (c, sym) ∈ hd.codes)
    (hpf : ∀ c1 s1, (c1, s1) ∈ hd.codes → c1 <+: c → c1 = c ∧ s1 = sym)
    (hlen : c.length ≤ 16) (hpos : 0 < c.length) (hmin : hd.min ≤ c.length + rest.length)
    (h : (streamBits s).drop p = c ++ rest) :
    huffSym hd (Input.atBit s p) = .ok (sym, Input.atBit s (p + c.length)) := by
  have htotal := le_of_drop_eq_append s p c rest h hpos
  have hav := available_atBit s p (by omega)
  unfold huffSym
  rw [hav, if_neg (by omega)]
  exact huffSymLoop_atBit s c sym rest 16 hd.codes p hmem hpf hlen h

/-- The code of a symbol in the code with the lengths `lengths` has the length
that `lengths` gives. -/
theorem symbolCode_length (lengths : List Nat) (sym : Nat) :
    (symbolCode lengths sym).length = lengths.getD sym 0 := by
  simp [symbolCode, codeBits_length]

/-- The length of a symbol that has a code is in the list of the lengths. -/
theorem getElem?_of_getD_pos (lengths : List Nat) (sym : Nat) (h : 0 < lengths.getD sym 0) :
    lengths[sym]? = some (lengths.getD sym 0) := by
  rw [List.getD_eq_getElem?_getD] at h ⊢
  cases hs : lengths[sym]? with
  | none => simp [hs] at h
  | some n => simp

/-- A decoder with the codes that `init` builds for the lengths `lengths`
decodes the code of a symbol to the symbol. -/
theorem huffSym_symbolCode (s : Bytes) (lengths : List Nat) (hd0 hd : huffmanDecoder)
    (hinit : huffmanDecoder.init lengths = some hd0) (hcodes : hd.codes = hd0.codes)
    (hbound : ∀ l ∈ lengths, l ≤ 15) (sym : Nat) (hsym : 0 < lengths.getD sym 0)
    (rest : List Bool) (p : Nat)
    (hmin : hd.min ≤ (symbolCode lengths sym).length + rest.length)
    (h : (streamBits s).drop p = symbolCode lengths sym ++ rest) :
    huffSym hd (Input.atBit s p) =
      .ok (sym, Input.atBit s (p + (symbolCode lengths sym).length)) := by
  have hget := getElem?_of_getD_pos lengths sym hsym
  have hmem : (symbolCode lengths sym, sym) ∈ hd.codes := by
    rw [hcodes]
    exact (init_mem_codes lengths hd0 hinit _ _).2 ⟨_, hget, hsym, rfl⟩
  apply huffSym_atBit s hd _ sym rest p hmem
  · intro c1 s1 hc1 hpre
    rw [hcodes] at hc1 hmem
    have hs := init_prefix_free lengths hd0 hinit _ c1 sym s1 hmem hc1 hpre
    subst hs
    obtain ⟨n, hn, _, hcn⟩ := (init_mem_codes lengths hd0 hinit c1 s1).1 hc1
    rw [hget] at hn
    simp only [Option.some.injEq] at hn
    subst hn
    exact ⟨hcn, rfl⟩
  · rw [symbolCode_length]
    have := hbound _ (mem_of_getElem?_eq_some _ _ _ hget)
    omega
  · rw [symbolCode_length]
    exact hsym
  · exact hmin
  · exact h

/-- The element that a list extended by one element has at an index of the
list. -/
theorem getD_append_left {α : Type} (l : List α) (x d : α) (i : Nat) (h : i < l.length) :
    (l ++ [x]).getD i d = l.getD i d := by
  rw [List.getD_eq_getElem?_getD, List.getD_eq_getElem?_getD, List.getElem?_append_left h]

/-- The element that a list extended by one element has at its end. -/
theorem getD_append_length {α : Type} (l : List α) (x d : α) :
    (l ++ [x]).getD l.length d = x := by
  rw [List.getD_eq_getElem?_getD, List.getElem?_append_right (Nat.le_refl _)]
  simp

/-- The copy that the decompressor makes byte by byte: the byte `i` of the
copy is the byte of the output at the distance from its end, plus `i` modulo
the distance. -/
theorem copyHistory_eq (length dist : Nat) (out : Bytes) (hdist : 0 < dist)
    (hout : dist ≤ out.length) :
    copyHistory length dist out =
      out ++ (List.range length).map (fun i => out.getD (out.length - dist + i % dist) 0) := by
  induction length generalizing out with
  | zero => simp [copyHistory]
  | succ length ih =>
    rw [copyHistory, ih _ (by rw [List.length_append]; omega), List.range_succ_eq_map,
      List.map_cons, List.map_map, List.append_assoc, List.singleton_append]
    congr 2
    apply List.map_congr_left
    intro i _
    simp only [Function.comp, List.length_append, List.length_singleton]
    have hlt : i % dist < dist := Nat.mod_lt _ hdist
    have hsucc : (i + 1) % dist = (i % dist + 1) % dist := (Nat.mod_add_mod i dist 1).symm
    by_cases hwrap : i % dist + 1 < dist
    · rw [hsucc, Nat.mod_eq_of_lt hwrap]
      have e : out.length + 1 - dist + i % dist = out.length - dist + (i % dist + 1) := by
        omega
      rw [e]
      exact getD_append_left _ _ _ _ (by omega)
    · have hd : i % dist + 1 = dist := by omega
      rw [hsucc, hd, Nat.mod_self, Nat.add_zero]
      have e : out.length + 1 - dist + i % dist = out.length := by omega
      rw [e]
      exact getD_append_length _ _ _

/-- The table of the length symbols is the table of the decompressor. -/
theorem matchLength_eq (sym : Nat) (h1 : 257 ≤ sym) (h2 : sym ≤ 285) :
    matchLength sym = some (lengthTable.getD (sym - 257) (0, 0)) := by
  interval_cases sym <;> rfl

/-- The table of the distance symbols is the rule of the decompressor. -/
theorem distanceTable_eq (sym : Nat) (h : sym < 30) :
    distanceTable.getD sym (0, 0) =
      if sym < 4 then (sym + 1, 0)
      else (2 ^ ((sym - 2) / 2 + 1) + 1 + sym % 2 * 2 ^ ((sym - 2) / 2), (sym - 2) / 2) := by
  interval_cases sym <;> rfl

/-- The five bits of a distance symbol, most significant first, read as a
number whose first bit is the least significant. -/
theorem codeBits_five (sym : Nat) (h : sym < 30) :
    codeBits sym 5 =
      numberBits 5 (sym / 16 % 2 + 2 * (sym / 8 % 2) + 4 * (sym / 4 % 2) + 8 * (sym / 2 % 2) +
        16 * (sym % 2)) := by
  interval_cases sym <;> rfl

/-- A distance of the table is between 1 and 32768. -/
theorem copyDistance_bounds (distSym distExtra : Nat) (h : distSym < 30)
    (he : distExtra < 2 ^ (distanceTable.getD distSym (0, 0)).2) :
    0 < copyDistance distSym distExtra ∧ copyDistance distSym distExtra ≤ 32768 := by
  unfold copyDistance
  interval_cases distSym <;> simp [distanceTable] at he ⊢ <;> omega

/-- The distance of a copy after its symbol: the extra bits of the symbol are
read and added to its least distance. -/
theorem readDistance_tail_atBit (s : Bytes) (d extra p : Nat) (rest : List Bool) (hd : d < 30)
    (he : extra < 2 ^ (distanceTable.getD d (0, 0)).2)
    (h : (streamBits s).drop p = numberBits (distanceTable.getD d (0, 0)).2 extra ++ rest) :
    (if d < 4 then (.ok (d + 1, Input.atBit s p) : Except Error (Nat × Input))
      else if d < 30 then
        match (Input.atBit s p).readBits ((d - 2) / 2) with
        | none => .error .ErrUnexpectedEOF
        | some (extra, f) =>
          .ok (2 ^ ((d - 2) / 2 + 1) + 1 + (d % 2 * 2 ^ ((d - 2) / 2) + extra), f)
      else .error .CorruptInputError) =
      .ok (copyDistance d extra, Input.atBit s (p + (distanceTable.getD d (0, 0)).2)) := by
  unfold copyDistance
  rw [distanceTable_eq d hd] at he h ⊢
  by_cases h4 : d < 4
  · simp only [h4, if_true, pow_zero, Nat.lt_one_iff] at he ⊢
    subst he
    rfl
  · simp only [h4, if_false] at he h ⊢
    rw [if_pos hd, readBits_atBit s _ p extra rest he h]
    simp only [Except.ok.injEq, Prod.mk.injEq, and_true]
    omega

/-- The five bits of a distance symbol, read with the first bit as the least
significant and reversed by the decompressor, are the symbol. -/
theorem reverse_five (sym : Nat) (h : sym < 30) :
    (sym / 16 % 2 + 2 * (sym / 8 % 2) + 4 * (sym / 4 % 2) + 8 * (sym / 2 % 2) +
        16 * (sym % 2)) % 2 * 16 +
      (sym / 16 % 2 + 2 * (sym / 8 % 2) + 4 * (sym / 4 % 2) + 8 * (sym / 2 % 2) +
        16 * (sym % 2)) / 2 % 2 * 8 +
      (sym / 16 % 2 + 2 * (sym / 8 % 2) + 4 * (sym / 4 % 2) + 8 * (sym / 2 % 2) +
        16 * (sym % 2)) / 4 % 2 * 4 +
      (sym / 16 % 2 + 2 * (sym / 8 % 2) + 4 * (sym / 4 % 2) + 8 * (sym / 2 % 2) +
        16 * (sym % 2)) / 8 % 2 * 2 +
      (sym / 16 % 2 + 2 * (sym / 8 % 2) + 4 * (sym / 4 % 2) + 8 * (sym / 2 % 2) +
        16 * (sym % 2)) / 16 % 2 = sym := by
  interval_cases sym <;> rfl

/-- The distance of a copy is read from its code and its extra bits. -/
theorem readDistance_atBit (s : Bytes) (dist : Option (List Nat))
    (hdOpt : Option huffmanDecoder)
    (hdec : (dist = none ∧ hdOpt = none) ∨
      ∃ d hd, dist = some d ∧ hdOpt = some hd ∧ huffmanDecoder.init d = some hd ∧
        ∀ l ∈ d, l ≤ 15)
    (distSym distExtra : Nat) (hsym : distSym < 30)
    (he : distExtra < 2 ^ (distanceTable.getD distSym (0, 0)).2)
    (hcode : ∀ d, dist = some d → 0 < d.getD distSym 0)
    (rest : List Bool) (p : Nat)
    (h : (streamBits s).drop p = distanceCode dist distSym ++
      (numberBits (distanceTable.getD distSym (0, 0)).2 distExtra ++ rest)) :
    readDistance hdOpt (Input.atBit s p) =
      .ok (copyDistance distSym distExtra,
        Input.atBit s (p + (distanceCode dist distSym).length +
          (distanceTable.getD distSym (0, 0)).2)) := by
  have hnext := drop_add_of_drop_eq_append _ _ _ _ h
  unfold readDistance
  rcases hdec with ⟨hnone, hnone2⟩ | ⟨d, hd, hsome, hsome2, hinit, hbound⟩
  · subst hnone hnone2
    simp only [distanceCode] at h hnext ⊢
    rw [codeBits_five distSym hsym] at h
    rw [codeBits_length] at hnext ⊢
    have hv : distSym / 16 % 2 + 2 * (distSym / 8 % 2) + 4 * (distSym / 4 % 2) +
        8 * (distSym / 2 % 2) + 16 * (distSym % 2) < 2 ^ 5 := by
      have : (2 : Nat) ^ 5 = 32 := rfl
      omega
    rw [readBits_atBit s 5 p _ _ hv h]
    simp only
    rw [reverse_five distSym hsym]
    exact readDistance_tail_atBit s distSym distExtra (p + 5) rest hsym he hnext
  · subst hsome hsome2
    have hcode2 := hcode d rfl
    simp only [distanceCode] at h hnext ⊢
    have hmin : hd.min ≤ (symbolCode d distSym).length +
        (numberBits (distanceTable.getD distSym (0, 0)).2 distExtra ++ rest).length := by
      rw [symbolCode_length]
      have := init_min_le d hd hinit _
        (mem_of_getElem?_eq_some _ _ _ (getElem?_of_getD_pos d distSym hcode2)) hcode2
      omega
    rw [huffSym_symbolCode s d hd hd hinit rfl hbound distSym hcode2 _ p hmin h]
    simp only
    exact readDistance_tail_atBit s distSym distExtra _ rest hsym he hnext

/-- The bits of the tokens of a block: those of the first token and those of
the others. -/
theorem tokensBits_cons (lit : List Nat) (dist : Option (List Nat)) (t : Token)
    (tokens : List Token) :
    tokensBits lit dist (t :: tokens) = t.bits lit dist ++ tokensBits lit dist tokens := by
  simp [tokensBits]

/-- A byte made of its own number. -/
theorem UInt8_ofNat_toNat (b : UInt8) : UInt8.ofNat b.toNat = b := by
  apply UInt8.ext
  have h : ∀ k : Nat, (UInt8.ofNat k).toNat = k % 256 := fun _ => rfl
  rw [h]
  exact Nat.mod_eq_of_lt (UInt8.toNat_lt b)

/-- A compressed block is decoded to the bytes that its tokens stand for: the
decompressor with the decoders of the code lengths of the block, at the first
token, reads the tokens and the end-of-block symbol. -/
theorem huffmanBlock_atBit (s : Bytes) (lit : List Nat) (dist : Option (List Nat))
    (hl0 hl : huffmanDecoder) (hdOpt : Option huffmanDecoder)
    (hinit : huffmanDecoder.init lit = some hl0) (hcodes : hl.codes = hl0.codes)
    (hlit : ∀ l ∈ lit, l ≤ 15) (heob : 0 < lit.getD 256 0) (hmin : hl.min ≤ lit.getD 256 0)
    (hdec : (dist = none ∧ hdOpt = none) ∨
      ∃ d hd, dist = some d ∧ hdOpt = some hd ∧ huffmanDecoder.init d = some hd ∧
        ∀ l ∈ d, l ≤ 15)
    (tokens : List Token) (fuel p : Nat) (out : Bytes) (rest : List Bool)
    (hfuel : tokens.length < fuel) (hvalid : validTokens lit dist out tokens = true)
    (h : (streamBits s).drop p =
      tokensBits lit dist tokens ++ (symbolCode lit 256 ++ rest)) :
    huffmanBlock hl hdOpt fuel (Input.atBit s p) out =
      (expandTokens out tokens,
        .ok (Input.atBit s (p + (tokensBits lit dist tokens).length +
          (symbolCode lit 256).length))) := by
  induction tokens generalizing fuel p out with
  | nil =>
    cases fuel with
    | zero => simp at hfuel
    | succ fuel =>
      simp only [tokensBits, List.flatMap_nil, List.nil_append, List.length_nil,
        Nat.add_zero] at h ⊢
      have hm : hl.min ≤ (symbolCode lit 256).length + rest.length := by
        rw [symbolCode_length]
        omega
      simp only [huffmanBlock, huffSym_symbolCode s lit hl0 hl hinit hcodes hlit 256 heob rest p
        hm h]
      rfl
  | cons t tokens ih =>
    cases fuel with
    | zero => simp at hfuel
    | succ fuel =>
      simp only [List.length_cons] at hfuel
      have hfuel2 : tokens.length < fuel := by omega
      simp only [validTokens, Bool.and_eq_true] at hvalid
      obtain ⟨hvt, hvrest⟩ := hvalid
      rw [tokensBits_cons, List.append_assoc] at h
      have hposfinal : ∀ q : Nat, q + (tokensBits lit dist tokens).length +
          (symbolCode lit 256).length = p + (tokensBits lit dist (t :: tokens)).length +
          (symbolCode lit 256).length ↔ q = p + (t.bits lit dist).length := by
        intro q
        rw [tokensBits_cons, List.length_append]
        omega
      cases t with
      | literal b =>
        simp only [Token.valid, decide_eq_true_eq] at hvt
        simp only [Token.bits] at h hposfinal
        have hnext := drop_add_of_drop_eq_append _ _ _ _ h
        have hm : hl.min ≤ (symbolCode lit b.toNat).length +
            (tokensBits lit dist tokens ++ (symbolCode lit 256 ++ rest)).length := by
          simp only [List.length_append, symbolCode_length]
          omega
        simp only [huffmanBlock, huffSym_symbolCode s lit hl0 hl hinit hcodes hlit b.toNat hvt _
          p hm h]
        rw [if_pos (UInt8.toNat_lt b), UInt8_ofNat_toNat]
        have hstep := ih fuel _ _ hfuel2 hvrest hnext
        simp only [Token.expand] at hstep
        rw [hstep]
        simp only [expandTokens, List.foldl_cons, Token.expand, Prod.mk.injEq, true_and,
          Except.ok.injEq]
        rw [(hposfinal _).2 rfl]
      | copy lengthSym lengthExtra distSym distExtra =>
        simp only [Token.valid, Bool.and_eq_true, decide_eq_true_eq] at hvt
        obtain ⟨⟨⟨⟨⟨⟨⟨h257, h285⟩, hcode⟩, hle⟩, hds⟩, hde⟩, hdcode⟩, hback⟩ := hvt
        have hdcode2 : ∀ d, dist = some d → 0 < d.getD distSym 0 := by
          intro d hd
          subst hd
          simpa using hdcode
        simp only [Token.bits, List.append_assoc] at h hposfinal
        have hnext1 := drop_add_of_drop_eq_append _ _ _ _ h
        have hnext2 := drop_add_of_drop_eq_append _ _ _ _ hnext1
        rw [numberBits_length] at hnext2
        rw [← List.append_assoc (distanceCode dist distSym)] at hnext2
        have hnext3 := drop_add_of_drop_eq_append _ _ _ _ hnext2
        rw [List.append_assoc] at hnext2
        have hm : hl.min ≤ (symbolCode lit lengthSym).length +
            (numberBits (lengthTable.getD (lengthSym - 257) (0, 0)).2 lengthExtra ++
              (distanceCode dist distSym ++
                (numberBits (distanceTable.getD distSym (0, 0)).2 distExtra ++
                  (tokensBits lit dist tokens ++ (symbolCode lit 256 ++ rest))))).length := by
          simp only [List.length_append, symbolCode_length]
          omega
        have hbounds := copyDistance_bounds distSym distExtra hds hde
        simp only [huffmanBlock, huffSym_symbolCode s lit hl0 hl hinit hcodes hlit lengthSym
          hcode _ p hm h]
        rw [if_neg (by omega), if_neg (by omega), matchLength_eq lengthSym h257 h285]
        simp only [readBits_atBit s _ _ lengthExtra _ hle hnext1,
          readDistance_atBit s dist hdOpt hdec distSym distExtra hds hde hdcode2 _ _ hnext2]
        rw [if_neg (by
          have : copyDistance distSym distExtra ≤ Nat.min out.length 32768 :=
            Nat.le_min.2 ⟨hback, hbounds.2⟩
          omega)]
        simp only [List.length_append, numberBits_length] at hnext3
        have hq : p + (symbolCode lit lengthSym).length +
            (lengthTable.getD (lengthSym - 257) (0, 0)).2 + (distanceCode dist distSym).length +
            (distanceTable.getD distSym (0, 0)).2 =
            p + (symbolCode lit lengthSym).length +
            (lengthTable.getD (lengthSym - 257) (0, 0)).2 +
            ((distanceCode dist distSym).length + (distanceTable.getD distSym (0, 0)).2) := by
          omega
        rw [hq]
        have hexp : copyHistory ((lengthTable.getD (lengthSym - 257) (0, 0)).1 + lengthExtra)
            (copyDistance distSym distExtra) out =
            Token.expand out (.copy lengthSym lengthExtra distSym distExtra) := by
          rw [copyHistory_eq _ _ _ hbounds.1 hback]
          rfl
        rw [hexp, ih fuel _ _ hfuel2 hvrest hnext3]
        simp only [expandTokens, List.foldl_cons, Prod.mk.injEq, true_and, Except.ok.injEq]
        rw [(hposfinal _).2 (by
          simp only [List.length_append, numberBits_length]
          omega)]

/-- The low bits of a number: the first `m` and the `n` after them. -/
theorem numberBits_add (m n v : Nat) :
    numberBits (m + n) v = numberBits m v ++ numberBits n (v / 2 ^ m) := by
  induction m generalizing v with
  | zero => simp [numberBits]
  | succ m ih =>
    have e : m + 1 + n = (m + n) + 1 := by omega
    rw [e, numberBits, numberBits, ih, List.cons_append, Nat.div_div_eq_div_mul, pow_succ,
      Nat.mul_comm 2]

/-- The low bits of a number depend on its remainder only. -/
theorem numberBits_mod (n v : Nat) : numberBits n v = numberBits n (v % 2 ^ n) := by
  induction n generalizing v with
  | zero => rfl
  | succ n ih =>
    rw [numberBits, numberBits, ih (v / 2), ih (v % 2 ^ (n + 1) / 2)]
    have e1 : v % 2 ^ (n + 1) % 2 = v % 2 := by
      rw [pow_succ, Nat.mod_mul_left_mod]
    have e2 : v % 2 ^ (n + 1) / 2 % 2 ^ n = v / 2 % 2 ^ n := by
      rw [pow_succ, Nat.mul_comm, Nat.mod_mul_right_div_self, Nat.mod_mod]
    rw [e1, e2]

/-- The three numbers at the start of a block with dynamic codes, read as one
number of fourteen bits. -/
theorem numberBits_header (a b c : Nat) (ha : a < 32) (hb : b < 32) :
    numberBits 5 a ++ (numberBits 5 b ++ numberBits 4 c) =
      numberBits 14 (a + 32 * b + 1024 * (c % 16)) := by
  have e14 : numberBits 14 (a + 32 * b + 1024 * (c % 16)) =
      numberBits 5 (a + 32 * b + 1024 * (c % 16)) ++
        (numberBits 5 ((a + 32 * b + 1024 * (c % 16)) / 2 ^ 5) ++
          numberBits 4 ((a + 32 * b + 1024 * (c % 16)) / 2 ^ 5 / 2 ^ 5)) := by
    rw [← numberBits_add 5 4, ← numberBits_add 5 9]
  rw [e14, numberBits_mod 5 (a + 32 * b + 1024 * (c % 16)),
    numberBits_mod 5 ((a + 32 * b + 1024 * (c % 16)) / 2 ^ 5), numberBits_mod 4 c]
  have p5 : (2 : Nat) ^ 5 = 32 := rfl
  have p4 : (2 : Nat) ^ 4 = 16 := rfl
  rw [p5, p4]
  have e1 : (a + 32 * b + 1024 * (c % 16)) % 32 = a := by omega
  have e2 : (a + 32 * b + 1024 * (c % 16)) / 32 % 32 = b := by omega
  have e3 : (a + 32 * b + 1024 * (c % 16)) / 32 / 32 = c % 16 := by omega
  rw [e1, e2, e3]

/-- A list zipped with a shorter list, cut to the length of that list. -/
theorem take_zip_eq {α β : Type} (l : List α) (l1 : List β) :
    (l.take l1.length).zip l1 = l.zip l1 := by
  induction l generalizing l1 with
  | nil => simp
  | cons a l ih =>
    cases l1 with
    | nil => simp
    | cons b l1 => simp [ih]

/-- The lengths of the code length code are read three bits at a time, in the
order of `codeOrder`. -/
theorem readCodebits_atBit (s : Bytes) (order clens : List Nat) (p : Nat) (rest : List Bool)
    (hlen : order.length = clens.length) (hall : ∀ l ∈ clens, l < 8)
    (h : (streamBits s).drop p = clens.flatMap (numberBits 3) ++ rest) :
    readCodebits order (Input.atBit s p) =
      some (order.zip clens, Input.atBit s (p + 3 * clens.length)) := by
  induction order generalizing clens p with
  | nil =>
    cases clens with
    | nil => rfl
    | cons _ _ => simp at hlen
  | cons sym order ih =>
    cases clens with
    | nil => simp at hlen
    | cons v clens =>
      simp only [List.flatMap_cons, List.append_assoc] at h
      have hnext := drop_add_of_drop_eq_append _ _ _ _ h
      rw [numberBits_length] at hnext
      have hv : v < 2 ^ 3 := hall v (List.mem_cons_self _ _)
      simp only [readCodebits, readBits_atBit s 3 p v _ hv h]
      rw [ih clens (p + 3) (by simpa using hlen)
        (fun l hl => hall l (List.mem_cons_of_mem _ hl)) hnext]
      simp only [List.zip_cons_cons, List.length_cons, Option.some.injEq, Prod.mk.injEq,
        true_and]
      congr 1
      omega

/-- The code lengths that one run adds. -/
theorem expandRuns_cons (acc : List Nat) (run : Nat × Nat) (runs : List (Nat × Nat)) :
    expandRuns acc (run :: runs) = expandRuns (expandRuns acc [run]) runs := by
  obtain ⟨sym, extra⟩ := run
  simp only [expandRuns]
  split
  · rfl
  · split
    · rfl
    · split <;> rfl

/-- The bits of the runs: those of the first run and those of the others. -/
theorem runsBits_cons (cl : List Nat) (run : Nat × Nat) (runs : List (Nat × Nat)) :
    runsBits cl (run :: runs) =
      symbolCode cl run.1 ++ (numberBits (runExtraBits run.1) run.2 ++ runsBits cl runs) := by
  simp [runsBits]

/-- The code lengths of a block are read run by run. -/
theorem readLengths_atBit (s : Bytes) (cl : List Nat) (h1 : huffmanDecoder) (n : Nat)
    (hinit : huffmanDecoder.init cl = some h1) (hcl : ∀ l ∈ cl, l ≤ 15)
    (runs : List (Nat × Nat)) (acc : List Nat) (fuel p : Nat) (rest : List Bool)
    (hfuel : runs.length ≤ fuel) (hvalid : validRuns cl n acc runs = true)
    (h : (streamBits s).drop p = runsBits cl runs ++ rest) :
    readLengths h1 n fuel acc (Input.atBit s p) =
      .ok (expandRuns acc runs, Input.atBit s (p + (runsBits cl runs).length)) := by
  induction runs generalizing acc fuel p with
  | nil =>
    simp only [validRuns, decide_eq_true_eq] at hvalid
    cases fuel with
    | zero =>
      simp only [readLengths, hvalid, Nat.lt_irrefl, if_false]
      rfl
    | succ fuel =>
      simp only [readLengths, hvalid, Nat.lt_irrefl, if_false]
      rfl
  | cons run runs ih =>
    obtain ⟨sym, extra⟩ := run
    cases fuel with
    | zero => simp at hfuel
    | succ fuel =>
      simp only [List.length_cons] at hfuel
      have hfuel2 : runs.length ≤ fuel := by omega
      simp only [validRuns, Bool.and_eq_true, decide_eq_true_eq] at hvalid
      obtain ⟨⟨⟨⟨⟨⟨hlt, h18⟩, hcode⟩, hextra⟩, hrep⟩, hfit⟩, hrest⟩ := hvalid
      rw [runsBits_cons, List.append_assoc, List.append_assoc] at h
      have hnext1 := drop_add_of_drop_eq_append _ _ _ _ h
      have hnext2 := drop_add_of_drop_eq_append _ _ _ _ hnext1
      rw [numberBits_length] at hnext2
      have hmin : h1.min ≤ (symbolCode cl sym).length +
          (numberBits (runExtraBits sym) extra ++ (runsBits cl runs ++ rest)).length := by
        rw [symbolCode_length]
        have := init_min_le cl h1 hinit _
          (mem_of_getElem?_eq_some _ _ _ (getElem?_of_getD_pos cl sym hcode)) hcode
        omega
      have hpos : p + (runsBits cl ((sym, extra) :: runs)).length =
          p + (symbolCode cl sym).length + runExtraBits sym + (runsBits cl runs).length := by
        rw [runsBits_cons]
        simp only [List.length_append, numberBits_length]
        omega
      rw [hpos, expandRuns_cons]
      have hstep := ih (expandRuns acc [(sym, extra)]) fuel _ hfuel2 hrest hnext2
      simp only [readLengths, hlt, if_true,
        huffSym_symbolCode s cl h1 h1 hinit rfl hcl sym hcode _ p hmin h]
      by_cases h16 : sym < 16
      · have hbits : runExtraBits sym = 0 := by
          unfold runExtraBits
          rw [if_neg (by omega), if_neg (by omega), if_neg (by omega)]
        have hexp : expandRuns acc [(sym, extra)] = acc ++ [sym] := by
          simp only [expandRuns, h16, if_true]
        rw [hbits, hexp] at hstep
        rw [if_pos h16, hbits, hexp]
        exact hstep
      · rw [if_neg h16]
        by_cases hs16 : sym = 16
        · subst hs16
          have hacc : acc ≠ [] := hrep rfl
          have hacclen : ¬ acc.length = 0 := by
            intro h0
            exact hacc (List.length_eq_zero.1 h0)
          have hexp : expandRuns acc [(16, extra)] =
              acc ++ List.replicate (3 + extra) (acc.getLastD 0) := by
            simp [expandRuns]
          have hbits : runExtraBits 16 = 2 := rfl
          rw [hbits] at hextra hnext1 hstep ⊢
          rw [hexp] at hstep hfit
          simp only [List.length_append, List.length_replicate] at hfit
          rw [if_neg (by simp [hacclen])]
          simp only [if_true, readBits_atBit s 2 _ extra _ hextra hnext1]
          rw [if_neg (by simp; omega)]
          simp only [if_neg (show ¬ (16 : Nat) = 18 by decide)]
          exact hstep
        · by_cases hs17 : sym = 17
          · subst hs17
            have hexp : expandRuns acc [(17, extra)] = acc ++ List.replicate (3 + extra) 0 := by
              simp [expandRuns]
            have hbits : runExtraBits 17 = 3 := rfl
            rw [hbits] at hextra hnext1 hstep ⊢
            rw [hexp] at hstep hfit
            simp only [List.length_append, List.length_replicate] at hfit
            rw [if_neg (by simp)]
            simp only [if_neg (show ¬ (17 : Nat) = 16 by decide), if_true,
              if_neg (show ¬ (17 : Nat) = 18 by decide),
              readBits_atBit s 3 _ extra _ hextra hnext1]
            rw [if_neg (by omega)]
            exact hstep
          · have hs18 : sym = 18 := by omega
            subst hs18
            have hexp : expandRuns acc [(18, extra)] = acc ++ List.replicate (11 + extra) 0 := by
              simp [expandRuns]
            have hbits : runExtraBits 18 = 7 := rfl
            rw [hbits] at hextra hnext1 hstep ⊢
            rw [hexp] at hstep hfit
            simp only [List.length_append, List.length_replicate] at hfit
            rw [if_neg (by simp)]
            simp only [if_neg (show ¬ (18 : Nat) = 16 by decide),
              if_neg (show ¬ (18 : Nat) = 17 by decide), if_true,
              readBits_atBit s 7 _ extra _ hextra hnext1]
            rw [if_neg (by omega)]
            exact hstep

/-- The code lengths of a complete code are accepted by `init`. -/
theorem init_of_completeCode (lengths : List Nat) (h : completeCode lengths = true) :
    ∃ hd, huffmanDecoder.init lengths = some hd := by
  unfold completeCode at h
  simp only [Bool.or_eq_true, decide_eq_true_eq, List.isEmpty_iff] at h
  unfold huffmanDecoder.init
  simp only
  by_cases hmax : (lengths.filter (fun l => decide (0 < l))).foldl Nat.max 0 = 0
  · rw [if_pos hmax]
    exact ⟨_, rfl⟩
  · rw [if_neg hmax, foldl_add_eq_sum, Nat.zero_add]
    rcases h with (hk | hone) | hempty
    · rw [if_neg (by
        intro hc
        exact hc.1 hk)]
      exact ⟨_, rfl⟩
    · rw [hone]
      exact ⟨_, rfl⟩
    · rw [hempty] at hmax
      exact absurd rfl hmax

/-- The lengths of the code length code are below 8. -/
theorem codeLengthLengths_le (clens : List Nat) (hall : ∀ l ∈ clens, l < 8) :
    ∀ l ∈ codeLengthLengths clens, l ≤ 15 := by
  intro l hl
  unfold codeLengthLengths at hl
  rw [List.mem_map] at hl
  obtain ⟨sym, _, hsym⟩ := hl
  cases hlook : (codeOrder.zip clens).lookup sym with
  | none =>
    rw [hlook] at hsym
    simp only [Option.getD_none] at hsym
    omega
  | some v =>
    rw [hlook] at hsym
    simp only [Option.getD_some] at hsym
    subst hsym
    have hmem : (sym, v) ∈ codeOrder.zip clens := by
      have hgen : ∀ (l : List (Nat × Nat)), l.lookup sym = some v → (sym, v) ∈ l := by
        intro l
        induction l with
        | nil => simp
        | cons x xs ih =>
          obtain ⟨a, b⟩ := x
          simp only [List.lookup]
          by_cases hab : sym = a
          · subst hab
            simp only [beq_self_eq_true, Option.some.injEq, List.mem_cons, Prod.mk.injEq,
              true_and]
            intro hb
            exact Or.inl hb.symm
          · have hne : (sym == a) = false := by simp [hab]
            rw [hne]
            intro hx
            exact List.mem_cons_of_mem _ (ih hx)
      exact hgen _ hlook
    have := hall v (List.of_mem_zip hmem).2
    omega

/-- The last element of a list that is not empty is in the list. -/
theorem getLastD_mem {α : Type} (l : List α) (d : α) (h : l ≠ []) : l.getLastD d ∈ l := by
  cases l with
  | nil => exact absurd rfl h
  | cons a as =>
    have e : (a :: as).getLastD d = (a :: as).getLast (List.cons_ne_nil a as) := rfl
    rw [e]
    exact List.getLast_mem _

/-- The code lengths that valid runs give are at most 15, and the runs are at
most as many as the lengths that are missing. -/
theorem validRuns_bounds (cl : List Nat) (n : Nat) (runs : List (Nat × Nat)) (acc : List Nat)
    (hvalid : validRuns cl n acc runs = true) (hacc : ∀ l ∈ acc, l ≤ 15) :
    (∀ l ∈ expandRuns acc runs, l ≤ 15) ∧ acc.length + runs.length ≤ n ∧
      (expandRuns acc runs).length = n := by
  induction runs generalizing acc with
  | nil =>
    simp only [validRuns, decide_eq_true_eq] at hvalid
    exact ⟨hacc, by simp [hvalid], hvalid⟩
  | cons run runs ih =>
    obtain ⟨sym, extra⟩ := run
    simp only [validRuns, Bool.and_eq_true, decide_eq_true_eq] at hvalid
    obtain ⟨⟨⟨⟨⟨⟨hlt, h18⟩, hcode⟩, hextra⟩, hrep⟩, hfit⟩, hrest⟩ := hvalid
    have hstep : (∀ l ∈ expandRuns acc [(sym, extra)], l ≤ 15) ∧
        acc.length + 1 ≤ (expandRuns acc [(sym, extra)]).length := by
      simp only [expandRuns]
      by_cases h16 : sym < 16
      · simp only [h16, if_true, List.mem_append, List.mem_singleton, List.length_append,
          List.length_singleton]
        refine ⟨?_, Nat.le_refl _⟩
        rintro l (hl | hl)
        · exact hacc l hl
        · omega
      · simp only [h16, if_false]
        by_cases hs16 : sym = 16
        · simp only [hs16, if_true, List.mem_append, List.length_append, List.length_replicate]
          refine ⟨?_, by omega⟩
          rintro l (hl | hl)
          · exact hacc l hl
          · have hl2 := List.eq_of_mem_replicate hl
            rw [hl2]
            exact hacc _ (getLastD_mem acc 0 (hrep hs16))
        · simp only [hs16, if_false]
          by_cases hs17 : sym = 17
          · simp only [hs17, if_true, List.mem_append, List.length_append,
              List.length_replicate]
            refine ⟨?_, by omega⟩
            rintro l (hl | hl)
            · exact hacc l hl
            · have hl2 := List.eq_of_mem_replicate hl
              omega
          · simp only [hs17, if_false, List.mem_append, List.length_append,
              List.length_replicate]
            refine ⟨?_, by omega⟩
            rintro l (hl | hl)
            · exact hacc l hl
            · have hl2 := List.eq_of_mem_replicate hl
              omega
    have hih := ih (expandRuns acc [(sym, extra)]) hrest hstep.1
    rw [expandRuns_cons]
    refine ⟨hih.1, ?_, hih.2.2⟩
    simp only [List.length_cons]
    omega

/-- The element of a list at an index below a cut is the element of the list
cut there. -/
theorem getD_take {α : Type} (l : List α) (n i : Nat) (d : α) (h : i < n) :
    (l.take n).getD i d = l.getD i d := by
  rw [List.getD_eq_getElem?_getD, List.getD_eq_getElem?_getD, List.getElem?_take_of_lt h]

/-- The lengths of the code length code take three bits each. -/
theorem flatMap_numberBits_length (clens : List Nat) :
    (clens.flatMap (numberBits 3)).length = 3 * clens.length := by
  induction clens with
  | nil => rfl
  | cons c cs ih =>
    simp only [List.flatMap_cons, List.length_append, numberBits_length, List.length_cons, ih]
    omega

/-- The header of a block with dynamic codes is read to the decoders of the
code lengths that the block declares. -/
theorem readHuffman_atBit (s : Bytes) (nlit ndist : Nat) (clens : List Nat)
    (runs : List (Nat × Nat)) (p : Nat) (rest : List Bool)
    (hnlit1 : 257 ≤ nlit) (hnlit2 : nlit ≤ 286) (hndist1 : 1 ≤ ndist) (hndist2 : ndist ≤ 30)
    (hclen1 : 4 ≤ clens.length) (hclen2 : clens.length ≤ 19) (hall : ∀ l ∈ clens, l < 8)
    (hcl : completeCode (codeLengthLengths clens) = true)
    (hruns : validRuns (codeLengthLengths clens) (nlit + ndist) [] runs = true)
    (hlit : completeCode (literalLengths nlit runs) = true)
    (hdist : completeCode (distanceLengths nlit ndist runs) = true)
    (h : (streamBits s).drop p =
      numberBits 5 (nlit - 257) ++ (numberBits 5 (ndist - 1) ++
        (numberBits 4 (clens.length - 4) ++ (clens.flatMap (numberBits 3) ++
          (runsBits (codeLengthLengths clens) runs ++ rest))))) :
    ∃ hl0 hd0, huffmanDecoder.init (literalLengths nlit runs) = some hl0 ∧
      huffmanDecoder.init (distanceLengths nlit ndist runs) = some hd0 ∧
      readHuffman (Input.atBit s p) =
        .ok ({ hl0 with min := Nat.max hl0.min ((literalLengths nlit runs).getD 256 0) }, hd0,
          Input.atBit s (p + 14 + 3 * clens.length +
            (runsBits (codeLengthLengths clens) runs).length)) := by
  obtain ⟨h1, hh1⟩ := init_of_completeCode _ hcl
  obtain ⟨hl0, hhl⟩ := init_of_completeCode _ hlit
  obtain ⟨hd0, hhd⟩ := init_of_completeCode _ hdist
  refine ⟨hl0, hd0, hhl, hhd, ?_⟩
  have hc16 : (clens.length - 4) % 16 = clens.length - 4 := by omega
  rw [← List.append_assoc (numberBits 5 (ndist - 1)), ← List.append_assoc (numberBits 5 _),
    numberBits_header (nlit - 257) (ndist - 1) (clens.length - 4) (by omega) (by omega),
    hc16] at h
  have hv : nlit - 257 + 32 * (ndist - 1) + 1024 * (clens.length - 4) < 2 ^ 14 := by
    have : (2 : Nat) ^ 14 = 16384 := rfl
    omega
  have hnext1 := drop_add_of_drop_eq_append _ _ _ _ h
  rw [numberBits_length] at hnext1
  have hnext2 := drop_add_of_drop_eq_append _ _ _ _ hnext1
  rw [flatMap_numberBits_length] at hnext2
  have horder : (codeOrder.take clens.length).length = clens.length := by
    rw [List.length_take]
    have : codeOrder.length = 19 := rfl
    omega
  have hzip : (codeOrder.take clens.length).zip clens = codeOrder.zip clens := take_zip_eq _ _
  have hclle := codeLengthLengths_le clens hall
  have hb := validRuns_bounds _ _ runs [] hruns (by simp)
  have hfuel : runs.length ≤ nlit + ndist := by
    have := hb.2.1
    simp only [List.length_nil, Nat.zero_add] at this
    exact this
  have e1 : (nlit - 257 + 32 * (ndist - 1) + 1024 * (clens.length - 4)) % 32 + 257 = nlit := by
    omega
  have e2 : (nlit - 257 + 32 * (ndist - 1) + 1024 * (clens.length - 4)) / 32 % 32 + 1 =
      ndist := by
    omega
  have e3 : (nlit - 257 + 32 * (ndist - 1) + 1024 * (clens.length - 4)) / 1024 % 16 + 4 =
      clens.length := by
    omega
  have hcl2 : (List.range 19).map (fun sym => (((codeOrder.zip clens).lookup sym).getD 0)) =
      codeLengthLengths clens := rfl
  have hget : (expandRuns [] runs).getD 256 0 = (literalLengths nlit runs).getD 256 0 := by
    unfold literalLengths
    rw [getD_take _ _ _ _ (by omega)]
  unfold readHuffman
  rw [readBits_atBit s 14 p _ _ hv h]
  simp only [e1, e2, e3]
  rw [if_neg (by omega), if_neg (by omega),
    readCodebits_atBit s _ clens (p + 14) _ horder hall hnext1]
  simp only [hzip, hcl2, hh1]
  rw [readLengths_atBit s _ h1 _ hh1 hclle runs [] _ _ rest hfuel hruns hnext2]
  simp only
  have hl1 : huffmanDecoder.init ((expandRuns [] runs).take nlit) = some hl0 := hhl
  have hd1 : huffmanDecoder.init (((expandRuns [] runs).drop nlit).take ndist) = some hd0 := hhd
  rw [hl1, hd1, hget]

/-- The three bits of a block header, read as one number: the final bit and
twice the type of the block. -/
theorem headerBits_eq (final a b : Bool) :
    [final, a, b] = numberBits 3 ((if final then 1 else 0) +
      2 * ((if a then 1 else 0) + 2 * (if b then 1 else 0))) := by
  cases final <;> cases a <;> cases b <;> rfl

/-- The fixed code is complete. -/
theorem completeCode_fixedLengths : completeCode fixedLengths = true := by
  set_option maxRecDepth 100000 in decide

/-- The lengths of the fixed code are at most 15. -/
theorem fixedLengths_le : ∀ l ∈ fixedLengths, l ≤ 15 := by
  intro l hl
  simp only [fixedLengths, List.mem_append, List.mem_replicate] at hl
  omega

/-- Valid tokens take at least one bit each. -/
theorem tokensBits_length_ge (lit : List Nat) (dist : Option (List Nat)) (tokens : List Token)
    (out : Bytes) (hvalid : validTokens lit dist out tokens = true) :
    tokens.length ≤ (tokensBits lit dist tokens).length := by
  induction tokens generalizing out with
  | nil => simp
  | cons t tokens ih =>
    simp only [validTokens, Bool.and_eq_true] at hvalid
    have hrest := ih _ hvalid.2
    rw [tokensBits_cons, List.length_append, List.length_cons]
    have ht : 1 ≤ (t.bits lit dist).length := by
      cases t with
      | literal b =>
        have := hvalid.1
        simp only [Token.valid, decide_eq_true_eq] at this
        simp only [Token.bits, symbolCode_length]
        omega
      | copy lengthSym lengthExtra distSym distExtra =>
        have := hvalid.1
        simp only [Token.valid, Bool.and_eq_true, decide_eq_true_eq] at this
        simp only [Token.bits, List.length_append, symbolCode_length]
        omega
    omega

/-- The bits of a stream of blocks: those of the first block, marked final
when no block follows, and those of the others. -/
theorem encode_cons (b : Block) (bs : List Block) :
    encode (b :: bs) = b.bits bs.isEmpty ++ encode bs := by
  cases bs with
  | nil => simp [encode]
  | cons c cs => simp [encode]

/-- One block is decoded to the bytes it stands for: the decompressor at the
header of a valid block either ends with the output of the block, when the
block is final, or goes on after the block. -/
theorem block_atBit (s : Bytes) (b : Block) (final : Bool) (fuel p : Nat) (out : Bytes)
    (rest : List Bool) (hvalid : b.valid p out = true)
    (h : (streamBits s).drop p = b.bits final ++ rest) :
    blocks (fuel + 1) (Input.atBit s p) out =
      if final then (b.expand out, .ok (Input.atBit s (p + (b.bits final).length)))
      else blocks fuel (Input.atBit s (p + (b.bits final).length)) (b.expand out) := by
  have hbit : ∀ t : Nat, ((if final then 1 else 0) + 2 * t) % 2 = 1 ↔ final = true := by
    intro t
    cases final
    · simp only [Bool.false_eq_true, if_false, iff_false]
      omega
    · simp only [if_true, iff_true]
      omega
  have hdiv : ∀ t : Nat, ((if final then 1 else 0) + 2 * t) / 2 = t := by
    intro t
    cases final
    · simp only [Bool.false_eq_true, if_false]
      omega
    · simp only [if_true]
      omega
  have hlt : ∀ t : Nat, t < 4 → (if final then 1 else 0) + 2 * t < 2 ^ 3 := by
    intro t ht
    have : (2 : Nat) ^ 3 = 8 := rfl
    cases final
    · simp only [Bool.false_eq_true, if_false]
      omega
    · simp only [if_true]
      omega
  cases b with
  | stored pad data =>
    simp only [Block.valid, Bool.and_eq_true, decide_eq_true_eq] at hvalid
    simp only [Block.bits, List.append_assoc] at h ⊢
    rw [headerBits_eq] at h
    simp only [Bool.false_eq_true, if_false, Nat.mul_zero, Nat.add_zero] at h
    have hnext := drop_add_of_drop_eq_append _ _ _ _ h
    rw [numberBits_length] at hnext
    rw [← List.append_assoc pad] at hnext
    have hrun := dataBlock_atBit s (p + 3) pad data rest out hvalid.1 hvalid.2 hnext
    have hv := hlt 0 (by omega)
    rw [Nat.mul_zero, Nat.add_zero] at hv
    rw [blocks, readBits_atBit s 3 p _ _ hv h]
    have hd0 := hdiv 0
    have hb0 := hbit 0
    rw [Nat.mul_zero, Nat.add_zero] at hd0 hb0
    simp only [hd0, hrun, hb0]
    have hpos : p + ([final, false, false] ++ (pad ++
        streamBits (le16 data.length ++ (le16 (65535 - data.length) ++ data)))).length =
        p + 3 + pad.length + 8 * (4 + data.length) := by
      simp only [List.length_append, streamBits_length, le16, List.length_cons,
        List.length_nil]
      omega
    rw [hpos]
    rfl
  | fixed tokens =>
    simp only [Block.valid] at hvalid
    simp only [Block.bits, List.append_assoc] at h ⊢
    rw [headerBits_eq] at h
    simp only [Bool.false_eq_true, if_false, if_true, Nat.mul_zero, Nat.add_zero,
      Nat.mul_one] at h
    have hnext := drop_add_of_drop_eq_append _ _ _ _ h
    rw [numberBits_length] at hnext
    obtain ⟨hl, hhl⟩ := init_of_completeCode _ completeCode_fixedLengths
    have hfixed : fixedHuffmanDecoder = some hl := hhl
    have heob : 0 < fixedLengths.getD 256 0 := by decide
    have hmin : hl.min ≤ fixedLengths.getD 256 0 :=
      init_min_le fixedLengths hl hhl _
        (mem_of_getElem?_eq_some _ _ _ (getElem?_of_getD_pos fixedLengths 256 heob)) heob
    have hnext1 : (streamBits s).drop (p + 3) =
        (tokensBits fixedLengths none tokens ++ symbolCode fixedLengths 256) ++ rest := by
      rw [List.append_assoc]
      exact hnext
    have htotal := le_of_drop_eq_append s (p + 3) _ _ hnext1 (by
      simp only [List.length_append, symbolCode_length]
      omega)
    have hav := available_atBit s (p + 3) (by omega)
    have hcount := tokensBits_length_ge _ _ tokens out hvalid
    have hfuel : tokens.length < (Input.atBit s (p + 3)).available + 1 := by
      rw [hav]
      simp only [List.length_append] at htotal
      omega
    have hrun := huffmanBlock_atBit s fixedLengths none hl hl none hhl rfl fixedLengths_le heob
      hmin (Or.inl ⟨rfl, rfl⟩) tokens _ (p + 3) out rest hfuel hvalid hnext
    have hv := hlt 1 (by omega)
    rw [Nat.mul_one] at hv
    rw [blocks, readBits_atBit s 3 p _ _ hv h]
    have hd1 := hdiv 1
    have hb1 := hbit 1
    rw [Nat.mul_one] at hd1 hb1
    simp only [hd1, hfixed, hrun, hb1]
    have hpos : p + ([final, true, false] ++ (tokensBits fixedLengths none tokens ++
        symbolCode fixedLengths 256)).length =
        p + 3 + (tokensBits fixedLengths none tokens).length +
          (symbolCode fixedLengths 256).length := by
      simp only [List.length_append, List.length_cons, List.length_nil]
      omega
    rw [hpos]
    rfl
  | dynamic nlit ndist clens runs tokens =>
    simp only [Block.valid, Bool.and_eq_true, decide_eq_true_eq, List.all_eq_true] at hvalid
    obtain ⟨⟨⟨⟨⟨⟨⟨⟨⟨⟨⟨⟨hnlit1, hnlit2⟩, hndist1⟩, hndist2⟩, hclen1⟩, hclen2⟩, hall⟩, hcl⟩,
      hruns⟩, hlit⟩, hdist⟩, heob⟩, htokens⟩ := hvalid
    simp only [Block.bits, List.append_assoc] at h ⊢
    rw [headerBits_eq] at h
    simp only [Bool.false_eq_true, if_false, if_true, Nat.mul_zero, Nat.zero_add,
      Nat.mul_one] at h
    have hnext := drop_add_of_drop_eq_append _ _ _ _ h
    rw [numberBits_length] at hnext
    obtain ⟨hl0, hd0, hhl, hhd, hhead⟩ := readHuffman_atBit s nlit ndist clens runs (p + 3)
      (tokensBits (literalLengths nlit runs) (some (distanceLengths nlit ndist runs)) tokens ++
        (symbolCode (literalLengths nlit runs) 256 ++ rest))
      hnlit1 hnlit2 hndist1 hndist2 hclen1 hclen2 (fun l hl => hall l hl) hcl hruns hlit hdist
      hnext
    have hnext2 := drop_add_of_drop_eq_append _ _ _ _ hnext
    rw [numberBits_length] at hnext2
    have hnext3 := drop_add_of_drop_eq_append _ _ _ _ hnext2
    rw [numberBits_length] at hnext3
    have hnext4 := drop_add_of_drop_eq_append _ _ _ _ hnext3
    rw [numberBits_length] at hnext4
    have hnext5 := drop_add_of_drop_eq_append _ _ _ _ hnext4
    rw [flatMap_numberBits_length] at hnext5
    have hnext6 := drop_add_of_drop_eq_append _ _ _ _ hnext5
    have hposhead : p + 3 + 5 + 5 + 4 + 3 * clens.length +
        (runsBits (codeLengthLengths clens) runs).length =
        p + 3 + 14 + 3 * clens.length + (runsBits (codeLengthLengths clens) runs).length := by
      omega
    rw [hposhead] at hnext6
    have hlit15 : ∀ l ∈ literalLengths nlit runs, l ≤ 15 := by
      intro l hl
      exact (validRuns_bounds _ _ runs [] hruns (by simp)).1 l (List.mem_of_mem_take hl)
    have hdist15 : ∀ l ∈ distanceLengths nlit ndist runs, l ≤ 15 := by
      intro l hl
      exact (validRuns_bounds _ _ runs [] hruns (by simp)).1 l
        (List.mem_of_mem_drop (List.mem_of_mem_take hl))
    have hmin0 : hl0.min ≤ (literalLengths nlit runs).getD 256 0 :=
      init_min_le _ hl0 hhl _
        (mem_of_getElem?_eq_some _ _ _ (getElem?_of_getD_pos _ 256 heob)) heob
    have hmin : ({ hl0 with min := Nat.max hl0.min ((literalLengths nlit runs).getD 256 0) } :
        huffmanDecoder).min ≤ (literalLengths nlit runs).getD 256 0 := by
      simp only
      exact Nat.max_le.2 ⟨hmin0, Nat.le_refl _⟩
    have hnext7 : (streamBits s).drop (p + 3 + 14 + 3 * clens.length +
        (runsBits (codeLengthLengths clens) runs).length) =
        (tokensBits (literalLengths nlit runs) (some (distanceLengths nlit ndist runs)) tokens ++
          symbolCode (literalLengths nlit runs) 256) ++ rest := by
      rw [List.append_assoc]
      exact hnext6
    have htotal := le_of_drop_eq_append s _ _ _ hnext7 (by
      simp only [List.length_append, symbolCode_length]
      omega)
    have hav := available_atBit s (p + 3 + 14 + 3 * clens.length +
      (runsBits (codeLengthLengths clens) runs).length) (by omega)
    have hcount := tokensBits_length_ge _ _ tokens out htokens
    have hfuel : tokens.length < (Input.atBit s (p + 3 + 14 + 3 * clens.length +
        (runsBits (codeLengthLengths clens) runs).length)).available + 1 := by
      rw [hav]
      simp only [List.length_append] at htotal
      omega
    have hrun := huffmanBlock_atBit s (literalLengths nlit runs)
      (some (distanceLengths nlit ndist runs)) hl0
      { hl0 with min := Nat.max hl0.min ((literalLengths nlit runs).getD 256 0) } (some hd0)
      hhl rfl hlit15 heob hmin (Or.inr ⟨_, _, rfl, rfl, hhd, hdist15⟩) tokens _ _ out rest hfuel
      htokens hnext6
    have hv := hlt 2 (by omega)
    rw [blocks, readBits_atBit s 3 p _ _ hv h]
    simp only [hdiv 2, hhead, hrun, hbit 2]
    have hpos : p + ([final, false, true] ++ (numberBits 5 (nlit - 257) ++
        (numberBits 5 (ndist - 1) ++ (numberBits 4 (clens.length - 4) ++
          (clens.flatMap (numberBits 3) ++ (runsBits (codeLengthLengths clens) runs ++
            (tokensBits (literalLengths nlit runs) (some (distanceLengths nlit ndist runs))
              tokens ++ symbolCode (literalLengths nlit runs) 256))))))).length =
        p + 3 + 14 + 3 * clens.length + (runsBits (codeLengthLengths clens) runs).length +
          (tokensBits (literalLengths nlit runs) (some (distanceLengths nlit ndist runs))
            tokens).length + (symbolCode (literalLengths nlit runs) 256).length := by
      simp only [List.length_append, List.length_cons, List.length_nil, numberBits_length,
        flatMap_numberBits_length]
      omega
    rw [hpos]
    rfl

/-- A block takes more than a byte. -/
theorem Block_bits_length_ge (b : Block) (final : Bool) : 8 ≤ (b.bits final).length := by
  cases b with
  | stored pad data =>
    simp only [Block.bits, List.length_append, streamBits_length, le16, List.length_cons,
      List.length_nil]
    omega
  | fixed tokens =>
    have h7 : fixedLengths.getD 256 0 = 7 := by decide
    simp only [Block.bits, List.length_append, symbolCode_length, h7, List.length_cons,
      List.length_nil]
    omega
  | dynamic nlit ndist clens runs tokens =>
    simp only [Block.bits, List.length_append, numberBits_length, List.length_cons,
      List.length_nil]
    omega

/-- A stream of blocks takes more than a byte per block. -/
theorem encode_length_ge (bs : List Block) : 8 * bs.length ≤ (encode bs).length := by
  induction bs with
  | nil => simp [encode]
  | cons b bs ih =>
    rw [encode_cons, List.length_append, List.length_cons]
    have := Block_bits_length_ge b bs.isEmpty
    omega

/-- A stream of valid blocks is decoded to the bytes that the blocks stand
for, and the decompressor stops after the last block. -/
theorem blocks_atBit (s : Bytes) (bs : List Block) (fuel p : Nat) (out : Bytes)
    (rest : List Bool) (hne : bs ≠ []) (hfuel : bs.length ≤ fuel)
    (hvalid : validBlocks p out bs = true)
    (h : (streamBits s).drop p = encode bs ++ rest) :
    blocks fuel (Input.atBit s p) out =
      (expandBlocks out bs, .ok (Input.atBit s (p + (encode bs).length))) := by
  induction bs generalizing fuel p out with
  | nil => exact absurd rfl hne
  | cons b bs ih =>
    cases fuel with
    | zero => simp at hfuel
    | succ fuel =>
      simp only [List.length_cons] at hfuel
      simp only [validBlocks, Bool.and_eq_true] at hvalid
      rw [encode_cons, List.append_assoc] at h
      have hnext := drop_add_of_drop_eq_append _ _ _ _ h
      rw [block_atBit s b bs.isEmpty fuel p out _ hvalid.1 h, encode_cons]
      cases bs with
      | nil =>
        simp only [List.isEmpty_nil, if_true, encode, List.append_nil]
        rfl
      | cons c cs =>
        simp only [List.isEmpty_cons, Bool.false_eq_true, if_false] at hvalid h hnext ⊢
        rw [ih fuel _ _ (List.cons_ne_nil c cs) (by omega) hvalid.2 hnext]
        simp only [expandBlocks, List.foldl_cons, List.length_append, Prod.mk.injEq, true_and,
          Except.ok.injEq]
        rw [Nat.add_assoc]

/-- The decompressor at the start of a stream. -/
theorem atBit_zero (s : Bytes) : Input.atBit s 0 = { r := s } := rfl

/-- A stream whose bits are those of valid blocks, with less than a byte of
padding after them, is decoded to the bytes that the blocks stand for, and no
byte is left. -/
theorem inflate_encode (s : Bytes) (bs : List Block) (pad : List Bool) (hne : bs ≠ [])
    (hvalid : validBlocks 0 [] bs = true) (hbits : streamBits s = encode bs ++ pad)
    (hpad : pad.length < 8) :
    inflate s = (expandBlocks [] bs, .ok []) := by
  have hlen := congrArg List.length hbits
  rw [streamBits_length, List.length_append] at hlen
  have hcount := encode_length_ge bs
  have hrun := blocks_atBit s bs (s.length + 1) 0 [] pad hne (by omega) hvalid hbits
  rw [atBit_zero, Nat.zero_add] at hrun
  unfold inflate
  rw [hrun]
  simp only [Input.atBit, Prod.mk.injEq, Except.ok.injEq, true_and]
  apply List.drop_of_length_le
  omega

/-- The bits of the byte of eight bits. -/
theorem byteBits_bitsByte (b0 b1 b2 b3 b4 b5 b6 b7 : Bool) :
    byteBits (bitsByte b0 b1 b2 b3 b4 b5 b6 b7) = [b0, b1, b2, b3, b4, b5, b6, b7] := by
  cases b0 <;> cases b1 <;> cases b2 <;> cases b3 <;> cases b4 <;> cases b5 <;> cases b6 <;>
    cases b7 <;> rfl

/-- The bits of the bytes that pack a sequence of bits are the sequence and less
than a byte of padding. -/
theorem streamBits_packBits (bits : List Bool) :
    ∃ pad : List Bool, streamBits (packBits bits) = bits ++ pad ∧ pad.length < 8 := by
  induction bits using packBits.induct with
  | case1 b0 b1 b2 b3 b4 b5 b6 b7 rest ih =>
    obtain ⟨pad, hpad, hlen⟩ := ih
    refine ⟨pad, ?_, hlen⟩
    rw [packBits, streamBits_cons, byteBits_bitsByte, hpad]
    rfl
  | case2 => exact ⟨[], rfl, by decide⟩
  | case3 b0 =>
    exact ⟨[false, false, false, false, false, false, false],
      by rw [packBits, streamBits_cons, byteBits_bitsByte]; rfl, by decide⟩
  | case4 b0 b1 =>
    exact ⟨[false, false, false, false, false, false],
      by rw [packBits, streamBits_cons, byteBits_bitsByte]; rfl, by decide⟩
  | case5 b0 b1 b2 =>
    exact ⟨[false, false, false, false, false],
      by rw [packBits, streamBits_cons, byteBits_bitsByte]; rfl, by decide⟩
  | case6 b0 b1 b2 b3 =>
    exact ⟨[false, false, false, false],
      by rw [packBits, streamBits_cons, byteBits_bitsByte]; rfl, by decide⟩
  | case7 b0 b1 b2 b3 b4 =>
    exact ⟨[false, false, false],
      by rw [packBits, streamBits_cons, byteBits_bitsByte]; rfl, by decide⟩
  | case8 b0 b1 b2 b3 b4 b5 =>
    exact ⟨[false, false],
      by rw [packBits, streamBits_cons, byteBits_bitsByte]; rfl, by decide⟩
  | case9 b0 b1 b2 b3 b4 b5 b6 =>
    exact ⟨[false],
      by rw [packBits, streamBits_cons, byteBits_bitsByte]; rfl, by decide⟩

/-- Every byte has a code in the fixed code. -/
theorem fixedLengths_literal (n : Nat) (h : n < 256) : 0 < fixedLengths.getD n 0 := by
  have hall : ∀ k, k < 256 → 0 < fixedLengths.getD k 0 := by
    set_option maxRecDepth 100000 in decide
  exact hall n h

/-- Literal bytes are valid tokens of a block with the fixed codes, and they
expand to themselves. -/
theorem literals_valid (content out : Bytes) :
    validTokens fixedLengths none out (controllers.sample.literals content) = true ∧
      expandTokens out (controllers.sample.literals content) = out ++ content := by
  induction content generalizing out with
  | nil => exact ⟨rfl, by simp [controllers.sample.literals, expandTokens]⟩
  | cons b content ih =>
    have hb := fixedLengths_literal b.toNat (UInt8.toNat_lt b)
    have hrest := ih (out ++ [b])
    simp only [controllers.sample.literals, List.map_cons, validTokens, Token.valid, Token.expand,
      expandTokens, List.foldl_cons, Bool.and_eq_true, decide_eq_true_eq] at hrest ⊢
    exact ⟨⟨hb, hrest.1⟩, by rw [hrest.2]; simp⟩

end flate

/-! ## Properties of the compression, of the content hash and of the identifier -/

namespace v1alpha1

open controllers

/-- The header of the writer is accepted by the reader. -/
theorem gzip_readHeader_header (r : Bytes) : gzip.readHeader (gzip.header ++ r) = .ok r := rfl

/-- The number that the reader takes from the four bytes written for `n`. -/
theorem gzip_leUint32_le32 (n : Nat) :
    gzip.leUint32 (UInt8.ofNat (n % 256)) (UInt8.ofNat (n / 256 % 256))
        (UInt8.ofNat (n / 65536 % 256)) (UInt8.ofNat (n / 16777216 % 256)) =
      n % 4294967296 := by
  have h : ∀ k : Nat, (UInt8.ofNat k).toNat = k % 256 := fun _ => rfl
  simp only [gzip.leUint32, h]
  omega

/-- The trailer written for the data `data` passes the checks of the reader
for the same data, which then meets the end of the input. -/
theorem gzip_readMembers_one (fuel : Nat) (body data out : Bytes)
    (hflate : flate.inflate (body ++ gzip.trailer data) = (data, .ok (gzip.trailer data))) :
    gzip.Reader.readMembers (fuel + 1) (body ++ gzip.trailer data) out = (out ++ data, .EOF) := by
  have hcrc : crc32.ChecksumIEEE data % 4294967296 = crc32.ChecksumIEEE data := by
    simp [crc32.ChecksumIEEE]
  rw [gzip.Reader.readMembers, hflate]
  simp only [gzip.trailer, gzip.le32, List.cons_append, List.nil_append, gzip_leUint32_le32,
    hcrc, Nat.mod_mod]
  simp [gzip.readHeader]

/-- A DEFLATE stream of some content, followed by other bytes, is decoded to
the content and leaves the other bytes. -/
theorem flate_inflate_of_Encodes (stream content rest : Bytes)
    (h : flate.Encodes stream content) :
    flate.inflate (stream ++ rest) = (content, .ok rest) := by
  obtain ⟨blocks, pad, hne, hvalid, hbits, hpad, hexpand⟩ := h
  have hrun := flate.inflate_encode stream blocks pad hne hvalid hbits hpad
  rw [hexpand] at hrun
  have := flate.inflate_append stream [] content rest hrun
  simpa using this

/-- C26. For every content, when the stream that the compressor of
`compress/flate` emits for the content is a DEFLATE stream of the content (a
sequence of valid blocks of RFC 1951 that expands to the content), `Gzip` of
the target package and `Gzip` of the legacy package return a stream without an
error, and `Gunzip` of the same package applied to that stream returns exactly
the content without an error: the header written is accepted, the
decompressor decodes every block of the stream, the CRC-32 and the length of
the trailer pass, and the reader meets the end of the input. -/
theorem Gzip_Gunzip_round_trip (deflate : Bytes → Bytes) (content : Bytes)
    (hdeflate : flate.Encodes (deflate content) content) :
    (∃ compressed, v1beta1.Gzip deflate content = (some compressed, none) ∧
      v1beta1.Gunzip compressed = (some content, none)) ∧
    (∃ compressed, v1alpha1.Gzip deflate content = (some compressed, none) ∧
      v1alpha1.Gunzip compressed = (some content, none)) := by
  have hflate := flate_inflate_of_Encodes (deflate content) content (gzip.trailer content)
    hdeflate
  have hread : gzip.NewReader (gzip.header ++ (deflate content ++ gzip.trailer content)) =
      .ok { r := deflate content ++ gzip.trailer content } := by
    simp [gzip.NewReader, gzip_readHeader_header]
  have hall : io.ReadAll { r := deflate content ++ gzip.trailer content } = (content, none) := by
    simp [io.ReadAll, gzip_readMembers_one _ _ _ _ hflate]
  refine ⟨⟨gzip.header ++ (deflate content ++ gzip.trailer content), ?_, ?_⟩,
    ⟨gzip.header ++ (deflate content ++ gzip.trailer content), ?_, ?_⟩⟩
  · simp [v1beta1.Gzip, gzip.NewWriter, gzip.Writer.Write, gzip.Writer.Close]
  · simp [v1beta1.Gunzip, hread, hall]
  · simp [v1alpha1.Gzip, gzip.NewWriter, gzip.Writer.Write, gzip.Writer.Close]
  · simp [v1alpha1.Gunzip, hread, hall]

/-- The stream `titleDeflate` is a DEFLATE stream of `titleJson`: a block with
the fixed codes. -/
theorem sample_titleDeflate_Encodes : flate.Encodes sample.titleDeflate sample.titleJson :=
  ⟨sample.titleBlocks, [false, false, false, false], by decide,
    by set_option maxRecDepth 100000 in decide, by set_option maxRecDepth 100000 in decide,
    by decide, by set_option maxRecDepth 100000 in decide⟩

/-- The stream `nodesDeflate` is a DEFLATE stream of `nodesJson`: a block with
dynamic codes. -/
theorem sample_nodesDeflate_Encodes : flate.Encodes sample.nodesDeflate sample.nodesJson :=
  ⟨sample.nodesBlocks, sample.nodesPad, by decide, by decide!, by decide!, by decide,
    by decide!⟩

/-- The stream `uidTwoBlocks` is a DEFLATE stream of `uidJson`: a block with
the fixed codes and a final stored block without data. -/
theorem sample_uidTwoBlocks_Encodes : flate.Encodes sample.uidTwoBlocks sample.uidJson :=
  ⟨sample.uidBlocks, [], by decide, by decide!, by decide!, by decide, by decide!⟩

/-- What the sample compressor emits for `uidJson`. -/
theorem sample_recordedCompressor_uidJson :
    sample.recordedCompressor sample.uidJson = sample.uidTwoBlocks := by
  unfold sample.recordedCompressor
  rw [if_neg (by decide), if_neg (by decide), if_pos rfl]

/-- The sample compressor emits a DEFLATE stream of `uidJson`. -/
theorem sample_recordedCompressor_Encodes_uidJson :
    flate.Encodes (sample.recordedCompressor sample.uidJson) sample.uidJson := by
  rw [sample_recordedCompressor_uidJson]
  exact sample_uidTwoBlocks_Encodes

/-- What the sample compressor emits for `nodesJson`. -/
theorem sample_recordedCompressor_nodesJson :
    sample.recordedCompressor sample.nodesJson = sample.nodesDeflate := by
  unfold sample.recordedCompressor
  rw [if_pos rfl]

/-- What the sample compressor emits for `titleJson`. -/
theorem sample_recordedCompressor_titleJson :
    sample.recordedCompressor sample.titleJson = sample.titleDeflate := by
  unfold sample.recordedCompressor
  rw [if_neg (by decide), if_pos rfl]

/-- The sample compressor emits a DEFLATE stream of `nodesJson`. -/
theorem sample_recordedCompressor_Encodes_nodesJson :
    flate.Encodes (sample.recordedCompressor sample.nodesJson) sample.nodesJson := by
  rw [sample_recordedCompressor_nodesJson]
  exact sample_nodesDeflate_Encodes

/-- The sample compressor emits a DEFLATE stream of `titleJson`. -/
theorem sample_recordedCompressor_Encodes_titleJson :
    flate.Encodes (sample.recordedCompressor sample.titleJson) sample.titleJson := by
  rw [sample_recordedCompressor_titleJson]
  exact sample_titleDeflate_Encodes

/-- Witness of C26: the JSON of a dashboard, for which the compressor emits a
block with dynamic codes; a small JSON object, for which it emits a block with
the fixed codes (both streams hold copies of earlier output); and a JSON
object for which it emits two blocks, the second a stored block. -/
theorem Gzip_Gunzip_round_trip_witness :
    flate.Encodes (sample.recordedCompressor sample.nodesJson) sample.nodesJson ∧
    ((∃ compressed, v1beta1.Gzip sample.recordedCompressor sample.nodesJson =
        (some compressed, none) ∧
      v1beta1.Gunzip compressed = (some sample.nodesJson, none)) ∧
    (∃ compressed, v1alpha1.Gzip sample.recordedCompressor sample.nodesJson =
        (some compressed, none) ∧
      v1alpha1.Gunzip compressed = (some sample.nodesJson, none))) ∧
    flate.Encodes (sample.recordedCompressor sample.titleJson) sample.titleJson ∧
    ((∃ compressed, v1beta1.Gzip sample.recordedCompressor sample.titleJson =
        (some compressed, none) ∧
      v1beta1.Gunzip compressed = (some sample.titleJson, none)) ∧
    (∃ compressed, v1alpha1.Gzip sample.recordedCompressor sample.titleJson =
        (some compressed, none) ∧
      v1alpha1.Gunzip compressed = (some sample.titleJson, none))) ∧
    flate.Encodes (sample.recordedCompressor sample.uidJson) sample.uidJson ∧
    ((∃ compressed, v1beta1.Gzip sample.recordedCompressor sample.uidJson =
        (some compressed, none) ∧
      v1beta1.Gunzip compressed = (some sample.uidJson, none)) ∧
    (∃ compressed, v1alpha1.Gzip sample.recordedCompressor sample.uidJson =
        (some compressed, none) ∧
      v1alpha1.Gunzip compressed = (some sample.uidJson, none))) :=
  ⟨sample_recordedCompressor_Encodes_nodesJson,
    Gzip_Gunzip_round_trip sample.recordedCompressor sample.nodesJson
      sample_recordedCompressor_Encodes_nodesJson,
    sample_recordedCompressor_Encodes_titleJson,
    Gzip_Gunzip_round_trip sample.recordedCompressor sample.titleJson
      sample_recordedCompressor_Encodes_titleJson,
    sample_recordedCompressor_Encodes_uidJson,
    Gzip_Gunzip_round_trip sample.recordedCompressor sample.uidJson
      sample_recordedCompressor_Encodes_uidJson⟩

/-- The compressor that writes literals meets the contract for every
content. -/
theorem sample_literalCompressor_Encodes (content : Bytes) :
    flate.Encodes (sample.literalCompressor content) content := by
  obtain ⟨pad, hpad, hlen⟩ := flate.streamBits_packBits
    (flate.encode [.fixed (sample.literals content)])
  have hv := flate.literals_valid content []
  refine ⟨[.fixed (sample.literals content)], pad, by simp, ?_, hpad, hlen, ?_⟩
  · simp only [flate.validBlocks, flate.Block.valid, hv.1, Bool.and_self]
  · simp only [flate.expandBlocks, List.foldl_cons, List.foldl_nil, flate.Block.expand, hv.2,
      List.nil_append]

/-- When the decompressor decodes the stream that the compressor emits for a
content, followed by the trailer, to the content and leaves the trailer, the
stream that `Gzip` returns is read back by `Gunzip` to the content. -/
theorem Gzip_Gunzip_of_inflate (deflate : Bytes → Bytes) (content : Bytes)
    (hflate : flate.inflate (deflate content ++ gzip.trailer content) =
      (content, .ok (gzip.trailer content))) :
    (∃ compressed, v1beta1.Gzip deflate content = (some compressed, none) ∧
      v1beta1.Gunzip compressed = (some content, none)) ∧
    (∃ compressed, v1alpha1.Gzip deflate content = (some compressed, none) ∧
      v1alpha1.Gunzip compressed = (some content, none)) := by
  have hread : gzip.NewReader (gzip.header ++ (deflate content ++ gzip.trailer content)) =
      .ok { r := deflate content ++ gzip.trailer content } := by
    simp [gzip.NewReader, gzip_readHeader_header]
  have hall : io.ReadAll { r := deflate content ++ gzip.trailer content } = (content, none) := by
    simp [io.ReadAll, gzip_readMembers_one _ _ _ _ hflate]
  refine ⟨⟨gzip.header ++ (deflate content ++ gzip.trailer content), ?_, ?_⟩,
    ⟨gzip.header ++ (deflate content ++ gzip.trailer content), ?_, ?_⟩⟩
  · simp [v1beta1.Gzip, gzip.NewWriter, gzip.Writer.Write, gzip.Writer.Close]
  · simp [v1beta1.Gunzip, hread, hall]
  · simp [v1alpha1.Gzip, gzip.NewWriter, gzip.Writer.Write, gzip.Writer.Close]
  · simp [v1alpha1.Gunzip, hread, hall]

/-- The contract of the compressor can be met for every content: with the
compressor that writes literals, `Gzip` returns a stream for every content and
`Gunzip` reads it back to the content, in both packages. -/
theorem Gzip_Gunzip_literalCompressor (content : Bytes) :
    (∃ compressed, v1beta1.Gzip sample.literalCompressor content = (some compressed, none) ∧
      v1beta1.Gunzip compressed = (some content, none)) ∧
    (∃ compressed, v1alpha1.Gzip sample.literalCompressor content = (some compressed, none) ∧
      v1alpha1.Gunzip compressed = (some content, none)) :=
  Gzip_Gunzip_of_inflate sample.literalCompressor content
    (flate_inflate_of_Encodes _ _ _ (sample_literalCompressor_Encodes content))

/-- The error that `noEOF` returns is not `io.EOF`. -/
theorem gzip_noEOF_ne (err : flate.Error) : gzip.noEOF err ≠ .EOF := by
  cases err <;> simp [gzip.noEOF]

/-- The extra field is not rejected with `io.EOF`. -/
theorem gzip_readExtra_ne (hdr r : Bytes) : gzip.readExtra hdr r ≠ .error .EOF := by
  unfold gzip.readExtra
  split
  · split <;> simp
  · simp

/-- A string of the header is not rejected with `io.EOF`. -/
theorem gzip_readHeaderString_ne (hdr r : Bytes) :
    gzip.readHeaderString hdr r ≠ .error .EOF := by
  unfold gzip.readHeaderString
  split
  · intro h
    injection h with h
    exact gzip_noEOF_ne _ h
  · simp

/-- The checksum of the header is not rejected with `io.EOF`. -/
theorem gzip_readHeaderCrc_ne (hdr r : Bytes) : gzip.readHeaderCrc hdr r ≠ .error .EOF := by
  unfold gzip.readHeaderCrc
  split
  · split <;> simp
  · simp

/-- The optional fields of a header are never rejected with `io.EOF`. -/
theorem gzip_readHeaderFields_ne (flg : Nat) (hdr r : Bytes) :
    gzip.readHeaderFields flg hdr r ≠ .error .EOF := by
  unfold gzip.readHeaderFields
  have hstring : ∀ (c : Prop) [Decidable c] (hdr r : Bytes),
      (if c then gzip.readHeaderString hdr r else .ok (hdr, r)) ≠ .error .EOF := by
    intro c _ hdr r
    split
    · exact gzip_readHeaderString_ne _ _
    · simp
  have hextra : (if flg / 4 % 2 = 1 then gzip.readExtra hdr r else .ok (hdr, r)) ≠
      .error .EOF := by
    split
    · exact gzip_readExtra_ne _ _
    · simp
  generalize (if flg / 4 % 2 = 1 then gzip.readExtra hdr r else Except.ok (hdr, r)) = x at hextra
  cases x with
  | error err => simpa using hextra
  | ok p =>
    obtain ⟨hdr, r⟩ := p
    simp only
    have hname := hstring (flg / 8 % 2 = 1) hdr r
    generalize (if flg / 8 % 2 = 1 then gzip.readHeaderString hdr r else Except.ok (hdr, r)) = y
      at hname
    cases y with
    | error err => simpa using hname
    | ok p =>
      obtain ⟨hdr, r⟩ := p
      simp only
      have hcomment := hstring (flg / 16 % 2 = 1) hdr r
      generalize
        (if flg / 16 % 2 = 1 then gzip.readHeaderString hdr r else Except.ok (hdr, r)) = z
        at hcomment
      cases z with
      | error err => simpa using hcomment
      | ok p =>
        obtain ⟨hdr, r⟩ := p
        simp only
        split
        · exact gzip_readHeaderCrc_ne _ _
        · simp

/-- The header of a member is rejected with `io.EOF` iff there is no byte. -/
theorem gzip_readHeader_EOF (r : Bytes) : gzip.readHeader r = .error .EOF ↔ r = [] := by
  constructor
  · intro h
    unfold gzip.readHeader at h
    split at h
    · rfl
    · split at h
      · cases h
      · exact absurd h (gzip_readHeaderFields_ne _ _ _)
    · cases h
  · intro h
    subst h
    rfl

/-- The error that `io.ReadAll` returns is not `io.EOF`. -/
theorem io_ReadAll_ne (z : gzip.Reader) : (io.ReadAll z).2 ≠ some .EOF := by
  unfold io.ReadAll
  split
  rename_i b err _
  by_cases h : err = .EOF <;> simp [h]

/-- C27 (counterexample). `Gunzip` returns decompressed bytes next to its
error. For the stream of `hi` cut inside its trailer it returns the bytes `hi`
with `io.ErrUnexpectedEOF`; cut inside its data it returns the partial content
`h` with the same error; and with a changed data byte it returns the corrupt
content `hj` with `gzip.ErrChecksum`. The whole stream gives `hi` and no
error. -/
theorem Gunzip_returns_bytes_with_the_error :
    v1beta1.Gunzip (sample.hiStream.take 21) = (some sample.hi, some .ErrUnexpectedEOF) ∧
    v1alpha1.Gunzip (sample.hiStream.take 21) = (some sample.hi, some .ErrUnexpectedEOF) ∧
    v1beta1.Gunzip (sample.hiStream.take 16) = (some [104], some .ErrUnexpectedEOF) ∧
    v1alpha1.Gunzip (sample.hiStream.take 16) = (some [104], some .ErrUnexpectedEOF) ∧
    v1beta1.Gunzip sample.hiStreamCorrupted = (some [104, 106], some .ErrChecksum) ∧
    v1alpha1.Gunzip sample.hiStreamCorrupted = (some [104, 106], some .ErrChecksum) ∧
    v1beta1.Gunzip sample.hiStream = (some sample.hi, none) := by
  decide

/-- An error of the decompressor ends the reading with the bytes decoded
before it. -/
theorem gzip_readMembers_cut (fuel : Nat) (r d out : Bytes) (err : flate.Error)
    (h : flate.inflate r = (d, .error err)) :
    gzip.Reader.readMembers (fuel + 1) r out = (out ++ d, err) := by
  rw [gzip.Reader.readMembers, h]

/-- A trailer shorter than eight bytes ends the reading with
`io.ErrUnexpectedEOF` and the bytes decoded before it. -/
theorem gzip_readMembers_short_trailer (fuel : Nat) (r d t out : Bytes)
    (h : flate.inflate r = (d, .ok t)) (ht : t.length < 8) :
    gzip.Reader.readMembers (fuel + 1) r out = (out ++ d, .ErrUnexpectedEOF) := by
  rw [gzip.Reader.readMembers, h]
  match t, ht with
  | [], _ => rfl
  | [_], _ => rfl
  | [_, _], _ => rfl
  | [_, _, _], _ => rfl
  | [_, _, _, _], _ => rfl
  | [_, _, _, _, _], _ => rfl
  | [_, _, _, _, _, _], _ => rfl
  | [_, _, _, _, _, _, _], _ => rfl
  | _ :: _ :: _ :: _ :: _ :: _ :: _ :: _ :: _, ht =>
    simp only [List.length_cons] at ht
    omega

/-- Eight bytes pass the checks of the reader for the data `data` iff they are
the trailer of `data`. -/
theorem gzip_trailer_checks (c0 c1 c2 c3 s0 s1 s2 s3 : UInt8) (data : Bytes) :
    (gzip.leUint32 c0 c1 c2 c3 = crc32.ChecksumIEEE data ∧
      gzip.leUint32 s0 s1 s2 s3 = data.length % 4294967296) ↔
      [c0, c1, c2, c3, s0, s1, s2, s3] = gzip.trailer data := by
  constructor
  · rintro ⟨h1, h2⟩
    have e1 := gzip.le32_leUint32 c0 c1 c2 c3
    have e2 := gzip.le32_leUint32 s0 s1 s2 s3
    rw [h1] at e1
    rw [h2] at e2
    unfold gzip.trailer
    rw [e1, e2]
    rfl
  · intro h
    have hcrc : crc32.ChecksumIEEE data % 4294967296 = crc32.ChecksumIEEE data := by
      simp [crc32.ChecksumIEEE]
    simp only [gzip.trailer, gzip.le32, List.cons_append, List.nil_append, List.cons.injEq,
      and_true] at h
    obtain ⟨h0, h1, h2, h3, h4, h5, h6, h7⟩ := h
    subst h0 h1 h2 h3 h4 h5 h6 h7
    rw [gzip_leUint32_le32, gzip_leUint32_le32, hcrc, Nat.mod_mod]
    exact ⟨rfl, rfl⟩

/-- A stream that ends with eight bytes after its compressed data is read to
its end when they are the trailer of the data decoded, and ends the reading
with `gzip.ErrChecksum` otherwise. -/
theorem gzip_readMembers_trailer (fuel : Nat) (r d t out : Bytes)
    (h : flate.inflate r = (d, .ok t)) (ht : t.length = 8) :
    gzip.Reader.readMembers (fuel + 1) r out =
      (out ++ d, if t = gzip.trailer d then .EOF else .ErrChecksum) := by
  rw [gzip.Reader.readMembers, h]
  match t, ht with
  | [c0, c1, c2, c3, s0, s1, s2, s3], _ =>
    simp only
    have hiff := gzip_trailer_checks c0 c1 c2 c3 s0 s1 s2 s3 d
    by_cases hc : [c0, c1, c2, c3, s0, s1, s2, s3] = gzip.trailer d
    · have hboth := hiff.2 hc
      rw [if_pos hc, if_neg (by simp [hboth.1, hboth.2])]
      simp [gzip.readHeader]
    · rw [if_neg hc, if_pos]
      by_contra hno
      simp only [not_or, ne_eq, not_not] at hno
      exact hc (hiff.1 hno)

/-- The input of a member that is cut inside its header is rejected by the
reader of the header. -/
theorem gzip_readHeader_cut (hdr : Bytes) (k : Nat) (hhdr : gzip.readHeader hdr = .ok [])
    (hk : k < hdr.length) : ∃ err, gzip.readHeader (hdr.take k) = .error err := by
  cases hh : gzip.readHeader (hdr.take k) with
  | error err => exact ⟨err, rfl⟩
  | ok rest =>
    have h2 := gzip.readHeader_append (hdr.take k) rest (hdr.drop k) hh
    rw [List.take_append_drop, hhdr] at h2
    simp only [Except.ok.injEq] at h2
    have h3 : (rest ++ hdr.drop k).length = 0 := by rw [← h2]; rfl
    simp only [List.length_append, List.length_drop] at h3
    omega

/-- The compressed data that are cut before their end are rejected by the
decompressor, with another error than `io.EOF`. -/
theorem flate_inflate_cut (body data : Bytes) (j : Nat)
    (hbody : flate.inflate body = (data, .ok [])) (hj : j < body.length) :
    ∃ d err, flate.inflate (body.take j) = (d, .error err) ∧ err ≠ .EOF := by
  cases hh : flate.inflate (body.take j) with
  | mk d e =>
    cases e with
    | error err =>
      refine ⟨d, err, rfl, ?_⟩
      intro he
      have := flate.inflate_ne (body.take j)
      rw [hh, he] at this
      exact this rfl
    | ok rest =>
      have h2 := flate.inflate_append (body.take j) rest d (body.drop j) hh
      rw [List.take_append_drop, hbody] at h2
      simp only [Prod.mk.injEq, Except.ok.injEq] at h2
      have h3 : (rest ++ body.drop j).length = 0 := by rw [← h2.2]; rfl
      simp only [List.length_append, List.length_drop] at h3
      omega

/-- The results of `Gunzip` on a stream of one member, `hdr ++ body ++ t`: the
header `hdr` is accepted, the compressed data `body` decode to `data`, and `t`
stands for the trailer. -/
theorem Gunzip_one_member (hdr body data : Bytes) (hhdr : gzip.readHeader hdr = .ok [])
    (hbody : flate.inflate body = (data, .ok [])) :
    (∀ k, k < hdr.length → ∃ err, v1beta1.Gunzip (hdr.take k) = (none, some err)) ∧
    (∀ j, j < body.length → ∃ d err, err ≠ .EOF ∧
      v1beta1.Gunzip (hdr ++ body.take j) = (some d, some err)) ∧
    (∀ t : Bytes, t.length < 8 →
      v1beta1.Gunzip (hdr ++ body ++ t) = (some data, some .ErrUnexpectedEOF)) ∧
    (∀ t : Bytes, t.length = 8 → t ≠ gzip.trailer data →
      v1beta1.Gunzip (hdr ++ body ++ t) = (some data, some .ErrChecksum)) ∧
    v1beta1.Gunzip (hdr ++ body ++ gzip.trailer data) = (some data, none) := by
  have hread : ∀ x : Bytes, gzip.NewReader (hdr ++ x) = .ok { r := x } := by
    intro x
    have := gzip.readHeader_append hdr [] x hhdr
    simp [gzip.NewReader, this]
  have hinf : ∀ t : Bytes, flate.inflate (body ++ t) = (data, .ok t) := by
    intro t
    have := flate.inflate_append body [] data t hbody
    simpa using this
  refine ⟨?_, ?_, ?_, ?_, ?_⟩
  · intro k hk
    obtain ⟨err, he⟩ := gzip_readHeader_cut hdr k hhdr hk
    exact ⟨err, by simp [v1beta1.Gunzip, gzip.NewReader, he]⟩
  · intro j hj
    obtain ⟨d, err, hd, hne⟩ := flate_inflate_cut body data j hbody hj
    refine ⟨d, err, hne, ?_⟩
    simp [v1beta1.Gunzip, hread, io.ReadAll, gzip_readMembers_cut _ _ _ _ _ hd, hne]
  · intro t ht
    simp [v1beta1.Gunzip, List.append_assoc, hread, io.ReadAll,
      gzip_readMembers_short_trailer _ _ _ _ _ (hinf t) ht]
  · intro t ht hne
    simp [v1beta1.Gunzip, List.append_assoc, hread, io.ReadAll,
      gzip_readMembers_trailer _ _ _ _ _ (hinf t) ht, hne]
  · have ht : (gzip.trailer data).length = 8 := rfl
    simp [v1beta1.Gunzip, List.append_assoc, hread, io.ReadAll,
      gzip_readMembers_trailer _ _ _ _ _ (hinf (gzip.trailer data)) ht]

/-- The error of `Gunzip` is `io.EOF` for the empty slice only. -/
theorem Gunzip_EOF_iff (compressed : Bytes) :
    (v1beta1.Gunzip compressed).2 = some .EOF ↔ compressed = [] := by
  constructor
  · intro h
    unfold v1beta1.Gunzip gzip.NewReader at h
    cases hh : gzip.readHeader compressed with
    | error err =>
      rw [hh] at h
      simp only [Option.some.injEq] at h
      subst h
      exact (gzip_readHeader_EOF compressed).1 hh
    | ok r =>
      rw [hh] at h
      exact absurd h (io_ReadAll_ne _)
  · intro h
    subst h
    rfl

/-- C27 (amended). `Gunzip` of the legacy package and `Gunzip` of the target
package are the same function, and it returns the bytes read before an error
next to the error. Take a stream of one member: a header `hdr` that the reader
accepts, compressed data `body` that decode to `data`, and the trailer of
`data`. `Gunzip` returns `data` and no error for the stream. For every proper
prefix of the stream it returns a non-nil error, which is `io.EOF` for the
empty prefix only; it returns no bytes iff the cut is inside the header, and
for a cut inside the trailer it returns all of `data` with
`io.ErrUnexpectedEOF`. When the decompressor rejects the data that follow the
header, `Gunzip` returns the bytes decoded before the error with that error.
With eight other bytes in the place of the trailer it returns `data` with
`gzip.ErrChecksum`. A stream of at least ten bytes whose first three bytes are
not the two magic bytes and the method 8 is rejected with `gzip.ErrHeader` and
no bytes. The empty slice is rejected with `io.EOF`, and `io.EOF` is returned
for no other input, so the rejection of a non-empty stream differs from the
result for the empty slice. `Parse` returns no content and the error when
`Gunzip` fails on the compressed JSON. -/
theorem Gunzip_rejection (hdr body data : Bytes)
    (hhdr : gzip.readHeader hdr = .ok [])
    (hbody : flate.inflate body = (data, .ok [])) :
    (∀ compressed, v1alpha1.Gunzip compressed = v1beta1.Gunzip compressed) ∧
    v1beta1.Gunzip (hdr ++ body ++ gzip.trailer data) = (some data, none) ∧
    (∀ k, k < (hdr ++ body ++ gzip.trailer data).length →
      ∃ b err, v1beta1.Gunzip ((hdr ++ body ++ gzip.trailer data).take k) = (b, some err) ∧
        (b = none ↔ k < hdr.length) ∧ (err = .EOF ↔ k = 0) ∧
        (hdr.length + body.length ≤ k → b = some data ∧ err = .ErrUnexpectedEOF)) ∧
    (∀ (r d : Bytes) (err : flate.Error), flate.inflate r = (d, .error err) →
      v1beta1.Gunzip (hdr ++ r) = (some d, some err)) ∧
    (∀ t : Bytes, t.length = 8 → t ≠ gzip.trailer data →
      v1beta1.Gunzip (hdr ++ body ++ t) = (some data, some .ErrChecksum)) ∧
    (∀ (id1 id2 cm : UInt8) (r : Bytes), id1 ≠ 0x1f ∨ id2 ≠ 0x8b ∨ cm ≠ 8 → 7 ≤ r.length →
      v1beta1.Gunzip (id1 :: id2 :: cm :: r) = (none, some .ErrHeader)) ∧
    v1beta1.Gunzip [] = (none, some .EOF) ∧
    (∀ compressed, (v1beta1.Gunzip compressed).2 = some .EOF ↔ compressed = []) ∧
    (∀ (unmarshal : Bytes → Option (List (String × json.Value)) × Option String)
        (d : v1alpha1.GrafanaDashboard) (optional : String) (compressed : Bytes)
        (err : flate.Error),
      d.Spec.GzipJson = some compressed → (v1alpha1.Gunzip compressed).2 = some err →
      d.Parse unmarshal optional = (none, some (.Gunzip err))) := by
  obtain ⟨hcuthdr, hcutbody, hcuttrailer, hchecksum, hwhole⟩ :=
    Gunzip_one_member hdr body data hhdr hbody
  have hhdrlen : 0 < hdr.length := by
    cases hdr with
    | nil => simp [gzip.readHeader] at hhdr
    | cons _ _ => simp
  have hread : ∀ x : Bytes, gzip.NewReader (hdr ++ x) = .ok { r := x } := by
    intro x
    have := gzip.readHeader_append hdr [] x hhdr
    simp [gzip.NewReader, this]
  refine ⟨fun _ => rfl, hwhole, ?_, ?_, hchecksum, ?_, rfl, Gunzip_EOF_iff, ?_⟩
  · intro k hk
    have heof : ∀ (b : Option Bytes) (err : flate.Error),
        v1beta1.Gunzip ((hdr ++ body ++ gzip.trailer data).take k) = (b, some err) →
        (err = .EOF ↔ k = 0) := by
      intro b err hg
      have hiff := Gunzip_EOF_iff ((hdr ++ body ++ gzip.trailer data).take k)
      rw [hg] at hiff
      simp only [Option.some.injEq] at hiff
      rw [hiff]
      constructor
      · intro h0
        have hl := congrArg List.length h0
        simp only [List.length_take, List.length_nil] at hl
        omega
      · intro h0
        subst h0
        rfl
    simp only [List.length_append] at hk
    have htr : (gzip.trailer data).length = 8 := rfl
    by_cases hk1 : k < hdr.length
    · obtain ⟨err, he⟩ := hcuthdr k hk1
      have htake : (hdr ++ body ++ gzip.trailer data).take k = hdr.take k := by
        rw [List.append_assoc, List.take_append_of_le_length (Nat.le_of_lt hk1)]
      rw [← htake] at he
      exact ⟨none, err, he, by simp [hk1], heof _ _ he, fun h => by omega⟩
    · by_cases hk2 : k < hdr.length + body.length
      · obtain ⟨d, err, hne, he⟩ := hcutbody (k - hdr.length) (by omega)
        have htake : (hdr ++ body ++ gzip.trailer data).take k =
            hdr ++ body.take (k - hdr.length) := by
          rw [List.append_assoc, List.take_append_eq_append_take,
            List.take_of_length_le (by omega),
            List.take_append_of_le_length (by omega)]
        rw [← htake] at he
        exact ⟨some d, err, he, by simp [hk1], heof _ _ he, fun h => by omega⟩
      · have he := hcuttrailer ((gzip.trailer data).take (k - (hdr.length + body.length)))
          (by rw [List.length_take]; omega)
        have htake : (hdr ++ body ++ gzip.trailer data).take k =
            hdr ++ body ++ (gzip.trailer data).take (k - (hdr.length + body.length)) := by
          rw [List.take_append_eq_append_take, List.take_of_length_le (by simp; omega),
            List.length_append]
        rw [← htake] at he
        exact ⟨some data, .ErrUnexpectedEOF, he, by simp [hk1], heof _ _ he,
          fun _ => ⟨rfl, rfl⟩⟩
  · intro r d err hinf
    have hne : err ≠ .EOF := by
      intro he
      have := flate.inflate_ne r
      rw [hinf, he] at this
      exact this rfl
    simp [v1beta1.Gunzip, hread, io.ReadAll, gzip_readMembers_cut _ _ _ _ _ hinf, hne]
  · intro id1 id2 cm r hbad hlen
    match r, hlen with
    | _ :: _ :: _ :: _ :: _ :: _ :: _ :: r, _ =>
      simp [v1beta1.Gunzip, gzip.NewReader, gzip.readHeader, hbad]
  · intro unmarshal d optional compressed err hgz herr
    unfold v1alpha1.GrafanaDashboard.Parse
    rw [hgz]
    cases hg : v1alpha1.Gunzip compressed with
    | mk b e =>
      rw [hg] at herr
      simp only at herr
      subst herr
      simp only [hg]

/-- The compressed data of the sample stream decode to the JSON of the
sample. -/
theorem sample_uidDeflate_inflate :
    flate.inflate sample.uidDeflate = (sample.uidJson, .ok []) := by
  set_option maxRecDepth 1000000 in decide

/-- Witness of C27: the stream of a small JSON object with the header of the
writer. Every proper prefix of its 31 bytes is rejected, a cut inside the
trailer returns the whole JSON with the error, and `Parse` of a dashboard with
a truncated stream returns no content. -/
theorem Gunzip_rejection_witness :
    gzip.readHeader gzip.header = .ok [] ∧
    flate.inflate sample.uidDeflate = (sample.uidJson, .ok []) ∧
    v1beta1.Gunzip (gzip.header ++ sample.uidDeflate ++ gzip.trailer sample.uidJson) =
      (some sample.uidJson, none) ∧
    (∀ k, k < (gzip.header ++ sample.uidDeflate ++ gzip.trailer sample.uidJson).length →
      ∃ b err,
        v1beta1.Gunzip
            ((gzip.header ++ sample.uidDeflate ++ gzip.trailer sample.uidJson).take k) =
          (b, some err) ∧
        (b = none ↔ k < gzip.header.length) ∧ (err = .EOF ↔ k = 0) ∧
        (gzip.header.length + sample.uidDeflate.length ≤ k →
          b = some sample.uidJson ∧ err = .ErrUnexpectedEOF)) ∧
    v1alpha1.GrafanaDashboard.Parse sample.unmarshalObject sample.truncatedDashboard "" =
      (none, some (.Gunzip .ErrUnexpectedEOF)) :=
  ⟨rfl, sample_uidDeflate_inflate,
    (Gunzip_rejection gzip.header sample.uidDeflate sample.uidJson rfl
      sample_uidDeflate_inflate).2.1,
    (Gunzip_rejection gzip.header sample.uidDeflate sample.uidJson rfl
      sample_uidDeflate_inflate).2.2.1,
    (Gunzip_rejection gzip.header sample.uidDeflate sample.uidJson rfl
      sample_uidDeflate_inflate).2.2.2.2.2.2.2.2 sample.unmarshalObject
      sample.truncatedDashboard "" (sample.hiStream.take 21) .ErrUnexpectedEOF rfl (by decide)⟩

/-- The digits of `fmt.hex` are lowercase hexadecimal digits. -/
theorem strconv_lowerhex_mem (n : Nat) : strconv.lowerhex n ∈ "0123456789abcdef".data := by
  have h : n % 16 < 16 := Nat.mod_lt _ (by decide)
  unfold strconv.lowerhex
  generalize n % 16 = k at h
  interval_cases k <;> decide

/-- The text of `fmt.hex` has two lowercase hexadecimal digits per byte. -/
theorem fmt_hex_spec (b : Bytes) :
    (fmt.hex b).length = 2 * b.length ∧ ∀ c ∈ (fmt.hex b).data, c ∈ "0123456789abcdef".data := by
  unfold fmt.hex
  constructor
  · induction b with
    | nil => rfl
    | cons x xs ih =>
      simp only [String.length, List.flatMap_cons, List.length_append, List.length_cons,
        List.length_nil] at ih ⊢
      omega
  · intro c hc
    simp only [List.mem_flatMap, List.mem_cons, List.mem_singleton, List.not_mem_nil,
      or_false] at hc
    obtain ⟨x, _, hx | hx⟩ := hc <;> subst hx <;> exact strconv_lowerhex_mem _

/-- A round of SHA-256 keeps the number of working variables. -/
theorem sha256_round_length (v : List Nat) (kw : Nat × Nat) :
    (sha256.round v kw).length = v.length := by
  unfold sha256.round
  split <;> rfl

/-- The compression function of SHA-256 keeps a hash value of eight words. -/
theorem sha256_block_length (hv m : List Nat) (h : hv.length = 8) :
    (sha256.block hv m).length = 8 := by
  have hfold : ∀ (l : List (Nat × Nat)) (v : List Nat),
      (l.foldl sha256.round v).length = v.length := by
    intro l
    induction l with
    | nil => intro v; rfl
    | cons x xs ih => intro v; rw [List.foldl_cons, ih, sha256_round_length]
  simp [sha256.block, hfold, h]

/-- The digest of SHA-256 has 32 bytes. -/
theorem sha256_Sum256_length (data : Bytes) : (sha256.Sum256 data).length = 32 := by
  have hfold : ∀ (l : List (List Nat)) (hv : List Nat), hv.length = 8 →
      (l.foldl sha256.block hv).length = 8 := by
    intro l
    induction l with
    | nil => intro hv h; exact h
    | cons x xs ih => intro hv h; exact ih _ (sha256_block_length hv x h)
  have hbytes : ∀ (l : List Nat), (l.flatMap crypto.wordBytes).length = 4 * l.length := by
    intro l
    induction l with
    | nil => rfl
    | cons x xs ih =>
      simp only [List.flatMap_cons, List.length_append, ih, crypto.wordBytes, List.length_cons,
        List.length_nil]
      omega
  unfold sha256.Sum256
  rw [hbytes, hfold _ sha256.init rfl]

/-- A round of SHA-1 keeps the number of working variables. -/
theorem sha1_round_length (v : List Nat) (tw : Nat × Nat) :
    (sha1.round v tw).length = v.length := by
  unfold sha1.round
  split <;> rfl

/-- The digest of SHA-1 has 20 bytes. -/
theorem sha1_Sum_length (data : Bytes) : (sha1.Sum data).length = 20 := by
  have hround : ∀ (l : List (Nat × Nat)) (v : List Nat),
      (l.foldl sha1.round v).length = v.length := by
    intro l
    induction l with
    | nil => intro v; rfl
    | cons x xs ih => intro v; rw [List.foldl_cons, ih, sha1_round_length]
  have hblock : ∀ (hv m : List Nat), hv.length = 5 → (sha1.block hv m).length = 5 := by
    intro hv m h
    simp [sha1.block, hround, h]
  have hfold : ∀ (l : List (List Nat)) (hv : List Nat), hv.length = 5 →
      (l.foldl sha1.block hv).length = 5 := by
    intro l
    induction l with
    | nil => intro hv h; exact h
    | cons x xs ih => intro hv h; exact ih _ (hblock hv x h)
  have hbytes : ∀ (l : List Nat), (l.flatMap crypto.wordBytes).length = 4 * l.length := by
    intro l
    induction l with
    | nil => rfl
    | cons x xs ih =>
      simp only [List.flatMap_cons, List.length_append, ih, crypto.wordBytes, List.length_cons,
        List.length_nil]
      omega
  unfold sha1.Sum
  rw [hbytes, hfold _ sha1.init rfl]

/-- A loop of writes to the running hash appends what it writes. -/
theorem foldl_write {α : Type} (f : α → Bytes) (l : List α) (hash : Bytes) :
    l.foldl (fun hash x => hash ++ f x) hash = hash ++ l.flatMap f := by
  induction l generalizing hash with
  | nil => simp
  | cons x xs ih => simp [ih]

/-- The bytes that `Hash` digests are the concatenation of the hashed fields. -/
theorem Hash_eq (d : v1alpha1.GrafanaDashboard) :
    d.Hash = fmt.hex (sha256.Sum256 d.hashedFields) := by
  have hloop := foldl_write (fun input : v1alpha1.GrafanaDashboardDatasource =>
    Bytes.ofString input.DatasourceName ++ Bytes.ofString input.InputName) d.Spec.Datasources []
  simp only [List.nil_append] at hloop
  unfold v1alpha1.GrafanaDashboard.Hash v1alpha1.GrafanaDashboard.hashedFields
  simp only [List.append_assoc, hloop]
  cases d.Spec.ConfigMapRef <;> cases d.Spec.GzipConfigMapRef <;>
    cases d.Spec.GrafanaCom <;> cases d.Status.ContentCache <;>
    simp only [List.append_assoc, List.append_nil, List.nil_append, Option.getD_none,
      Option.getD_some] <;>
    (try cases (‹v1alpha1.GrafanaDashboardGrafanaComSource›).Revision) <;>
    simp only [List.append_assoc, List.append_nil, List.nil_append]

/-- C28 (counterexample). Two legacy dashboards that agree on every field
named in the claim (datasource bindings, JSON, compressed JSON, URL, Jsonnet,
namespace, folder name, config map reference, grafana.com source, cached
content) and differ in the reference to a compressed config map entry have
different hashes. -/
theorem Hash_covers_gzip_config_map_ref :
    sample.richDashboard.Hash =
      "b6de50dcf3daf6b329f0008c03ce33e975649a2c3759d4693fd49d164a870335" ∧
    sample.richDashboardGzipRef.Hash =
      "2befa101cd64a38ec5b35611d2e1baf493520bcbf6e1765b8335534c9aa0905b" ∧
    sample.richDashboardGzipRef.Spec.Datasources = sample.richDashboard.Spec.Datasources ∧
    sample.richDashboardGzipRef.Spec.Json = sample.richDashboard.Spec.Json ∧
    sample.richDashboardGzipRef.Spec.GzipJson = sample.richDashboard.Spec.GzipJson ∧
    sample.richDashboardGzipRef.Spec.Url = sample.richDashboard.Spec.Url ∧
    sample.richDashboardGzipRef.Spec.Jsonnet = sample.richDashboard.Spec.Jsonnet ∧
    sample.richDashboardGzipRef.ObjectMeta.Namespace =
      sample.richDashboard.ObjectMeta.Namespace ∧
    sample.richDashboardGzipRef.Spec.CustomFolderName =
      sample.richDashboard.Spec.CustomFolderName ∧
    sample.richDashboardGzipRef.Spec.ConfigMapRef = sample.richDashboard.Spec.ConfigMapRef ∧
    sample.richDashboardGzipRef.Spec.GrafanaCom = sample.richDashboard.Spec.GrafanaCom ∧
    sample.richDashboardGzipRef.Status.ContentCache =
      sample.richDashboard.Status.ContentCache := by
  set_option maxRecDepth 100000 in decide

/-- C28 (amended). `Hash` is the SHA-256 digest, as 64 lowercase hexadecimal
digits, of the concatenation `hashedFields`: the datasource name and the input
name of every binding, the JSON, the compressed JSON, the URL, the Jsonnet, the
namespace, the folder name, the name and key of the config map reference, the
name and key of the compressed config map reference, the grafana.com id and
revision in decimal, and the cached content. Two dashboards that agree on these
fields have the same hash, whatever their other fields are. -/
theorem Hash_spec (d : v1alpha1.GrafanaDashboard) :
    d.Hash = fmt.hex (sha256.Sum256 d.hashedFields) ∧
    d.Hash.length = 64 ∧
    (∀ c ∈ d.Hash.data, c ∈ "0123456789abcdef".data) ∧
    ∀ d' : v1alpha1.GrafanaDashboard,
      d'.Spec.Datasources = d.Spec.Datasources → d'.Spec.Json = d.Spec.Json →
      d'.Spec.GzipJson = d.Spec.GzipJson → d'.Spec.Url = d.Spec.Url →
      d'.Spec.Jsonnet = d.Spec.Jsonnet → d'.ObjectMeta.Namespace = d.ObjectMeta.Namespace →
      d'.Spec.CustomFolderName = d.Spec.CustomFolderName →
      d'.Spec.ConfigMapRef.map (fun ref => (ref.Name, ref.Key)) =
        d.Spec.ConfigMapRef.map (fun ref => (ref.Name, ref.Key)) →
      d'.Spec.GzipConfigMapRef.map (fun ref => (ref.Name, ref.Key)) =
        d.Spec.GzipConfigMapRef.map (fun ref => (ref.Name, ref.Key)) →
      d'.Spec.GrafanaCom = d.Spec.GrafanaCom →
      d'.Status.ContentCache = d.Status.ContentCache →
      d'.Hash = d.Hash := by
  refine ⟨Hash_eq d, ?_, ?_, ?_⟩
  · rw [Hash_eq, (fmt_hex_spec _).1, sha256_Sum256_length]
  · rw [Hash_eq]
    exact (fmt_hex_spec _).2
  · intro d' h1 h2 h3 h4 h5 h6 h7 h8 h9 h10 h11
    rw [Hash_eq, Hash_eq]
    congr 2
    unfold v1alpha1.GrafanaDashboard.hashedFields
    rw [h1, h2, h3, h4, h5, h6, h7, h10, h11]
    revert h8 h9
    cases d'.Spec.ConfigMapRef <;> cases d.Spec.ConfigMapRef <;>
      cases d'.Spec.GzipConfigMapRef <;> cases d.Spec.GzipConfigMapRef <;>
      simp only [Option.map_none', Option.map_some', Option.some.injEq, Prod.mk.injEq,
        reduceCtorEq, imp_false, not_true_eq_false, false_imp_iff, implies_true, and_imp] <;>
      intros <;> simp_all

/-- Witness of C28: the dashboard `ns1/d2` and a dashboard with another name,
other labels, annotations, plugins, cache duration and status fields. -/
theorem Hash_spec_witness :
    sample.richDashboardRenamed.Hash = sample.richDashboard.Hash ∧
    sample.richDashboardRenamed.ObjectMeta.Name ≠ sample.richDashboard.ObjectMeta.Name ∧
    sample.richDashboardRenamed.Spec.Plugins ≠ sample.richDashboard.Spec.Plugins ∧
    sample.richDashboard.Hash.length = 64 :=
  ⟨(Hash_spec sample.richDashboard).2.2.2 sample.richDashboardRenamed rfl rfl rfl rfl rfl rfl rfl
      rfl rfl rfl rfl,
    by decide, by decide, (Hash_spec sample.richDashboard).2.1⟩

/-- C29 (counterexample). For a dashboard whose JSON parses and declares the
numeric identifier `5`, `UID` returns the empty string. -/
theorem UID_empty_for_numeric_uid :
    (sample.numericUidDashboard.Parse sample.unmarshalObject "").2 = none ∧
    sample.numericUidDashboard.UID sample.unmarshalObject = "" := by
  decide

/-- C29 (amended). With the fallback identifier being the 40 lowercase
hexadecimal digits of the SHA-1 digest of the namespace followed by the name:
when the content parses and its `uid` is a non-empty string, `UID` returns
that string; when the content parses and its `uid` is missing, null or the
empty string, `UID` returns the fallback; when the content parses and its `uid`
is a value that is not a string (a number, a boolean, an array, an object),
`UID` returns the empty string; and when `Parse` fails (rejected gzip stream or
invalid JSON) or returns the nil map (for the JSON literal `null`), `UID`
returns the fallback. Two dashboards with the same JSON,
compressed JSON, namespace and name have the same identifier. -/
theorem UID_spec (unmarshal : Bytes → Option (List (String × json.Value)) × Option String)
    (d : v1alpha1.GrafanaDashboard) :
    (fmt.hex (sha1.Sum (Bytes.ofString (d.ObjectMeta.Namespace ++ d.ObjectMeta.Name)))).length =
      40 ∧
    (∀ c ∈ (fmt.hex
        (sha1.Sum (Bytes.ofString (d.ObjectMeta.Namespace ++ d.ObjectMeta.Name)))).data,
      c ∈ "0123456789abcdef".data) ∧
    (∀ content uid, d.Parse unmarshal "" = (some content, none) →
      content.lookup "uid" = some (.string uid) → uid ≠ "" → d.UID unmarshal = uid) ∧
    (∀ content, d.Parse unmarshal "" = (some content, none) →
      (content.lookup "uid" = none ∨ content.lookup "uid" = some .null ∨
        content.lookup "uid" = some (.string "")) →
      d.UID unmarshal =
        fmt.hex (sha1.Sum (Bytes.ofString (d.ObjectMeta.Namespace ++ d.ObjectMeta.Name)))) ∧
    (∀ content uid, d.Parse unmarshal "" = (some content, none) →
      content.lookup "uid" = some uid → uid.isNil = false → (∀ s, uid ≠ .string s) →
      d.UID unmarshal = "") ∧
    (∀ content err, d.Parse unmarshal "" = (content, some err) →
      d.UID unmarshal =
        fmt.hex (sha1.Sum (Bytes.ofString (d.ObjectMeta.Namespace ++ d.ObjectMeta.Name)))) ∧
    (d.Parse unmarshal "" = (none, none) →
      d.UID unmarshal =
        fmt.hex (sha1.Sum (Bytes.ofString (d.ObjectMeta.Namespace ++ d.ObjectMeta.Name)))) ∧
    (∀ d' : v1alpha1.GrafanaDashboard,
      d'.Spec.Json = d.Spec.Json → d'.Spec.GzipJson = d.Spec.GzipJson →
      d'.ObjectMeta.Namespace = d.ObjectMeta.Namespace →
      d'.ObjectMeta.Name = d.ObjectMeta.Name → d'.UID unmarshal = d.UID unmarshal) := by
  refine ⟨?_, (fmt_hex_spec _).2, ?_, ?_, ?_, ?_, ?_, ?_⟩
  · rw [(fmt_hex_spec _).1, sha1_Sum_length]
  · intro content uid hparse huid hne
    simp [v1alpha1.GrafanaDashboard.UID, hparse, huid, json.Value.isNil, json.Value.eqString, hne]
  · intro content hparse huid
    rcases huid with h | h | h <;>
      simp [v1alpha1.GrafanaDashboard.UID, hparse, h, json.Value.isNil, json.Value.eqString]
  · intro content uid hparse huid hnil hstr
    cases uid with
    | string s => exact absurd rfl (hstr s)
    | null => simp [json.Value.isNil] at hnil
    | bool b =>
      simp [v1alpha1.GrafanaDashboard.UID, hparse, huid, json.Value.isNil, json.Value.eqString]
    | number f =>
      simp [v1alpha1.GrafanaDashboard.UID, hparse, huid, json.Value.isNil, json.Value.eqString]
    | array a =>
      simp [v1alpha1.GrafanaDashboard.UID, hparse, huid, json.Value.isNil, json.Value.eqString]
    | object o =>
      simp [v1alpha1.GrafanaDashboard.UID, hparse, huid, json.Value.isNil, json.Value.eqString]
  · intro content err hparse
    simp [v1alpha1.GrafanaDashboard.UID, hparse]
  · intro hparse
    simp [v1alpha1.GrafanaDashboard.UID, hparse, json.Value.isNil]
  · intro d' hjson hgzip hns hname
    simp only [v1alpha1.GrafanaDashboard.UID, v1alpha1.GrafanaDashboard.Parse, hjson, hgzip, hns,
      hname]

/-- Witness of C29: a declared identifier, an empty declared identifier and a
truncated compressed content. -/
theorem UID_spec_witness :
    sample.dashboardChanged.UID sample.unmarshalObject = "x" ∧
    sample.dashboard.UID sample.unmarshalObject = "1628ba4ccd9d5eeab3b6d5266f34bf6cd259f892" ∧
    sample.truncatedDashboard.UID sample.unmarshalObject =
      "eb257797d39d73e65139551dbd08a29222d3d776" :=
  ⟨(UID_spec sample.unmarshalObject sample.dashboardChanged).2.2.1 [("uid", .string "x")] "x"
      rfl rfl (by decide),
    by set_option maxRecDepth 100000 in decide,
    by set_option maxRecDepth 100000 in decide⟩

end v1alpha1

/-! ## Properties of the target names of datasource entries -/

namespace controllers

section targetNames

variable {J S : Type}

/-- Two strings with a common beginning are equal iff they end alike. -/
theorem String_append_right_inj (p a b : String) : p ++ a = p ++ b ↔ a = b := by
  constructor
  · intro h
    have hdata := congrArg String.data h
    simp only [String.data_append] at hdata
    exact String.ext (List.append_cancel_left hdata)
  · intro h
    rw [h]

/-- C31 (counterexample). The legacy datasource object `monitoring/sources`
with the two entries "Loki Logs" and "loki_logs", whose names differ, converts
without error to two targets of the same name `monitoring-loki-logs`. On an
Add event against an empty store the create handler creates the target of the
first entry, gets AlreadyExists for the target of the second entry, falls back
to the update path and overwrites the stored object with the spec of the second
entry: the store ends with one object, which carries the identifier `loki-2`. -/
theorem convertGrafanaDatasource_names_collide :
    sample.collidingEntries.Spec.Datasources.map (fun ds => ds.Name) =
      ["Loki Logs", "loki_logs"] ∧
    (convertGrafanaDatasource sample.marshalFlag sample.marshalUnit id sample.conf
        sample.collidingEntries).1.map (Option.map (fun t => t.ObjectMeta.Name)) =
      [some "monitoring-loki-logs", some "monitoring-loki-logs"] ∧
    (convertGrafanaDatasource sample.marshalFlag sample.marshalUnit id sample.conf
        sample.collidingEntries).2 = [] ∧
    (createGrafanaDatasource sample.datasources sample.structEq sample.structEq
        sample.marshalFlag sample.marshalUnit id sample.conf []
        (.alphaDatasource sample.collidingEntries : Payload Bool Unit)).trace.map
        (fun e => (e.isCreate, e.isUpdate)) =
      [(false, false), (true, false), (false, false), (true, false), (false, false),
        (false, true), (false, false)] ∧
    (createGrafanaDatasource sample.datasources sample.structEq sample.structEq
        sample.marshalFlag sample.marshalUnit id sample.conf []
        (.alphaDatasource sample.collidingEntries : Payload Bool Unit)).state.map
        (fun t => (t.ObjectMeta.Name, t.Spec.Datasource.map (fun d => (d.Name, d.UID)))) =
      [("monitoring-loki-logs", some ("loki_logs", "loki-2"))] := by
  decide

/-- C31 (amended). Two converted targets of a legacy datasource object have
different names iff the names of their entries are still different after
lowering and the replacement of every character outside `[a-z0-9.-]` by a
dash: the target name is the namespace, a dash and that sanitised name. -/
theorem convertGrafanaDatasource_names_distinct_iff
    (marshalJsonData : J → Except String Bytes)
    (marshalSecureJsonData : S → Except String Bytes)
    (unicodeToLower : Char → Char) (conf : ConverterConfig)
    (src : v1alpha1.GrafanaDataSource J S) (i j : Nat) (ti tj : v1beta1.GrafanaDatasource)
    (hi : (convertGrafanaDatasource marshalJsonData marshalSecureJsonData unicodeToLower conf
      src).1[i]? = some (some ti))
    (hj : (convertGrafanaDatasource marshalJsonData marshalSecureJsonData unicodeToLower conf
      src).1[j]? = some (some tj)) :
    ∃ di dj, src.Spec.Datasources[i]? = some di ∧ src.Spec.Datasources[j]? = some dj ∧
      (ti.ObjectMeta.Name ≠ tj.ObjectMeta.Name ↔
        sanitize (strings.ToLower unicodeToLower di.Name) ≠
          sanitize (strings.ToLower unicodeToLower dj.Name)) := by
  obtain ⟨di, hdi, hci⟩ := convertGrafanaDatasource_slot marshalJsonData marshalSecureJsonData
    unicodeToLower conf src i ti hi
  obtain ⟨dj, hdj, hcj⟩ := convertGrafanaDatasource_slot marshalJsonData marshalSecureJsonData
    unicodeToLower conf src j tj hj
  refine ⟨di, dj, hdi, hdj, ?_⟩
  rw [(convertDatasourceEntry_ok marshalJsonData marshalSecureJsonData unicodeToLower conf src di
      ti hci).1,
    (convertDatasourceEntry_ok marshalJsonData marshalSecureJsonData unicodeToLower conf src dj
      tj hcj).1]
  exact not_congr (String_append_right_inj _ _ _)

/-- Witness of C31: the first and the third entry of the three-entry sample,
whose sanitised names `loki-logs` and `platform-prometheus` differ. -/
theorem convertGrafanaDatasource_names_distinct_iff_witness :
    sample.lokiTarget.ObjectMeta.Name ≠ sample.prometheusTarget.ObjectMeta.Name ∧
    ∃ di dj, sample.threeEntries.Spec.Datasources[0]? = some di ∧
      sample.threeEntries.Spec.Datasources[2]? = some dj ∧
      (sample.lokiTarget.ObjectMeta.Name ≠ sample.prometheusTarget.ObjectMeta.Name ↔
        sanitize (strings.ToLower id di.Name) ≠ sanitize (strings.ToLower id dj.Name)) :=
  ⟨by decide,
    convertGrafanaDatasource_names_distinct_iff sample.marshalFlag sample.marshalUnit id
      sample.conf sample.threeEntries 0 2 sample.lokiTarget sample.prometheusTarget
      (by decide) (by decide)⟩

end targetNames

end controllers

/-! ## Properties of the fallback of the notification channel handler -/

namespace controllers

/-- C32 (code defect). `updateGrafanaNotificationChannel` called as the create
handler calls it on AlreadyExists (old is nil, new is the converted contact
point `ns1/n1`), when the read of the target answers NotFound: the handler
issues the read and then panics on `notificationChannel.Namespace`, the
variable being nil on this path; it issues no create. The same holds for the
whole create handler against a store that answers AlreadyExists to the create
and NotFound to the read. The dashboard handler on the same path creates the
target in the namespace of the target. -/
theorem updateGrafanaNotificationChannel_fallback_panics_on_not_found :
    (updateGrafanaNotificationChannel sample.contactPoints sample.structEq sample.structEq
        sample.unmarshal sample.marshalSettings sample.conf []
        (.nil : Payload Bool Unit) (.betaContactPoint sample.contactPoint)).trace =
      [.get "ns1" "n1"] ∧
    (updateGrafanaNotificationChannel sample.contactPoints sample.structEq sample.structEq
        sample.unmarshal sample.marshalSettings sample.conf []
        (.nil : Payload Bool Unit) (.betaContactPoint sample.contactPoint)).panicked = true ∧
    (updateGrafanaNotificationChannel sample.contactPoints sample.structEq sample.structEq
        sample.unmarshal sample.marshalSettings sample.conf []
        (.nil : Payload Bool Unit) (.betaContactPoint sample.contactPoint)).state = [] ∧
    (createGrafanaNotificationChannel sample.vanishingContactPoints sample.structEq
        sample.structEq sample.unmarshal sample.marshalSettings sample.conf []
        (.alphaNotificationChannel sample.channel : Payload Bool Unit)).trace =
      [.convert, .create "ns1" sample.contactPoint, .get "ns1" "n1"] ∧
    (createGrafanaNotificationChannel sample.vanishingContactPoints sample.structEq
        sample.structEq sample.unmarshal sample.marshalSettings sample.conf []
        (.alphaNotificationChannel sample.channel : Payload Bool Unit)).panicked = true ∧
    (updateGrafanaDashboard sample.dashboards sample.structEq sample.structEq sample.conf []
        (.nil : Payload Bool Unit) (.betaDashboard sample.dashboardTarget)).trace =
      [.get "ns1" "d1", .create "ns1" sample.dashboardTarget, .log .created] ∧
    (updateGrafanaDashboard sample.dashboards sample.structEq sample.structEq sample.conf []
        (.nil : Payload Bool Unit) (.betaDashboard sample.dashboardTarget)).panicked = false := by
  decide

end controllers

/-! ## Properties of the dashboard conversion and of the content hash -/

namespace v1alpha1

open controllers

/-- C34 (counterexample). Two legacy dashboards that differ only in the field
`GzipConfigMapRef` and have the same hash: the reference `boards`/`d2.gz` and
the same reference flagged optional (`Hash` does not read the flag), and the
references with the name `ab` and the key `c` and with the name `a` and the
key `bc` (`Hash` writes the name and the key without a delimiter). -/
theorem Hash_equal_for_different_gzip_config_map_refs :
    ({ sample.richDashboard with
        Spec := { sample.richDashboard.Spec with
          GzipConfigMapRef := some { Name := "boards", Key := "d2.gz", Optional := some true } } } :
        v1alpha1.GrafanaDashboard) ≠ sample.richDashboardGzipRef ∧
    ({ sample.richDashboard with
        Spec := { sample.richDashboard.Spec with
          GzipConfigMapRef := some { Name := "boards", Key := "d2.gz", Optional := some true } } } :
        v1alpha1.GrafanaDashboard).Hash = sample.richDashboardGzipRef.Hash ∧
    sample.richDashboardGzipRef =
      { sample.richDashboard with
        Spec := { sample.richDashboard.Spec with
          GzipConfigMapRef := some { Name := "boards", Key := "d2.gz" } } } ∧
    ({ sample.richDashboard with
        Spec := { sample.richDashboard.Spec with
          GzipConfigMapRef := some { Name := "ab", Key := "c" } } } :
        v1alpha1.GrafanaDashboard).Hash =
      ({ sample.richDashboard with
        Spec := { sample.richDashboard.Spec with
          GzipConfigMapRef := some { Name := "a", Key := "bc" } } } :
        v1alpha1.GrafanaDashboard).Hash := by
  refine ⟨by decide, ?_, by decide, ?_⟩
  · rw [Hash_eq, Hash_eq]
    rfl
  · rw [Hash_eq, Hash_eq]
    rfl

/-- C34 (amended). The output of `convertGrafanaDashboard` does not depend on
the field `GzipConfigMapRef` of the legacy dashboard: two dashboards that
differ only in that field convert to the same target object, so the reference
is dropped by the conversion. The legacy hashes of two such dashboards need
not differ: the bytes that `Hash` digests are the same iff the name followed
by the key of the one reference is the name followed by the key of the other
(nothing for an absent reference), and then the hashes are equal. The sample
dashboard `ns1/d2` and the same dashboard with the reference `boards`/`d2.gz`
have different hashes and the same target. -/
theorem convertGrafanaDashboard_ignores_gzip_config_map_ref (conf : ConverterConfig)
    (d : v1alpha1.GrafanaDashboard) (ref ref' : Option corev1.ConfigMapKeySelector) :
    convertGrafanaDashboard conf { d with Spec := { d.Spec with GzipConfigMapRef := ref } } =
      convertGrafanaDashboard conf { d with Spec := { d.Spec with GzipConfigMapRef := ref' } } ∧
    (({ d with Spec := { d.Spec with GzipConfigMapRef := ref } } :
          v1alpha1.GrafanaDashboard).hashedFields =
        ({ d with Spec := { d.Spec with GzipConfigMapRef := ref' } } :
          v1alpha1.GrafanaDashboard).hashedFields ↔
      (match ref with
        | some r => Bytes.ofString r.Name ++ Bytes.ofString r.Key
        | none => []) =
      (match ref' with
        | some r => Bytes.ofString r.Name ++ Bytes.ofString r.Key
        | none => [])) ∧
    ((match ref with
        | some r => Bytes.ofString r.Name ++ Bytes.ofString r.Key
        | none => []) =
      (match ref' with
        | some r => Bytes.ofString r.Name ++ Bytes.ofString r.Key
        | none => []) →
      ({ d with Spec := { d.Spec with GzipConfigMapRef := ref } } :
          v1alpha1.GrafanaDashboard).Hash =
        ({ d with Spec := { d.Spec with GzipConfigMapRef := ref' } } :
          v1alpha1.GrafanaDashboard).Hash) ∧
    sample.richDashboardGzipRef.Hash ≠ sample.richDashboard.Hash ∧
    convertGrafanaDashboard sample.conf sample.richDashboardGzipRef =
      convertGrafanaDashboard sample.conf sample.richDashboard := by
  have hiff : (({ d with Spec := { d.Spec with GzipConfigMapRef := ref } } :
          v1alpha1.GrafanaDashboard).hashedFields =
        ({ d with Spec := { d.Spec with GzipConfigMapRef := ref' } } :
          v1alpha1.GrafanaDashboard).hashedFields ↔
      (match ref with
        | some r => Bytes.ofString r.Name ++ Bytes.ofString r.Key
        | none => []) =
      (match ref' with
        | some r => Bytes.ofString r.Name ++ Bytes.ofString r.Key
        | none => [])) := by
    simp only [v1alpha1.GrafanaDashboard.hashedFields, List.append_assoc,
      List.append_cancel_left_eq, List.append_cancel_right_eq]
  refine ⟨rfl, hiff, ?_, ?_, by decide⟩
  · intro h
    rw [Hash_eq, Hash_eq, hiff.2 h]
  · set_option maxRecDepth 100000 in decide

/-- C38. Two legacy dashboards whose hashed fields have the same concatenation
have the same hash, whatever the single fields are: `Hash` digests the fields
one after the other without a delimiter. -/
theorem Hash_depends_on_concatenation (d d' : v1alpha1.GrafanaDashboard)
    (h : d.hashedFields = d'.hashedFields) : d.Hash = d'.Hash := by
  rw [Hash_eq, Hash_eq, h]

/-- Witness of C38: the dashboard with the JSON `ab` and no URL, and the
dashboard with the JSON `a` and the URL `b`. -/
theorem Hash_depends_on_concatenation_witness :
    sample.jsonOnlyDashboard.Spec.Json ≠ sample.jsonAndUrlDashboard.Spec.Json ∧
    sample.jsonOnlyDashboard.Spec.Url ≠ sample.jsonAndUrlDashboard.Spec.Url ∧
    sample.jsonOnlyDashboard.hashedFields = sample.jsonAndUrlDashboard.hashedFields ∧
    sample.jsonOnlyDashboard.Hash = sample.jsonAndUrlDashboard.Hash :=
  ⟨by decide, by decide, by decide,
    Hash_depends_on_concatenation sample.jsonOnlyDashboard sample.jsonAndUrlDashboard
      (by decide)⟩

end v1alpha1

/-! ## Properties of the skip decisions and of the datasource loops -/

namespace controllers

section skips

variable {J S A σD σS σF σN : Type}

/-- C33. The two skip decisions of the handlers read the specs alone, for each
of the four kinds. An Update event whose old and new legacy objects have the
same spec, whatever their labels, annotations and owner references are, ends
on the line "no diffs" with no conversion and no store call, the store state
left as it was. And on the update path, when the spec of the existing target
equals the desired spec, the run is the read and the line "no updates",
whatever the labels, annotations and owner references of the desired object
and of the existing target are: no update is issued. Deep equality is taken to
be reflexive on legacy specs. -/
theorem skip_decisions_look_at_specs_only
    (dashboardClient : Client v1beta1.GrafanaDashboard σD)
    (datasourceClient : Client v1beta1.GrafanaDatasource σS)
    (folderClient : Client v1beta1.GrafanaFolder σF)
    (contactPointClient : Client v1beta1.GrafanaContactPoint σN)
    (deepEqualOldD : v1alpha1.GrafanaDashboardSpec → v1alpha1.GrafanaDashboardSpec → Bool)
    (deepEqualD : v1beta1.GrafanaDashboardSpec → v1beta1.GrafanaDashboardSpec → Bool)
    (deepEqualOldS :
      v1alpha1.GrafanaDataSourceSpec J S → v1alpha1.GrafanaDataSourceSpec J S → Bool)
    (deepEqualS : v1beta1.GrafanaDatasourceSpec → v1beta1.GrafanaDatasourceSpec → Bool)
    (deepEqualOldF : v1alpha1.GrafanaFolderSpec → v1alpha1.GrafanaFolderSpec → Bool)
    (deepEqualF : v1beta1.GrafanaFolderSpec → v1beta1.GrafanaFolderSpec → Bool)
    (deepEqualOldN :
      v1alpha1.GrafanaNotificationChannelSpec → v1alpha1.GrafanaNotificationChannelSpec → Bool)
    (deepEqualN : v1beta1.GrafanaContactPointSpec → v1beta1.GrafanaContactPointSpec → Bool)
    (marshalJsonData : J → Except String Bytes)
    (marshalSecureJsonData : S → Except String Bytes)
    (unicodeToLower : Char → Char) (isPrintWide : Char → Bool)
    (unmarshal : String → Except String (EmbeddedContactPoint A))
    (marshal : Option A → Except String Bytes)
    (conf : ConverterConfig) (stD : σD) (stS : σS) (stF : σF) (stN : σN)
    (oldD newD : v1alpha1.GrafanaDashboard)
    (oldS newS : v1alpha1.GrafanaDataSource J S)
    (oldF newF : v1alpha1.GrafanaFolder)
    (oldN newN : v1alpha1.GrafanaNotificationChannel)
    (hreflD : ∀ s, deepEqualOldD s s = true)
    (hreflS : ∀ s, deepEqualOldS s s = true)
    (hreflF : ∀ s, deepEqualOldF s s = true)
    (hreflN : ∀ s, deepEqualOldN s s = true)
    (hD : oldD.Spec = newD.Spec)
    (hS : oldS.Spec = newS.Spec)
    (hF : oldF.Spec = newF.Spec)
    (hN : oldN.Spec = newN.Spec) :
    updateGrafanaDashboard dashboardClient deepEqualOldD deepEqualD conf stD
        (.alphaDashboard oldD : Payload J S) (.alphaDashboard newD) =
      { trace := [.log .noDiffs], panicked := false, state := stD } ∧
    updateGrafanaDatasource datasourceClient deepEqualOldS deepEqualS marshalJsonData
        marshalSecureJsonData unicodeToLower conf stS
        (.alphaDatasource oldS : Payload J S) (.alphaDatasource newS) =
      { trace := [.log .noDiffs], panicked := false, state := stS } ∧
    updateGrafanaFolder folderClient deepEqualOldF deepEqualF isPrintWide conf stF
        (.alphaFolder oldF : Payload J S) (.alphaFolder newF) =
      { trace := [.log .noDiffs], panicked := false, state := stF } ∧
    updateGrafanaNotificationChannel contactPointClient deepEqualOldN deepEqualN unmarshal
        marshal conf stN
        (.alphaNotificationChannel oldN : Payload J S) (.alphaNotificationChannel newN) =
      { trace := [.log .noDiffs], panicked := false, state := stN } ∧
    (∀ (st1 : σD) (d existing : v1beta1.GrafanaDashboard),
      dashboardClient.Get stD d.ObjectMeta.Namespace d.ObjectMeta.Name =
        ({ result := some existing, err := none }, st1) →
      deepEqualD existing.Spec d.Spec = true →
      updateGrafanaDashboardTarget dashboardClient deepEqualD stD d =
        { trace := [.get d.ObjectMeta.Namespace d.ObjectMeta.Name, .log .noUpdates]
          panicked := false, state := st1 }) ∧
    (∀ (st1 : σS) (d existing : v1beta1.GrafanaDatasource),
      datasourceClient.Get stS d.ObjectMeta.Namespace d.ObjectMeta.Name =
        ({ result := some existing, err := none }, st1) →
      deepEqualS existing.Spec d.Spec = true →
      updateGrafanaDatasourceTarget datasourceClient deepEqualS stS (some d) =
        { trace := [.get d.ObjectMeta.Namespace d.ObjectMeta.Name, .log .noUpdates]
          panicked := false, state := st1 }) ∧
    (∀ (st1 : σF) (d existing : v1beta1.GrafanaFolder),
      folderClient.Get stF d.ObjectMeta.Namespace d.ObjectMeta.Name =
        ({ result := some existing, err := none }, st1) →
      deepEqualF existing.Spec d.Spec = true →
      updateGrafanaFolderTarget folderClient deepEqualF stF d =
        { trace := [.get d.ObjectMeta.Namespace d.ObjectMeta.Name, .log .noUpdates]
          panicked := false, state := st1 }) ∧
    (∀ (st1 : σN) (notificationChannel : Option v1alpha1.GrafanaNotificationChannel)
        (d existing : v1beta1.GrafanaContactPoint),
      contactPointClient.Get stN d.ObjectMeta.Namespace d.ObjectMeta.Name =
        ({ result := some existing, err := none }, st1) →
      deepEqualN existing.Spec d.Spec = true →
      updateGrafanaNotificationChannelTarget contactPointClient deepEqualN stN
          notificationChannel d =
        { trace := [.get d.ObjectMeta.Namespace d.ObjectMeta.Name, .log .noUpdates]
          panicked := false, state := st1 }) := by
  refine ⟨?_, ?_, ?_, ?_, ?_, ?_, ?_, ?_⟩
  · simp [updateGrafanaDashboard, Payload.isNil, hD, hreflD]
  · simp [updateGrafanaDatasource, Payload.isNil, hS, hreflS]
  · simp [updateGrafanaFolder, Payload.isNil, hF, hreflF]
  · simp [updateGrafanaNotificationChannel, Payload.isNil, hN, hreflN]
  · intro st1 d existing hget heq
    exact updateGrafanaDashboardTarget_equal dashboardClient deepEqualD stD st1 d existing hget heq
  · intro st1 d existing hget heq
    exact updateGrafanaDatasourceTarget_equal datasourceClient deepEqualS stS st1 d existing hget
      heq
  · intro st1 d existing hget heq
    exact updateGrafanaFolderTarget_equal folderClient deepEqualF stF st1 d existing hget heq
  · intro st1 notificationChannel d existing hget heq
    exact updateGrafanaNotificationChannelTarget_equal contactPointClient deepEqualN stN st1
      notificationChannel d existing hget heq

/-- Witness of C33: for each kind an Update event whose new object has other
labels or annotations and the same spec, and for the dashboard, the datasource
and the contact point a store whose object has the desired spec and labels or
annotations of its own: the run is the read and the line "no updates". -/
theorem skip_decisions_look_at_specs_only_witness :
    sample.dashboard.ObjectMeta ≠ sample.dashboardRelabelled.ObjectMeta ∧
    updateGrafanaDashboard sample.dashboards sample.structEq sample.structEq sample.conf
        [sample.storedDashboardCurrent]
        (.alphaDashboard sample.dashboard : Payload Bool Unit)
        (.alphaDashboard sample.dashboardRelabelled) =
      { trace := [.log .noDiffs], panicked := false, state := [sample.storedDashboardCurrent] } ∧
    sample.storedDashboardCurrent.ObjectMeta.Labels ≠ sample.dashboardTarget.ObjectMeta.Labels ∧
    updateGrafanaDashboardTarget sample.dashboards sample.structEq
        [sample.storedDashboardCurrent] sample.dashboardTarget =
      { trace := [.get "ns1" "d1", .log .noUpdates], panicked := false,
        state := [sample.storedDashboardCurrent] } ∧
    sample.storedLokiCurrent.ObjectMeta.Labels ≠ sample.lokiTarget.ObjectMeta.Labels ∧
    updateGrafanaDatasourceTarget sample.datasources sample.structEq
        [sample.storedLokiCurrent] (some sample.lokiTarget) =
      { trace := [.get "monitoring" "monitoring-loki-logs", .log .noUpdates], panicked := false,
        state := [sample.storedLokiCurrent] } ∧
    updateGrafanaNotificationChannelTarget sample.contactPoints sample.structEq
        [sample.storedContactPointCurrent] (some sample.channelAnnotated)
        { sample.contactPoint with
          ObjectMeta := { sample.contactPoint.ObjectMeta with
            Annotations := some [("owner", "ops")] } } =
      { trace := [.get "ns1" "n1", .log .noUpdates], panicked := false,
        state := [sample.storedContactPointCurrent] } :=
  have h := skip_decisions_look_at_specs_only sample.dashboards sample.datasources
    sample.folders sample.contactPoints sample.structEq sample.structEq sample.structEq
    sample.structEq sample.structEq sample.structEq sample.structEq sample.structEq
    sample.marshalFlag sample.marshalUnit id (fun _ => true) sample.unmarshal
    sample.marshalSettings sample.conf [sample.storedDashboardCurrent]
    [sample.storedLokiCurrent] [] [sample.storedContactPointCurrent]
    sample.dashboard sample.dashboardRelabelled sample.lokiOnly sample.lokiOnlyRelabelled
    sample.folder sample.folderRelabelled sample.channel sample.channelAnnotated
    (by simp [sample.structEq]) (by simp [sample.structEq]) (by simp [sample.structEq])
    (by simp [sample.structEq]) (by decide) (by decide) (by decide) (by decide)
  ⟨by decide, h.1, by decide,
    h.2.2.2.2.1 [sample.storedDashboardCurrent] sample.dashboardTarget
      sample.storedDashboardCurrent (by decide) (by decide),
    by decide,
    h.2.2.2.2.2.1 [sample.storedLokiCurrent] sample.lokiTarget sample.storedLokiCurrent
      (by decide) (by decide),
    h.2.2.2.2.2.2.2 [sample.storedContactPointCurrent] (some sample.channelAnnotated)
      { sample.contactPoint with
        ObjectMeta := { sample.contactPoint.ObjectMeta with
          Annotations := some [("owner", "ops")] } }
      sample.storedContactPointCurrent (by decide) (by decide)⟩

/-- A turn of a `range` loop whose body does not panic is followed by the turns
for the rest of the list, from the state the body left. -/
theorem forEachTarget_cons {T Obj σ : Type} (step : σ → T → Run Obj σ) (st : σ) (t : T)
    (rest : List T) (h : (step st t).panicked = false) :
    forEachTarget step st (t :: rest) =
      (forEachTarget step (step st t).state rest).after (step st t).trace := by
  simp [forEachTarget, h]

/-- The body of the loop of the datasource update handler never panics on a run
that logs a store error ("cannot get", "cannot update"): the error is logged
and the loop goes on with the next element. -/
theorem updateGrafanaDatasourceTarget_logs_store_errors
    (client : Client v1beta1.GrafanaDatasource σS)
    (deepEqual : v1beta1.GrafanaDatasourceSpec → v1beta1.GrafanaDatasourceSpec → Bool)
    (st : σS) (ds : Option v1beta1.GrafanaDatasource)
    (h : Event.log .cannotGet ∈ (updateGrafanaDatasourceTarget client deepEqual st ds).trace ∨
      Event.log .cannotUpdate ∈ (updateGrafanaDatasourceTarget client deepEqual st ds).trace) :
    (updateGrafanaDatasourceTarget client deepEqual st ds).panicked = false := by
  revert h
  simp only [updateGrafanaDatasourceTarget]
  repeat' split
  all_goals simp

/-- The body of the loop of the datasource create handler never panics on a run
that logs a store error ("cannot create", or "cannot get" and "cannot update"
in the fallback to the update path). -/
theorem createGrafanaDatasourceTarget_logs_store_errors
    (client : Client v1beta1.GrafanaDatasource σS)
    (deepEqualOld : v1alpha1.GrafanaDataSourceSpec J S → v1alpha1.GrafanaDataSourceSpec J S → Bool)
    (deepEqual : v1beta1.GrafanaDatasourceSpec → v1beta1.GrafanaDatasourceSpec → Bool)
    (marshalJsonData : J → Except String Bytes)
    (marshalSecureJsonData : S → Except String Bytes)
    (unicodeToLower : Char → Char)
    (conf : ConverterConfig) (st : σS) (cr : Option v1beta1.GrafanaDatasource)
    (h : Event.log .cannotCreate ∈ (createGrafanaDatasourceTarget client deepEqualOld deepEqual
          marshalJsonData marshalSecureJsonData unicodeToLower conf st cr).trace ∨
      Event.log .cannotGet ∈ (createGrafanaDatasourceTarget client deepEqualOld deepEqual
          marshalJsonData marshalSecureJsonData unicodeToLower conf st cr).trace ∨
      Event.log .cannotUpdate ∈ (createGrafanaDatasourceTarget client deepEqualOld deepEqual
          marshalJsonData marshalSecureJsonData unicodeToLower conf st cr).trace) :
    (createGrafanaDatasourceTarget client deepEqualOld deepEqual marshalJsonData
      marshalSecureJsonData unicodeToLower conf st cr).panicked = false := by
  revert h
  simp only [createGrafanaDatasourceTarget, updateGrafanaDatasource, forEachTarget,
    updateGrafanaDatasourceTarget, Payload.isNil, Run.after]
  repeat' split
  all_goals simp
/-- C35 (code defect). The three-entry legacy datasource object, whose second
entry does not convert, against a store on which every call fails: the create
handler issues the create for the target of the first entry, logs "cannot
create", and then panics on the nil slot of the second entry (`cr.Namespace`);
the update handler issues the read for the first target, logs "cannot get",
and panics on the same slot (`ds.Namespace`). The target of the third entry,
which is a valid target in the converted list, gets no call of the store. For
the object with the two entries that convert, on the same store, each handler
goes on after the store error: both targets get their call, in list order, and
the run ends without a panic. -/
theorem datasource_handlers_stop_at_nil_slot_after_store_error :
    (convertGrafanaDatasource sample.marshalFlag sample.marshalUnit id sample.conf
        sample.threeEntries).1 = [some sample.lokiTarget, none, some sample.prometheusTarget] ∧
    (createGrafanaDatasource sample.unreachableDatasources sample.structEq sample.structEq
        sample.marshalFlag sample.marshalUnit id sample.conf []
        (.alphaDatasource sample.threeEntries : Payload Bool Unit)).trace =
      [.convert, .log .cannotConvert, .create "monitoring" sample.lokiTarget,
        .log .cannotCreate] ∧
    (createGrafanaDatasource sample.unreachableDatasources sample.structEq sample.structEq
        sample.marshalFlag sample.marshalUnit id sample.conf []
        (.alphaDatasource sample.threeEntries : Payload Bool Unit)).panicked = true ∧
    (updateGrafanaDatasource sample.unreachableDatasources sample.structEq sample.structEq
        sample.marshalFlag sample.marshalUnit id sample.conf []
        (.alphaDatasource sample.lokiOnly : Payload Bool Unit)
        (.alphaDatasource sample.threeEntries)).trace =
      [.convert, .log .cannotConvert, .get "monitoring" "monitoring-loki-logs",
        .log .cannotGet] ∧
    (updateGrafanaDatasource sample.unreachableDatasources sample.structEq sample.structEq
        sample.marshalFlag sample.marshalUnit id sample.conf []
        (.alphaDatasource sample.lokiOnly : Payload Bool Unit)
        (.alphaDatasource sample.threeEntries)).panicked = true ∧
    (convertGrafanaDatasource sample.marshalFlag sample.marshalUnit id sample.conf
        sample.twoEntries).1 = [some sample.lokiTarget, some sample.prometheusTarget] ∧
    (createGrafanaDatasource sample.unreachableDatasources sample.structEq sample.structEq
        sample.marshalFlag sample.marshalUnit id sample.conf []
        (.alphaDatasource sample.twoEntries : Payload Bool Unit)).trace =
      [.convert, .create "monitoring" sample.lokiTarget, .log .cannotCreate,
        .create "monitoring" sample.prometheusTarget, .log .cannotCreate] ∧
    (createGrafanaDatasource sample.unreachableDatasources sample.structEq sample.structEq
        sample.marshalFlag sample.marshalUnit id sample.conf []
        (.alphaDatasource sample.twoEntries : Payload Bool Unit)).panicked = false ∧
    (updateGrafanaDatasource sample.unreachableDatasources sample.structEq sample.structEq
        sample.marshalFlag sample.marshalUnit id sample.conf []
        (.alphaDatasource sample.lokiOnly : Payload Bool Unit)
        (.alphaDatasource sample.twoEntries)).trace =
      [.convert, .get "monitoring" "monitoring-loki-logs", .log .cannotGet,
        .get "monitoring" "monitoring-platform-prometheus", .log .cannotGet] ∧
    (updateGrafanaDatasource sample.unreachableDatasources sample.structEq sample.structEq
        sample.marshalFlag sample.marshalUnit id sample.conf []
        (.alphaDatasource sample.lokiOnly : Payload Bool Unit)
        (.alphaDatasource sample.twoEntries)).panicked = false := by
  decide

end skips

end controllers

/-! ## Properties of the duration parser -/

namespace time

/-- What `leadingInt` leaves is not longer than what it was given. -/
theorem leadingInt_length (s : List Char) (x : Nat) (r : Nat × List Char)
    (h : leadingInt s x = some r) : r.2.length ≤ s.length := by
  induction s generalizing x with
  | nil =>
    simp only [leadingInt, Option.some.injEq] at h
    rw [← h]
  | cons c s ih =>
    simp only [leadingInt] at h
    split at h
    · simp only [Option.some.injEq] at h
      rw [← h]
    · split at h
      · cases h
      · split at h
        · cases h
        · exact Nat.le_succ_of_le (ih _ h)

/-- What `leadingFraction` leaves is not longer than what it was given. -/
theorem leadingFraction_length (s : List Char) (x : Nat) (scale : float64.Value)
    (overflow : Bool) : (leadingFraction s x scale overflow).2.2.length ≤ s.length := by
  induction s generalizing x scale overflow with
  | nil => simp [leadingFraction]
  | cons c s ih =>
    simp only [leadingFraction]
    repeat' split
    all_goals first
      | exact Nat.le_refl _
      | exact Nat.le_succ_of_le (ih _ _ _)

/-- What `fractionPart` leaves is not longer than what it was given. -/
theorem fractionPart_length (s : List Char) : (fractionPart s).2.2.1.length ≤ s.length := by
  cases s with
  | nil => simp [fractionPart]
  | cons c rest =>
    simp only [fractionPart]
    split
    · exact Nat.le_succ_of_le (leadingFraction_length _ _ _ _)
    · exact Nat.le_refl _

/-- A turn of the loop of `ParseDuration` that reads a group leaves a shorter
text: the unit of the group has a character. -/
theorem parseGroup_length (c : Char) (rest : List Char) (r : Nat × List Char)
    (h : parseGroup c rest = .ok r) : r.2.length < (c :: rest).length := by
  simp only [parseGroup] at h
  split at h
  · cases h
  · cases hint : leadingInt (c :: rest) 0 with
    | none => simp [hint] at h
    | some vs =>
      have hs := leadingInt_length _ _ _ hint
      have hf := fractionPart_length vs.2
      have hsplit := List.takeWhile_append_dropWhile (fun c => !(c == '.' || isDigit c))
        (fractionPart vs.2).2.2.1
      have hlen := congrArg List.length hsplit
      rw [List.length_append] at hlen
      simp only [hint] at h
      revert h
      repeat' split
      all_goals intro h
      all_goals first
        | (simp only [Except.ok.injEq] at h
           rw [← h]
           dsimp only
           omega)
        | cases h

/-- The loop of `ParseDuration` gives the same result for every `fuel` above
the length of the text: the bound is never used up. -/
theorem parseGroups_fuel (fuel1 fuel2 : Nat) (s : List Char) (d : Nat)
    (h1 : s.length < fuel1) (h2 : s.length < fuel2) :
    parseGroups fuel1 s d = parseGroups fuel2 s d := by
  induction fuel1 generalizing fuel2 s d with
  | zero => exact absurd h1 (Nat.not_lt_zero _)
  | succ fuel1 ih =>
    cases fuel2 with
    | zero => exact absurd h2 (Nat.not_lt_zero _)
    | succ fuel2 =>
      cases s with
      | nil => rfl
      | cons c rest =>
        simp only [parseGroups]
        cases hg : parseGroup c rest with
        | error err => rfl
        | ok r =>
          have hr := parseGroup_length c rest r hg
          dsimp only
          split
          · rfl
          · exact ih fuel2 r.2 _ (by omega) (by omega)

end time

/-! ## Properties of the resync period and of the variable expansion -/

namespace v1beta1

open controllers

/-- The text `2m` parses to two minutes and the empty text does not parse. -/
theorem ParseDuration_two_minutes :
    time.ParseDuration "2m" = .ok 120000000000 ∧
    time.ParseDuration "" = .error .invalidDuration := by
  decide

/-- The value of `GetResyncPeriod` on a dashboard, for a depth of two calls or
more. -/
theorem GrafanaDashboard_GetResyncPeriod_eq (fuel : Nat) (d : GrafanaDashboard) :
    GrafanaDashboard.GetResyncPeriod (fuel + 2) d =
      match time.ParseDuration d.Spec.ResyncPeriod with
      | .ok duration => some (duration, d)
      | .error _ =>
        some (120000000000, { d with Spec := { d.Spec with ResyncPeriod := "2m" } }) := by
  by_cases hempty : d.Spec.ResyncPeriod = ""
  · simp [GrafanaDashboard.GetResyncPeriod, hempty, DefaultResyncPeriod,
      ParseDuration_two_minutes]
  · cases hparse : time.ParseDuration d.Spec.ResyncPeriod with
    | ok duration => simp [GrafanaDashboard.GetResyncPeriod, hempty, hparse]
    | error err =>
      simp [GrafanaDashboard.GetResyncPeriod, hempty, hparse, DefaultResyncPeriod,
        ParseDuration_two_minutes]

/-- The value of `GetResyncPeriod` on a datasource, for a depth of two calls or
more. -/
theorem GrafanaDatasource_GetResyncPeriod_eq (fuel : Nat) (d : GrafanaDatasource) :
    GrafanaDatasource.GetResyncPeriod (fuel + 2) d =
      match time.ParseDuration d.Spec.ResyncPeriod with
      | .ok duration => some (duration, d)
      | .error _ =>
        some (120000000000, { d with Spec := { d.Spec with ResyncPeriod := "2m" } }) := by
  by_cases hempty : d.Spec.ResyncPeriod = ""
  · simp [GrafanaDatasource.GetResyncPeriod, hempty, DefaultResyncPeriod,
      ParseDuration_two_minutes]
  · cases hparse : time.ParseDuration d.Spec.ResyncPeriod with
    | ok duration => simp [GrafanaDatasource.GetResyncPeriod, hempty, hparse]
    | error err =>
      simp [GrafanaDatasource.GetResyncPeriod, hempty, hparse, DefaultResyncPeriod,
        ParseDuration_two_minutes]

/-- The value of `GetResyncPeriod` on a folder, for a depth of two calls or
more. -/
theorem GrafanaFolder_GetResyncPeriod_eq (fuel : Nat) (d : GrafanaFolder) :
    GrafanaFolder.GetResyncPeriod (fuel + 2) d =
      match time.ParseDuration d.Spec.ResyncPeriod with
      | .ok duration => some (duration, d)
      | .error _ =>
        some (120000000000, { d with Spec := { d.Spec with ResyncPeriod := "2m" } }) := by
  by_cases hempty : d.Spec.ResyncPeriod = ""
  · simp [GrafanaFolder.GetResyncPeriod, hempty, DefaultResyncPeriod,
      ParseDuration_two_minutes]
  · cases hparse : time.ParseDuration d.Spec.ResyncPeriod with
    | ok duration => simp [GrafanaFolder.GetResyncPeriod, hempty, hparse]
    | error err =>
      simp [GrafanaFolder.GetResyncPeriod, hempty, hparse, DefaultResyncPeriod,
        ParseDuration_two_minutes]

/-- One call of `GetResyncPeriod` returns without a nested call iff the resync
period parses. -/
theorem GetResyncPeriod_one_call (d : GrafanaDashboard) (s : GrafanaDatasource)
    (f : GrafanaFolder) :
    (GrafanaDashboard.GetResyncPeriod 1 d = none ↔
      ∃ err, time.ParseDuration d.Spec.ResyncPeriod = .error err) ∧
    (GrafanaDatasource.GetResyncPeriod 1 s = none ↔
      ∃ err, time.ParseDuration s.Spec.ResyncPeriod = .error err) ∧
    (GrafanaFolder.GetResyncPeriod 1 f = none ↔
      ∃ err, time.ParseDuration f.Spec.ResyncPeriod = .error err) := by
  refine ⟨?_, ?_, ?_⟩
  · by_cases hempty : d.Spec.ResyncPeriod = ""
    · simp [GrafanaDashboard.GetResyncPeriod, hempty, ParseDuration_two_minutes]
    · cases hparse : time.ParseDuration d.Spec.ResyncPeriod <;>
        simp [GrafanaDashboard.GetResyncPeriod, hempty, hparse]
  · by_cases hempty : s.Spec.ResyncPeriod = ""
    · simp [GrafanaDatasource.GetResyncPeriod, hempty, ParseDuration_two_minutes]
    · cases hparse : time.ParseDuration s.Spec.ResyncPeriod <;>
        simp [GrafanaDatasource.GetResyncPeriod, hempty, hparse]
  · by_cases hempty : f.Spec.ResyncPeriod = ""
    · simp [GrafanaFolder.GetResyncPeriod, hempty, ParseDuration_two_minutes]
    · cases hparse : time.ParseDuration f.Spec.ResyncPeriod <;>
        simp [GrafanaFolder.GetResyncPeriod, hempty, hparse]

/-- C36. `GetResyncPeriod` of a target dashboard, datasource or folder returns
for every resync period string, within a depth of two calls (the outer call
and at most one nested call): when the string parses as a duration the result
is that duration and the object is left as it was; when the string is empty or
does not parse, the resync period of the object is overwritten with `2m` and
the result is 120000000000 ns, two minutes. The nested call is made exactly
when the string does not parse (the empty string does not). -/
theorem GetResyncPeriod_terminates (fuel : Nat) (d : GrafanaDashboard)
    (s : GrafanaDatasource) (f : GrafanaFolder) :
    (GrafanaDashboard.GetResyncPeriod (fuel + 2) d =
      match time.ParseDuration d.Spec.ResyncPeriod with
      | .ok duration => some (duration, d)
      | .error _ =>
        some (120000000000, { d with Spec := { d.Spec with ResyncPeriod := "2m" } })) ∧
    (GrafanaDatasource.GetResyncPeriod (fuel + 2) s =
      match time.ParseDuration s.Spec.ResyncPeriod with
      | .ok duration => some (duration, s)
      | .error _ =>
        some (120000000000, { s with Spec := { s.Spec with ResyncPeriod := "2m" } })) ∧
    (GrafanaFolder.GetResyncPeriod (fuel + 2) f =
      match time.ParseDuration f.Spec.ResyncPeriod with
      | .ok duration => some (duration, f)
      | .error _ =>
        some (120000000000, { f with Spec := { f.Spec with ResyncPeriod := "2m" } })) ∧
    (GrafanaDashboard.GetResyncPeriod 1 d = none ↔
      ∃ err, time.ParseDuration d.Spec.ResyncPeriod = .error err) ∧
    (GrafanaDatasource.GetResyncPeriod 1 s = none ↔
      ∃ err, time.ParseDuration s.Spec.ResyncPeriod = .error err) ∧
    (GrafanaFolder.GetResyncPeriod 1 f = none ↔
      ∃ err, time.ParseDuration f.Spec.ResyncPeriod = .error err) ∧
    time.ParseDuration "" = .error .invalidDuration ∧
    time.ParseDuration "2m" = .ok 120000000000 ∧
    (120000000000 : Int) = 2 * 60 * 1000000000 :=
  ⟨GrafanaDashboard_GetResyncPeriod_eq fuel d, GrafanaDatasource_GetResyncPeriod_eq fuel s,
    GrafanaFolder_GetResyncPeriod_eq fuel f, (GetResyncPeriod_one_call d s f).1,
    (GetResyncPeriod_one_call d s f).2.1, (GetResyncPeriod_one_call d s f).2.2,
    ParseDuration_two_minutes.2, ParseDuration_two_minutes.1, by decide⟩

/-- Witness of C36: a dashboard with the resync period `90s`, a datasource
with the resync period `soon` and a folder without a resync period. -/
theorem GetResyncPeriod_terminates_witness :
    GrafanaDashboard.GetResyncPeriod 2 { Spec := { ResyncPeriod := "90s" } } =
      some (90000000000, { Spec := { ResyncPeriod := "90s" } }) ∧
    GrafanaDatasource.GetResyncPeriod 2 { Spec := { ResyncPeriod := "soon" } } =
      some (120000000000, { Spec := { ResyncPeriod := "2m" } }) ∧
    GrafanaFolder.GetResyncPeriod 2 sample.unsetFolder =
      some (120000000000,
        { sample.unsetFolder with Spec := { sample.unsetFolder.Spec with ResyncPeriod := "2m" } }) :=
  have h := GetResyncPeriod_terminates 0 { Spec := { ResyncPeriod := "90s" } }
    { Spec := { ResyncPeriod := "soon" } } sample.unsetFolder
  ⟨h.1, h.2.1, h.2.2.1⟩

/-- C37 (code defect). For a target dashboard, a target datasource and a target
folder without a resync period, `GetResyncPeriod` returns 120000000000 ns, two
minutes, and writes `2m` into the object; five minutes, the default that the
comments of the field and its schema default `5m` name, is 300000000000 ns. -/
theorem GetResyncPeriod_unset_is_two_minutes :
    sample.unsetDashboard.Spec.ResyncPeriod = "" ∧
    sample.unsetDatasource.Spec.ResyncPeriod = "" ∧
    sample.unsetFolder.Spec.ResyncPeriod = "" ∧
    (GrafanaDashboard.GetResyncPeriod 2 sample.unsetDashboard).map (fun r => r.1) =
      some 120000000000 ∧
    (GrafanaDatasource.GetResyncPeriod 2 sample.unsetDatasource).map (fun r => r.1) =
      some 120000000000 ∧
    (GrafanaFolder.GetResyncPeriod 2 sample.unsetFolder).map (fun r => r.1) =
      some 120000000000 ∧
    (GrafanaDashboard.GetResyncPeriod 2 sample.unsetDashboard).map
      (fun r => r.2.Spec.ResyncPeriod) = some "2m" ∧
    time.ParseDuration "5m" = .ok 300000000000 ∧
    time.ParseDuration "2m" = .ok 120000000000 ∧
    DefaultResyncPeriod = "2m" := by
  decide

/-- C39 (code defect). For the target datasource whose body marshals to the
text with the URL `$ab`, and the variables `a` with the value `X` and `ab` with
the value `Y`: when the loop visits `a` first the result has the URL `Xb`, when
it visits `ab` first the result has the URL `Y`. The result depends on the
order in which the map is ranged over. The call also fails, with the error of
the marshaller, for a body that is not nil and does not marshal. -/
theorem ExpandVariables_depends_on_order :
    GrafanaDatasource.ExpandVariables sample.marshalUrl sample.variableDatasource
        [("a", Bytes.ofString "X"), ("ab", Bytes.ofString "Y")] =
      (some (Bytes.ofString "\x7b\"url\":\"Xb\"\x7d"), none) ∧
    GrafanaDatasource.ExpandVariables sample.marshalUrl sample.variableDatasource
        [("ab", Bytes.ofString "Y"), ("a", Bytes.ofString "X")] =
      (some (Bytes.ofString "\x7b\"url\":\"Y\"\x7d"), none) ∧
    GrafanaDatasource.ExpandVariables sample.marshalUrl sample.variableDatasource [] =
      (some (Bytes.ofString "\x7b\"url\":\"$ab\"\x7d"), none) ∧
    GrafanaDatasource.ExpandVariables sample.marshalUrl sample.unsetDatasource
        [("a", Bytes.ofString "X")] =
      (none, some "data source is empty, can't expand variables") ∧
    (GrafanaDatasource.ExpandVariables sample.marshalChecked
        { Spec := { Datasource := some { URL := "$ab", JSONData := [120] } } }
        [("a", Bytes.ofString "X")]).1 = none := by
  decide

/-- C40. The default resync period of the converted dashboards, datasources and
folders is the string `DefaultResyncPeriod`, the one of the converted contact
points is the duration `DefaultResyncPeriodDuration`, and the string denotes
that duration: `time.ParseDuration` of `2m` is 120000000000 ns. `GetResyncPeriod`
of a converted dashboard, datasource or folder returns that duration. -/
theorem default_resync_constants_agree {J S A : Type}
    (marshalJsonData : J → Except String Bytes)
    (marshalSecureJsonData : S → Except String Bytes)
    (unicodeToLower : Char → Char) (isPrintWide : Char → Bool)
    (unmarshal : String → Except String (EmbeddedContactPoint A))
    (marshal : Option A → Except String Bytes)
    (conf : ConverterConfig) (dashboard : v1alpha1.GrafanaDashboard)
    (datasource : v1alpha1.GrafanaDataSource J S)
    (entry : v1alpha1.GrafanaDataSourceFields J S)
    (folder : v1alpha1.GrafanaFolder)
    (notificationChannel : v1alpha1.GrafanaNotificationChannel) (fuel : Nat) :
    time.ParseDuration DefaultResyncPeriod = .ok DefaultResyncPeriodDuration ∧
    (convertGrafanaDashboard conf dashboard).Spec.ResyncPeriod = DefaultResyncPeriod ∧
    (convertGrafanaFolder isPrintWide conf folder).Spec.ResyncPeriod = DefaultResyncPeriod ∧
    (∀ t, convertDatasourceEntry marshalJsonData marshalSecureJsonData unicodeToLower conf
        datasource entry = .ok t → t.Spec.ResyncPeriod = DefaultResyncPeriod) ∧
    (∀ cp, convertGrafanaNotificationChannel unmarshal marshal conf notificationChannel =
        .ok cp → cp.Spec.ResyncPeriod = DefaultResyncPeriodDuration) ∧
    (GrafanaDashboard.GetResyncPeriod (fuel + 1) (convertGrafanaDashboard conf dashboard)).map
        (fun r => r.1) = some DefaultResyncPeriodDuration ∧
    (GrafanaFolder.GetResyncPeriod (fuel + 1)
        (convertGrafanaFolder isPrintWide conf folder)).map (fun r => r.1) =
      some DefaultResyncPeriodDuration ∧
    (∀ t, convertDatasourceEntry marshalJsonData marshalSecureJsonData unicodeToLower conf
        datasource entry = .ok t →
      (GrafanaDatasource.GetResyncPeriod (fuel + 1) t).map (fun r => r.1) =
        some DefaultResyncPeriodDuration) := by
  have hentry : ∀ t, convertDatasourceEntry marshalJsonData marshalSecureJsonData
      unicodeToLower conf datasource entry = .ok t →
      t.Spec.ResyncPeriod = DefaultResyncPeriod := by
    intro t ht
    obtain ⟨_, _, _, _, _, _, _, hspec, _⟩ := convertDatasourceEntry_ok_inv marshalJsonData
      marshalSecureJsonData unicodeToLower conf datasource entry t ht
    rw [hspec]
  refine ⟨ParseDuration_two_minutes.1, rfl, rfl, hentry, ?_, ?_, ?_, ?_⟩
  · intro cp hcp
    obtain ⟨_, _, _, _, _, _, ht⟩ := convertGrafanaNotificationChannel_ok_inv unmarshal marshal
      conf notificationChannel cp hcp
    rw [ht]
  · simp [GrafanaDashboard.GetResyncPeriod, convertGrafanaDashboard, DefaultResyncPeriod,
      ParseDuration_two_minutes, DefaultResyncPeriodDuration]
  · simp [GrafanaFolder.GetResyncPeriod, convertGrafanaFolder, DefaultResyncPeriod,
      ParseDuration_two_minutes, DefaultResyncPeriodDuration]
  · intro t ht
    have h := hentry t ht
    simp only [DefaultResyncPeriod] at h
    simp [GrafanaDatasource.GetResyncPeriod, h, ParseDuration_two_minutes,
      DefaultResyncPeriodDuration]

/-- Witness of C40: the conversions of the sample objects. -/
theorem default_resync_constants_agree_witness :
    time.ParseDuration DefaultResyncPeriod = .ok DefaultResyncPeriodDuration ∧
    sample.contactPoint.Spec.ResyncPeriod = DefaultResyncPeriodDuration ∧
    (GrafanaDatasource.GetResyncPeriod 1 sample.lokiTarget).map (fun r => r.1) =
      some sample.contactPoint.Spec.ResyncPeriod :=
  have h := default_resync_constants_agree sample.marshalFlag sample.marshalUnit id
    (fun _ => true) sample.unmarshal sample.marshalSettings sample.conf sample.dashboard
    sample.lokiOnly { Name := "Loki Logs", Uid := "loki-1", JsonData := true, SecureJsonData := () }
    sample.folder sample.channel 0
  ⟨h.1, h.2.2.2.2.1 sample.contactPoint (by decide), h.2.2.2.2.2.2.2 sample.lokiTarget (by decide)⟩

end v1beta1
